import Mathlib

/-!
# wnd-charm `TrainingSet` (branch `eigen_sample_mat`): embedding and properties

The definitions below follow `TrainingSet.cpp`.  Conventions of the embedding:

* the functions of the source are embedded over the rational numbers, with
  exact arithmetic: what is proved of them is proved of the formulas of the
  source, without rounding, overflow or underflow.  Where the source divides by
  a value that can be zero without a guard, the quotient is an `Option`
  (`fdiv`), so a `0/0` stays visible instead of becoming a number;
* where a property depends on the rounding, the same lines are embedded a
  second time over the type `double` (namespace `rounded`), with the values and
  the rounding of IEEE 754 binary64;
* an `Eigen::MatrixXd` is its two dimensions and its coefficient function;
  arrays and vectors indexed by a class or a feature are functions of the index,
  read only below the size the source loops to;
* a function of the source that can hit an Eigen assertion or an index outside a
  vector returns `none` there;
* `INF` is a macro of a header that is not part of these sources, so it is a
  parameter of every function that mentions it;
* a library call whose result the sources do not fix (`pow(x, 1/power)`,
  `random_shuffle`, `gsl_sf_choose`, `check_numeric` on a label) is a parameter
  too, and so is the class `ClassifyImage` arrives at where only the counting
  of the predictions is embedded.
-/

set_option autoImplicit false

/-! ## Constants of `<cfloat>` -/

/-- The constant `DBL_EPSILON` of `<cfloat>`, `2^-52`. -/
def DBL_EPSILON : ℚ := 1 / 2 ^ 52

/-- The constant `DBL_MAX` of `<cfloat>`, `(2^53 - 1) * 2^971`. -/
def DBL_MAX : ℚ := (2 ^ 53 - 1) * 2 ^ 971

/-- IEEE division where the source has no guard on the divisor: a zero divisor
gives no number. -/
def fdiv (x y : ℚ) : Option ℚ := if y = 0 then none else some (x / y)

/-! ## The type `double`

The values and the four operations of IEEE 754 binary64 in the default
rounding mode (to nearest, ties to even), for the lines of the source whose
result depends on the rounding.  The sign of a zero is not kept: a non-zero
number divided by zero is the infinity with the sign of the number. -/

/-- A value of type `double`: a finite number, an infinity or a NaN. -/
inductive double
  | finite (q : ℚ)
  | inf (negative : Bool)
  | nan
deriving DecidableEq

namespace double

/-- The power `2^e` for a whole exponent. -/
def pow2 (e : ℤ) : ℚ := if 0 ≤ e then 2 ^ e.toNat else 1 / 2 ^ (-e).toNat

/-- The whole number nearest to `m`, the even one of the two when `m` lies
halfway. -/
def roundEven (m : ℚ) : ℤ :=
  if m - ⌊m⌋ < 1 / 2 then ⌊m⌋
  else if 1 / 2 < m - ⌊m⌋ then ⌊m⌋ + 1
  else if ⌊m⌋ % 2 = 0 then ⌊m⌋
  else ⌊m⌋ + 1

/-- The number of binary digits of `n`, found in at most `fuel` halvings. -/
def bitLength : ℕ → ℕ → ℕ
  | 0, _ => 0
  | fuel + 1, n => if n = 0 then 0 else bitLength fuel (n / 2) + 1

/-- The exponent `e` of a positive number `x`, with `2^e ≤ x < 2^(e+1)`. -/
def exponent (x : ℚ) : ℤ :=
  let e : ℤ := (bitLength x.num.natAbs x.num.natAbs : ℤ) - (bitLength x.den x.den : ℤ)
  if pow2 e ≤ x then e else e - 1

/-- Rounding to the nearest number of a binary format with `prec` digits and
exponents from `emin` to `emax`, ties to even; subnormal numbers included. -/
def roundTo (prec : ℕ) (emin emax : ℤ) (x : ℚ) : double :=
  if x = 0 then finite 0
  else
    let ulp := pow2 (max (exponent |x|) emin - ((prec : ℤ) - 1))
    let r : ℚ := (roundEven (|x| / ulp) : ℚ) * ulp
    if pow2 (emax + 1) ≤ r then inf (decide (x < 0))
    else finite (if x < 0 then -r else r)

/-- Rounding to `double`: 53 digits, exponents from -1022 to 1023. -/
def nearest (x : ℚ) : double := roundTo 53 (-1022) 1023 x

/-- Rounding to `float`: 24 digits, exponents from -126 to 127. -/
def roundFloat (x : ℚ) : double := roundTo 24 (-126) 127 x

/-- Addition of two `double` values. -/
def add : double → double → double
  | finite a, finite b => nearest (a + b)
  | finite _, inf t => inf t
  | inf s, finite _ => inf s
  | inf s, inf t => if s = t then inf s else nan
  | _, _ => nan

/-- The opposite of a `double` value. -/
def neg : double → double
  | finite a => finite (-a)
  | inf s => inf (!s)
  | nan => nan

/-- Subtraction of two `double` values. -/
def sub (x y : double) : double := add x (neg y)

/-- Multiplication of two `double` values. -/
def mul : double → double → double
  | finite a, finite b => nearest (a * b)
  | finite a, inf t => if a = 0 then nan else inf (xor (decide (a < 0)) t)
  | inf s, finite b => if b = 0 then nan else inf (xor s (decide (b < 0)))
  | inf s, inf t => inf (xor s t)
  | _, _ => nan

/-- Division of two `double` values. -/
def div : double → double → double
  | finite a, finite b =>
    if b = 0 then (if a = 0 then nan else inf (decide (a < 0))) else nearest (a / b)
  | finite _, inf _ => finite 0
  | inf s, finite b => inf (xor s (decide (b < 0)))
  | _, _ => nan

/-- The comparison `x < y` of two `double` values, false when one is a NaN. -/
def lt : double → double → Bool
  | finite a, finite b => decide (a < b)
  | finite _, inf t => !t
  | inf s, finite _ => s
  | inf s, inf t => s && !t
  | _, _ => false

/-- The comparison `x ≤ y` of two `double` values, false when one is a NaN. -/
def le : double → double → Bool
  | finite a, finite b => decide (a ≤ b)
  | finite _, inf t => !t
  | inf s, finite _ => s
  | inf s, inf t => s || !t
  | _, _ => false

end double

/-! ## Data model -/

/-- An `Eigen::MatrixXd`: `rows` features by `cols` samples. -/
structure MatrixXd where
  rows : ℕ
  cols : ℕ
  coeff : ℕ → ℕ → ℚ

/-- The `signatures` object of one sample, as far as `TrainingSet.cpp` reads it:
`data[i].value`, `sample_class`, `sample_value`, `full_path` and `count`, the
number of features of the sample. -/
structure signatures where
  data : ℕ → ℚ
  sample_class : ℕ
  sample_value : ℚ
  full_path : String
  count : ℕ

/-- Modelled from the spec: the macro `UNKNOWN_CLASS_LABEL` is defined in a
header that is not among the sources; the spec reserves class 0 for "unknown",
and `PrintConfusion` prints the row of class 0 as `UNKNOWN`.  What is proved
about the class labels holds for every label of class 0. -/
def UNKNOWN_CLASS_LABEL : String := "UNKNOWN"

/-- Modelled from the spec: the macro `CONTINUOUS_CLASS_INDEX` is defined in
`TrainingSet.h`, which is not among the sources; the spec gives a continuous
dataset exactly one class, under a reserved index, and with `class_num = 1`
the only class index is 1. -/
def CONTINUOUS_CLASS_INDEX : ℕ := 1

/-- The fields of `TrainingSet` used by the functions embedded here.
`raw_features c` and `projected_features c` are read for `c ≤ class_num`,
the per-feature vectors below `signature_count`.

* `samples` holds the entries `samples[0 .. count)` of the vector `samples`, so
  that `count` is its length; `samples_tail` holds the entries of the vector
  from index `count` on, which `RemoveClass` leaves behind;
* a vector indexed by the class is a function of the index together with its
  `size()`: `class_labels_size` for `class_labels`, `class_nsamples` and
  `class_samples`, which grow together, and `raw_features_size` for
  `raw_features` and `projected_features`.  An access at an index from
  `size()` on is not tracked. -/
structure TrainingSet where
  class_num : ℕ
  signature_count : ℕ
  is_continuous : Bool
  samples : List signatures
  raw_features : ℕ → MatrixXd
  projected_features : ℕ → MatrixXd
  SignatureWeights : ℕ → ℚ
  SignatureMaxes : ℕ → ℚ
  SignatureMins : ℕ → ℚ
  SignatureRanges : ℕ → ℚ
  ReducedFeatureIndexes : List ℕ
  ReducedFeatureWeights2 : List ℚ
  is_numeric : Bool
  is_pure_numeric : Bool
  class_labels : ℕ → String
  class_nsamples : ℕ → ℕ
  class_samples : ℕ → List signatures
  class_labels_size : ℕ
  raw_features_size : ℕ
  samples_tail : List signatures
  test_samples : List signatures
  SignatureNames : ℕ → String

/-- The constructor `TrainingSet::TrainingSet` (lines 111-144): no class but the
unknown class 0, no feature, no sample, an empty matrix for class 0.  The
vectors the constructor does not fill are zero. -/
def TrainingSet.init : TrainingSet where
  class_num := 0
  signature_count := 0
  is_continuous := false
  samples := []
  raw_features := fun _ => ⟨0, 0, fun _ _ => 0⟩
  projected_features := fun _ => ⟨0, 0, fun _ _ => 0⟩
  SignatureWeights := fun _ => 0
  SignatureMaxes := fun _ => 0
  SignatureMins := fun _ => 0
  SignatureRanges := fun _ => 0
  ReducedFeatureIndexes := []
  ReducedFeatureWeights2 := []
  is_numeric := false
  is_pure_numeric := false
  class_labels := fun i => if i = 0 then UNKNOWN_CLASS_LABEL else ""
  class_nsamples := fun _ => 0
  class_samples := fun _ => []
  class_labels_size := 1
  raw_features_size := 1
  samples_tail := []
  test_samples := []
  SignatureNames := fun _ => ""

/-! ## Eigen reductions -/

/-- Maximum of `f 0, …, f n` (a `maxCoeff` over `n + 1` coefficients). -/
def maxUpTo (f : ℕ → ℚ) : ℕ → ℚ
  | 0 => f 0
  | n + 1 => max (maxUpTo f n) (f (n + 1))

/-- Minimum of `f 0, …, f n` (a `minCoeff` over `n + 1` coefficients). -/
def minUpTo (f : ℕ → ℚ) : ℕ → ℚ
  | 0 => f 0
  | n + 1 => min (minUpTo f n) (f (n + 1))

/-- Sum of `f 0, …, f (n - 1)` (Eigen `sum()` over `n` coefficients). -/
def sumTo (f : ℕ → ℚ) : ℕ → ℚ
  | 0 => 0
  | n + 1 => sumTo f n + f n

namespace TrainingSet

/-! ## `TrainingSet::normalize` (lines 1892-1923) -/

/-- Lines 1904-1905: the two `select` calls that clip a value to
`[-DBL_MAX, DBL_MAX]`. -/
def clip (v : ℚ) : ℚ :=
  let v1 := if v < DBL_MAX then v else DBL_MAX
  if v1 > -DBL_MAX then v1 else -DBL_MAX

/-- Lines 1896-1909: column `class_index` of `class_max`, at feature `i`
(`normalize` reads it only when `normalizeSizesOk` holds, so that a class
matrix with rows has a column). -/
def class_max (ts : TrainingSet) (class_index i : ℕ) : ℚ :=
  let m := ts.raw_features class_index
  if m.rows < 1 then -DBL_MAX else maxUpTo (fun j => clip (m.coeff i j)) (m.cols - 1)

/-- Lines 1896-1909: column `class_index` of `class_min`, at feature `i`
(read under `normalizeSizesOk`, like `class_max`). -/
def class_min (ts : TrainingSet) (class_index i : ℕ) : ℚ :=
  let m := ts.raw_features class_index
  if m.rows < 1 then DBL_MAX else minUpTo (fun j => clip (m.coeff i j)) (m.cols - 1)

/-- The Eigen size requirements of `normalize`: a class matrix with at least one
row is reduced row-wise by `maxCoeff` / `minCoeff`, which needs a column, and
the result is assigned to a column of `signature_count` coefficients. -/
def normalizeSizesOk (ts : TrainingSet) : Prop :=
  ∀ c, c ≤ ts.class_num →
    (ts.raw_features c).rows < 1 ∨
      ((ts.raw_features c).rows = ts.signature_count ∧ 1 ≤ (ts.raw_features c).cols)

instance (ts : TrainingSet) : Decidable (normalizeSizesOk ts) := by
  unfold normalizeSizesOk
  infer_instance

/-- `TrainingSet::normalize`.  `none` when an Eigen size requirement fails. -/
def normalize (ts : TrainingSet) : Option TrainingSet :=
  if normalizeSizesOk ts then
    let maxes : ℕ → ℚ := fun i => maxUpTo (fun c => class_max ts c i) ts.class_num
    let mins : ℕ → ℚ := fun i => minUpTo (fun c => class_min ts c i) ts.class_num
    let ranges : ℕ → ℚ := fun i => maxes i - mins i
    some { ts with
      SignatureMaxes := maxes
      SignatureMins := mins
      SignatureRanges := ranges
      raw_features := fun c =>
        let m := ts.raw_features c
        if c ≤ ts.class_num then
          if m.rows < 1 then m
          else { m with coeff := fun i j =>
                  if ranges i > DBL_EPSILON then (clip (m.coeff i j) - mins i) / ranges i * 100
                  else 0 }
        else m }
  else none

end TrainingSet

/-- A small training set used to instantiate the properties of `normalize`:
class 0 is empty, class 1 holds two samples of two features, the second feature
being constant. -/
def normalizeExample : TrainingSet :=
  { TrainingSet.init with
    class_num := 1
    signature_count := 2
    raw_features := fun c =>
      if c = 1 then ⟨2, 2, fun i j => if i = 0 then (if j = 0 then 1 else 3) else 5⟩
      else ⟨0, 0, fun _ _ => 0⟩ }

/-! ## `TrainingSet::SetFisherScores` (lines 1983-2215) -/

/-- Eigen `sum()` over `n` coefficients of which any may fail to be a number:
the sum is a number only if all of them are. -/
def sumToOpt (f : ℕ → Option ℚ) : ℕ → Option ℚ
  | 0 => some 0
  | n + 1 => do
    let a ← sumToOpt f n
    let b ← f n
    pure (a + b)

/-- One entry of `split->feature_stats`: the weight of a feature and its index
(the name and the feature-group information are not embedded). -/
structure feature_stats_t where
  weight : ℚ
  index : ℕ
deriving DecidableEq

namespace TrainingSet

/-- Line 2090: `class_mean.col(class_index-1) = raw_features_ref.rowwise().mean()`
at feature `i`; the mean of a row without columns is `0/0`. -/
def class_mean (ts : TrainingSet) (class_index i : ℕ) : Option ℚ :=
  let m := ts.raw_features class_index
  fdiv (sumTo (fun j => m.coeff i j) m.cols) m.cols

/-- Line 2091: `class_var.col(class_index-1)`, the row-wise mean of the squared
differences to the class mean, at feature `i`. -/
def class_var (ts : TrainingSet) (class_index i : ℕ) : Option ℚ := do
  let m := ts.raw_features class_index
  let mu ← class_mean ts class_index i
  fdiv (sumTo (fun j => (m.coeff i j - mu) ^ 2) m.cols) m.cols

/-- Lines 2094-2102, inside `if (class_num > 1)`: the value assigned to
`SignatureWeights[i]`.  Column `k` of `class_mean` and `class_var` belongs to
class `k + 1`. -/
def fisherScore (ts : TrainingSet) (i : ℕ) : Option ℚ := do
  let sum_means ← sumToOpt (fun k => class_mean ts (k + 1) i) ts.class_num
  let mean_class_means := sum_means / (ts.class_num : ℚ)
  let sum_sq ← sumToOpt
    (fun k => (class_mean ts (k + 1) i).map (fun m => (m - mean_class_means) ^ 2)) ts.class_num
  let mean_class_var := sum_sq / ((ts.class_num - 1 : ℕ) : ℚ)
  let sum_var ← sumToOpt (fun k => class_var ts (k + 1) i) ts.class_num
  let mean_inter_class_var := sum_var / (ts.class_num : ℚ)
  let floored := if mean_inter_class_var < DBL_EPSILON then DBL_EPSILON else mean_inter_class_var
  pure (mean_class_var / floored)

/-- The Eigen size requirement of lines 2090-2091: the row-wise mean of a class
matrix is assigned to a column of `signature_count` coefficients. -/
def fisherSizesOk (ts : TrainingSet) : Prop :=
  ∀ c, 1 ≤ c → c ≤ ts.class_num → (ts.raw_features c).rows = ts.signature_count

instance (ts : TrainingSet) : Decidable (fisherSizesOk ts) := by
  unfold fisherSizesOk
  infer_instance

/-- Lines 2084-2123: the score of feature `i` when the loop over the features is
done, before any weight is zeroed.  `pearson i` stands for the value lines
2108-2121 compute for a continuous set (it needs `sqrt` and is not embedded).
`none` is a score that is not a number, or a failed Eigen size requirement. -/
def scoredWeight (pearson : ℕ → ℚ) (ts : TrainingSet) (i : ℕ) : Option ℚ :=
  if ts.class_num > 1 ∧ ¬ fisherSizesOk ts then none
  else if ts.is_continuous then some (pearson i)
  else if ts.class_num > 1 then fisherScore ts i
  else some (ts.SignatureWeights i)

end TrainingSet

/-- Modelled from the spec: the comparator `sort_by_weight_t` of line 2184 is
declared in `TrainingSet.h`, which is not among the sources; the spec says
"sort features descending by score".  An insertion sort is one of the orders
`std::sort` may produce with it (they differ only among equal weights). -/
def sort_by_weight (l : List feature_stats_t) : List feature_stats_t :=
  l.insertionSort (fun a b => a.weight ≥ b.weight)

namespace TrainingSet

/-- `TrainingSet::SetFisherScores` with `used_mrmr = 0`, returning the training
set and `split->feature_stats` (feature groups are not embedded).  `none` stands
for a run in which a score is not a number, an Eigen size requirement fails, or
`feature_stats[last_index]` (line 2187) is read outside the vector. -/
def SetFisherScores (pearson : ℕ → ℚ) (used_signatures : ℚ) (ts : TrainingSet) :
    Option (TrainingSet × List feature_stats_t) :=
  if ∀ i, i < ts.signature_count → (scoredWeight pearson ts i).isSome then
    let weights : ℕ → ℚ := fun i => (scoredWeight pearson ts i).getD 0
    let feature_stats : List feature_stats_t :=
      sort_by_weight ((List.range ts.signature_count).map (fun i => ⟨weights i, i⟩))
    let last_index : ℤ := ⌊used_signatures * (ts.signature_count : ℚ) + 1 / 2⌋
    if 0 ≤ last_index ∧ last_index < feature_stats.length then
      let zeroed := (feature_stats.drop (last_index.toNat + 1)).map (fun s => s.index)
      let kept := feature_stats.take (last_index.toNat + 1)
      let indexes := kept.map (fun s => s.index)
      some ({ ts with
        SignatureWeights := fun i => if i ∈ zeroed then 0 else weights i
        ReducedFeatureIndexes := indexes
        ReducedFeatureWeights2 := kept.map (fun s => s.weight ^ 2)
        projected_features := fun c =>
          if c ≤ ts.class_num ∧ (ts.raw_features c).cols ≠ 0 then
            ⟨kept.length, (ts.raw_features c).cols,
              fun k j => (ts.raw_features c).coeff (indexes.getD k 0) j⟩
          else ts.projected_features c }, kept)
    else none
  else none

end TrainingSet

/-! ## The Fisher score in the words of the specification -/

/-- Mean of the values `x 0, …, x (n - 1)`. -/
def specMean (n : ℕ) (x : ℕ → ℚ) : ℚ := (∑ j ∈ Finset.range n, x j) / n

/-- Population variance of the values `x 0, …, x (n - 1)`: the mean squared
difference to their mean. -/
def specVariance (n : ℕ) (x : ℕ → ℚ) : ℚ :=
  (∑ j ∈ Finset.range n, (x j - specMean n x) ^ 2) / n

/-- The Fisher score of one feature over the classes `1..K`, where class `c`
holds the `n c` values `x c 0, …, x c (n c - 1)`: the variance of the class
means (divided by `K - 1`) over the mean within-class variance, the latter
floored to `DBL_EPSILON`. -/
def specFisherScore (K : ℕ) (n : ℕ → ℕ) (x : ℕ → ℕ → ℚ) : ℚ :=
  let mbar := (∑ c ∈ Finset.Icc 1 K, specMean (n c) (x c)) / K
  ((∑ c ∈ Finset.Icc 1 K, (specMean (n c) (x c) - mbar) ^ 2) / (K - 1)) /
    max DBL_EPSILON ((1 / K) * ∑ c ∈ Finset.Icc 1 K, specVariance (n c) (x c))

/-- A discrete training set of two classes and one feature: class 1 holds the
values 1 and 3, class 2 the value 5 (class 0 is empty). -/
def fisherExample : TrainingSet :=
  { TrainingSet.init with
    class_num := 2
    signature_count := 1
    raw_features := fun c =>
      if c = 1 then ⟨1, 2, fun _ j => if j = 0 then 1 else 3⟩
      else if c = 2 then ⟨1, 1, fun _ _ => 5⟩
      else ⟨0, 0, fun _ _ => 0⟩ }

/-- A discrete training set of two classes, two samples each, and four
features.  Class 1 holds the values 0 and 2 of every feature; class 2 holds
`a` and `a + 2` with `a = 4, 1, 3, 2` for the features 0, 1, 2, 3.  All
within-class variances are 1 and the Fisher scores are `8, 1/2, 9/2, 2`. -/
def selectionExample : TrainingSet :=
  { TrainingSet.init with
    class_num := 2
    signature_count := 4
    raw_features := fun c =>
      if c = 1 then ⟨4, 2, fun _ j => if j = 0 then 0 else 2⟩
      else if c = 2 then ⟨4, 2, fun i j => [4, 1, 3, 2].getD i 0 + (if j = 0 then 0 else 2)⟩
      else ⟨0, 0, fun _ _ => 0⟩ }

/-! ## `TrainingSet::distance` (lines 2245-2254) -/

namespace TrainingSet

/-- `TrainingSet::distance`, for a `power` that is a whole number.
`pow(x, power)` is then `x ^ power`.  The last call, `pow(dist, 1/power)`, has
no rational value in general: it is the parameter `powInv`, and what is proved
about `distance` holds for every such function unless a fact about it is
stated. -/
def distance (powInv : ℚ → ℕ → ℚ) (ts : TrainingSet) (sample1 sample2 : signatures)
    (power : ℕ) : ℚ :=
  powInv
    (sumTo (fun sig_index =>
        ts.SignatureWeights sig_index ^ 1 *
          (sample1.data sig_index - sample2.data sig_index) ^ power)
      ts.signature_count)
    power

end TrainingSet

/-- The weighted Minkowski distance in the words of the specification,
`(Σ_i w_i · |a_i - b_i|^p)^(1/p)` over the features `i < n`, the outer root
being the same library call `powInv` as in `distance`. -/
def specMinkowski (powInv : ℚ → ℕ → ℚ) (w : ℕ → ℚ) (n : ℕ) (a b : ℕ → ℚ) (p : ℕ) : ℚ :=
  powInv (∑ i ∈ Finset.range n, w i * |a i - b i| ^ p) p

/-- A `pow(x, 1/power)` for evaluating examples.  It is exact where the
examples call it: for `power = 1` (the value is `x`), and for `power = 2` at
`x = 0`, `x = 1` and `x = 10^402` (the values are 0, 1 and `10^201`). -/
def examplePowInv (x : ℚ) (power : ℕ) : ℚ :=
  if power = 2 ∧ x = 10 ^ 402 then 10 ^ 201 else x

/-! ## `TrainingSet::WNNclassify` (lines 2266-2309) -/

/-- The sample `samples[sample_index]`; `count` is the length of `samples`. -/
def TrainingSet.sampleAt (ts : TrainingSet) (sample_index : ℕ) : signatures :=
  ts.samples.getD sample_index ⟨fun _ => 0, 0, 0, "", 0⟩

/-- The variables of `WNNclassify` that its first loop updates.
`closest_sample` is the index in `samples` of the sample `*closest_sample`
points to, `none` while the pointer has not been written. -/
structure WNNstate where
  closest_dist : ℚ
  most_probable_class : ℕ
  closest_sample : Option ℕ
  probabilities : ℕ → ℚ

/-- What `WNNclassify` returns and writes through its three pointers. -/
structure WNNresult where
  most_probable_class : ℕ
  closest_sample : Option ℕ
  probabilities : ℕ → ℚ
  normalization_factor : ℚ

namespace TrainingSet

/-- Line 2280-2281: the distance of training sample `sample_index` as the loop
uses it, `INF` when the sample is ignored. -/
def WNNdist (powInv : ℚ → ℕ → ℚ) (INF : ℚ) (ts : TrainingSet) (test_sample : signatures)
    (sample_index : ℕ) : ℚ :=
  let dist := distance powInv ts test_sample (sampleAt ts sample_index) 2
  if dist < 1 / INF ∨ (sampleAt ts sample_index).full_path = test_sample.full_path then INF
  else dist

/-- Lines 2280-2291: the body of the loop over the training samples. -/
def WNNstep (powInv : ℚ → ℕ → ℚ) (INF : ℚ) (ts : TrainingSet) (test_sample : signatures)
    (st : WNNstate) (sample_index : ℕ) : WNNstate :=
  let dist := WNNdist powInv INF ts test_sample sample_index
  let sample_class := (sampleAt ts sample_index).sample_class
  let st1 : WNNstate :=
    if dist < st.closest_dist then
      { st with closest_dist := dist, most_probable_class := sample_class,
                closest_sample := some sample_index }
    else st
  if dist < st1.probabilities sample_class then
    { st1 with probabilities := Function.update st1.probabilities sample_class dist }
  else st1

/-- Lines 2268-2292: the state after the first `n` training samples.  At the
start `closest_dist` and every `probabilities[class_index]` are `INF`. -/
def WNNloop (powInv : ℚ → ℕ → ℚ) (INF : ℚ) (ts : TrainingSet) (test_sample : signatures) :
    ℕ → WNNstate
  | 0 => ⟨INF, 0, none, fun _ => INF⟩
  | n + 1 => WNNstep powInv INF ts test_sample (WNNloop powInv INF ts test_sample n) n

/-- `TrainingSet::WNNclassify` called with the three pointers set.
`test_sample` is the sample as `test_sample->normalize(this, sample_vec)` leaves
it (that function is not among the sources). -/
def WNNclassify (powInv : ℚ → ℕ → ℚ) (INF : ℚ) (ts : TrainingSet) (test_sample : signatures) :
    WNNresult :=
  let st := WNNloop powInv INF ts test_sample ts.samples.length
  let sum_dists :=
    sumTo (fun k => if st.probabilities (k + 1) ≠ 0 then 1 / st.probabilities (k + 1) else 0)
      ts.class_num
  { most_probable_class := st.most_probable_class
    closest_sample := st.closest_sample
    probabilities := fun class_index =>
      if 1 ≤ class_index ∧ class_index ≤ ts.class_num then
        if sum_dists = 0 then 0
        else if st.probabilities class_index = 0 then 1
        else (1 / st.probabilities class_index) / sum_dists
      else st.probabilities class_index
    normalization_factor := sum_dists }

end TrainingSet

/-! ## `TrainingSet::classify2` (lines 2322-2446) -/

/-- What `classify2` returns and writes through `probabilities` and
`normalization_factor`.  A probability is `none` when it is the quotient `0/0`. -/
structure classify2result where
  most_probable_class : ℤ
  probabilities : ℕ → Option ℚ
  normalization_factor : ℚ

namespace TrainingSet

/-- Lines 2342-2345: `dist` of sample `sample_index` of class `class_index`.
`sample_vec` is the vector `test_sample->normalize(this, sample_vec)` produces,
of the size of the reduced feature set. -/
def classify2dist (ts : TrainingSet) (sample_vec : ℕ → ℚ) (class_index sample_index : ℕ) : ℚ :=
  sumTo (fun k =>
      let d := (ts.projected_features class_index).coeff k sample_index - sample_vec k
      if |d| < DBL_EPSILON then 0 else d ^ 2 * ts.ReducedFeatureWeights2.getD k 0)
    ts.ReducedFeatureWeights2.length

/-- Lines 2341-2351: `num_samples_per_class[class_index]` after the first loop. -/
def num_samples_per_class (ts : TrainingSet) (sample_vec : ℕ → ℚ) (class_index : ℕ) : ℕ :=
  ((List.range (ts.raw_features class_index).cols).filter
    (fun sample_index => classify2dist ts sample_vec class_index sample_index > DBL_EPSILON)).length

/-- Lines 2341-2351: `class_similarities[class_index]` after the first loop, the
sum of `pow(dist, -5)` over the samples with `dist > DBL_EPSILON`. -/
def class_similarities_sum (ts : TrainingSet) (sample_vec : ℕ → ℚ) (class_index : ℕ) : ℚ :=
  sumTo (fun sample_index =>
      let dist := classify2dist ts sample_vec class_index sample_index
      if dist > DBL_EPSILON then (dist ^ 5)⁻¹ else 0)
    (ts.raw_features class_index).cols

/-- Lines 2363-2369: `class_similarities[class_index]` after the second loop. -/
def class_similarities (ts : TrainingSet) (sample_vec : ℕ → ℚ) (class_index : ℕ) : ℚ :=
  if num_samples_per_class ts sample_vec class_index = 0 then
    class_similarities_sum ts sample_vec class_index
  else
    class_similarities_sum ts sample_vec class_index /
      (num_samples_per_class ts sample_vec class_index : ℚ)

/-- Lines 2358-2377: `(max_similarity, most_probable_class)` after the classes
`1..n` of the second loop. -/
def classify2loop (ts : TrainingSet) (sample_vec : ℕ → ℚ) : ℕ → ℚ × ℤ
  | 0 => (0, -1)
  | n + 1 =>
    let st := classify2loop ts sample_vec n
    if num_samples_per_class ts sample_vec (n + 1) = 0 then st
    else if class_similarities ts sample_vec (n + 1) > st.1 then
      (class_similarities ts sample_vec (n + 1), ((n + 1 : ℕ) : ℤ))
    else st

/-- `TrainingSet::classify2` called with `probabilities` and
`normalization_factor` set. -/
def classify2 (ts : TrainingSet) (sample_vec : ℕ → ℚ) : classify2result :=
  let sum_dists := sumTo (fun k => class_similarities ts sample_vec (k + 1)) ts.class_num
  { most_probable_class := (classify2loop ts sample_vec ts.class_num).2
    probabilities := fun class_index =>
      if 1 ≤ class_index ∧ class_index ≤ ts.class_num then
        fdiv (class_similarities ts sample_vec class_index) sum_dists
      else none
    normalization_factor := sum_dists }

end TrainingSet

/-- `ClassifyImage`, lines 1530-1533: what the caller makes of the class
`WNNclassify` or `classify2` returned. -/
def ClassifyImage_predicted_class (predicted_class : ℤ) : ℤ :=
  if predicted_class < 1 then 0 else predicted_class

/-! ## Examples for `distance` and `WNNclassify` -/

/-- One feature of weight 1 and no sample. -/
def oneFeature : TrainingSet :=
  { TrainingSet.init with
    signature_count := 1
    SignatureWeights := fun _ => 1 }

/-- A sample of one feature, with the value `v` (read at any index). -/
def constSample (v : ℚ) (sample_class : ℕ) (full_path : String) : signatures :=
  ⟨fun _ => v, sample_class, 0, full_path, 1⟩

/-- The samples `WNNclassify` leaves out, in the words of the amended claim C5:
the path is that of the test sample, or the distance is below `1/INF`, or the
distance is not below `INF`. -/
def TrainingSet.WNNexcluded (powInv : ℚ → ℕ → ℚ) (INF : ℚ) (ts : TrainingSet)
    (test_sample : signatures) (sample_index : ℕ) : Prop :=
  (ts.sampleAt sample_index).full_path = test_sample.full_path ∨
    ts.distance powInv test_sample (ts.sampleAt sample_index) 2 < 1 / INF ∨
    INF ≤ ts.distance powInv test_sample (ts.sampleAt sample_index) 2

instance (powInv : ℚ → ℕ → ℚ) (INF : ℚ) (ts : TrainingSet) (test_sample : signatures)
    (sample_index : ℕ) :
    Decidable (TrainingSet.WNNexcluded powInv INF ts test_sample sample_index) := by
  unfold TrainingSet.WNNexcluded
  infer_instance

/-- The value given to the macro `INF` when an example is evaluated. -/
def exampleINF : ℚ := 10 ^ 201

/-- One class, one feature of weight 1, and one training sample with the feature
value `10^201`, whose distance to a test sample with the value 0 is `INF`. -/
def farSampleExample : TrainingSet :=
  { oneFeature with
    class_num := 1
    samples := [constSample (10 ^ 201) 1 "a"] }

/-- One class and no training sample. -/
def noSampleExample : TrainingSet :=
  { TrainingSet.init with class_num := 1 }

/-- Two classes and one feature of weight 1; sample 0, of class 1, has the value
0 and sample 1, of class 2, has the value 1. -/
def twoSamplesExample : TrainingSet :=
  { oneFeature with
    class_num := 2
    class_labels_size := 3
    raw_features_size := 3
    samples := [constSample 0 1 "a", constSample 1 2 "b"] }

/-! ## The WND similarity in the words of the specification -/

/-- The squared weighted distance of training sample `s` of class `c` to the
test vector: the sum over the reduced features of
`ReducedFeatureWeights2[i] · (projected_s[i] - test[i])²`, a term whose
difference is below `DBL_EPSILON` in absolute value contributing 0. -/
def specWNDdist (ts : TrainingSet) (test : ℕ → ℚ) (c s : ℕ) : ℚ :=
  ∑ i ∈ Finset.range ts.ReducedFeatureWeights2.length,
    if |(ts.projected_features c).coeff i s - test i| < DBL_EPSILON then 0
    else ts.ReducedFeatureWeights2.getD i 0 * ((ts.projected_features c).coeff i s - test i) ^ 2

/-- The qualifying samples of class `c`: those with `d_s > DBL_EPSILON`. -/
def specQualifying (ts : TrainingSet) (test : ℕ → ℚ) (c : ℕ) : Finset ℕ :=
  (Finset.range (ts.raw_features c).cols).filter (fun s => specWNDdist ts test c s > DBL_EPSILON)

/-- Two classes and one reduced feature of squared weight 1.  Class 1 holds the
projected values 1 and 3, class 2 the value 2. -/
def wndExample : TrainingSet :=
  { TrainingSet.init with
    class_num := 2
    signature_count := 1
    ReducedFeatureIndexes := [0]
    ReducedFeatureWeights2 := [1]
    raw_features := fun c =>
      if c = 1 then ⟨1, 2, fun _ j => if j = 0 then 1 else 3⟩
      else if c = 2 then ⟨1, 1, fun _ _ => 2⟩
      else ⟨0, 0, fun _ _ => 0⟩
    projected_features := fun c =>
      if c = 1 then ⟨1, 2, fun _ j => if j = 0 then 1 else 3⟩
      else if c = 2 then ⟨1, 1, fun _ _ => 2⟩
      else ⟨0, 0, fun _ _ => 0⟩ }

/-- One class and one reduced feature of squared weight 1; the only training
sample has the projected value 2. -/
def oneSampleWndExample : TrainingSet :=
  { TrainingSet.init with
    class_num := 1
    signature_count := 1
    ReducedFeatureIndexes := [0]
    ReducedFeatureWeights2 := [1]
    raw_features := fun c => if c = 1 then ⟨1, 1, fun _ _ => 2⟩ else ⟨0, 0, fun _ _ => 0⟩
    projected_features := fun c =>
      if c = 1 then ⟨1, 1, fun _ _ => 2⟩ else ⟨0, 0, fun _ _ => 0⟩ }

/-! ## The class registry (lines 164-322 and 466-556) -/

/-- The error codes the functions below return.  They are macros of
`wndchrm_error.h`, which is not among the sources (negative numbers according to
the doc comment of `AddClass`); here each is a constructor. -/
inductive wndchrm_error
  | CONTINUOUS_DATASET_WITH_CLASSES
  | ADDING_CLASS_TO_CONTINUOUS_DATASET
  | TOO_MANY_CLASSES
  | CANT_ADD_UNORDERED_CLASS
  | ADDING_SAMPLE_TO_UNDEFINED_CLASS
  | CANT_ALLOCATE_MEMORY
deriving DecidableEq

/-- The `int` a function of the class registry returns: a value that is not
negative (a class index, or 1 for success), or an error code. -/
inductive returned
  | value (v : ℕ)
  | error (e : wndchrm_error)
deriving DecidableEq

namespace TrainingSet

/-- `TrainingSet::AddContinuousClass` (lines 172-193), called with a label that
is not `NULL`.  Past the first test the function reads or writes
`class_labels[CONTINUOUS_CLASS_INDEX]` and writes
`class_nsamples[CONTINUOUS_CLASS_INDEX]`; `none` stands for these accesses
outside the vectors, as on a set straight from the constructor, whose vectors
have the size 1. -/
def AddContinuousClass (ts : TrainingSet) (label : String) : Option (returned × TrainingSet) :=
  if ts.class_num > 0 ∧ ts.is_continuous = false then
    some (returned.error wndchrm_error.CONTINUOUS_DATASET_WITH_CLASSES,
      { ts with is_continuous := false })
  else if ts.class_labels_size ≤ CONTINUOUS_CLASS_INDEX then none
  else if ts.is_continuous = true ∧ ts.class_labels CONTINUOUS_CLASS_INDEX ≠ label then
    some (returned.value CONTINUOUS_CLASS_INDEX, { ts with is_continuous := true })
  else
    some (returned.value 1,
      { ts with
        is_continuous := true
        is_numeric := true
        class_num := 1
        class_labels := Function.update ts.class_labels CONTINUOUS_CLASS_INDEX label
        class_nsamples := Function.update ts.class_nsamples CONTINUOUS_CLASS_INDEX 0 })

/-- Lines 219-225 of `AddClass`: the sign of `cmp_label`, which is
`-class_labels[class_num].compare(label)` when `class_labels` is not empty. -/
def cmp_label (ts : TrainingSet) (label : String) : ℤ :=
  if ts.class_labels_size > 0 then
    if ts.class_labels ts.class_num < label then 1
    else if ts.class_labels ts.class_num = label then 0
    else -1
  else if label ≠ "" then 1
  else 0

/-- `TrainingSet::AddClass` (lines 206-270), called with a label that is not
`NULL`.  `MAX_CLASS_NUM` is a macro of a header that is not among the sources;
`check_numeric label` stands for `check_numeric(label, NULL)` (lines 2941-2981),
which parses the label with `strtod` and `strtol` and returns 0, 1 or 2. -/
def AddClass (MAX_CLASS_NUM : ℕ) (check_numeric : String → ℕ) (ts : TrainingSet)
    (label : String) : returned × TrainingSet :=
  if ts.is_continuous = true then
    (returned.error wndchrm_error.ADDING_CLASS_TO_CONTINUOUS_DATASET, ts)
  else if cmp_label ts label = 0 then (returned.value ts.class_num, ts)
  else if cmp_label ts label > 0 then
    if ts.class_num + 1 ≥ MAX_CLASS_NUM then
      (returned.error wndchrm_error.TOO_MANY_CLASSES, ts)
    else
      let class_num := ts.class_num + 1
      let class_labels := Function.update ts.class_labels ts.class_labels_size label
      let push_matrix : Bool := decide (ts.raw_features_size < class_num + 1)
      let numeric := check_numeric (class_labels class_num)
      (returned.value class_num,
        { ts with
          class_num := class_num
          class_labels := class_labels
          class_nsamples := Function.update ts.class_nsamples ts.class_labels_size 0
          class_samples := Function.update ts.class_samples ts.class_labels_size []
          class_labels_size := ts.class_labels_size + 1
          raw_features :=
            if push_matrix then
              Function.update ts.raw_features ts.raw_features_size ⟨0, 0, fun _ _ => 0⟩
            else ts.raw_features
          projected_features :=
            if push_matrix then
              Function.update ts.projected_features ts.raw_features_size ⟨0, 0, fun _ _ => 0⟩
            else ts.projected_features
          raw_features_size :=
            if push_matrix then ts.raw_features_size + 1 else ts.raw_features_size
          is_numeric :=
            if numeric ≠ 0 ∧ class_num = 1 then true
            else if class_num > 1 ∧ numeric = 0 then false
            else ts.is_numeric
          is_pure_numeric :=
            if numeric ≠ 0 ∧ class_num = 1 then
              (if numeric = 2 then true else ts.is_pure_numeric)
            else if class_num > 1 ∧ (numeric = 0 ∨ numeric = 1) then false
            else ts.is_pure_numeric })
  else (returned.error wndchrm_error.CANT_ADD_UNORDERED_CLASS, ts)

/-- `TrainingSet::AddSample` (lines 280-322).  `samples.push_back` appends to
the whole vector, `count++` then makes the entry at index `count` the last
sample.  After `conservativeResize` the matrix has `col + 1` columns, so the
return of `CANT_ALLOCATE_MEMORY` is never taken; `Finalize` belongs to
`signatures` and is not embedded. -/
def AddSample (ts : TrainingSet) (new_sample : signatures) : returned × TrainingSet :=
  let sample_class := new_sample.sample_class
  if sample_class > ts.class_num then
    (returned.error wndchrm_error.ADDING_SAMPLE_TO_UNDEFINED_CLASS, ts)
  else
    let vector := ts.samples ++ ts.samples_tail ++ [new_sample]
    let signature_count := new_sample.count
    let col := ts.class_nsamples sample_class
    let raw := ts.raw_features sample_class
    let resized : MatrixXd :=
      if raw.cols < col + 1 then ⟨signature_count, col + 1, raw.coeff⟩ else raw
    (returned.value 1,
      { ts with
        samples := vector.take (ts.samples.length + 1)
        samples_tail := vector.drop (ts.samples.length + 1)
        class_samples :=
          Function.update ts.class_samples sample_class
            (ts.class_samples sample_class ++ [new_sample])
        signature_count := signature_count
        class_nsamples := Function.update ts.class_nsamples sample_class (col + 1)
        raw_features :=
          Function.update ts.raw_features sample_class
            { resized with coeff := fun i j =>
                if j = col ∧ i < signature_count then new_sample.data i
                else resized.coeff i j } })

/-- `TrainingSet::MakeContinuous` (lines 470-485), called with a label that is
not `NULL`.  `none` stands for an access outside the vector `class_labels`:
the loop clears the labels `0 .. class_num - 1` and the label is written at
`CONTINUOUS_CLASS_INDEX`. -/
def MakeContinuous (ts : TrainingSet) (label : String) : Option TrainingSet :=
  if ts.class_labels_size ≤ CONTINUOUS_CLASS_INDEX ∨ ts.class_labels_size < ts.class_num then none
  else
    some { ts with
      class_labels :=
        Function.update (fun index => if index < ts.class_num then "" else ts.class_labels index)
          CONTINUOUS_CLASS_INDEX label
      samples := ts.samples.map (fun s =>
        if s.sample_class ≠ 0 then { s with sample_class := CONTINUOUS_CLASS_INDEX } else s)
      class_num := 1
      is_continuous := true }

/-- Lines 497-500 and 528-531: the loop that moves the entries above
`class_index` down by one, `v[index] = v[index+1]` for
`class_index ≤ index < class_num`. -/
def shiftDown {α : Type} (class_index class_num : ℕ) (v : ℕ → α) : ℕ → α :=
  fun index => if class_index ≤ index ∧ index < class_num then v (index + 1) else v index

/-- `TrainingSet::MarkUnknown` (lines 491-514). -/
def MarkUnknown (ts : TrainingSet) (class_index : ℕ) : TrainingSet :=
  if class_index > ts.class_num ∨ class_index = 0 then ts
  else
    { ts with
      class_labels := shiftDown class_index ts.class_num ts.class_labels
      class_nsamples :=
        shiftDown class_index ts.class_num
          (Function.update ts.class_nsamples 0
            (ts.class_nsamples 0 + ts.class_nsamples class_index))
      samples := ts.samples.map (fun s =>
        if s.sample_class = class_index then { s with sample_class := 0 }
        else if s.sample_class > class_index then { s with sample_class := s.sample_class - 1 }
        else s)
      class_num := ts.class_num - 1 }

/-- `TrainingSet::RemoveClass` (lines 522-556), for a `class_index` that is not
negative.  The samples kept are moved to the front of the vector; the entries
from the new `count` on stay in the vector. -/
def RemoveClass (ts : TrainingSet) (class_index : ℕ) : TrainingSet :=
  if class_index ≥ ts.class_num then ts
  else
    let kept := ts.samples.filter (fun s => s.sample_class ≠ class_index)
    { ts with
      class_labels :=
        if class_index > 0 then shiftDown class_index ts.class_num ts.class_labels
        else ts.class_labels
      class_nsamples :=
        if class_index > 0 then shiftDown class_index ts.class_num ts.class_nsamples
        else Function.update ts.class_nsamples 0 0
      samples :=
        if class_index > 0 then
          kept.map (fun s =>
            if s.sample_class > class_index then { s with sample_class := s.sample_class - 1 }
            else s)
        else kept
      samples_tail := ts.samples.drop kept.length ++ ts.samples_tail
      class_num := if class_index > 0 then ts.class_num - 1 else ts.class_num }

end TrainingSet

/-- The states a new `TrainingSet` reaches by calls of `AddClass` alone. -/
inductive ReachableByAddClass (MAX_CLASS_NUM : ℕ) (check_numeric : String → ℕ)
    (start : TrainingSet) : TrainingSet → Prop
  | start : ReachableByAddClass MAX_CLASS_NUM check_numeric start start
  | AddClass (ts : TrainingSet) (label : String) :
      ReachableByAddClass MAX_CLASS_NUM check_numeric start ts →
      ReachableByAddClass MAX_CLASS_NUM check_numeric start
        (TrainingSet.AddClass MAX_CLASS_NUM check_numeric ts label).2

/-- The states a new `TrainingSet` reaches by calls of `AddClass`,
`AddContinuousClass`, `AddSample`, `MakeContinuous` and `RemoveClass`, and of
`MarkUnknown` when `withMarkUnknown` is set; a call of `AddContinuousClass` or
`MakeContinuous` that leaves its vectors reaches no state. -/
inductive Reachable (MAX_CLASS_NUM : ℕ) (check_numeric : String → ℕ)
    (withMarkUnknown : Bool) : TrainingSet → Prop
  | init : Reachable MAX_CLASS_NUM check_numeric withMarkUnknown TrainingSet.init
  | AddClass (ts : TrainingSet) (label : String) :
      Reachable MAX_CLASS_NUM check_numeric withMarkUnknown ts →
      Reachable MAX_CLASS_NUM check_numeric withMarkUnknown
        (TrainingSet.AddClass MAX_CLASS_NUM check_numeric ts label).2
  | AddContinuousClass (ts : TrainingSet) (label : String) (r : returned × TrainingSet) :
      TrainingSet.AddContinuousClass ts label = some r →
      Reachable MAX_CLASS_NUM check_numeric withMarkUnknown ts →
      Reachable MAX_CLASS_NUM check_numeric withMarkUnknown r.2
  | AddSample (ts : TrainingSet) (new_sample : signatures) :
      Reachable MAX_CLASS_NUM check_numeric withMarkUnknown ts →
      Reachable MAX_CLASS_NUM check_numeric withMarkUnknown
        (TrainingSet.AddSample ts new_sample).2
  | MakeContinuous (ts : TrainingSet) (label : String) (set : TrainingSet) :
      TrainingSet.MakeContinuous ts label = some set →
      Reachable MAX_CLASS_NUM check_numeric withMarkUnknown ts →
      Reachable MAX_CLASS_NUM check_numeric withMarkUnknown set
  | RemoveClass (ts : TrainingSet) (class_index : ℕ) :
      Reachable MAX_CLASS_NUM check_numeric withMarkUnknown ts →
      Reachable MAX_CLASS_NUM check_numeric withMarkUnknown
        (TrainingSet.RemoveClass ts class_index)
  | MarkUnknown (ts : TrainingSet) (class_index : ℕ) :
      withMarkUnknown = true →
      Reachable MAX_CLASS_NUM check_numeric withMarkUnknown ts →
      Reachable MAX_CLASS_NUM check_numeric withMarkUnknown
        (TrainingSet.MarkUnknown ts class_index)

/-- A value for the macro `MAX_CLASS_NUM` when an example is evaluated. -/
def exampleMAX_CLASS_NUM : ℕ := 100

/-- A `check_numeric` (lines 2941-2981) for evaluating examples: 2 on a label
made of decimal digits, all of which `strtod` converts, and 1 on any other
label.  On a label that does not start with a number `strtod` and `strtol`
convert nothing and set no error, which leaves `numeric = 1` and
`pure_numeric = 0`; the labels of the examples are such labels or short
numbers. -/
def exampleCheckNumeric (label : String) : ℕ :=
  if label.data ≠ [] ∧ label.data.all Char.isDigit = true then 2 else 1

/-- The training set after `AddClass("a")` and `AddClass("b")` on a new
training set: two classes, labelled `a` and `b`. -/
def twoClassesExample : TrainingSet :=
  (TrainingSet.AddClass exampleMAX_CLASS_NUM exampleCheckNumeric
    (TrainingSet.AddClass exampleMAX_CLASS_NUM exampleCheckNumeric TrainingSet.init "a").2 "b").2

/-- A continuous training set: `AddClass("a")` on a new training set, which
gives the vectors indexed by the class the size 2, then `MakeContinuous` with an
empty label. -/
def madeContinuousExample : TrainingSet :=
  (TrainingSet.MakeContinuous
    (TrainingSet.AddClass exampleMAX_CLASS_NUM exampleCheckNumeric TrainingSet.init "a").2
    "").getD TrainingSet.init

/-! ## `TrainingSet::InterpolateValue` (lines 2536-2580) -/

/-- The variables of `InterpolateValue` that its loop over the training samples
updates.  `slots` holds, for each `close_index < N`, the pair
`(min_dists[close_index], min_dists_values[close_index])`; the two `memmove`
calls move the same slots of the two arrays where `sizeof(long)` is
`sizeof(double)`, which is taken here.  `closest_sample` is the index in
`samples` of the sample `*closest_sample` points to and `closest_dist` is
`*closest_dist`, `none` while they have not been written. -/
structure InterpolateState where
  slots : List (ℚ × ℚ)
  closest_sample : Option ℕ
  closest_dist : Option ℚ

/-- What `InterpolateValue` returns and writes through its two pointers.
`value` is `none` when the returned expression `val/sum` is not a number. -/
structure InterpolateResult where
  value : Option ℚ
  closest_sample : Option ℕ
  closest_dist : Option ℚ

namespace TrainingSet

/-- Lines 2556-2564: the loop over `close_index`.  At the first slot whose
distance is above `dist` the slots from there to the last but one move up by
one place, the pair is written, and the loop ends (`break`). -/
def insertSlot (dist value : ℚ) : List (ℚ × ℚ) → List (ℚ × ℚ)
  | [] => []
  | s :: rest =>
    if dist < s.1 then (dist, value) :: (s :: rest).dropLast
    else s :: insertSlot dist value rest

/-- Lines 2551-2565: the body of the loop over the training samples, both
pointers being set. -/
def InterpolateStep (powInv : ℚ → ℕ → ℚ) (ts : TrainingSet) (test_sample : signatures)
    (st : InterpolateState) (sample_index : ℕ) : InterpolateState :=
  let dist := distance powInv ts test_sample (sampleAt ts sample_index) 2
  let below : Bool :=
    match st.slots.head? with
    | some s => decide (dist < s.1)
    | none => false
  { slots := insertSlot dist (sampleAt ts sample_index).sample_value st.slots
    closest_sample := if below then some sample_index else st.closest_sample
    closest_dist := if below then some dist else st.closest_dist }

/-- Lines 2546-2565: the state after the first `n` training samples.  At the
start every `min_dists[close_index]` is `INF`; `min_dists_values` is not
initialised and `uninit` stands for what it holds. -/
def InterpolateLoop (powInv : ℚ → ℕ → ℚ) (INF uninit : ℚ) (ts : TrainingSet)
    (test_sample : signatures) (N : ℕ) : ℕ → InterpolateState
  | 0 => ⟨List.replicate N (INF, uninit), none, none⟩
  | n + 1 =>
    InterpolateStep powInv ts test_sample
      (InterpolateLoop powInv INF uninit ts test_sample N n) n

/-- Lines 2568-2573: `val` and `sum` after the loop over the slots, `none` when
a slot in use has the distance 0 (`1/min_dists[close_index]` is then infinite,
and `val/sum` is not a number whatever the other slots hold). -/
def InterpolateSums (INF : ℚ) (slots : List (ℚ × ℚ)) : Option (ℚ × ℚ) :=
  slots.foldl
    (fun acc s =>
      if s.1 < INF then
        match acc, fdiv 1 s.1 with
        | some (val, sum), some w => some (val + s.2 * w, sum + w)
        | _, _ => none
      else acc)
    (some (0, 0))

/-- `TrainingSet::InterpolateValue` called with `N` slots and the two pointers
set.  `test_sample` is the sample as `test_sample->normalize(this, sample_vec)`
leaves it (that function is not among the sources). -/
def InterpolateValue (powInv : ℚ → ℕ → ℚ) (INF uninit : ℚ) (ts : TrainingSet)
    (test_sample : signatures) (N : ℕ) : InterpolateResult :=
  let st := InterpolateLoop powInv INF uninit ts test_sample N ts.samples.length
  { value := (InterpolateSums INF st.slots).bind (fun p => fdiv p.1 p.2)
    closest_sample := st.closest_sample
    closest_dist := st.closest_dist }

end TrainingSet

/-- One feature of weight 1 and two samples of a continuous set, with the
feature values 1 and -1 and the target values 2 and 4. -/
def interpolateExample : TrainingSet :=
  { oneFeature with
    class_num := 1
    is_continuous := true
    samples := [{ constSample 1 1 "a" with sample_value := 2 },
                { constSample (-1) 1 "b" with sample_value := 4 }] }

/-! ## `TrainingSet::SetAttrib` and `TrainingSet::split` (lines 611-739) -/

/-- The record `data_split` as far as `split` and `Test` write the fields read
here.  The type is declared in a header that is not among the sources; the
fields are those `TrainingSet.cpp` names.  `confusion_matrix` is an array of
`unsigned short` (lines 3137-3141), read at a flat index.  A `double` that can
be the result of a division by zero is an `Option`, `none` when it is not a
number. -/
structure data_split where
  training_images : ℕ → ℕ
  testing_images : ℕ → ℕ
  confusion_matrix : ℕ → ℕ
  known_images : ℕ
  accurate_predictions : ℕ
  class_accuracies : ℕ → Option ℚ
  accuracy : Option ℚ
  plus_minus : ℚ
  avg_class_accuracies : Option ℚ
  classification_p_value : ℚ

/-- The variables that the loop of `split` over the classes updates. -/
structure splitState where
  TrainSet : TrainingSet
  TestSet : TrainingSet
  split : data_split

namespace TrainingSet

/-- `TrainingSet::SetAttrib` (lines 614-631), as far as the fields are
embedded: the feature count and the three flags are copied, then `AddClass` is
called on `set` with each label `class_labels[0 .. class_num]`, its return
value being dropped. -/
def SetAttrib (MAX_CLASS_NUM : ℕ) (check_numeric : String → ℕ) (ts set : TrainingSet) :
    TrainingSet :=
  (List.range (ts.class_num + 1)).foldl
    (fun s class_index => (AddClass MAX_CLASS_NUM check_numeric s (ts.class_labels class_index)).2)
    { set with
      signature_count := ts.signature_count
      SignatureNames := fun sig_index =>
        if sig_index < ts.signature_count then ts.SignatureNames sig_index
        else set.SignatureNames sig_index
      is_numeric := ts.is_numeric
      is_pure_numeric := ts.is_pure_numeric
      is_continuous := ts.is_continuous }

/-- Line 687: `(int)floor((ratio * (float)class_samples_count) + 0.5)` for
`0 < ratio ≤ 1`, with the rounding of the conversion to `float`, of the product
and of the sum.  The sum is a finite number that is not negative; a number of
groups from `2^31` on, where the cast to `int` is not defined, is not
tracked. -/
def roundedTrainCount (ratio : ℚ) (class_samples_count : ℕ) : ℕ :=
  match double.add
      (double.mul (double.finite ratio) (double.roundFloat (class_samples_count : ℚ)))
      (double.finite (1 / 2)) with
  | double.finite sum => (⌊sum⌋).toNat
  | _ => 0

/-- Lines 682-692: `number_of_train_samples` and `number_of_test_samples` of a
class with `class_samples_count` groups of tiles.  The counts passed to `split`
are not negative; `ratio` is the `double` passed. -/
def splitCounts (ratio : ℚ) (train_samples test_samples : ℕ) (make_test_set : Bool)
    (class_samples_count : ℕ) : ℕ × ℕ :=
  if 0 < ratio ∧ ratio ≤ 1 then
    let number_of_train_samples := roundedTrainCount ratio class_samples_count
    if test_samples = 0 ∧ make_test_set = true then
      (number_of_train_samples, class_samples_count - number_of_train_samples)
    else if make_test_set = true then (number_of_train_samples, test_samples)
    else (number_of_train_samples, 0)
  else if make_test_set = true then (train_samples, test_samples)
  else (train_samples, 0)

/-- Lines 673-680: `train_test_split`, the group indices `0 .. class_samples_count`
in order, or as `random_shuffle` leaves them; `shuffle class_index` stands for
the call of `random_shuffle` made for the class. -/
def train_test_split (shuffle : ℕ → List ℕ → List ℕ) (ts : TrainingSet) (randomize : Bool)
    (tiles class_index : ℕ) : List ℕ :=
  if randomize = true then shuffle class_index (List.range (ts.class_nsamples class_index / tiles))
  else List.range (ts.class_nsamples class_index / tiles)

/-- The samples `class_samples[class_index].at(group * tiles + i)` for
`i < tiles`, in the order of `i`. -/
def groupSamples (ts : TrainingSet) (tiles class_index group : ℕ) : List signatures :=
  ((ts.class_samples class_index).drop (group * tiles)).take tiles

/-- The accesses that lines 714, 717 and 729 make for the group index `group`
are in range: the block of `raw_features[class_index]` (only the training
groups read it) and the arguments of `.at()`. -/
def groupInRange (ts : TrainingSet) (tiles class_index : ℕ) (withBlock : Bool) (group : ℕ) :
    Bool :=
  decide (group * tiles + tiles ≤ (ts.class_samples class_index).length) &&
    (!withBlock ||
      (decide (group * tiles + tiles ≤ (ts.raw_features class_index).cols) &&
        decide (ts.signature_count ≤ (ts.raw_features class_index).rows)))

/-- Line 714: the block assignment
`dst.block(0, dstCol, rows, tiles) = src.block(0, srcCol, rows, tiles)`. -/
def copyBlock (rows tiles : ℕ) (src : MatrixXd) (srcCol dstCol : ℕ) (dst : MatrixXd) : MatrixXd :=
  { dst with
    coeff := fun i j =>
      if i < rows ∧ dstCol ≤ j ∧ j < dstCol + tiles then src.coeff i (srcCol + (j - dstCol))
      else dst.coeff i j }

/-- Lines 716-717: the loop `dst.at(dstIndex + i) = src.at(srcIndex + i)` for
`i < tiles` (the indices are in range where `splitClass` runs it). -/
def copyTiles (tiles : ℕ) (src : List signatures) (srcIndex dstIndex : ℕ)
    (dst : List signatures) : List signatures :=
  (List.range tiles).foldl
    (fun l i => l.set (dstIndex + i) (src.getD (srcIndex + i) ⟨fun _ => 0, 0, 0, "", 0⟩))
    dst

/-- Lines 713-718: the matrix and the sample vector of the class in `TrainSet`
after the first `n` iterations of the loop over `sample_index`, `order` being
`train_test_split`. -/
def splitTrainLoop (ts : TrainingSet) (tiles class_index : ℕ) (order : List ℕ)
    (start : MatrixXd × List signatures) : ℕ → MatrixXd × List signatures
  | 0 => start
  | n + 1 =>
    (copyBlock ts.signature_count tiles (ts.raw_features class_index)
        (order.getD n 0 * tiles) (n * tiles)
        (splitTrainLoop ts tiles class_index order start n).1,
      copyTiles tiles (ts.class_samples class_index) (order.getD n 0 * tiles) (n * tiles)
        (splitTrainLoop ts tiles class_index order start n).2)

/-- Lines 728-729: the loop `dst.push_back(src.at(srcIndex + i))` for
`i < tiles`. -/
def pushTiles (tiles : ℕ) (src : List signatures) (srcIndex : ℕ) (dst : List signatures) :
    List signatures :=
  (List.range tiles).foldl
    (fun l i => l ++ [src.getD (srcIndex + i) ⟨fun _ => 0, 0, 0, "", 0⟩])
    dst

/-- Lines 726-730: `TestSet->test_samples` after the first `n` iterations of
the loop over `sample_index`, which starts at `number_of_train_samples`. -/
def splitTestLoop (ts : TrainingSet) (tiles class_index : ℕ) (order : List ℕ)
    (number_of_train_samples : ℕ) (start : List signatures) : ℕ → List signatures
  | 0 => start
  | n + 1 =>
    pushTiles tiles (ts.class_samples class_index)
      (order.getD (number_of_train_samples + n) 0 * tiles)
      (splitTestLoop ts tiles class_index order number_of_train_samples start n)

/-- The vectors that lines 672-734 index at `class_index` have an entry there:
`class_nsamples` and `class_samples` of the set that is split, its
`raw_features` when a group is copied from it, `raw_features` and
`class_samples` of `TrainSet`, and `class_nsamples` of `TestSet` on the branch
that reads it (line 734).  The arrays of the record `data_split`, declared in a
header that is not among the sources, are taken to hold the class. -/
def splitVectorsOk (ts : TrainingSet) (st : splitState)
    (class_index number_of_train_samples number_of_test_samples : ℕ) : Prop :=
  class_index < ts.class_labels_size ∧
    (0 < number_of_train_samples → class_index < ts.raw_features_size) ∧
    class_index < st.TrainSet.raw_features_size ∧
    class_index < st.TrainSet.class_labels_size ∧
    (number_of_test_samples = 0 → class_index < st.TestSet.class_labels_size)

instance (ts : TrainingSet) (st : splitState)
    (class_index number_of_train_samples number_of_test_samples : ℕ) :
    Decidable
      (splitVectorsOk ts st class_index number_of_train_samples number_of_test_samples) := by
  unfold splitVectorsOk
  infer_instance

/-- Lines 670-735: the body of the loop of `split` over the classes, for
`tiles ≥ 1`.  The result is `none` where the program ends: at `exit(-1)`, at an
index outside a vector (`splitVectorsOk`), at an `.at()` out of range, or at a
block that is not inside the matrix (the checks are made before the loops
here).  The coefficients of the matrix are
not specified after `resize`; the loop writes all of them, and they start as 0
here.  `resize` of the sample vector keeps its first entries and fills up with
null pointers, which are the sample without features here. -/
def splitClass (shuffle : ℕ → List ℕ → List ℕ) (ts : TrainingSet) (randomize : Bool)
    (ratio : ℚ) (tiles train_samples test_samples : ℕ) (make_test_set : Bool)
    (st : splitState) (class_index : ℕ) : Option splitState :=
  let class_samples_count := ts.class_nsamples class_index / tiles
  let order := train_test_split shuffle ts randomize tiles class_index
  let counts := splitCounts ratio train_samples test_samples make_test_set class_samples_count
  let number_of_train_samples := counts.1
  let number_of_test_samples := counts.2
  let train_groups := order.take number_of_train_samples
  let test_groups := (order.drop number_of_train_samples).take number_of_test_samples
  if number_of_train_samples + number_of_test_samples > class_samples_count then none
  else if ¬ splitVectorsOk ts st class_index number_of_train_samples number_of_test_samples then
    none
  else if train_groups.all (groupInRange ts tiles class_index true) = false then none
  else if test_groups.all (groupInRange ts tiles class_index false) = false then none
  else
    let resized : List signatures :=
      (st.TrainSet.class_samples class_index).take (tiles * number_of_train_samples) ++
        List.replicate
          (tiles * number_of_train_samples - (st.TrainSet.class_samples class_index).length)
          ⟨fun _ => 0, 0, 0, "", 0⟩
    let trained :=
      splitTrainLoop ts tiles class_index order
        (⟨ts.signature_count, number_of_train_samples * tiles, fun _ _ => 0⟩, resized)
        number_of_train_samples
    some
      { TrainSet :=
          { st.TrainSet with
            raw_features := Function.update st.TrainSet.raw_features class_index trained.1
            class_samples := Function.update st.TrainSet.class_samples class_index trained.2 }
        TestSet :=
          if number_of_test_samples ≠ 0 then
            { st.TestSet with
              test_samples :=
                splitTestLoop ts tiles class_index order number_of_train_samples
                  st.TestSet.test_samples number_of_test_samples }
          else st.TestSet
        split :=
          { st.split with
            training_images :=
              Function.update st.split.training_images class_index number_of_train_samples
            testing_images :=
              Function.update st.split.testing_images class_index
                (if number_of_test_samples ≠ 0 then number_of_test_samples
                 else st.TestSet.class_nsamples class_index / tiles) } }

/-- The loop of `split` over the classes `1 .. n`. -/
def splitLoop (shuffle : ℕ → List ℕ → List ℕ) (ts : TrainingSet) (randomize : Bool)
    (ratio : ℚ) (tiles train_samples test_samples : ℕ) (make_test_set : Bool)
    (st : splitState) : ℕ → Option splitState
  | 0 => some st
  | n + 1 =>
    (splitLoop shuffle ts randomize ratio tiles train_samples test_samples make_test_set st n).bind
      (fun s =>
        splitClass shuffle ts randomize ratio tiles train_samples test_samples make_test_set s
          (n + 1))

/-- `TrainingSet::split` (lines 650-739).  `TestSet->count` is the number of
samples of `TestSet`. -/
def split (MAX_CLASS_NUM : ℕ) (check_numeric : String → ℕ) (shuffle : ℕ → List ℕ → List ℕ)
    (ts : TrainingSet) (randomize : Bool) (ratio : ℚ) (TrainSet TestSet : TrainingSet)
    (tiles train_samples test_samples : ℕ) ( split : data_split) : Option splitState :=
  let TrainSet1 := SetAttrib MAX_CLASS_NUM check_numeric ts TrainSet
  let TestSet1 :=
    if TestSet.samples.length = 0 then SetAttrib MAX_CLASS_NUM check_numeric ts TestSet
    else TestSet
  let tiles1 := if tiles < 1 then 1 else tiles
  let make_test_set : Bool := if TestSet1.samples.length > 0 then false else true
  splitLoop shuffle ts randomize ratio tiles1 train_samples test_samples make_test_set
    { TrainSet := { TrainSet1 with class_num := ts.class_num }
      TestSet := { TestSet1 with class_num := ts.class_num }
      split := split }
    ts.class_num

end TrainingSet

namespace TrainingSet

/-- The training groups of the class in `splitClass`: the entries
`train_test_split[sample_index]` for `sample_index < number_of_train_samples`. -/
def splitTrainGroups (shuffle : ℕ → List ℕ → List ℕ) (ts : TrainingSet) (randomize : Bool)
    (ratio : ℚ) (tiles train_samples test_samples : ℕ) (make_test_set : Bool)
    (class_index : ℕ) : List ℕ :=
  (train_test_split shuffle ts randomize tiles class_index).take
    (splitCounts ratio train_samples test_samples make_test_set
      (ts.class_nsamples class_index / tiles)).1

/-- The test groups of the class in `splitClass`: the entries
`train_test_split[sample_index]` for `sample_index` from
`number_of_train_samples` up to
`number_of_train_samples + number_of_test_samples`. -/
def splitTestGroups (shuffle : ℕ → List ℕ → List ℕ) (ts : TrainingSet) (randomize : Bool)
    (ratio : ℚ) (tiles train_samples test_samples : ℕ) (make_test_set : Bool)
    (class_index : ℕ) : List ℕ :=
  ((train_test_split shuffle ts randomize tiles class_index).drop
      (splitCounts ratio train_samples test_samples make_test_set
        (ts.class_nsamples class_index / tiles)).1).take
    (splitCounts ratio train_samples test_samples make_test_set
      (ts.class_nsamples class_index / tiles)).2

end TrainingSet

/-- An empty `data_split` record. -/
def emptySplit : data_split :=
  ⟨fun _ => 0, fun _ => 0, fun _ => 0, 0, 0, fun _ => none, none, 0, none, 0⟩

/-- One class "a" with one feature and four samples, the feature values and the
target values being 0, 1, 2 and 3. -/
def splitExample : TrainingSet :=
  { TrainingSet.init with
    class_num := 1
    signature_count := 1
    class_labels := fun i => if i = 0 then UNKNOWN_CLASS_LABEL else "a"
    class_labels_size := 2
    raw_features_size := 2
    class_nsamples := fun c => if c = 1 then 4 else 0
    class_samples := fun c =>
      if c = 1 then
        [{ constSample 0 1 "a0" with sample_value := 0 },
         { constSample 1 1 "a1" with sample_value := 1 },
         { constSample 2 1 "a2" with sample_value := 2 },
         { constSample 3 1 "a3" with sample_value := 3 }]
      else []
    raw_features := fun c => if c = 1 then ⟨1, 4, fun _ j => j⟩ else ⟨0, 0, fun _ _ => 0⟩
    samples :=
      [{ constSample 0 1 "a0" with sample_value := 0 },
       { constSample 1 1 "a1" with sample_value := 1 },
       { constSample 2 1 "a2" with sample_value := 2 },
       { constSample 3 1 "a3" with sample_value := 3 }] }

/-- The set `splitExample` made continuous: `MakeContinuous` with an empty
label on `splitExample`. -/
def continuousSplitExample : TrainingSet :=
  (TrainingSet.MakeContinuous splitExample "").getD TrainingSet.init

/-- A `random_shuffle` for evaluating examples: it reverses the list. -/
def exampleShuffle (_ : ℕ) (l : List ℕ) : List ℕ := l.reverse

/-! ## `TrainingSet::Test` and the confusion matrix (lines 1499-1502, 1626-1628, 1763-1862) -/

namespace TrainingSet

/-- Lines 1491 and 1812: `testset_samples`, the vector `test_samples` of the
test set when it is not empty and the vector `samples` otherwise. -/
def testset_samples (TestSet : TrainingSet) : List signatures :=
  if TestSet.test_samples.length > 0 then TestSet.test_samples else TestSet.samples

/-- `ClassifyImage` on a discrete set as far as it writes the confusion matrix,
`TestSet->train_class` being `NULL` and `split->confusion_matrix` being set.
Line 1502 reads the true class from `TestSet->samples[test_sample_index]`;
`predicted_class` stands for the class that lines 1504-1623 arrive at, which is
also the value returned (line 1752).  Line 1628 increments a cell of
`unsigned short`, so the count wraps at `2^16`. -/
def ClassifyImage_confusion (ts TestSet : TrainingSet) (predicted_class test_sample_index : ℕ)
    ( split : data_split) : data_split :=
  let sample_class := (TestSet.sampleAt test_sample_index).sample_class
  { split with
    confusion_matrix :=
      Function.update split.confusion_matrix (ts.class_num * sample_class + predicted_class)
        ((split.confusion_matrix (ts.class_num * sample_class + predicted_class) + 1) % 2 ^ 16) }

/-- Lines 1814-1829: the loop of `Test` over the test images of a discrete set,
after `images` iterations; `test_sample_index` is `tiles` times the number of
the iteration, and `predicted test_sample_index` stands for the class that
`ClassifyImage` arrives at for the image. -/
def TestLoop (ts TestSet : TrainingSet) (predicted : ℕ → ℕ) (tiles : ℕ) ( split : data_split) :
    ℕ → data_split
  | 0 => split
  | images + 1 =>
    ClassifyImage_confusion ts TestSet (predicted (images * tiles)) (images * tiles)
      (TestLoop ts TestSet predicted tiles split images)

/-- Lines 1834-1835: `class_test_samples`, the sum of the cells
`confusion_matrix[class_num*class_index+b]` for `b` from 1 to `class_num`. -/
def class_test_samples (class_num : ℕ) (confusion_matrix : ℕ → ℕ) (class_index : ℕ) : ℕ :=
  ∑ b ∈ Finset.range class_num, confusion_matrix (class_num * class_index + (b + 1))

/-- Lines 1856-1860: the loop that adds up `P`.  `gsl_sf_choose n m` stands for
the call of the GSL function of that name, `some` of the binomial coefficient
when the status is `GSL_SUCCESS`. -/
def classification_p_value (gsl_sf_choose : ℕ → ℕ → Option ℚ)
    (class_num accurate_predictions known_images : ℕ) : ℚ :=
  (List.range' accurate_predictions (known_images + 1 - accurate_predictions)).foldl
    (fun P correct =>
      match gsl_sf_choose known_images correct with
      | some choose =>
        P + (1 / (class_num : ℚ)) ^ correct *
          (1 - 1 / (class_num : ℚ)) ^ (known_images - correct) * choose
      | none => P)
    0

/-- `TrainingSet::Test` (lines 1763-1862) on a discrete set, as far as it writes
the fields of `data_split` embedded here; `split`, `split->confusion_matrix`
and `split->similarity_matrix` are set.  The sums of cells are taken without
overflow.  A comparison with a value that is not a number is false, so
`plus_minus` keeps its value there. -/
def Test (gsl_sf_choose : ℕ → ℕ → Option ℚ) (ts TestSet : TrainingSet) (predicted : ℕ → ℕ)
    (tiles : ℕ) ( split : data_split) : data_split :=
  let tiles1 := if tiles < 1 then 1 else tiles
  let zeroed : data_split :=
    { split with
      confusion_matrix := fun index =>
        if index < (ts.class_num + 1) * (ts.class_num + 1) then 0
        else split.confusion_matrix index }
  let n_test_samples := (testset_samples TestSet).length
  let tested := TestLoop ts TestSet predicted tiles1 zeroed ((n_test_samples + tiles1 - 1) / tiles1)
  let confusion_matrix := tested.confusion_matrix
  let known_images :=
    ∑ c ∈ Finset.range ts.class_num, class_test_samples ts.class_num confusion_matrix (c + 1)
  let accurate_predictions :=
    ∑ c ∈ Finset.range ts.class_num, confusion_matrix (ts.class_num * (c + 1) + (c + 1))
  let class_accuracies : ℕ → Option ℚ := fun class_index =>
    if 1 ≤ class_index ∧ class_index ≤ ts.class_num then
      fdiv (confusion_matrix (ts.class_num * class_index + class_index))
        (class_test_samples ts.class_num confusion_matrix class_index)
    else split.class_accuracies class_index
  let accuracy := fdiv accurate_predictions known_images
  let plus_minus :=
    (List.range ts.class_num).foldl
      (fun plus_minus c =>
        match class_accuracies (c + 1), accuracy with
        | some a, some b => if |a - b| > plus_minus then |a - b| else plus_minus
        | _, _ => plus_minus)
      0
  let avg_class_accuracies :=
    (sumToOpt (fun c => class_accuracies (c + 1)) ts.class_num).bind
      (fun sum => fdiv sum ts.class_num)
  { tested with
    known_images := known_images
    accurate_predictions := accurate_predictions
    class_accuracies := class_accuracies
    accuracy := accuracy
    plus_minus := plus_minus
    avg_class_accuracies := avg_class_accuracies
    classification_p_value :=
      classification_p_value gsl_sf_choose ts.class_num accurate_predictions known_images }

/-- The number of test images among the first `images` whose true class is
`t` and whose predicted class is `p`, in the words of the claim on the
confusion matrix. -/
def specConfusionCount (TestSet : TrainingSet) (predicted : ℕ → ℕ) (tiles images t p : ℕ) : ℕ :=
  (List.range images).countP
    (fun k => decide ((TestSet.sampleAt (k * tiles)).sample_class = t ∧ predicted (k * tiles) = p))

end TrainingSet

/-- A `gsl_sf_choose` for evaluating examples: the binomial coefficient, with
the status `GSL_SUCCESS`. -/
def exampleChoose (n m : ℕ) : Option ℚ := some ((n.choose m : ℕ) : ℚ)

/-- A test set of ten samples of class 1 followed by ten samples of class 2, held
in `samples`. -/
def tenPerClassExample : TrainingSet :=
  { oneFeature with
    class_num := 2
    samples := List.replicate 10 (constSample 0 1 "a") ++ List.replicate 10 (constSample 0 2 "b") }

/-- A test set of `2^16` samples of class 1, held in `samples`. -/
def manySamplesExample : TrainingSet :=
  { oneFeature with
    class_num := 1
    samples := List.replicate (2 ^ 16) (constSample 0 1 "a") }

/-- A test set whose vector `samples` holds one sample of class 2 and whose
vector `test_samples` holds one sample of class 1. -/
def twoVectorsExample : TrainingSet :=
  { oneFeature with
    class_num := 2
    samples := [constSample 0 2 "b"]
    test_samples := [constSample 0 1 "a"] }

/-- A test set of one sample, of class 1, for a training set of two classes. -/
def emptyClassExample : TrainingSet :=
  { oneFeature with
    class_num := 2
    samples := [constSample 0 1 "a"] }

/-! ## Examples for the class registry, the feature selection and the confusion matrix -/

/-- The classes "a" and "b" and one `AddSample` call: a sample of two features
for class 1. -/
def mixedCountsExample1 : TrainingSet :=
  (TrainingSet.AddSample twoClassesExample { constSample 7 1 "x" with count := 2 }).2

/-- After `mixedCountsExample1`, a second `AddSample` call: a sample of one
feature for class 2. -/
def mixedCountsExample2 : TrainingSet :=
  (TrainingSet.AddSample mixedCountsExample1 { constSample 8 2 "y" with count := 1 }).2

/-- After `mixedCountsExample2`, a third `AddSample` call: a sample of one
feature for class 1. -/
def mixedCountsExample3 : TrainingSet :=
  (TrainingSet.AddSample mixedCountsExample2 { constSample 9 1 "z" with count := 1 }).2

/-- The classes "a" and "b" with one sample of class 1 followed by two samples of
class 2, added by `AddSample`. -/
def removeExample : TrainingSet :=
  (TrainingSet.AddSample
    (TrainingSet.AddSample
      (TrainingSet.AddSample twoClassesExample (constSample 1 1 "x")).2
      (constSample 2 2 "y")).2
    (constSample 3 2 "z")).2

/-- A discrete training set of one class with two features and one sample, every
weight being 5 before `SetFisherScores` is called. -/
def oneClassExample : TrainingSet :=
  { TrainingSet.init with
    class_num := 1
    signature_count := 2
    SignatureWeights := fun _ => 5
    raw_features := fun c => if c = 1 then ⟨2, 1, fun _ _ => 1⟩ else ⟨0, 0, fun _ _ => 0⟩ }

/-- A discrete training set without class, with two features, every weight being
5 before `SetFisherScores` is called. -/
def noClassExample : TrainingSet :=
  { TrainingSet.init with
    signature_count := 2
    SignatureWeights := fun _ => 5 }

/-- A test set of one sample, of class 2, for a training set of two classes. -/
def noDecisionExample : TrainingSet :=
  { oneFeature with
    class_num := 2
    samples := [constSample 0 2 "b"] }

/-! ## `TrainingSet::LoadWeightVector` (lines 576-609) -/

namespace TrainingSet

/-- Lines 595-600: the body of the loop over the lines of the weight file, for
a line whose number is `v = atof(p_line)`.  The state is `sig_index`,
`feature_weight_distance` and `SignatureWeights`. -/
def LoadWeightVectorStep (factor : ℚ) (st : ℕ × ℚ × (ℕ → ℚ)) (v : ℚ) : ℕ × ℚ × (ℕ → ℚ) :=
  let sig_index := st.1
  let feature_weight_distance := st.2.1 + (st.2.2 sig_index - v) ^ 2
  let weights1 : ℕ → ℚ :=
    if factor = 0 then Function.update st.2.2 sig_index v
    else Function.update st.2.2 sig_index (st.2.2 sig_index + factor * v)
  let weights2 : ℕ → ℚ :=
    if weights1 sig_index < 0 then Function.update weights1 sig_index 0 else weights1
  (sig_index + 1, feature_weight_distance, weights2)

/-- `TrainingSet::LoadWeightVector` on a file that opens.  `values` holds the
number `atof(p_line)` of every line of the file, in order (each line is shorter
than the buffer, and `fgets` never returns an empty line, so every line
counts); `sqrt` stands for the library function.  The value returned is `-1`
when the number of lines is not `signature_count`; the weights are written by
then. -/
def LoadWeightVector (sqrt : ℚ → ℚ) (ts : TrainingSet) (values : List ℚ) (factor : ℚ) :
    ℚ × TrainingSet :=
  let st := values.foldl (LoadWeightVectorStep factor) (0, 0, ts.SignatureWeights)
  (if st.1 ≠ ts.signature_count then -1 else sqrt st.2.1,
    { ts with SignatureWeights := st.2.2 })

end TrainingSet

/-! ## The training sets of the claim on shifted and rescaled features -/

namespace TrainingSet

/-- Line 2099: `mean_inter_class_var` at feature `i`, the mean over the classes
of the within-class variances, before the floor of line 2100 (the same
expression as in `fisherScore`). -/
def mean_inter_class_var (ts : TrainingSet) (i : ℕ) : Option ℚ :=
  (sumToOpt (fun k => class_var ts (k + 1) i) ts.class_num).map
    (fun sum_var => sum_var / (ts.class_num : ℚ))

/-- The training set in which `c` has been added to every value of feature `i`,
in every sample of every class. -/
def addToFeature (ts : TrainingSet) (i : ℕ) (c : ℚ) : TrainingSet :=
  { ts with
    raw_features := fun k =>
      { ts.raw_features k with
        coeff := fun i2 j =>
          if i2 = i then (ts.raw_features k).coeff i2 j + c else (ts.raw_features k).coeff i2 j } }

/-- The training set in which every value of feature `i` has been multiplied by
`a`, in every sample of every class. -/
def scaleFeature (ts : TrainingSet) (i : ℕ) (a : ℚ) : TrainingSet :=
  { ts with
    raw_features := fun k =>
      { ts.raw_features k with
        coeff := fun i2 j =>
          if i2 = i then a * (ts.raw_features k).coeff i2 j else (ts.raw_features k).coeff i2 j } }

end TrainingSet

/-! ### `SaveToFile` and `ReadFromFile`

A `.fit` file is the list of its lines, each without its line break, so that
`chomp` has nothing left to strip.  `fopen` succeeds.  The `printf` conversions
and `atoi`, `atof` belong to the C library and are parameters: `fmt_ld` prints
a whole number (`%ld`, and `%d` for the class of a sample), `fmt_5e` is `%.5e`
and `fmt_f` is `%f`. -/

/-- Lines 349-353 of `SaveToFile`: the text of one feature value, without the
blank that follows it.  A value that equals its own `(int)` cast, a whole number
in the range of `int`, is printed as a `long`.  The cast of a value outside that
range, which C leaves undefined, gives `INT_MIN` on the usual platforms and so
differs from the value, which is then printed with `%.5e`. -/
def valueText (fmt_ld : ℤ → String) (fmt_5e : ℚ → String) (value : ℚ) : String :=
  if value = ((⌊value⌋ : ℤ) : ℚ) ∧ -(2 : ℚ) ^ 31 ≤ value ∧ value < (2 : ℚ) ^ 31 then
    fmt_ld ⌊value⌋
  else fmt_5e value

namespace TrainingSet

/-- Lines 347-356 of `SaveToFile`: the first of the two lines of a sample, the
feature values, each followed by a blank, then the value of the sample when the
set is continuous and its class when it is not. -/
def sampleLine (fmt_ld : ℤ → String) (fmt_5e fmt_f : ℚ → String) (ts : TrainingSet)
    (sample : signatures) : String :=
  String.join ((List.range ts.signature_count).map fun sig_index =>
      valueText fmt_ld fmt_5e (sample.data sig_index) ++ " ")
    ++ (if ts.is_continuous = true then fmt_f sample.sample_value
        else fmt_ld (sample.sample_class : ℤ))

/-- `TrainingSet::SaveToFile` (lines 330-360): the lines written, which are
`class_num`, `signature_count` and `count`, the `signature_count` feature
names, the labels of the classes `0 .. class_num`, and two lines for each
sample.  The function returns 1. -/
def SaveToFile (fmt_ld : ℤ → String) (fmt_5e fmt_f : ℚ → String) (ts : TrainingSet) :
    List String :=
  [fmt_ld (ts.class_num : ℤ), fmt_ld (ts.signature_count : ℤ), fmt_ld (ts.samples.length : ℤ)]
    ++ (List.range ts.signature_count).map ts.SignatureNames
    ++ (List.range (ts.class_num + 1)).map ts.class_labels
    ++ (List.range ts.samples.length).flatMap fun sample_index =>
        [sampleLine fmt_ld fmt_5e fmt_f ts (ts.sampleAt sample_index),
          (ts.sampleAt sample_index).full_path]

end TrainingSet

/-- The call `fgets(buffer, sizeof(buffer), file)` on the lines not read yet:
at the end of the file nothing is read and the buffer keeps its text.  Lines
are taken to fit the buffer. -/
def fgets (buffer : String) (file : List String) : String × List String :=
  match file with
  | [] => (buffer, [])
  | line :: rest => (line, rest)

/-- The tokens of a text for the delimiters `" \n"` of the `strtok` calls of
`ReadFromFile`; `token` holds the characters of the token being read. -/
def strtokAux : List Char → List Char → List (List Char)
  | [], token => if token.isEmpty then [] else [token]
  | c :: rest, token =>
    if c = ' ' ∨ c = '\n' then
      if token.isEmpty then strtokAux rest [] else token :: strtokAux rest []
    else strtokAux rest (token ++ [c])

/-- The results of `strtok(buffer, " \n")` and of the calls `strtok(NULL, " \n")`
after it, in order; past the last token `strtok` returns `NULL`. -/
def strtok (buffer : String) : List String :=
  (strtokAux buffer.data []).map String.mk

/-- The text left in the buffer by the `strtok` calls, which end the first
token with a zero character: the delimiters in front of the first token and
the token itself.  Without a token the buffer is unchanged. -/
def strtokBuffer (buffer : String) : String :=
  match strtok buffer with
  | [] => buffer
  | token :: _ =>
    String.mk (buffer.data.takeWhile fun c => decide (c = ' ' ∨ c = '\n')) ++ token

/-- The local state of `ReadFromFile`: the lines of the file not read yet, the
text in `buffer`, and the training set. -/
structure readState where
  file : List String
  buffer : String
  ts : TrainingSet

/-- The state of `ReadFromFile` after a loop: still running, or left by a
`return` with the value returned. -/
inductive readOutcome
  | running (st : readState)
  | finished (res : returned) (ts : TrainingSet)

/-- Lines 414-418 of `ReadFromFile`: the state after `sig_index` rounds of the
loop that reads the feature names (`color_features` is not embedded). -/
def readNames (st : readState) : ℕ → readState
  | 0 => st
  | sig_index + 1 =>
    let s := readNames st sig_index
    let line := fgets s.buffer s.file
    { file := line.2
      buffer := line.1
      ts := { s.ts with
        SignatureNames := Function.update s.ts.SignatureNames sig_index line.1 } }

/-- Lines 421-425 of `ReadFromFile`: the buffer is emptied and lines are read
until one is not empty.  The result is that line and the lines after it;
`none` stands for the loop that never ends, at the end of the file `fgets`
reading nothing more. -/
def skipBlank : List String → Option (String × List String)
  | [] => none
  | line :: rest => if line = "" then skipBlank rest else some (line, rest)

/-- Lines 428-435 of `ReadFromFile`: the state after `class_index` rounds of
the loop that reads the class labels.  In `res = AddClass(buffer) < 0` the
comparison is evaluated first, so `res` is 1 when `AddClass` fails, and
`ReadFromFile` returns 1. -/
def readLabels (MAX_CLASS_NUM : ℕ) (check_numeric : String → ℕ) (st : readState) :
    ℕ → readOutcome
  | 0 => readOutcome.running st
  | class_index + 1 =>
    match readLabels MAX_CLASS_NUM check_numeric st class_index with
    | readOutcome.finished res ts => readOutcome.finished res ts
    | readOutcome.running s =>
      let added := TrainingSet.AddClass MAX_CLASS_NUM check_numeric s.ts s.buffer
      match added.1 with
      | returned.error _ => readOutcome.finished (returned.value 1) added.2
      | returned.value _ =>
        let line := fgets s.buffer s.file
        readOutcome.running ⟨line.2, line.1, added.2⟩

/-- Lines 439-449 of `ReadFromFile`: the sample read from the text in the
buffer, before its path is set.  `none` stands for `atof` or `atoi` called on
the `NULL` that `strtok` returns when the line has fewer than
`signature_count + 1` tokens, and for the read of `class_labels[sample_class]`
outside the vector, which for a discrete set comes before `AddSample` looks at
the class.  `atoi` is taken on texts of numbers that are not negative. -/
def readSample (atoi : String → ℕ) (atof : String → ℚ) (ts : TrainingSet) (buffer : String) :
    Option signatures :=
  let tokens := strtok buffer
  if tokens.length ≤ ts.signature_count then none
  else if ts.is_continuous = false ∧
      ts.class_labels_size ≤ atoi (tokens.getD ts.signature_count "") then none
  else
    let sample_class := atoi (tokens.getD ts.signature_count "")
    some
      { data := fun sig_index =>
          if sig_index < ts.signature_count then atof (tokens.getD sig_index "") else 0
        sample_class := sample_class
        sample_value :=
          if ts.is_continuous = true then atof (tokens.getD ts.signature_count "")
          else atof (ts.class_labels sample_class)
        full_path := ""
        count := ts.signature_count }

/-- Lines 438-459 of `ReadFromFile`: the state after `sample_index` rounds of
the loop that reads the samples.  When `AddSample` fails its error is
returned; the `delete` of the samples read so far frees their memory and
leaves the vector as it is. -/
def readSamples (atoi : String → ℕ) (atof : String → ℚ) (st : readState) :
    ℕ → Option readOutcome
  | 0 => some (readOutcome.running st)
  | sample_index + 1 =>
    match readSamples atoi atof st sample_index with
    | none => none
    | some (readOutcome.finished res ts) => some (readOutcome.finished res ts)
    | some (readOutcome.running s) =>
      match readSample atoi atof s.ts s.buffer with
      | none => none
      | some one_sample =>
        let path := fgets (strtokBuffer s.buffer) s.file
        let added := TrainingSet.AddSample s.ts { one_sample with full_path := path.1 }
        match added.1 with
        | returned.error e => some (readOutcome.finished (returned.error e) added.2)
        | returned.value _ =>
          let line := fgets path.1 path.2
          some (readOutcome.running ⟨line.2, line.1, added.2⟩)

namespace TrainingSet

/-- `TrainingSet::ReadFromFile` (lines 391-464) on a file that opens.  `count`
is set to 0 while the vector `samples` keeps its entries.  The buffer, which
the source does not initialise, starts empty; it is read before it is written
only when the file has no line.  `none` stands for a run that does not
return: the loop that skips blank lines never ends, or `NULL` is parsed. -/
def ReadFromFile (MAX_CLASS_NUM : ℕ) (check_numeric : String → ℕ) (atoi : String → ℕ)
    (atof : String → ℚ) (ts : TrainingSet) (file : List String) :
    Option (returned × TrainingSet) :=
  let line1 := fgets "" file
  let file_class_num := atoi line1.1
  let line2 := fgets line1.1 line1.2
  let signature_count := atoi line2.1
  let line3 := fgets line2.1 line2.2
  let sample_count := atoi line3.1
  let cleared : TrainingSet :=
    { ts with
      signature_count := signature_count
      samples := []
      samples_tail := ts.samples ++ ts.samples_tail }
  let named := readNames ⟨line3.2, line3.1, cleared⟩ signature_count
  match skipBlank named.file with
  | none => none
  | some (buffer, rest) =>
    match readLabels MAX_CLASS_NUM check_numeric ⟨rest, buffer, named.ts⟩ file_class_num with
    | readOutcome.finished res set => some (res, set)
    | readOutcome.running labelled =>
      match readSamples atoi atof labelled sample_count with
      | none => none
      | some (readOutcome.finished res set) => some (res, set)
      | some (readOutcome.running st) => some (returned.value 1, st.ts)

end TrainingSet

/-- The value of the decimal digits at the start of a text, continuing from
`value`. -/
def digitsValue : List Char → ℕ → ℕ
  | [], value => value
  | c :: rest, value =>
    if c.isDigit = true then digitsValue rest (value * 10 + (c.toNat - 48)) else value

/-- An `atoi` for evaluating examples: exact on a text that starts with the
decimal digits of a natural number. -/
def exampleAtoi (text : String) : ℕ := digitsValue text.data 0

/-- An `atof` for evaluating examples: exact on the decimal digits of a
natural number, followed or not by a point and the digits of a fraction. -/
def exampleAtof (text : String) : ℚ :=
  let whole := text.data.takeWhile Char.isDigit
  match text.data.dropWhile Char.isDigit with
  | '.' :: rest =>
    let fraction := rest.takeWhile Char.isDigit
    (digitsValue whole 0 : ℚ) + (digitsValue fraction 0 : ℚ) / 10 ^ fraction.length
  | _ => (digitsValue whole 0 : ℚ)

/-- A `%ld` for evaluating examples: the decimal digits of a whole number. -/
def exampleFmtLd (value : ℤ) : String := toString value

/-- A `%f` for evaluating examples, for values that are not negative: the
value rounded to six decimals. -/
def exampleFmtF (value : ℚ) : String :=
  let scaled := (⌊value * 10 ^ 6 + 1 / 2⌋ : ℤ).toNat
  let digits := Nat.repr (scaled % 10 ^ 6)
  Nat.repr (scaled / 10 ^ 6) ++ "." ++ String.mk (List.replicate (6 - digits.length) '0')
    ++ digits

/-- A continuous training set with one feature named `f` and one sample of
the given value in the continuous class: `AddClass("v")` on a new training
set, `MakeContinuous("v")`, which clears the label of class 0, and
`AddSample`. -/
def continuousFitExample (value : ℚ) : TrainingSet :=
  (TrainingSet.AddSample
    ((TrainingSet.MakeContinuous
      (TrainingSet.AddClass exampleMAX_CLASS_NUM exampleCheckNumeric
        { TrainingSet.init with SignatureNames := fun _ => "f" } "v").2 "v").getD
      TrainingSet.init)
    ⟨fun _ => 7, CONTINUOUS_CLASS_INDEX, value, "p", 1⟩).2

/-- A new training set; with `blank` the label of class 0 is the empty
text. -/
def newSetExample (blank : Bool) : TrainingSet :=
  { TrainingSet.init with
    class_labels := fun i => if i = 0 ∧ blank = false then UNKNOWN_CLASS_LABEL else "" }

/-- A discrete training set with two classes `a` and `b`, one feature named
`f`, and a sample of class 2 and one of class 1.  With `blank` the label of
class 0 is the empty text. -/
def discreteFitExample (blank : Bool) : TrainingSet :=
  (TrainingSet.AddSample
    (TrainingSet.AddSample
      (TrainingSet.AddClass exampleMAX_CLASS_NUM exampleCheckNumeric
        (TrainingSet.AddClass exampleMAX_CLASS_NUM exampleCheckNumeric
          { newSetExample blank with SignatureNames := fun _ => "f" } "a").2 "b").2
      ⟨fun _ => 7, 2, 0, "p", 1⟩).2
    ⟨fun _ => 3, 1, 0, "q", 1⟩).2

/-! ## The lines whose result depends on the rounding, over `double`

The functions of this section follow the same lines of the source as the
functions of the same name above, with every arithmetic operation rounded as
the type `double` rounds it.  The feature values, the weights and the targets
of a training set are finite numbers.  `pow` belongs to the C library and is a
parameter; Eigen adds the coefficients of a row in their order. -/

/-- The square root of a number that is the square of a quotient of two whole
numbers; any other number is returned as it is. -/
def exampleSqrt (q : ℚ) : ℚ :=
  match (List.range (q.num.toNat + 1)).find? (fun k => decide (k * k = q.num.toNat)),
      (List.range (q.den + 1)).find? (fun k => decide (k * k = q.den)) with
  | some a, some b => (a : ℚ) / (b : ℚ)
  | _, _ => q

/-- A `pow` for evaluating examples, on finite arguments: the correctly
rounded power for an exponent that is a whole number and not negative, and the
exact square root of a square for the exponent 1/2, where the square root of
IEEE 754 is exact too.  On other arguments, which the examples do not pass, the
base is returned. -/
def examplePow (x y : double) : double :=
  match x, y with
  | double.finite base, double.finite e =>
    if e = 1 / 2 then double.finite (exampleSqrt base)
    else if e.den = 1 ∧ 0 ≤ e then double.nearest (base ^ e.num.toNat)
    else x
  | _, _ => x

namespace rounded

/-- `TrainingSet::distance` (lines 2248-2254) over `double`. -/
def distance (pow : double → double → double) (ts : TrainingSet)
    (sample1 sample2 : signatures) (power : double) : double :=
  pow
    ((List.range ts.signature_count).foldl
      (fun dist sig_index =>
        double.add dist
          (double.mul (pow (double.finite (ts.SignatureWeights sig_index)) (double.finite 1))
            (pow
              (double.sub (double.finite (sample1.data sig_index))
                (double.finite (sample2.data sig_index)))
              power)))
      (double.finite 0))
    (double.div (double.finite 1) power)

/-- The variables of `WNNclassify` that its first loop updates, over
`double`. -/
structure WNNstate where
  closest_dist : double
  most_probable_class : ℕ
  closest_sample : Option ℕ
  probabilities : ℕ → double

/-- What `WNNclassify` returns and writes through its three pointers, over
`double`. -/
structure WNNresult where
  most_probable_class : ℕ
  closest_sample : Option ℕ
  probabilities : ℕ → double
  normalization_factor : double

/-- Lines 2280-2291 of `WNNclassify`: the body of the loop over the training
samples. -/
def WNNstep (pow : double → double → double) (INF : double) (ts : TrainingSet)
    (test_sample : signatures) (st : WNNstate) (sample_index : ℕ) : WNNstate :=
  let computed := distance pow ts test_sample (ts.sampleAt sample_index) (double.finite 2)
  let dist :=
    if double.lt computed (double.div (double.finite 1) INF) = true ∨
        (ts.sampleAt sample_index).full_path = test_sample.full_path then INF
    else computed
  let sample_class := (ts.sampleAt sample_index).sample_class
  let st1 : WNNstate :=
    if double.lt dist st.closest_dist = true then
      { st with closest_dist := dist, most_probable_class := sample_class,
                closest_sample := some sample_index }
    else st
  if double.lt dist (st1.probabilities sample_class) = true then
    { st1 with probabilities := Function.update st1.probabilities sample_class dist }
  else st1

/-- Lines 2268-2292 of `WNNclassify`: the state after the first `n` training
samples. -/
def WNNloop (pow : double → double → double) (INF : double) (ts : TrainingSet)
    (test_sample : signatures) : ℕ → WNNstate
  | 0 => ⟨INF, 0, none, fun _ => INF⟩
  | n + 1 => WNNstep pow INF ts test_sample (WNNloop pow INF ts test_sample n) n

/-- `TrainingSet::WNNclassify` (lines 2266-2309) over `double`, called with the
three pointers set. -/
def WNNclassify (pow : double → double → double) (INF : double) (ts : TrainingSet)
    (test_sample : signatures) : WNNresult :=
  let st := WNNloop pow INF ts test_sample ts.samples.length
  let sum_dists :=
    (List.range ts.class_num).foldl
      (fun sum k =>
        if st.probabilities (k + 1) ≠ double.finite 0 then
          double.add sum (double.div (double.finite 1) (st.probabilities (k + 1)))
        else sum)
      (double.finite 0)
  { most_probable_class := st.most_probable_class
    closest_sample := st.closest_sample
    probabilities := fun class_index =>
      if 1 ≤ class_index ∧ class_index ≤ ts.class_num then
        if sum_dists = double.finite 0 then double.finite 0
        else if st.probabilities class_index = double.finite 0 then double.finite 1
        else double.div (double.div (double.finite 1) (st.probabilities class_index)) sum_dists
      else st.probabilities class_index
    normalization_factor := sum_dists }

/-- Lines 2556-2564 of `InterpolateValue`: the loop over `close_index`. -/
def insertSlot (dist value : double) : List (double × double) → List (double × double)
  | [] => []
  | s :: rest =>
    if double.lt dist s.1 = true then (dist, value) :: (s :: rest).dropLast
    else s :: insertSlot dist value rest

/-- Lines 2546-2565 of `InterpolateValue`: the slots after the first `n`
training samples; `uninit` stands for what `min_dists_values` holds at the
start. -/
def InterpolateLoop (pow : double → double → double) (INF uninit : double) (ts : TrainingSet)
    (test_sample : signatures) (N : ℕ) : ℕ → List (double × double)
  | 0 => List.replicate N (INF, uninit)
  | n + 1 =>
    insertSlot (distance pow ts test_sample (ts.sampleAt n) (double.finite 2))
      (double.finite (ts.sampleAt n).sample_value)
      (InterpolateLoop pow INF uninit ts test_sample N n)

/-- The value `TrainingSet::InterpolateValue` (lines 2536-2580) returns, over
`double`. -/
def InterpolateValue (pow : double → double → double) (INF uninit : double) (ts : TrainingSet)
    (test_sample : signatures) (N : ℕ) : double :=
  let sums :=
    (InterpolateLoop pow INF uninit ts test_sample N ts.samples.length).foldl
      (fun acc s =>
        if double.lt s.1 INF = true then
          (double.add acc.1 (double.mul s.2 (double.div (double.finite 1) s.1)),
            double.add acc.2 (double.div (double.finite 1) s.1))
        else acc)
      (double.finite 0, double.finite 0)
  double.div sums.1 sums.2

/-- Lines 1856-1860 of `Test`: the loop that adds up `P`, over `double`.
`gsl_sf_choose n m` is `some` of the value the GSL function stores when its
status is `GSL_SUCCESS`. -/
def classification_p_value (pow : double → double → double)
    (gsl_sf_choose : ℕ → ℕ → Option double)
    (class_num accurate_predictions known_images : ℕ) : double :=
  (List.range' accurate_predictions (known_images + 1 - accurate_predictions)).foldl
    (fun P correct =>
      match gsl_sf_choose known_images correct with
      | some choose =>
        double.add P
          (double.mul
            (double.mul
              (pow (double.div (double.finite 1) (double.finite class_num))
                (double.finite correct))
              (pow
                (double.sub (double.finite 1)
                  (double.div (double.finite 1) (double.finite class_num)))
                (double.finite ((known_images - correct : ℕ) : ℚ))))
            choose)
      | none => P)
    (double.finite 0)

/-- The sum of `f 0, …, f (n - 1)` added up in this order. -/
def sumTo (f : ℕ → double) (n : ℕ) : double :=
  (List.range n).foldl (fun sum j => double.add sum (f j)) (double.finite 0)

/-- Line 2090 of `SetFisherScores`: the mean of row `i` of the matrix of the
class. -/
def class_mean (ts : TrainingSet) (class_index i : ℕ) : double :=
  double.div
    (sumTo (fun j => double.finite ((ts.raw_features class_index).coeff i j))
      (ts.raw_features class_index).cols)
    (double.finite (ts.raw_features class_index).cols)

/-- Line 2091 of `SetFisherScores`: the mean of the squared differences to the
class mean. -/
def class_var (ts : TrainingSet) (class_index i : ℕ) : double :=
  double.div
    (sumTo
      (fun j =>
        double.mul
          (double.sub (double.finite ((ts.raw_features class_index).coeff i j))
            (class_mean ts class_index i))
          (double.sub (double.finite ((ts.raw_features class_index).coeff i j))
            (class_mean ts class_index i)))
      (ts.raw_features class_index).cols)
    (double.finite (ts.raw_features class_index).cols)

/-- Lines 2094-2102 of `SetFisherScores`, inside `if (class_num > 1)`: the value
assigned to `SignatureWeights[i]`, over `double`. -/
def fisherScore (ts : TrainingSet) (i : ℕ) : double :=
  let mean_class_means :=
    double.div (sumTo (fun k => class_mean ts (k + 1) i) ts.class_num)
      (double.finite ts.class_num)
  let mean_class_var :=
    double.div
      (sumTo
        (fun k =>
          double.mul (double.sub (class_mean ts (k + 1) i) mean_class_means)
            (double.sub (class_mean ts (k + 1) i) mean_class_means))
        ts.class_num)
      (double.finite ((ts.class_num - 1 : ℕ) : ℚ))
  let mean_inter_class_var :=
    double.div (sumTo (fun k => class_var ts (k + 1) i) ts.class_num)
      (double.finite ts.class_num)
  let floored :=
    if double.lt mean_inter_class_var (double.finite DBL_EPSILON) = true then
      double.finite DBL_EPSILON
    else mean_inter_class_var
  double.div mean_class_var floored

/-- Lines 1912-1914 of `normalize`: `SignatureRanges[i]`, the difference of the
maximum and the minimum of the clipped values of feature `i`, which are found
by comparisons. -/
def SignatureRanges (ts : TrainingSet) (i : ℕ) : double :=
  double.sub
    (double.finite (maxUpTo (fun c => TrainingSet.class_max ts c i) ts.class_num))
    (double.finite (minUpTo (fun c => TrainingSet.class_min ts c i) ts.class_num))

/-- `TrainingSet::normalize` (lines 1892-1923) over `double`: the coefficient
`(i, j)` of the matrix of class `class_index` after the call.  `none` when an
Eigen size requirement fails. -/
def normalize (ts : TrainingSet) : Option (ℕ → ℕ → ℕ → double) :=
  if TrainingSet.normalizeSizesOk ts then
    some fun class_index i j =>
      let m := ts.raw_features class_index
      if class_index ≤ ts.class_num ∧ ¬ m.rows < 1 then
        if double.lt (double.finite DBL_EPSILON) (SignatureRanges ts i) = true then
          double.mul
            (double.div
              (double.sub (double.finite (TrainingSet.clip (m.coeff i j)))
                (double.finite (minUpTo (fun c => TrainingSet.class_min ts c i) ts.class_num)))
              (SignatureRanges ts i))
            (double.finite 100)
        else double.finite 0
      else double.finite (m.coeff i j)
  else none

end rounded

/-- The macro `INF` as a `double` when an example is evaluated: the `double`
nearest to `10^201`. -/
def exampleINFdouble : double := double.nearest (10 ^ 201)

/-- A `gsl_sf_choose` over `double` for evaluating examples: the `double`
nearest to the binomial coefficient. -/
def exampleChooseDouble (n m : ℕ) : Option double := some (double.nearest (n.choose m : ℚ))

/-- One feature of weight 1 and one sample of a continuous set, with the
feature value 5 and the target value 3. -/
def oneNeighbourExample : TrainingSet :=
  { oneFeature with
    class_num := 1
    is_continuous := true
    samples := [{ constSample 5 1 "a" with sample_value := 3 }] }

/-- Two classes and one feature of weight 1; sample 0, of class 1, has the value
1 and sample 1, of class 2, has the value 9. -/
def twoDistancesExample : TrainingSet :=
  { oneFeature with
    class_num := 2
    class_labels_size := 3
    raw_features_size := 3
    samples := [constSample 1 1 "a", constSample 9 2 "b"] }

/-- Two classes of two samples and one feature: the values 1 and 2 in class 1,
the values 4 and `7430939385161318 / 2^51`, the `double` nearest to 3.3, in
class 2. -/
def shiftExample : TrainingSet :=
  { TrainingSet.init with
    class_num := 2
    signature_count := 1
    raw_features := fun c =>
      if c = 1 then ⟨1, 2, fun _ j => if j = 0 then 1 else 2⟩
      else if c = 2 then ⟨1, 2, fun _ j => if j = 0 then 4 else 7430939385161318 / 2 ^ 51⟩
      else ⟨0, 0, fun _ _ => 0⟩ }

/-- One class of two samples and one feature, with the values `DBL_MAX` and
`-DBL_MAX`. -/
def wideRangeExample : TrainingSet :=
  { TrainingSet.init with
    class_num := 1
    signature_count := 1
    raw_features := fun c =>
      if c = 1 then ⟨1, 2, fun _ j => if j = 0 then DBL_MAX else -DBL_MAX⟩
      else ⟨0, 0, fun _ _ => 0⟩ }

/-! ## Properties -/

/-! ### Rounding to `double` keeps the order -/

theorem double.pow2_eq (e : ℤ) : double.pow2 e = (2 : ℚ) ^ e := by
  unfold double.pow2
  split_ifs with h
  · conv_rhs => rw [← Int.toNat_of_nonneg h]
    rw [zpow_natCast]
  · have h2 : e = -(((-e).toNat : ℕ) : ℤ) := by
      rw [Int.toNat_of_nonneg (by omega)]; ring
    conv_rhs => rw [h2]
    rw [zpow_neg, zpow_natCast, one_div]

theorem double.roundEven_intCast (n : ℤ) : double.roundEven (n : ℚ) = n := by
  unfold double.roundEven
  simp

theorem double.roundEven_mono {a b : ℚ} (h : a ≤ b) :
    double.roundEven a ≤ double.roundEven b := by
  have hfl : ⌊a⌋ ≤ ⌊b⌋ := Int.floor_mono h
  have ha0 : (⌊a⌋ : ℚ) ≤ a := Int.floor_le a
  have hb0 : (⌊b⌋ : ℚ) ≤ b := Int.floor_le b
  rcases lt_or_eq_of_le hfl with hlt | heq
  · have h1 : double.roundEven a ≤ ⌊a⌋ + 1 := by
      unfold double.roundEven; split_ifs <;> omega
    have h2 : ⌊b⌋ ≤ double.roundEven b := by
      unfold double.roundEven; split_ifs <;> omega
    omega
  · unfold double.roundEven
    rw [heq] at ha0 ⊢
    split_ifs <;> first | omega | (exfalso; linarith)

theorem double.bitLength_spec (fuel : ℕ) : ∀ n : ℕ, n ≤ fuel → 0 < n →
    2 ^ (double.bitLength fuel n - 1) ≤ n ∧ n < 2 ^ double.bitLength fuel n := by
  induction fuel with
  | zero => intro n h1 h2; omega
  | succ fuel ih =>
    intro n h1 h2
    have hn : n ≠ 0 := by omega
    simp only [double.bitLength, if_neg hn, Nat.add_sub_cancel]
    by_cases h : n / 2 = 0
    · have : n = 1 := by omega
      subst this
      cases fuel <;> simp [double.bitLength]
    · obtain ⟨l, u⟩ := ih (n / 2) (by omega) (by omega)
      have hpos : 0 < double.bitLength fuel (n / 2) := by
        cases fuel with
        | zero => omega
        | succ f => simp [double.bitLength, h]
      constructor
      · have e : double.bitLength fuel (n / 2) = (double.bitLength fuel (n / 2) - 1) + 1 := by
          omega
        rw [e, pow_succ]
        omega
      · rw [pow_succ]; omega

theorem double.exponent_spec {x : ℚ} (hx : 0 < x) :
    (2 : ℚ) ^ double.exponent x ≤ x ∧ x < (2 : ℚ) ^ (double.exponent x + 1) := by
  have hnum : 0 < x.num := Rat.num_pos.mpr hx
  have hden : 0 < x.den := x.den_pos
  obtain ⟨la, ua⟩ := double.bitLength_spec x.num.natAbs x.num.natAbs le_rfl (by omega)
  obtain ⟨lb, ub⟩ := double.bitLength_spec x.den x.den le_rfl hden
  set a := double.bitLength x.num.natAbs x.num.natAbs with ha
  set b := double.bitLength x.den x.den with hb
  have hapos : 0 < a := by
    rcases Nat.eq_zero_or_pos a with h0 | h0
    · rw [h0, pow_zero] at ua; omega
    · exact h0
  have hbpos : 0 < b := by
    rcases Nat.eq_zero_or_pos b with h0 | h0
    · rw [h0, pow_zero] at ub; omega
    · exact h0
  have hxeq : x = (x.num.natAbs : ℚ) / (x.den : ℚ) := by
    have h1 : (x.num.natAbs : ℚ) = (x.num : ℚ) := by
      rw [← Int.cast_natCast, Int.natAbs_of_nonneg hnum.le]
    rw [h1]
    exact (Rat.num_div_den x).symm
  have hdq : (0 : ℚ) < (x.den : ℚ) := by exact_mod_cast hden
  have uaq : (x.num.natAbs : ℚ) < (2 : ℚ) ^ a := by exact_mod_cast ua
  have laq : (2 : ℚ) ^ (a - 1) ≤ (x.num.natAbs : ℚ) := by exact_mod_cast la
  have ubq : (x.den : ℚ) < (2 : ℚ) ^ b := by exact_mod_cast ub
  have lbq : (2 : ℚ) ^ (b - 1) ≤ (x.den : ℚ) := by exact_mod_cast lb
  have two_pos : (0 : ℚ) < 2 := by norm_num
  have two_ne : (2 : ℚ) ≠ 0 := by norm_num
  -- x < 2^(a-b+1)
  have hup : x < (2 : ℚ) ^ ((a : ℤ) - (b : ℤ) + 1) := by
    have e : ((a : ℤ) - (b : ℤ) + 1) = (a : ℤ) - ((b - 1 : ℕ) : ℤ) := by
      have : ((b - 1 : ℕ) : ℤ) = (b : ℤ) - 1 := by omega
      rw [this]; ring
    rw [e, zpow_sub₀ two_ne, zpow_natCast, zpow_natCast, hxeq]
    rw [div_lt_div_iff₀ hdq (by positivity)]
    calc (x.num.natAbs : ℚ) * 2 ^ (b - 1) ≤ (x.num.natAbs : ℚ) * (x.den : ℚ) :=
          mul_le_mul_of_nonneg_left lbq (by positivity)
      _ < 2 ^ a * (x.den : ℚ) := mul_lt_mul_of_pos_right uaq hdq
  have hlow : (2 : ℚ) ^ ((a : ℤ) - (b : ℤ) - 1) ≤ x := by
    have e : ((a : ℤ) - (b : ℤ) - 1) = ((a - 1 : ℕ) : ℤ) - (b : ℤ) := by
      have : ((a - 1 : ℕ) : ℤ) = (a : ℤ) - 1 := by omega
      rw [this]; ring
    rw [e, zpow_sub₀ two_ne, zpow_natCast, zpow_natCast, hxeq]
    rw [div_le_div_iff₀ (by positivity) hdq]
    calc (2 : ℚ) ^ (a - 1) * (x.den : ℚ) ≤ (x.num.natAbs : ℚ) * (x.den : ℚ) :=
          mul_le_mul_of_nonneg_right laq hdq.le
      _ ≤ (x.num.natAbs : ℚ) * 2 ^ b := mul_le_mul_of_nonneg_left ubq.le (by positivity)
  unfold double.exponent
  simp only [← ha, ← hb]
  rw [double.pow2_eq]
  split_ifs with h
  · exact ⟨h, hup⟩
  · refine ⟨?_, ?_⟩
    · exact hlow
    · rw [sub_add_cancel]; exact lt_of_not_le h

theorem double.exponent_mono {x y : ℚ} (hx : 0 < x) (hxy : x ≤ y) :
    double.exponent x ≤ double.exponent y := by
  by_contra hlt
  push_neg at hlt
  obtain ⟨lx, _⟩ := double.exponent_spec hx
  obtain ⟨_, uy⟩ := double.exponent_spec (lt_of_lt_of_le hx hxy)
  have : (2 : ℚ) ^ (double.exponent y + 1) ≤ (2 : ℚ) ^ double.exponent x :=
    zpow_le_zpow_right₀ (by norm_num) (by omega)
  linarith

theorem double.roundEven_nonneg {a : ℚ} (h : 0 ≤ a) : 0 ≤ double.roundEven a := by
  have := double.roundEven_mono h
  rw [show ((0 : ℚ)) = ((0 : ℤ) : ℚ) by simp, double.roundEven_intCast] at this
  exact this

theorem double.magnitude_mono (prec : ℕ) (emin : ℤ) (hp : 1 ≤ prec) {x y : ℚ} (hx : 0 < x)
    (hxy : x ≤ y) :
    (double.roundEven (x / double.pow2 (max (double.exponent x) emin - ((prec : ℤ) - 1))) : ℚ) *
        double.pow2 (max (double.exponent x) emin - ((prec : ℤ) - 1)) ≤
      (double.roundEven (y / double.pow2 (max (double.exponent y) emin - ((prec : ℤ) - 1))) : ℚ) *
        double.pow2 (max (double.exponent y) emin - ((prec : ℤ) - 1)) := by
  have hy : 0 < y := lt_of_lt_of_le hx hxy
  have hE := double.exponent_mono hx hxy
  obtain ⟨_, ux⟩ := double.exponent_spec hx
  obtain ⟨ly, _⟩ := double.exponent_spec hy
  have two_pos : (0 : ℚ) < 2 := by norm_num
  have two_ne : (2 : ℚ) ≠ 0 := by norm_num
  have one_le_two : (1 : ℚ) ≤ 2 := by norm_num
  simp only [double.pow2_eq]
  set G := max (double.exponent x) emin with hG
  set H := max (double.exponent y) emin with hH
  have hGH : G ≤ H := max_le_max hE le_rfl
  have hposx : (0 : ℚ) < 2 ^ (G - ((prec : ℤ) - 1)) := zpow_pos two_pos _
  have hposy : (0 : ℚ) < 2 ^ (H - ((prec : ℤ) - 1)) := zpow_pos two_pos _
  rcases eq_or_lt_of_le hGH with heq | hlt
  · rw [← heq]
    apply mul_le_mul_of_nonneg_right _ hposx.le
    exact_mod_cast double.roundEven_mono (div_le_div_of_nonneg_right hxy hposx.le)
  · have hHy : H = double.exponent y := by
      rw [hH]
      apply max_eq_left
      by_contra hc
      push_neg at hc
      have : H = emin := by rw [hH]; exact max_eq_right hc.le
      have : emin ≤ G := le_max_right _ _
      omega
    have hGy : G + 1 ≤ double.exponent y := by omega
    have hxG : double.exponent x + 1 ≤ G + 1 := by
      have : double.exponent x ≤ G := le_max_left _ _
      omega
    -- upper bound for x
    have h1 : x / 2 ^ (G - ((prec : ℤ) - 1)) ≤ (((2 : ℤ) ^ prec : ℤ) : ℚ) := by
      rw [div_le_iff₀ hposx]
      have e : ((((2 : ℤ) ^ prec : ℤ) : ℚ)) * 2 ^ (G - ((prec : ℤ) - 1)) = (2 : ℚ) ^ (G + 1) := by
        push_cast
        rw [← zpow_natCast, ← zpow_add₀ two_ne]
        congr 1; ring
      rw [e]
      exact le_trans ux.le (zpow_le_zpow_right₀ one_le_two hxG)
    have h1r : double.roundEven (x / 2 ^ (G - ((prec : ℤ) - 1))) ≤ (2 : ℤ) ^ prec := by
      have := double.roundEven_mono h1
      rwa [double.roundEven_intCast] at this
    have h1q : (double.roundEven (x / 2 ^ (G - ((prec : ℤ) - 1))) : ℚ) ≤ (2 : ℚ) ^ prec := by
      exact_mod_cast h1r
    have hupper : (double.roundEven (x / 2 ^ (G - ((prec : ℤ) - 1))) : ℚ) *
        2 ^ (G - ((prec : ℤ) - 1)) ≤ (2 : ℚ) ^ (G + 1) := by
      calc _ ≤ (2 : ℚ) ^ prec * 2 ^ (G - ((prec : ℤ) - 1)) :=
            mul_le_mul_of_nonneg_right h1q hposx.le
        _ = (2 : ℚ) ^ (G + 1) := by
            rw [← zpow_natCast, ← zpow_add₀ two_ne]
            congr 1; ring
    -- lower bound for y
    have h2 : (((2 : ℤ) ^ (prec - 1) : ℤ) : ℚ) ≤ y / 2 ^ (H - ((prec : ℤ) - 1)) := by
      rw [le_div_iff₀ hposy]
      have e : ((((2 : ℤ) ^ (prec - 1) : ℤ) : ℚ)) * 2 ^ (H - ((prec : ℤ) - 1)) = (2 : ℚ) ^ H := by
        push_cast
        rw [← zpow_natCast, ← zpow_add₀ two_ne]
        congr 1
        have : ((prec - 1 : ℕ) : ℤ) = (prec : ℤ) - 1 := by omega
        rw [this]; ring
      rw [e, hHy]
      exact ly
    have h2r : (2 : ℤ) ^ (prec - 1) ≤ double.roundEven (y / 2 ^ (H - ((prec : ℤ) - 1))) := by
      have := double.roundEven_mono h2
      rwa [double.roundEven_intCast] at this
    have h2q : (2 : ℚ) ^ (prec - 1) ≤ (double.roundEven (y / 2 ^ (H - ((prec : ℤ) - 1))) : ℚ) := by
      exact_mod_cast h2r
    have hlower : (2 : ℚ) ^ H ≤ (double.roundEven (y / 2 ^ (H - ((prec : ℤ) - 1))) : ℚ) *
        2 ^ (H - ((prec : ℤ) - 1)) := by
      calc (2 : ℚ) ^ H = (2 : ℚ) ^ (prec - 1) * 2 ^ (H - ((prec : ℤ) - 1)) := by
            rw [← zpow_natCast, ← zpow_add₀ two_ne]
            congr 1
            have : ((prec - 1 : ℕ) : ℤ) = (prec : ℤ) - 1 := by omega
            rw [this]; ring
        _ ≤ _ := mul_le_mul_of_nonneg_right h2q hposy.le
    have hmid : (2 : ℚ) ^ (G + 1) ≤ (2 : ℚ) ^ H := zpow_le_zpow_right₀ one_le_two (by omega)
    linarith

theorem double.roundTo_of_pos (prec : ℕ) (emin emax : ℤ) {x : ℚ} (hx : 0 < x) :
    double.roundTo prec emin emax x =
      if double.pow2 (emax + 1) ≤
          (double.roundEven (x / double.pow2 (max (double.exponent x) emin - ((prec : ℤ) - 1))) : ℚ) *
            double.pow2 (max (double.exponent x) emin - ((prec : ℤ) - 1)) then
        double.inf false
      else
        double.finite
          ((double.roundEven (x / double.pow2 (max (double.exponent x) emin - ((prec : ℤ) - 1))) : ℚ) *
            double.pow2 (max (double.exponent x) emin - ((prec : ℤ) - 1))) := by
  unfold double.roundTo
  rw [if_neg hx.ne']
  simp only [abs_of_pos hx, not_lt.mpr hx.le, if_false, decide_False]

theorem double.magnitude_nonneg (prec : ℕ) (emin : ℤ) {x : ℚ} (hx : 0 ≤ x) :
    0 ≤ (double.roundEven (x / double.pow2 (max (double.exponent x) emin - ((prec : ℤ) - 1))) : ℚ) *
      double.pow2 (max (double.exponent x) emin - ((prec : ℤ) - 1)) := by
  have hp : (0 : ℚ) < double.pow2 (max (double.exponent x) emin - ((prec : ℤ) - 1)) := by
    rw [double.pow2_eq]; exact zpow_pos (by norm_num) _
  apply mul_nonneg _ hp.le
  exact_mod_cast double.roundEven_nonneg (div_nonneg hx hp.le)

theorem double.roundTo_mono (prec : ℕ) (emin emax : ℤ) (hp : 1 ≤ prec) {x y b : ℚ}
    (hx : 0 ≤ x) (hxy : x ≤ y) (hy : double.roundTo prec emin emax y = double.finite b) :
    ∃ a, double.roundTo prec emin emax x = double.finite a ∧ 0 ≤ a ∧ a ≤ b := by
  have hy0 : 0 ≤ y := le_trans hx hxy
  have hb : 0 ≤ b := by
    rcases eq_or_lt_of_le hy0 with h0 | hypos
    · rw [← h0] at hy
      simp only [double.roundTo, if_true, double.finite.injEq] at hy
      exact hy.le
    · rw [double.roundTo_of_pos prec emin emax hypos] at hy
      split_ifs at hy
      cases hy
      exact double.magnitude_nonneg prec emin hy0
  rcases eq_or_lt_of_le hx with h0 | hpos
  · refine ⟨0, ?_, le_rfl, hb⟩
    rw [← h0]; simp [double.roundTo]
  · have hypos : 0 < y := lt_of_lt_of_le hpos hxy
    have hm := double.magnitude_mono prec emin hp hpos hxy
    rw [double.roundTo_of_pos prec emin emax hypos] at hy
    rw [double.roundTo_of_pos prec emin emax hpos]
    split_ifs at hy with h2
    cases hy
    rw [if_neg (fun hc => h2 (le_trans hc hm))]
    exact ⟨_, rfl, double.magnitude_nonneg prec emin hx, hm⟩

theorem double.nearest_mono {x y b : ℚ} (hx : 0 ≤ x) (hxy : x ≤ y)
    (hy : double.nearest y = double.finite b) :
    ∃ a, double.nearest x = double.finite a ∧ 0 ≤ a ∧ a ≤ b :=
  double.roundTo_mono 53 (-1022) 1023 (by norm_num) hx hxy hy

theorem double.nearest_one : double.nearest 1 = double.finite 1 := by decide!

theorem double.nearest_hundred : double.nearest 100 = double.finite 100 := by decide!

theorem double.nearest_DBL_EPSILON : double.nearest DBL_EPSILON = double.finite DBL_EPSILON := by
  decide!

theorem double.nearest_DBL_MAX : double.nearest DBL_MAX = double.finite DBL_MAX := by decide!

theorem double.sub_finite (a b : ℚ) :
    double.sub (double.finite a) (double.finite b) = double.nearest (a - b) := by
  simp only [double.sub, double.neg, double.add, sub_eq_add_neg]

theorem le_maxUpTo (f : ℕ → ℚ) (n j : ℕ) (h : j ≤ n) : f j ≤ maxUpTo f n := by
  induction n with
  | zero =>
    have : j = 0 := by omega
    subst this
    exact le_refl _
  | succ n ih =>
    rcases Nat.lt_or_ge j (n + 1) with hj | hj
    · exact le_trans (ih (by omega)) (le_max_left _ _)
    · have : j = n + 1 := by omega
      subst this
      exact le_max_right _ _

theorem minUpTo_le (f : ℕ → ℚ) (n j : ℕ) (h : j ≤ n) : minUpTo f n ≤ f j := by
  induction n with
  | zero =>
    have : j = 0 := by omega
    subst this
    exact le_refl _
  | succ n ih =>
    rcases Nat.lt_or_ge j (n + 1) with hj | hj
    · exact le_trans (min_le_left _ _) (ih (by omega))
    · have : j = n + 1 := by omega
      subst this
      exact min_le_right _ _

theorem maxUpTo_attained (f : ℕ → ℚ) (n : ℕ) : ∃ j, j ≤ n ∧ maxUpTo f n = f j := by
  induction n with
  | zero => exact ⟨0, le_refl _, rfl⟩
  | succ n ih =>
    obtain ⟨j, hj, hjm⟩ := ih
    rcases le_total (maxUpTo f n) (f (n + 1)) with h | h
    · exact ⟨n + 1, le_refl _, by simp [maxUpTo, h]⟩
    · exact ⟨j, by omega, by rw [maxUpTo, max_eq_left h, hjm]⟩

theorem minUpTo_attained (f : ℕ → ℚ) (n : ℕ) : ∃ j, j ≤ n ∧ minUpTo f n = f j := by
  induction n with
  | zero => exact ⟨0, le_refl _, rfl⟩
  | succ n ih =>
    obtain ⟨j, hj, hjm⟩ := ih
    rcases le_total (minUpTo f n) (f (n + 1)) with h | h
    · exact ⟨j, by omega, by rw [minUpTo, min_eq_left h, hjm]⟩
    · exact ⟨n + 1, le_refl _, by simp [minUpTo, h]⟩

theorem DBL_MAX_pos : 0 < DBL_MAX := by
  unfold DBL_MAX
  norm_num

theorem DBL_EPSILON_pos : 0 < DBL_EPSILON := by
  unfold DBL_EPSILON
  norm_num

namespace TrainingSet

theorem clip_ge (v : ℚ) : -DBL_MAX ≤ clip v := by
  have := DBL_MAX_pos
  simp only [clip]
  split_ifs <;> linarith

theorem clip_le (v : ℚ) : clip v ≤ DBL_MAX := by
  have := DBL_MAX_pos
  simp only [clip]
  split_ifs <;> linarith

/-- Clipping never increases the difference of two values beyond `max 0 (x - y)`. -/
theorem clip_sub_le (x y e : ℚ) (he : 0 ≤ e) (h : x - y ≤ e) : clip x - clip y ≤ e := by
  have := DBL_MAX_pos
  simp only [clip]
  split_ifs <;> linarith

theorem clip_le_class_max (ts : TrainingSet) (c i j : ℕ)
    (hr : ¬ (ts.raw_features c).rows < 1) (hj : j < (ts.raw_features c).cols) :
    clip ((ts.raw_features c).coeff i j) ≤ class_max ts c i := by
  simp only [class_max, hr, if_false]
  exact le_maxUpTo (fun j => clip ((ts.raw_features c).coeff i j)) _ j (by omega)

theorem class_min_le_clip (ts : TrainingSet) (c i j : ℕ)
    (hr : ¬ (ts.raw_features c).rows < 1) (hj : j < (ts.raw_features c).cols) :
    class_min ts c i ≤ clip ((ts.raw_features c).coeff i j) := by
  simp only [class_min, hr, if_false]
  exact minUpTo_le (fun j => clip ((ts.raw_features c).coeff i j)) _ j (by omega)

/-- Every column of `class_max` is the clipped value of some coefficient of a
class with rows, or the filler `-DBL_MAX`. -/
theorem class_max_cases (ts : TrainingSet) (c i : ℕ) (hok : normalizeSizesOk ts)
    (hc : c ≤ ts.class_num) :
    class_max ts c i = -DBL_MAX ∨
      (¬ (ts.raw_features c).rows < 1 ∧ ∃ j, j < (ts.raw_features c).cols ∧
        class_max ts c i = clip ((ts.raw_features c).coeff i j)) := by
  by_cases hr : (ts.raw_features c).rows < 1
  · left; simp [class_max, hr]
  · right
    refine ⟨hr, ?_⟩
    obtain ⟨j, hj, hjm⟩ :=
      maxUpTo_attained (fun j => clip ((ts.raw_features c).coeff i j)) ((ts.raw_features c).cols - 1)
    have hcols : 1 ≤ (ts.raw_features c).cols := by
      rcases hok c hc with h | h
      · exact absurd h hr
      · exact h.2
    exact ⟨j, by omega, by simp only [class_max, hr, if_false]; exact hjm⟩

theorem class_min_cases (ts : TrainingSet) (c i : ℕ) (hok : normalizeSizesOk ts)
    (hc : c ≤ ts.class_num) :
    class_min ts c i = DBL_MAX ∨
      (¬ (ts.raw_features c).rows < 1 ∧ ∃ j, j < (ts.raw_features c).cols ∧
        class_min ts c i = clip ((ts.raw_features c).coeff i j)) := by
  by_cases hr : (ts.raw_features c).rows < 1
  · left; simp [class_min, hr]
  · right
    refine ⟨hr, ?_⟩
    obtain ⟨j, hj, hjm⟩ :=
      minUpTo_attained (fun j => clip ((ts.raw_features c).coeff i j)) ((ts.raw_features c).cols - 1)
    have hcols : 1 ≤ (ts.raw_features c).cols := by
      rcases hok c hc with h | h
      · exact absurd h hr
      · exact h.2
    exact ⟨j, by omega, by simp only [class_min, hr, if_false]; exact hjm⟩

/-- With one coefficient present, the global maximum of a feature is the clipped
value of a coefficient of that feature. -/
theorem global_max_is_coeff (ts : TrainingSet) (i c j : ℕ) (hok : normalizeSizesOk ts)
    (hc : c ≤ ts.class_num) (hr : ¬ (ts.raw_features c).rows < 1)
    (hj : j < (ts.raw_features c).cols) :
    ∃ c1 j1, c1 ≤ ts.class_num ∧ ¬ (ts.raw_features c1).rows < 1 ∧
      j1 < (ts.raw_features c1).cols ∧
      maxUpTo (fun c => class_max ts c i) ts.class_num = clip ((ts.raw_features c1).coeff i j1) := by
  obtain ⟨c1, hc1, hm⟩ := maxUpTo_attained (fun c => class_max ts c i) ts.class_num
  rcases class_max_cases ts c1 i hok hc1 with h | ⟨hr1, j1, hj1, h⟩
  · refine ⟨c, j, hc, hr, hj, ?_⟩
    have h1 : class_max ts c i ≤ maxUpTo (fun c => class_max ts c i) ts.class_num :=
      le_maxUpTo (fun c => class_max ts c i) ts.class_num c hc
    have h2 := clip_le_class_max ts c i j hr hj
    have h3 := clip_ge ((ts.raw_features c).coeff i j)
    have h4 : maxUpTo (fun c => class_max ts c i) ts.class_num = -DBL_MAX := by
      rw [hm]; exact h
    linarith
  · exact ⟨c1, j1, hc1, hr1, hj1, by rw [hm]; exact h⟩

theorem global_min_is_coeff (ts : TrainingSet) (i c j : ℕ) (hok : normalizeSizesOk ts)
    (hc : c ≤ ts.class_num) (hr : ¬ (ts.raw_features c).rows < 1)
    (hj : j < (ts.raw_features c).cols) :
    ∃ c1 j1, c1 ≤ ts.class_num ∧ ¬ (ts.raw_features c1).rows < 1 ∧
      j1 < (ts.raw_features c1).cols ∧
      minUpTo (fun c => class_min ts c i) ts.class_num = clip ((ts.raw_features c1).coeff i j1) := by
  obtain ⟨c1, hc1, hm⟩ := minUpTo_attained (fun c => class_min ts c i) ts.class_num
  rcases class_min_cases ts c1 i hok hc1 with h | ⟨hr1, j1, hj1, h⟩
  · refine ⟨c, j, hc, hr, hj, ?_⟩
    have h1 : minUpTo (fun c => class_min ts c i) ts.class_num ≤ class_min ts c i :=
      minUpTo_le (fun c => class_min ts c i) ts.class_num c hc
    have h2 := class_min_le_clip ts c i j hr hj
    have h3 := clip_le ((ts.raw_features c).coeff i j)
    have h4 : minUpTo (fun c => class_min ts c i) ts.class_num = DBL_MAX := by
      rw [hm]; exact h
    linarith
  · exact ⟨c1, j1, hc1, hr1, hj1, by rw [hm]; exact h⟩

end TrainingSet

/-- In exact arithmetic: for a training set whose class matrices (classes
`0..class_num`) are each either without rows or have `signature_count` rows and
at least one sample column, `normalize` succeeds, keeps the dimensions of every
class matrix, leaves every coefficient of every class matrix in `[0, 100]`, and
sets to exactly `0` every coefficient of a feature whose global range is at most
`DBL_EPSILON`. -/
theorem TrainingSet.normalize_exact_range (ts : TrainingSet)
    (h : ∀ c, c ≤ ts.class_num →
      (ts.raw_features c).rows = 0 ∨
        ((ts.raw_features c).rows = ts.signature_count ∧ 1 ≤ (ts.raw_features c).cols)) :
    ∃ ts', TrainingSet.normalize ts = some ts' ∧
      (∀ c, (ts'.raw_features c).rows = (ts.raw_features c).rows ∧
        (ts'.raw_features c).cols = (ts.raw_features c).cols) ∧
      (∀ c i j, c ≤ ts.class_num → i < (ts.raw_features c).rows →
        j < (ts.raw_features c).cols →
        0 ≤ (ts'.raw_features c).coeff i j ∧ (ts'.raw_features c).coeff i j ≤ 100) ∧
      (∀ i, (∀ c1 j1 c2 j2, c1 ≤ ts.class_num → c2 ≤ ts.class_num →
            i < (ts.raw_features c1).rows → i < (ts.raw_features c2).rows →
            j1 < (ts.raw_features c1).cols → j2 < (ts.raw_features c2).cols →
            (ts.raw_features c1).coeff i j1 - (ts.raw_features c2).coeff i j2 ≤ DBL_EPSILON) →
        ∀ c j, c ≤ ts.class_num → i < (ts.raw_features c).rows →
          j < (ts.raw_features c).cols → (ts'.raw_features c).coeff i j = 0) := by
  have hok : TrainingSet.normalizeSizesOk ts := by
    intro c hc
    rcases h c hc with h0 | h1
    · left; omega
    · right; exact h1
  rw [TrainingSet.normalize, if_pos hok]
  refine ⟨_, rfl, ?_, ?_, ?_⟩
  · intro c
    dsimp only
    split_ifs <;> exact ⟨rfl, rfl⟩
  · intro c i j hc hi hj
    have hr : ¬ (ts.raw_features c).rows < 1 := by omega
    dsimp only
    rw [if_pos hc, if_neg hr]
    dsimp only
    split_ifs with hrange
    · have hmax : TrainingSet.clip ((ts.raw_features c).coeff i j) ≤
          maxUpTo (fun c => TrainingSet.class_max ts c i) ts.class_num :=
        le_trans (TrainingSet.clip_le_class_max ts c i j hr hj)
          (le_maxUpTo (fun c => TrainingSet.class_max ts c i) ts.class_num c hc)
      have hmin : minUpTo (fun c => TrainingSet.class_min ts c i) ts.class_num ≤
          TrainingSet.clip ((ts.raw_features c).coeff i j) :=
        le_trans (minUpTo_le (fun c => TrainingSet.class_min ts c i) ts.class_num c hc)
          (TrainingSet.class_min_le_clip ts c i j hr hj)
      have hpos : 0 < maxUpTo (fun c => TrainingSet.class_max ts c i) ts.class_num -
          minUpTo (fun c => TrainingSet.class_min ts c i) ts.class_num :=
        lt_trans DBL_EPSILON_pos hrange
      constructor
      · apply mul_nonneg _ (by norm_num)
        apply div_nonneg _ (le_of_lt hpos)
        linarith
      · have : (TrainingSet.clip ((ts.raw_features c).coeff i j) -
            minUpTo (fun c => TrainingSet.class_min ts c i) ts.class_num) /
            (maxUpTo (fun c => TrainingSet.class_max ts c i) ts.class_num -
              minUpTo (fun c => TrainingSet.class_min ts c i) ts.class_num) ≤ 1 := by
          rw [div_le_one hpos]
          linarith
        linarith
    · exact ⟨le_refl _, by norm_num⟩
  · intro i hsmall c j hc hi hj
    have hr : ¬ (ts.raw_features c).rows < 1 := by omega
    obtain ⟨c1, j1, hc1, hr1, hj1, hmax⟩ := TrainingSet.global_max_is_coeff ts i c j hok hc hr hj
    obtain ⟨c2, j2, hc2, hr2, hj2, hmin⟩ := TrainingSet.global_min_is_coeff ts i c j hok hc hr hj
    have hi1 : i < (ts.raw_features c1).rows := by
      rcases hok c1 hc1 with h0 | h1
      · exact absurd h0 hr1
      · rcases hok c hc with h0 | h2
        · exact absurd h0 hr
        · omega
    have hi2 : i < (ts.raw_features c2).rows := by
      rcases hok c2 hc2 with h0 | h1
      · exact absurd h0 hr2
      · rcases hok c hc with h0 | h2
        · exact absurd h0 hr
        · omega
    have hle := TrainingSet.clip_sub_le _ _ DBL_EPSILON (le_of_lt DBL_EPSILON_pos)
      (hsmall c1 j1 c2 j2 hc1 hc2 hi1 hi2 hj1 hj2)
    dsimp only
    rw [if_pos hc, if_neg hr]
    dsimp only
    rw [if_neg]
    rw [hmax, hmin]
    exact not_lt.mpr hle

/-- C1 (counterexample).  `wideRangeExample` has one class of two samples and
one feature with the values `DBL_MAX` and `-DBL_MAX`, both left as they are by
the clipping.  Line 1914 computes the range `DBL_MAX - (-DBL_MAX)`, which
overflows to the positive infinity; line 1920 then computes `inf / inf` for the
first sample, which is not a number and lies in no interval, and `0 / inf` for
the second. -/
theorem TrainingSet.normalize_overflow_counterexample :
    (∀ c, c ≤ wideRangeExample.class_num →
      (wideRangeExample.raw_features c).rows = 0 ∨
        ((wideRangeExample.raw_features c).rows = wideRangeExample.signature_count ∧
          1 ≤ (wideRangeExample.raw_features c).cols)) ∧
      TrainingSet.clip DBL_MAX = DBL_MAX ∧ TrainingSet.clip (-DBL_MAX) = -DBL_MAX ∧
      rounded.SignatureRanges wideRangeExample 0 = double.inf false ∧
      (rounded.normalize wideRangeExample).map (fun f => (f 1 0 0, f 1 0 1)) =
        some (double.nan, double.finite 0) := by
  decide!

/-- C1 (amended).  For a training set whose class matrices (classes
`0..class_num`) are each either without rows or have `signature_count` rows and
at least one sample column, and in which the difference between the maximum and
the minimum of the clipped values of each feature, which line 1914 computes, is
at most `DBL_MAX`: `normalize`, with every operation rounded as `double` rounds
it, leaves in every coefficient of every class matrix a number of `[0, 100]`,
and sets to exactly `0` every coefficient of a feature whose global range is at
most `DBL_EPSILON`. -/
theorem TrainingSet.normalize_in_range (ts : TrainingSet)
    (h : ∀ c, c ≤ ts.class_num →
      (ts.raw_features c).rows = 0 ∨
        ((ts.raw_features c).rows = ts.signature_count ∧ 1 ≤ (ts.raw_features c).cols))
    (hrange : ∀ i, i < ts.signature_count →
      maxUpTo (fun c => TrainingSet.class_max ts c i) ts.class_num -
        minUpTo (fun c => TrainingSet.class_min ts c i) ts.class_num ≤ DBL_MAX) :
    ∃ f, rounded.normalize ts = some f ∧
      (∀ c i j, c ≤ ts.class_num → i < (ts.raw_features c).rows →
        j < (ts.raw_features c).cols →
        ∃ r : ℚ, f c i j = double.finite r ∧ 0 ≤ r ∧ r ≤ 100) ∧
      (∀ i, (∀ c1 j1 c2 j2, c1 ≤ ts.class_num → c2 ≤ ts.class_num →
            i < (ts.raw_features c1).rows → i < (ts.raw_features c2).rows →
            j1 < (ts.raw_features c1).cols → j2 < (ts.raw_features c2).cols →
            (ts.raw_features c1).coeff i j1 - (ts.raw_features c2).coeff i j2 ≤ DBL_EPSILON) →
        ∀ c j, c ≤ ts.class_num → i < (ts.raw_features c).rows →
          j < (ts.raw_features c).cols → f c i j = double.finite 0) := by
  have hok : TrainingSet.normalizeSizesOk ts := by
    intro c hc
    rcases h c hc with h0 | h1
    · left; omega
    · right; exact h1
  rw [rounded.normalize, if_pos hok]
  refine ⟨_, rfl, ?_, ?_⟩
  · intro c i j hc hi hj
    have hr : ¬ (ts.raw_features c).rows < 1 := by omega
    have hisig : i < ts.signature_count := by
      rcases hok c hc with h0 | h1
      · exact absurd h0 hr
      · omega
    have hmax : TrainingSet.clip ((ts.raw_features c).coeff i j) ≤
        maxUpTo (fun c => TrainingSet.class_max ts c i) ts.class_num :=
      le_trans (TrainingSet.clip_le_class_max ts c i j hr hj)
        (le_maxUpTo (fun c => TrainingSet.class_max ts c i) ts.class_num c hc)
    have hmin : minUpTo (fun c => TrainingSet.class_min ts c i) ts.class_num ≤
        TrainingSet.clip ((ts.raw_features c).coeff i j) :=
      le_trans (minUpTo_le (fun c => TrainingSet.class_min ts c i) ts.class_num c hc)
        (TrainingSet.class_min_le_clip ts c i j hr hj)
    obtain ⟨ρ, hρ, hρ0, _⟩ := double.nearest_mono
      (by linarith : (0 : ℚ) ≤ maxUpTo (fun c => TrainingSet.class_max ts c i) ts.class_num -
        minUpTo (fun c => TrainingSet.class_min ts c i) ts.class_num)
      (hrange i hisig) double.nearest_DBL_MAX
    have hR : rounded.SignatureRanges ts i = double.finite ρ := by
      rw [rounded.SignatureRanges, double.sub_finite, hρ]
    dsimp only
    rw [if_pos ⟨hc, hr⟩, hR]
    by_cases hlt : DBL_EPSILON < ρ
    · rw [if_pos (by simp only [double.lt, decide_eq_true_eq]; exact hlt)]
      have hρpos : 0 < ρ := lt_trans DBL_EPSILON_pos hlt
      obtain ⟨α, hα, hα0, hαρ⟩ := double.nearest_mono
        (by linarith : (0 : ℚ) ≤ TrainingSet.clip ((ts.raw_features c).coeff i j) -
          minUpTo (fun c => TrainingSet.class_min ts c i) ts.class_num)
        (by linarith : TrainingSet.clip ((ts.raw_features c).coeff i j) -
            minUpTo (fun c => TrainingSet.class_min ts c i) ts.class_num ≤
          maxUpTo (fun c => TrainingSet.class_max ts c i) ts.class_num -
            minUpTo (fun c => TrainingSet.class_min ts c i) ts.class_num) hρ
      obtain ⟨κ, hκ, hκ0, hκ1⟩ := double.nearest_mono (div_nonneg hα0 hρ0)
        ((div_le_one hρpos).mpr hαρ) double.nearest_one
      obtain ⟨r, hr1, hr0, hr100⟩ := double.nearest_mono
        (mul_nonneg hκ0 (by norm_num : (0 : ℚ) ≤ 100))
        (by linarith : κ * 100 ≤ 100) double.nearest_hundred
      refine ⟨r, ?_, hr0, hr100⟩
      rw [double.sub_finite, hα]
      simp only [double.div, if_neg hρpos.ne', hκ, double.mul, hr1]
    · rw [if_neg (by simp only [double.lt, decide_eq_true_eq]; exact hlt)]
      exact ⟨0, rfl, le_refl _, by norm_num⟩
  · intro i hsmall c j hc hi hj
    have hr : ¬ (ts.raw_features c).rows < 1 := by omega
    obtain ⟨c1, j1, hc1, hr1, hj1, hmax⟩ := TrainingSet.global_max_is_coeff ts i c j hok hc hr hj
    obtain ⟨c2, j2, hc2, hr2, hj2, hmin⟩ := TrainingSet.global_min_is_coeff ts i c j hok hc hr hj
    have hi1 : i < (ts.raw_features c1).rows := by
      rcases hok c1 hc1 with h0 | h1
      · exact absurd h0 hr1
      · rcases hok c hc with h0 | h2
        · exact absurd h0 hr
        · omega
    have hi2 : i < (ts.raw_features c2).rows := by
      rcases hok c2 hc2 with h0 | h1
      · exact absurd h0 hr2
      · rcases hok c hc with h0 | h2
        · exact absurd h0 hr
        · omega
    have hle := TrainingSet.clip_sub_le _ _ DBL_EPSILON (le_of_lt DBL_EPSILON_pos)
      (hsmall c1 j1 c2 j2 hc1 hc2 hi1 hi2 hj1 hj2)
    have hge : (0 : ℚ) ≤ maxUpTo (fun c => TrainingSet.class_max ts c i) ts.class_num -
        minUpTo (fun c => TrainingSet.class_min ts c i) ts.class_num := by
      have h1 := le_trans (TrainingSet.clip_le_class_max ts c i j hr hj)
        (le_maxUpTo (fun c => TrainingSet.class_max ts c i) ts.class_num c hc)
      have h2 := le_trans (minUpTo_le (fun c => TrainingSet.class_min ts c i) ts.class_num c hc)
        (TrainingSet.class_min_le_clip ts c i j hr hj)
      linarith
    rw [← hmax, ← hmin] at hle
    obtain ⟨ρ, hρ, _, hρe⟩ := double.nearest_mono hge hle double.nearest_DBL_EPSILON
    have hR : rounded.SignatureRanges ts i = double.finite ρ := by
      rw [rounded.SignatureRanges, double.sub_finite, hρ]
    dsimp only
    rw [if_pos ⟨hc, hr⟩, hR, if_neg]
    simp only [double.lt, decide_eq_true_eq]
    exact not_lt.mpr hρe

/-- Instance of C1 (amended) on `normalizeExample`, where the two features
range over `[1, 3]` and `[5, 5]`. -/
theorem TrainingSet.normalize_in_range_witness :
    ∃ f, rounded.normalize normalizeExample = some f ∧
      (∀ c i j, c ≤ normalizeExample.class_num → i < (normalizeExample.raw_features c).rows →
        j < (normalizeExample.raw_features c).cols →
        ∃ r : ℚ, f c i j = double.finite r ∧ 0 ≤ r ∧ r ≤ 100) ∧
      (∀ i, (∀ c1 j1 c2 j2, c1 ≤ normalizeExample.class_num → c2 ≤ normalizeExample.class_num →
            i < (normalizeExample.raw_features c1).rows →
            i < (normalizeExample.raw_features c2).rows →
            j1 < (normalizeExample.raw_features c1).cols →
            j2 < (normalizeExample.raw_features c2).cols →
            (normalizeExample.raw_features c1).coeff i j1 -
              (normalizeExample.raw_features c2).coeff i j2 ≤ DBL_EPSILON) →
        ∀ c j, c ≤ normalizeExample.class_num → i < (normalizeExample.raw_features c).rows →
          j < (normalizeExample.raw_features c).cols → f c i j = double.finite 0) :=
  TrainingSet.normalize_in_range normalizeExample (by decide) (by decide!)

/-- On `normalizeExample` the rounded `normalize` turns the values 1 and 3 of the
first feature into 0 and 100 and the constant second feature into 0. -/
theorem TrainingSet.normalize_rounded_normalizeExample :
    (rounded.normalize normalizeExample).map
        (fun f => [f 1 0 0, f 1 0 1, f 1 1 0, f 1 1 1]) =
      some [double.finite 0, double.finite 100, double.finite 0, double.finite 0] := by
  decide!

/-! ### Fisher scores -/

theorem sumTo_eq_sum (f : ℕ → ℚ) (n : ℕ) : sumTo f n = ∑ j ∈ Finset.range n, f j := by
  induction n with
  | zero => simp [sumTo]
  | succ n ih => rw [sumTo, ih, Finset.sum_range_succ]

theorem sumToOpt_eq_some (f : ℕ → Option ℚ) (g : ℕ → ℚ) (n : ℕ)
    (h : ∀ k, k < n → f k = some (g k)) :
    sumToOpt f n = some (∑ k ∈ Finset.range n, g k) := by
  induction n with
  | zero => simp [sumToOpt]
  | succ n ih =>
    rw [sumToOpt, ih (fun k hk => h k (by omega)), h n (by omega), Finset.sum_range_succ]
    rfl

theorem sum_Icc_one_eq_sum_range (h : ℕ → ℚ) (K : ℕ) :
    ∑ c ∈ Finset.Icc 1 K, h c = ∑ k ∈ Finset.range K, h (k + 1) := by
  induction K with
  | zero => simp
  | succ K ih =>
    rw [Finset.sum_Icc_succ_top (by omega), ih, Finset.sum_range_succ]

theorem fdiv_eq_some (x y : ℚ) (hy : y ≠ 0) : fdiv x y = some (x / y) := by
  simp [fdiv, hy]

namespace TrainingSet

theorem class_mean_eq (ts : TrainingSet) (c i : ℕ) (hc : 1 ≤ (ts.raw_features c).cols) :
    class_mean ts c i =
      some (specMean (ts.raw_features c).cols (fun j => (ts.raw_features c).coeff i j)) := by
  have hne : ((ts.raw_features c).cols : ℚ) ≠ 0 := by
    have : (ts.raw_features c).cols ≠ 0 := by omega
    exact_mod_cast this
  simp only [class_mean, specMean]
  rw [fdiv_eq_some _ _ hne, sumTo_eq_sum]

theorem class_var_eq (ts : TrainingSet) (c i : ℕ) (hc : 1 ≤ (ts.raw_features c).cols) :
    class_var ts c i =
      some (specVariance (ts.raw_features c).cols (fun j => (ts.raw_features c).coeff i j)) := by
  have hne : ((ts.raw_features c).cols : ℚ) ≠ 0 := by
    have : (ts.raw_features c).cols ≠ 0 := by omega
    exact_mod_cast this
  simp only [class_var, class_mean_eq ts c i hc, specVariance]
  simp only [Option.bind_eq_bind, Option.some_bind]
  rw [fdiv_eq_some _ _ hne, sumTo_eq_sum]

end TrainingSet

/-- C2. For a discrete training set with `K = class_num > 1` classes, each with
`signature_count` rows and at least one sample, the score `SetFisherScores`
computes for feature `i` before any weight is zeroed is
`[Σ_c (m_c - m̄)² / (K - 1)] / max(DBL_EPSILON, (1/K)·Σ_c v_c)`, with `m_c` the
mean and `v_c` the population variance of the feature over the samples of class
`c`, `m̄` the unweighted mean of the class means, and `c` ranging over `1..K`. -/
theorem TrainingSet.scoredWeight_eq_specFisherScore (pearson : ℕ → ℚ) (ts : TrainingSet)
    (i : ℕ) (hdisc : ts.is_continuous = false) (hK : 1 < ts.class_num)
    (hsz : ∀ c, 1 ≤ c → c ≤ ts.class_num →
      (ts.raw_features c).rows = ts.signature_count ∧ 1 ≤ (ts.raw_features c).cols) :
    TrainingSet.scoredWeight pearson ts i =
      some (specFisherScore ts.class_num (fun c => (ts.raw_features c).cols)
        (fun c j => (ts.raw_features c).coeff i j)) := by
  have hok : TrainingSet.fisherSizesOk ts := fun c h1 h2 => (hsz c h1 h2).1
  have hK' : ts.class_num > 1 := hK
  simp only [TrainingSet.scoredWeight, hok, not_true_eq_false, and_false, if_false, hdisc,
    Bool.false_eq_true, hK', if_true]
  have hmean : ∀ k, k < ts.class_num → TrainingSet.class_mean ts (k + 1) i =
      some (specMean (ts.raw_features (k + 1)).cols
        (fun j => (ts.raw_features (k + 1)).coeff i j)) :=
    fun k hk => TrainingSet.class_mean_eq ts (k + 1) i (hsz (k + 1) (by omega) (by omega)).2
  have hvar : ∀ k, k < ts.class_num → TrainingSet.class_var ts (k + 1) i =
      some (specVariance (ts.raw_features (k + 1)).cols
        (fun j => (ts.raw_features (k + 1)).coeff i j)) :=
    fun k hk => TrainingSet.class_var_eq ts (k + 1) i (hsz (k + 1) (by omega) (by omega)).2
  unfold TrainingSet.fisherScore
  rw [sumToOpt_eq_some _ _ _ hmean, sumToOpt_eq_some _ _ _ hvar]
  simp only [Option.bind_eq_bind, Option.some_bind]
  rw [sumToOpt_eq_some _ (fun k => (specMean (ts.raw_features (k + 1)).cols
        (fun j => (ts.raw_features (k + 1)).coeff i j) -
      (∑ k ∈ Finset.range ts.class_num, specMean (ts.raw_features (k + 1)).cols
        (fun j => (ts.raw_features (k + 1)).coeff i j)) / (ts.class_num : ℚ)) ^ 2) _
    (fun k hk => by rw [hmean k hk]; rfl)]
  simp only [Option.some_bind, specFisherScore, sum_Icc_one_eq_sum_range]
  have hcast : ((ts.class_num - 1 : ℕ) : ℚ) = (ts.class_num : ℚ) - 1 := by
    rw [Nat.cast_sub (le_of_lt hK)]; simp
  rw [hcast]
  have hfloor : ∀ v : ℚ, (if v < DBL_EPSILON then DBL_EPSILON else v) = max DBL_EPSILON v := by
    intro v
    split_ifs with h
    · exact (max_eq_left (le_of_lt h)).symm
    · exact (max_eq_right (not_lt.mp h)).symm
  rw [hfloor]
  congr 3
  ring

/-- Instance of C2 on `fisherExample`. -/
theorem TrainingSet.scoredWeight_eq_specFisherScore_witness :
    TrainingSet.scoredWeight (fun _ => 0) fisherExample 0 =
      some (specFisherScore fisherExample.class_num (fun c => (fisherExample.raw_features c).cols)
        (fun c j => (fisherExample.raw_features c).coeff 0 j)) :=
  TrainingSet.scoredWeight_eq_specFisherScore (fun _ => 0) fisherExample 0 rfl (by decide)
    (by decide)

/-- On `fisherExample` the class means are 2 and 5, the within-class variances 1
and 0, and the score is `4.5 / 0.5 = 9`. -/
theorem TrainingSet.scoredWeight_fisherExample :
    TrainingSet.scoredWeight (fun _ => 0) fisherExample 0 = some 9 := by
  with_unfolding_all decide

/-! ### Selection of the features kept -/

theorem length_sort_by_weight (l : List feature_stats_t) :
    (sort_by_weight l).length = l.length := by
  unfold sort_by_weight
  exact List.length_insertionSort _ l

/-- Whenever `SetFisherScores` returns, the position `last_index` is a valid
index and the number of entries left in `feature_stats`, which is the length of
`ReducedFeatureIndexes`, is `last_index + 1`. -/
theorem TrainingSet.SetFisherScores_kept_length (pearson : ℕ → ℚ) (used_signatures : ℚ)
    (ts ts' : TrainingSet) (stats : List feature_stats_t)
    (h : TrainingSet.SetFisherScores pearson used_signatures ts = some (ts', stats)) :
    0 ≤ ⌊used_signatures * (ts.signature_count : ℚ) + 1 / 2⌋ ∧
      ⌊used_signatures * (ts.signature_count : ℚ) + 1 / 2⌋ < ts.signature_count ∧
      stats.length = ⌊used_signatures * (ts.signature_count : ℚ) + 1 / 2⌋.toNat + 1 ∧
      ts'.ReducedFeatureIndexes.length = stats.length := by
  simp only [TrainingSet.SetFisherScores] at h
  split_ifs at h with h1 h2
  simp only [Option.some.injEq, Prod.mk.injEq] at h
  obtain ⟨hts, hstats⟩ := h
  simp only [length_sort_by_weight, List.length_map, List.length_range] at h2
  refine ⟨h2.1, h2.2, ?_, ?_⟩
  · rw [← hstats, List.length_take, length_sort_by_weight, List.length_map, List.length_range]
    omega
  · rw [← hts, ← hstats]
    simp only [List.length_map]

/-- Every entry `SetFisherScores` leaves in `feature_stats` carries the index of
a feature and the score computed for that feature. -/
theorem TrainingSet.SetFisherScores_stats_weight (pearson : ℕ → ℚ) (used_signatures : ℚ)
    (ts ts' : TrainingSet) (stats : List feature_stats_t)
    (h : TrainingSet.SetFisherScores pearson used_signatures ts = some (ts', stats))
    (s : feature_stats_t) (hs : s ∈ stats) :
    s.index < ts.signature_count ∧
      TrainingSet.scoredWeight pearson ts s.index = some s.weight := by
  simp only [TrainingSet.SetFisherScores] at h
  split_ifs at h with h1 h2
  simp only [Option.some.injEq, Prod.mk.injEq] at h
  obtain ⟨_, hstats⟩ := h
  rw [← hstats] at hs
  have hsorted := List.mem_of_mem_take hs
  unfold sort_by_weight at hsorted
  rw [(List.perm_insertionSort _ _).mem_iff, List.mem_map] at hsorted
  obtain ⟨i, hi, hsi⟩ := hsorted
  have hi' : i < ts.signature_count := List.mem_range.mp hi
  obtain ⟨w, hw⟩ := Option.isSome_iff_exists.mp (h1 i hi')
  rw [← hsi]
  exact ⟨hi', by simp [hw]⟩

/-- C3 (the code keeps one feature more than the claim says).  On
`selectionExample`, four features with the distinct scores `8, 1/2, 9/2, 2`, and
the used fraction `1/2`, `u·n` rounded half up is 2, but `SetFisherScores` leaves
three entries in `feature_stats` (features 0, 2, 3, the three highest scores),
`ReducedFeatureIndexes` has length 3, and only feature 1 gets weight 0. -/
theorem TrainingSet.SetFisherScores_keeps_last_index_plus_one :
    ⌊(1 / 2 : ℚ) * ((4 : ℕ) : ℚ) + 1 / 2⌋ = 2 ∧
    (TrainingSet.SetFisherScores (fun _ => 0) (1 / 2) selectionExample).map
        (fun r => (r.2, r.1.ReducedFeatureIndexes,
          (List.range 4).map r.1.SignatureWeights)) =
      some ([⟨8, 0⟩, ⟨9 / 2, 2⟩, ⟨2, 3⟩], [0, 2, 3], [8, 0, 9 / 2, 2]) := by
  decide!

/-! ### `distance` -/

/-- The function `examplePowInv` is the exact root where the examples call it:
the value is not negative and its `power`-th power is the argument. -/
theorem examplePowInv_exact :
    (∀ x, examplePowInv x 1 = x) ∧
      examplePowInv 0 2 = 0 ∧ examplePowInv 1 2 = 1 ∧
      0 ≤ examplePowInv (10 ^ 402) 2 ∧ examplePowInv (10 ^ 402) 2 ^ 2 = 10 ^ 402 := by
  refine ⟨fun x => ?_, by decide!, by decide!, by decide!, by decide!⟩
  simp [examplePowInv]

/-- C4 (counterexample).  With one feature of weight 1, the samples `a = (0)`
and `b = (1)` and the power 1, `distance` returns `-1` (the signed difference
`0 - 1` is raised to the power), while `(Σ_i w_i · |a_i - b_i|^p)^(1/p)` is 1. -/
theorem TrainingSet.distance_power_one_counterexample :
    TrainingSet.distance examplePowInv oneFeature (constSample 0 0 "a") (constSample 1 0 "b") 1 =
        -1 ∧
      specMinkowski examplePowInv oneFeature.SignatureWeights oneFeature.signature_count
        (constSample 0 0 "a").data (constSample 1 0 "b").data 1 = 1 := by
  decide!

/-- C4 (amended).  `distance(a, b, p)` raises the signed difference
`a_i - b_i` to the power `p`; for every even power `p`, in particular the
Euclidean `p = 2`, it equals `(Σ_i w_i · |a_i - b_i|^p)^(1/p)`, the sum running
over all `signature_count` features. -/
theorem TrainingSet.distance_eq_specMinkowski_of_even (powInv : ℚ → ℕ → ℚ) (ts : TrainingSet)
    (sample1 sample2 : signatures) (power : ℕ) (hp : Even power) :
    TrainingSet.distance powInv ts sample1 sample2 power =
      specMinkowski powInv ts.SignatureWeights ts.signature_count sample1.data sample2.data
        power := by
  unfold TrainingSet.distance specMinkowski
  rw [sumTo_eq_sum]
  congr 1
  apply Finset.sum_congr rfl
  intro i _
  rw [pow_one, Even.pow_abs hp]

/-- Instance of C4 (amended) at the Euclidean power 2. -/
theorem TrainingSet.distance_eq_specMinkowski_of_even_witness :
    TrainingSet.distance examplePowInv oneFeature (constSample 0 0 "a") (constSample 1 0 "b") 2 =
      specMinkowski examplePowInv oneFeature.SignatureWeights oneFeature.signature_count
        (constSample 0 0 "a").data (constSample 1 0 "b").data 2 :=
  TrainingSet.distance_eq_specMinkowski_of_even examplePowInv oneFeature (constSample 0 0 "a")
    (constSample 1 0 "b") 2 (by decide)

/-! ### `WNNclassify` -/

namespace TrainingSet

theorem WNNstep_closest_dist (powInv : ℚ → ℕ → ℚ) (INF : ℚ) (ts : TrainingSet)
    (test : signatures) (st : WNNstate) (n : ℕ) :
    (WNNstep powInv INF ts test st n).closest_dist =
      if WNNdist powInv INF ts test n < st.closest_dist then WNNdist powInv INF ts test n
      else st.closest_dist := by
  simp only [WNNstep]
  split_ifs <;> rfl

theorem WNNstep_most_probable_class (powInv : ℚ → ℕ → ℚ) (INF : ℚ) (ts : TrainingSet)
    (test : signatures) (st : WNNstate) (n : ℕ) :
    (WNNstep powInv INF ts test st n).most_probable_class =
      if WNNdist powInv INF ts test n < st.closest_dist then (sampleAt ts n).sample_class
      else st.most_probable_class := by
  simp only [WNNstep]
  split_ifs <;> rfl

theorem WNNstep_closest_sample (powInv : ℚ → ℕ → ℚ) (INF : ℚ) (ts : TrainingSet)
    (test : signatures) (st : WNNstate) (n : ℕ) :
    (WNNstep powInv INF ts test st n).closest_sample =
      if WNNdist powInv INF ts test n < st.closest_dist then some n
      else st.closest_sample := by
  simp only [WNNstep]
  split_ifs <;> rfl

theorem WNNstep_probabilities (powInv : ℚ → ℕ → ℚ) (INF : ℚ) (ts : TrainingSet)
    (test : signatures) (st : WNNstate) (n c : ℕ) :
    (WNNstep powInv INF ts test st n).probabilities c =
      if c = (sampleAt ts n).sample_class ∧
          WNNdist powInv INF ts test n < st.probabilities (sampleAt ts n).sample_class
      then WNNdist powInv INF ts test n
      else st.probabilities c := by
  simp only [WNNstep]
  by_cases hc : c = (sampleAt ts n).sample_class
  · subst hc
    split_ifs <;> simp_all [Function.update]
  · split_ifs <;> simp_all [Function.update]

/-- The invariant of the first loop on the closest sample: either nothing has
been found and every distance seen is at least `INF`, or the closest sample is
the first one at the least distance seen, which is below `INF`. -/
theorem WNNloop_closest (powInv : ℚ → ℕ → ℚ) (INF : ℚ) (ts : TrainingSet)
    (test : signatures) (n : ℕ) :
    ((WNNloop powInv INF ts test n).closest_sample = none ∧
        (WNNloop powInv INF ts test n).most_probable_class = 0 ∧
        (WNNloop powInv INF ts test n).closest_dist = INF ∧
        ∀ j, j < n → INF ≤ WNNdist powInv INF ts test j) ∨
      ∃ i, i < n ∧ (WNNloop powInv INF ts test n).closest_sample = some i ∧
        (WNNloop powInv INF ts test n).most_probable_class = (sampleAt ts i).sample_class ∧
        (WNNloop powInv INF ts test n).closest_dist = WNNdist powInv INF ts test i ∧
        WNNdist powInv INF ts test i < INF ∧
        (∀ j, j < n → WNNdist powInv INF ts test i ≤ WNNdist powInv INF ts test j) ∧
        ∀ j, j < i → WNNdist powInv INF ts test i < WNNdist powInv INF ts test j := by
  induction n with
  | zero =>
    left
    exact ⟨rfl, rfl, rfl, fun j hj => absurd hj (Nat.not_lt_zero j)⟩
  | succ n ih =>
    simp only [WNNloop, WNNstep_closest_dist, WNNstep_most_probable_class,
      WNNstep_closest_sample]
    rcases ih with ⟨h1, h2, h3, h4⟩ | ⟨i, hi, h1, h2, h3, h4, h5, h6⟩
    · rw [h3]
      by_cases hlt : WNNdist powInv INF ts test n < INF
      · right
        simp only [hlt, if_true]
        refine ⟨n, Nat.lt_succ_self n, rfl, rfl, rfl, hlt, ?_, ?_⟩
        · intro j hj
          rcases Nat.lt_succ_iff_lt_or_eq.mp hj with hj | hj
          · exact le_of_lt (lt_of_lt_of_le hlt (h4 j hj))
          · rw [hj]
        · intro j hj
          exact lt_of_lt_of_le hlt (h4 j hj)
      · left
        simp only [hlt, if_false]
        refine ⟨h1, h2, trivial, ?_⟩
        intro j hj
        rcases Nat.lt_succ_iff_lt_or_eq.mp hj with hj | hj
        · exact h4 j hj
        · rw [hj]; exact not_lt.mp hlt
    · right
      rw [h3]
      by_cases hlt : WNNdist powInv INF ts test n < WNNdist powInv INF ts test i
      · simp only [hlt, if_true]
        refine ⟨n, Nat.lt_succ_self n, rfl, rfl, rfl, lt_trans hlt h4, ?_, ?_⟩
        · intro j hj
          rcases Nat.lt_succ_iff_lt_or_eq.mp hj with hj | hj
          · exact le_of_lt (lt_of_lt_of_le hlt (h5 j hj))
          · rw [hj]
        · intro j hj
          exact lt_of_lt_of_le hlt (h5 j hj)
      · simp only [hlt, if_false]
        refine ⟨i, Nat.lt_succ_of_lt hi, h1, h2, rfl, h4, ?_, h6⟩
        intro j hj
        rcases Nat.lt_succ_iff_lt_or_eq.mp hj with hj | hj
        · exact h5 j hj
        · rw [hj]; exact not_lt.mp hlt

/-- The invariant of the first loop on `probabilities[c]`: it is `INF` and every
distance seen in class `c` is at least `INF`, or it is the least distance seen
in class `c`, which is below `INF`. -/
theorem WNNloop_probabilities (powInv : ℚ → ℕ → ℚ) (INF : ℚ) (ts : TrainingSet)
    (test : signatures) (n c : ℕ) :
    ((WNNloop powInv INF ts test n).probabilities c = INF ∧
        ∀ j, j < n → (sampleAt ts j).sample_class = c → INF ≤ WNNdist powInv INF ts test j) ∨
      ∃ i, i < n ∧ (sampleAt ts i).sample_class = c ∧
        (WNNloop powInv INF ts test n).probabilities c = WNNdist powInv INF ts test i ∧
        WNNdist powInv INF ts test i < INF ∧
        ∀ j, j < n → (sampleAt ts j).sample_class = c →
          WNNdist powInv INF ts test i ≤ WNNdist powInv INF ts test j := by
  induction n with
  | zero =>
    left
    exact ⟨rfl, fun j hj => absurd hj (Nat.not_lt_zero j)⟩
  | succ n ih =>
    simp only [WNNloop, WNNstep_probabilities]
    by_cases hc : c = (sampleAt ts n).sample_class
    · rw [← hc]
      rcases ih with ⟨h1, h2⟩ | ⟨i, hi, hci, h1, h2, h3⟩
      · rw [h1]
        by_cases hlt : WNNdist powInv INF ts test n < INF
        · right
          simp only [hlt, and_self, if_true]
          refine ⟨n, Nat.lt_succ_self n, hc.symm, rfl, hlt, ?_⟩
          intro j hj hcj
          rcases Nat.lt_succ_iff_lt_or_eq.mp hj with hj | hj
          · exact le_of_lt (lt_of_lt_of_le hlt (h2 j hj hcj))
          · rw [hj]
        · left
          simp only [hlt, and_false, if_false]
          refine ⟨trivial, ?_⟩
          intro j hj hcj
          rcases Nat.lt_succ_iff_lt_or_eq.mp hj with hj | hj
          · exact h2 j hj hcj
          · rw [hj]; exact not_lt.mp hlt
      · right
        rw [h1]
        by_cases hlt : WNNdist powInv INF ts test n < WNNdist powInv INF ts test i
        · simp only [hlt, and_self, if_true]
          refine ⟨n, Nat.lt_succ_self n, hc.symm, rfl, lt_trans hlt h2, ?_⟩
          intro j hj hcj
          rcases Nat.lt_succ_iff_lt_or_eq.mp hj with hj | hj
          · exact le_of_lt (lt_of_lt_of_le hlt (h3 j hj hcj))
          · rw [hj]
        · simp only [hlt, and_false, if_false]
          refine ⟨i, Nat.lt_succ_of_lt hi, hci, rfl, h2, ?_⟩
          intro j hj hcj
          rcases Nat.lt_succ_iff_lt_or_eq.mp hj with hj | hj
          · exact h3 j hj hcj
          · rw [hj]; exact not_lt.mp hlt
    · simp only [hc, false_and, if_false]
      rcases ih with ⟨h1, h2⟩ | ⟨i, hi, hci, h1, h2, h3⟩
      · left
        refine ⟨h1, ?_⟩
        intro j hj hcj
        rcases Nat.lt_succ_iff_lt_or_eq.mp hj with hj | hj
        · exact h2 j hj hcj
        · rw [hj] at hcj; exact absurd hcj.symm hc
      · right
        refine ⟨i, Nat.lt_succ_of_lt hi, hci, h1, h2, ?_⟩
        intro j hj hcj
        rcases Nat.lt_succ_iff_lt_or_eq.mp hj with hj | hj
        · exact h3 j hj hcj
        · rw [hj] at hcj; exact absurd hcj.symm hc

end TrainingSet


namespace TrainingSet

theorem WNNdist_lt_INF_iff (powInv : ℚ → ℕ → ℚ) (INF : ℚ) (ts : TrainingSet)
    (test : signatures) (j : ℕ) :
    WNNdist powInv INF ts test j < INF ↔ ¬ WNNexcluded powInv INF ts test j := by
  simp only [WNNdist, WNNexcluded]
  split_ifs with h
  · constructor
    · intro hlt; exact absurd hlt (lt_irrefl _)
    · intro hne
      rcases h with h | h
      · exact absurd (Or.inr (Or.inl h)) hne
      · exact absurd (Or.inl h) hne
  · constructor
    · intro hlt hex
      rcases hex with hex | hex | hex
      · exact h (Or.inr hex)
      · exact h (Or.inl hex)
      · exact absurd hlt (not_lt.mpr hex)
    · intro hne
      exact not_le.mp (fun hle => hne (Or.inr (Or.inr hle)))

theorem WNNdist_eq_distance (powInv : ℚ → ℕ → ℚ) (INF : ℚ) (ts : TrainingSet)
    (test : signatures) (j : ℕ) (h : ¬ WNNexcluded powInv INF ts test j) :
    WNNdist powInv INF ts test j = distance powInv ts test (sampleAt ts j) 2 := by
  simp only [WNNdist]
  rw [if_neg]
  intro hex
  rcases hex with hex | hex
  · exact h (Or.inr (Or.inl hex))
  · exact h (Or.inl hex)

end TrainingSet

namespace TrainingSet

theorem WNNdist_pos (powInv : ℚ → ℕ → ℚ) (INF : ℚ) (ts : TrainingSet) (test : signatures)
    (j : ℕ) (hINF : 0 < INF) : 0 < WNNdist powInv INF ts test j := by
  simp only [WNNdist]
  split_ifs with h
  · exact hINF
  · have h1 : ¬ distance powInv ts test (sampleAt ts j) 2 < 1 / INF := fun hlt => h (Or.inl hlt)
    exact lt_of_lt_of_le (one_div_pos.mpr hINF) (not_lt.mp h1)

/-- When the first loop ends, every `probabilities[c]` is positive. -/
theorem WNNloop_probabilities_pos (powInv : ℚ → ℕ → ℚ) (INF : ℚ) (ts : TrainingSet)
    (test : signatures) (n c : ℕ) (hINF : 0 < INF) :
    0 < (WNNloop powInv INF ts test n).probabilities c := by
  rcases WNNloop_probabilities powInv INF ts test n c with ⟨h1, _⟩ | ⟨i, _, _, h1, _, _⟩
  · rw [h1]; exact hINF
  · rw [h1]; exact WNNdist_pos powInv INF ts test i hINF

/-- The normalization factor is the sum of the inverted class distances. -/
theorem WNNclassify_normalization_factor (powInv : ℚ → ℕ → ℚ) (INF : ℚ) (ts : TrainingSet)
    (test : signatures) (hINF : 0 < INF) :
    (WNNclassify powInv INF ts test).normalization_factor =
      ∑ k ∈ Finset.range ts.class_num,
        1 / (WNNloop powInv INF ts test ts.samples.length).probabilities (k + 1) := by
  simp only [WNNclassify]
  rw [sumTo_eq_sum]
  apply Finset.sum_congr rfl
  intro k _
  rw [if_pos (ne_of_gt (WNNloop_probabilities_pos powInv INF ts test _ _ hINF))]

theorem WNNclassify_normalization_factor_pos (powInv : ℚ → ℕ → ℚ) (INF : ℚ) (ts : TrainingSet)
    (test : signatures) (hINF : 0 < INF) (hK : 1 ≤ ts.class_num) :
    0 < (WNNclassify powInv INF ts test).normalization_factor := by
  rw [WNNclassify_normalization_factor powInv INF ts test hINF]
  apply Finset.sum_pos
  · intro k _
    exact one_div_pos.mpr (WNNloop_probabilities_pos powInv INF ts test _ _ hINF)
  · exact ⟨0, Finset.mem_range.mpr (by omega)⟩

/-- The probability written for a class `c` in `1..class_num`. -/
theorem WNNclassify_probabilities_eq (powInv : ℚ → ℕ → ℚ) (INF : ℚ) (ts : TrainingSet)
    (test : signatures) (hINF : 0 < INF) (c : ℕ) (h1 : 1 ≤ c) (h2 : c ≤ ts.class_num) :
    (WNNclassify powInv INF ts test).probabilities c =
      (1 / (WNNloop powInv INF ts test ts.samples.length).probabilities c) /
        (WNNclassify powInv INF ts test).normalization_factor := by
  have hpos := WNNclassify_normalization_factor_pos powInv INF ts test hINF (le_trans h1 h2)
  have hp := WNNloop_probabilities_pos powInv INF ts test ts.samples.length c hINF
  simp only [WNNclassify] at hpos ⊢
  rw [if_pos ⟨h1, h2⟩, if_neg (ne_of_gt hpos), if_neg (ne_of_gt hp)]

end TrainingSet

/-- With one class, no training sample and `INF = 10^201`, no class has a
training sample at a finite distance, yet in exact arithmetic too `WNNclassify`
writes the probability 1 for class 1. -/
theorem TrainingSet.WNNclassify_noSampleExample :
    noSampleExample.class_num = 1 ∧ noSampleExample.samples.length = 0 ∧
      (TrainingSet.WNNclassify examplePowInv exampleINF noSampleExample
        (constSample 0 0 "t")).probabilities 1 = 1 ∧
      sumTo (fun k => (TrainingSet.WNNclassify examplePowInv exampleINF noSampleExample
        (constSample 0 0 "t")).probabilities (k + 1)) noSampleExample.class_num = 1 := by
  decide!

/-- C7 (counterexample).  Evaluated as `double` evaluates it, with
`INF = 10^201`.  On `twoDistancesExample` the two classes have a training sample
at the distances 1 and 9 of the test sample `(0)`; `sum_dists` is the `double`
nearest to `1 + 1/9`, and the two probabilities written are
`2026619832316723 / 2^51` and `7205759403792793 / 2^56`: their sum is
`1 - 7/2^56`, and added as `double` values they give `1 - 2^-53`, not 1.  On
`noSampleExample`, one class without a training sample, `probabilities[1]` keeps
the value `INF`, `sum_dists` is `1/INF`, and the probability written for class 1
is 1, not 0. -/
theorem TrainingSet.WNNclassify_sum_counterexample :
    (List.range 2).map
        (fun j => rounded.distance examplePow twoDistancesExample (constSample 0 0 "t")
          (twoDistancesExample.sampleAt j) (double.finite 2)) =
        [double.finite 1, double.finite 9] ∧
      (List.range 2).map
        (fun k => (rounded.WNNclassify examplePow exampleINFdouble twoDistancesExample
          (constSample 0 0 "t")).probabilities (k + 1)) =
        [double.finite (2026619832316723 / 2 ^ 51), double.finite (7205759403792793 / 2 ^ 56)] ∧
      (2026619832316723 / 2 ^ 51 + 7205759403792793 / 2 ^ 56 : ℚ) = 1 - 7 / 2 ^ 56 ∧
      double.add (double.finite (2026619832316723 / 2 ^ 51))
        (double.finite (7205759403792793 / 2 ^ 56)) = double.finite (1 - 1 / 2 ^ 53) ∧
      noSampleExample.class_num = 1 ∧ noSampleExample.samples.length = 0 ∧
      (rounded.WNNclassify examplePow exampleINFdouble noSampleExample
        (constSample 0 0 "t")).probabilities 1 = double.finite 1 := by
  decide!

/-- C7 (amended).  For `INF > 0`, a training set with `K ≥ 1` classes and a test
sample such that every class of `1..K` has a training sample that is not
excluded (a sample at a finite distance): the probability `WNNclassify` writes
for a class is `(1/d) / normalization_factor`, where `d` is the distance of a
sample of the class that is not excluded and is not farther than any other such
sample of the class; in exact arithmetic these probabilities are positive and
sum to exactly 1. -/
theorem TrainingSet.WNNclassify_probabilities_sum (powInv : ℚ → ℕ → ℚ) (INF : ℚ)
    (ts : TrainingSet) (test : signatures) (hINF : 0 < INF) (hK : 1 ≤ ts.class_num)
    (hfin : ∀ c, c < ts.class_num → ∃ j, j < ts.samples.length ∧
      (ts.sampleAt j).sample_class = c + 1 ∧ ¬ TrainingSet.WNNexcluded powInv INF ts test j) :
    (∀ c, c < ts.class_num → ∃ i, i < ts.samples.length ∧
        (ts.sampleAt i).sample_class = c + 1 ∧
        ¬ TrainingSet.WNNexcluded powInv INF ts test i ∧
        (∀ j, j < ts.samples.length → (ts.sampleAt j).sample_class = c + 1 →
          ¬ TrainingSet.WNNexcluded powInv INF ts test j →
          ts.distance powInv test (ts.sampleAt i) 2 ≤ ts.distance powInv test (ts.sampleAt j) 2) ∧
        (TrainingSet.WNNclassify powInv INF ts test).probabilities (c + 1) =
          (1 / ts.distance powInv test (ts.sampleAt i) 2) /
            (TrainingSet.WNNclassify powInv INF ts test).normalization_factor ∧
        0 < (TrainingSet.WNNclassify powInv INF ts test).probabilities (c + 1)) ∧
      sumTo (fun k => (TrainingSet.WNNclassify powInv INF ts test).probabilities (k + 1))
        ts.class_num = 1 := by
  have hpos := TrainingSet.WNNclassify_normalization_factor_pos powInv INF ts test hINF hK
  refine ⟨?_, ?_⟩
  · intro c hc
    have hprob := TrainingSet.WNNclassify_probabilities_eq powInv INF ts test hINF (c + 1)
      (by omega) (by omega)
    have hppos : 0 < (TrainingSet.WNNclassify powInv INF ts test).probabilities (c + 1) := by
      rw [hprob]
      exact div_pos (one_div_pos.mpr
        (TrainingSet.WNNloop_probabilities_pos powInv INF ts test _ _ hINF)) hpos
    rcases TrainingSet.WNNloop_probabilities powInv INF ts test ts.samples.length (c + 1) with
      ⟨_, h2⟩ | ⟨i, hi, hci, h1, h4, h5⟩
    · obtain ⟨j, hj, hcj, hex⟩ := hfin c hc
      have hlt := (TrainingSet.WNNdist_lt_INF_iff powInv INF ts test j).mpr hex
      exact absurd (h2 j hj hcj) (not_le.mpr hlt)
    · have hexi := (TrainingSet.WNNdist_lt_INF_iff powInv INF ts test i).mp h4
      refine ⟨i, hi, hci, hexi, ?_, ?_, hppos⟩
      · intro j hj hcj hexj
        have := h5 j hj hcj
        rwa [TrainingSet.WNNdist_eq_distance powInv INF ts test i hexi,
          TrainingSet.WNNdist_eq_distance powInv INF ts test j hexj] at this
      · rw [hprob, h1, TrainingSet.WNNdist_eq_distance powInv INF ts test i hexi]
  · rw [sumTo_eq_sum]
    have hterm : ∀ k ∈ Finset.range ts.class_num,
        (TrainingSet.WNNclassify powInv INF ts test).probabilities (k + 1) =
          (1 / (TrainingSet.WNNloop powInv INF ts test ts.samples.length).probabilities (k + 1)) /
            (TrainingSet.WNNclassify powInv INF ts test).normalization_factor := by
      intro k hk
      have := Finset.mem_range.mp hk
      exact TrainingSet.WNNclassify_probabilities_eq powInv INF ts test hINF (k + 1)
        (by omega) (by omega)
    rw [Finset.sum_congr rfl hterm, ← Finset.sum_div,
      ← TrainingSet.WNNclassify_normalization_factor powInv INF ts test hINF]
    exact div_self (ne_of_gt hpos)

/-- Instance of C7 (amended) on `twoDistancesExample`, where the two classes are
at the distances 1 and 9 of the test sample `(0)`; the library call
`pow(x, 1/2)` is the exact square root of the squares 1 and 81. -/
theorem TrainingSet.WNNclassify_probabilities_sum_witness :
    (∀ c, c < twoDistancesExample.class_num → ∃ i, i < twoDistancesExample.samples.length ∧
        (twoDistancesExample.sampleAt i).sample_class = c + 1 ∧
        ¬ TrainingSet.WNNexcluded (fun x _ => exampleSqrt x) exampleINF twoDistancesExample
          (constSample 0 0 "t") i ∧
        (∀ j, j < twoDistancesExample.samples.length →
          (twoDistancesExample.sampleAt j).sample_class = c + 1 →
          ¬ TrainingSet.WNNexcluded (fun x _ => exampleSqrt x) exampleINF twoDistancesExample
            (constSample 0 0 "t") j →
          twoDistancesExample.distance (fun x _ => exampleSqrt x) (constSample 0 0 "t")
              (twoDistancesExample.sampleAt i) 2 ≤
            twoDistancesExample.distance (fun x _ => exampleSqrt x) (constSample 0 0 "t")
              (twoDistancesExample.sampleAt j) 2) ∧
        (TrainingSet.WNNclassify (fun x _ => exampleSqrt x) exampleINF twoDistancesExample
            (constSample 0 0 "t")).probabilities (c + 1) =
          (1 / twoDistancesExample.distance (fun x _ => exampleSqrt x) (constSample 0 0 "t")
              (twoDistancesExample.sampleAt i) 2) /
            (TrainingSet.WNNclassify (fun x _ => exampleSqrt x) exampleINF twoDistancesExample
              (constSample 0 0 "t")).normalization_factor ∧
        0 < (TrainingSet.WNNclassify (fun x _ => exampleSqrt x) exampleINF twoDistancesExample
          (constSample 0 0 "t")).probabilities (c + 1)) ∧
      sumTo (fun k => (TrainingSet.WNNclassify (fun x _ => exampleSqrt x) exampleINF twoDistancesExample
        (constSample 0 0 "t")).probabilities (k + 1)) twoDistancesExample.class_num = 1 :=
  TrainingSet.WNNclassify_probabilities_sum (fun x _ => exampleSqrt x) exampleINF twoDistancesExample
    (constSample 0 0 "t") (by decide!) (by decide) (by decide!)

/-- In exact arithmetic, with the exact square roots of 1 and 81, the
probabilities written on `twoDistancesExample` are `9/10` and `1/10`. -/
theorem TrainingSet.WNNclassify_twoDistancesExample :
    (TrainingSet.WNNclassify (fun x _ => exampleSqrt x) exampleINF twoDistancesExample
        (constSample 0 0 "t")).probabilities 1 = 9 / 10 ∧
      (TrainingSet.WNNclassify (fun x _ => exampleSqrt x) exampleINF twoDistancesExample
        (constSample 0 0 "t")).probabilities 2 = 1 / 10 := by
  decide!

theorem sumTo_eq_zero (f : ℕ → ℚ) (n : ℕ) (h : ∀ i, i < n → f i = 0) : sumTo f n = 0 := by
  induction n with
  | zero => rfl
  | succ n ih => rw [sumTo, ih (fun i hi => h i (by omega)), h n (by omega), add_zero]

/-- A sample whose features equal those of the test sample is at distance
`pow(0, 1/2)`. -/
theorem TrainingSet.distance_of_equal_data (powInv : ℚ → ℕ → ℚ) (ts : TrainingSet)
    (a b : signatures) (power : ℕ) (hp : power ≠ 0)
    (heq : ∀ i, i < ts.signature_count → a.data i = b.data i) :
    TrainingSet.distance powInv ts a b power = powInv 0 power := by
  unfold TrainingSet.distance
  rw [sumTo_eq_zero]
  intro i hi
  rw [heq i hi, sub_self, zero_pow hp, mul_zero]

/-- C9 (counterexample).  Evaluated as `double` evaluates it, with
`INF = 10^201`, one feature of weight 1 and the training samples `(0)` of class
1 and `(1)` of class 2: a test sample `(0)` under a path of its own has the
feature vector of training sample 0, at the distance 0; `WNNclassify` returns
class 2, sets `closest_sample` to sample 1, and writes for class 1, the class of
the identical sample, the probability `1/INF`, and for class 2 the
probability 1. -/
theorem TrainingSet.WNNclassify_identical_sample_counterexample :
    (∀ i, i < twoSamplesExample.signature_count →
        (constSample 0 0 "t").data i = (twoSamplesExample.sampleAt 0).data i) ∧
      (∀ j, j < twoSamplesExample.samples.length →
        (twoSamplesExample.sampleAt j).full_path ≠ (constSample 0 0 "t").full_path) ∧
      (twoSamplesExample.sampleAt 0).sample_class = 1 ∧
      rounded.distance examplePow twoSamplesExample (constSample 0 0 "t")
        (twoSamplesExample.sampleAt 0) (double.finite 2) = double.finite 0 ∧
      (rounded.WNNclassify examplePow exampleINFdouble twoSamplesExample
        (constSample 0 0 "t")).most_probable_class = 2 ∧
      (rounded.WNNclassify examplePow exampleINFdouble twoSamplesExample
        (constSample 0 0 "t")).closest_sample = some 1 ∧
      (rounded.WNNclassify examplePow exampleINFdouble twoSamplesExample
        (constSample 0 0 "t")).probabilities 1 = double.div (double.finite 1) exampleINFdouble ∧
      double.lt (double.div (double.finite 1) exampleINFdouble) (double.finite (1 / 10 ^ 200)) =
        true ∧
      (rounded.WNNclassify examplePow exampleINFdouble twoSamplesExample
        (constSample 0 0 "t")).probabilities 2 = double.finite 1 := by
  decide!

/-- C9 (amended).  For `INF > 0` and a library with `pow(0, 1/2) = 0`, when the
feature vector of the test sample is exactly equal to that of training sample
`s`, the sample `s` is excluded (its distance 0 is below `1/INF`):
`closest_sample` is never set to `s`; `WNNclassify` either returns 0 and does not
write `closest_sample`, or returns the class of another training sample, whose
distance is at least `1/INF`, and sets `closest_sample` to it. -/
theorem TrainingSet.WNNclassify_identical_sample_excluded (powInv : ℚ → ℕ → ℚ) (INF : ℚ)
    (ts : TrainingSet) (test : signatures) (s : ℕ) (hINF : 0 < INF)
    (hroot : powInv 0 2 = 0)
    (heq : ∀ i, i < ts.signature_count → test.data i = (ts.sampleAt s).data i) :
    TrainingSet.WNNexcluded powInv INF ts test s ∧
      (TrainingSet.WNNclassify powInv INF ts test).closest_sample ≠ some s ∧
      (((TrainingSet.WNNclassify powInv INF ts test).most_probable_class = 0 ∧
          (TrainingSet.WNNclassify powInv INF ts test).closest_sample = none) ∨
        ∃ k, k < ts.samples.length ∧ k ≠ s ∧
          (TrainingSet.WNNclassify powInv INF ts test).closest_sample = some k ∧
          (TrainingSet.WNNclassify powInv INF ts test).most_probable_class =
            (ts.sampleAt k).sample_class ∧
          1 / INF ≤ ts.distance powInv test (ts.sampleAt k) 2) := by
  have hd : ts.distance powInv test (ts.sampleAt s) 2 = 0 := by
    rw [TrainingSet.distance_of_equal_data powInv ts test (ts.sampleAt s) 2 (by decide) heq]
    exact hroot
  have hex : TrainingSet.WNNexcluded powInv INF ts test s := by
    right; left
    rw [hd]
    exact one_div_pos.mpr hINF
  have hinv := TrainingSet.WNNloop_closest powInv INF ts test ts.samples.length
  have hres1 : (TrainingSet.WNNclassify powInv INF ts test).most_probable_class =
      (TrainingSet.WNNloop powInv INF ts test ts.samples.length).most_probable_class := rfl
  have hres2 : (TrainingSet.WNNclassify powInv INF ts test).closest_sample =
      (TrainingSet.WNNloop powInv INF ts test ts.samples.length).closest_sample := rfl
  refine ⟨hex, ?_, ?_⟩
  · rw [hres2]
    intro hsome
    rcases hinv with ⟨h1, _, _, _⟩ | ⟨i, _, h1, _, _, h4, _, _⟩
    · rw [h1] at hsome; exact Option.noConfusion hsome
    · rw [h1] at hsome
      have hij : i = s := Option.some.inj hsome
      rw [hij] at h4
      exact (TrainingSet.WNNdist_lt_INF_iff powInv INF ts test s).mp h4 hex
  · rw [hres1, hres2]
    rcases hinv with ⟨h1, h2, _, _⟩ | ⟨i, hi, h1, h2, _, h4, _, _⟩
    · left; exact ⟨h2, h1⟩
    · right
      have hine := (TrainingSet.WNNdist_lt_INF_iff powInv INF ts test i).mp h4
      refine ⟨i, hi, ?_, h1, h2, ?_⟩
      · intro his
        rw [his] at hine
        exact hine hex
      · exact not_lt.mp (fun hlt => hine (Or.inr (Or.inl hlt)))

/-- Instance of C9 (amended) on `twoSamplesExample`, the test sample `(0)` and
training sample 0. -/
theorem TrainingSet.WNNclassify_identical_sample_excluded_witness :
    TrainingSet.WNNexcluded examplePowInv exampleINF twoSamplesExample (constSample 0 0 "t") 0 ∧
      (TrainingSet.WNNclassify examplePowInv exampleINF twoSamplesExample
        (constSample 0 0 "t")).closest_sample ≠ some 0 ∧
      (((TrainingSet.WNNclassify examplePowInv exampleINF twoSamplesExample
            (constSample 0 0 "t")).most_probable_class = 0 ∧
          (TrainingSet.WNNclassify examplePowInv exampleINF twoSamplesExample
            (constSample 0 0 "t")).closest_sample = none) ∨
        ∃ k, k < twoSamplesExample.samples.length ∧ k ≠ 0 ∧
          (TrainingSet.WNNclassify examplePowInv exampleINF twoSamplesExample
            (constSample 0 0 "t")).closest_sample = some k ∧
          (TrainingSet.WNNclassify examplePowInv exampleINF twoSamplesExample
            (constSample 0 0 "t")).most_probable_class =
            (twoSamplesExample.sampleAt k).sample_class ∧
          1 / exampleINF ≤ twoSamplesExample.distance examplePowInv (constSample 0 0 "t")
            (twoSamplesExample.sampleAt k) 2) :=
  TrainingSet.WNNclassify_identical_sample_excluded examplePowInv exampleINF twoSamplesExample
    (constSample 0 0 "t") 0 (by decide!) (by decide!) (by decide!)

/-! ### `classify2` -/

namespace TrainingSet

theorem classify2dist_eq_spec (ts : TrainingSet) (test : ℕ → ℚ) (c s : ℕ) :
    classify2dist ts test c s = specWNDdist ts test c s := by
  simp only [classify2dist, specWNDdist]
  rw [sumTo_eq_sum]
  apply Finset.sum_congr rfl
  intro i _
  split_ifs
  · rfl
  · ring

theorem num_samples_per_class_eq_card (ts : TrainingSet) (test : ℕ → ℚ) (c : ℕ) :
    num_samples_per_class ts test c = (specQualifying ts test c).card := by
  simp only [num_samples_per_class, specQualifying, classify2dist_eq_spec]
  rfl

theorem class_similarities_sum_eq (ts : TrainingSet) (test : ℕ → ℚ) (c : ℕ) :
    class_similarities_sum ts test c =
      ∑ s ∈ specQualifying ts test c, specWNDdist ts test c s ^ (-5 : ℤ) := by
  simp only [class_similarities_sum, specQualifying, classify2dist_eq_spec]
  rw [sumTo_eq_sum, Finset.sum_filter]
  apply Finset.sum_congr rfl
  intro s _
  split_ifs
  · rw [zpow_neg]
    norm_cast
  · rfl

/-- A class without a qualifying sample keeps the similarity 0. -/
theorem class_similarities_eq_zero (ts : TrainingSet) (test : ℕ → ℚ) (c : ℕ)
    (h : num_samples_per_class ts test c = 0) :
    class_similarities ts test c = 0 := by
  simp only [class_similarities, if_pos h]
  rw [class_similarities_sum_eq]
  rw [num_samples_per_class_eq_card, Finset.card_eq_zero] at h
  rw [h, Finset.sum_empty]

/-- The mean similarity of a class with a qualifying sample is positive. -/
theorem class_similarities_pos (ts : TrainingSet) (test : ℕ → ℚ) (c : ℕ)
    (h : num_samples_per_class ts test c ≠ 0) :
    0 < class_similarities ts test c := by
  simp only [class_similarities, if_neg h]
  have hn : (0 : ℚ) < (num_samples_per_class ts test c : ℚ) := by
    exact_mod_cast Nat.pos_of_ne_zero h
  apply div_pos _ hn
  rw [class_similarities_sum_eq]
  apply Finset.sum_pos
  · intro s hs
    have hq : specWNDdist ts test c s > DBL_EPSILON := (Finset.mem_filter.mp hs).2
    exact zpow_pos (lt_trans DBL_EPSILON_pos hq) _
  · rw [num_samples_per_class_eq_card] at h
    exact Finset.card_ne_zero.mp h

/-- The invariant of the second loop: `(0, -1)` while no class had a qualifying
sample, else the first class of maximal mean similarity among those that have. -/
theorem classify2loop_inv (ts : TrainingSet) (test : ℕ → ℚ) (n : ℕ) :
    ((∀ c, 1 ≤ c → c ≤ n → num_samples_per_class ts test c = 0) ∧
        classify2loop ts test n = (0, -1)) ∨
      ∃ m, 1 ≤ m ∧ m ≤ n ∧ num_samples_per_class ts test m ≠ 0 ∧
        classify2loop ts test n = (class_similarities ts test m, (m : ℤ)) ∧
        (∀ c, 1 ≤ c → c ≤ n → num_samples_per_class ts test c ≠ 0 →
          class_similarities ts test c ≤ class_similarities ts test m) ∧
        ∀ c, 1 ≤ c → c < m → num_samples_per_class ts test c ≠ 0 →
          class_similarities ts test c < class_similarities ts test m := by
  induction n with
  | zero =>
    left
    exact ⟨fun c h1 h2 => absurd h2 (by omega), rfl⟩
  | succ n ih =>
    by_cases hnum : num_samples_per_class ts test (n + 1) = 0
    · have hloop : classify2loop ts test (n + 1) = classify2loop ts test n := by
        simp only [classify2loop, hnum, if_true]
      rw [hloop]
      rcases ih with ⟨h1, h2⟩ | ⟨m, hm1, hm2, hm3, h2, h3, h4⟩
      · left
        refine ⟨?_, h2⟩
        intro c hc1 hc2
        rcases Nat.lt_or_ge c (n + 1) with hlt | hge
        · exact h1 c hc1 (by omega)
        · have : c = n + 1 := by omega
          rw [this]; exact hnum
      · right
        refine ⟨m, hm1, by omega, hm3, h2, ?_, h4⟩
        intro c hc1 hc2 hc3
        rcases Nat.lt_or_ge c (n + 1) with hlt | hge
        · exact h3 c hc1 (by omega) hc3
        · have : c = n + 1 := by omega
          rw [this] at hc3; exact absurd hnum hc3
    · have hpos := class_similarities_pos ts test (n + 1) hnum
      right
      rcases ih with ⟨h1, h2⟩ | ⟨m, hm1, hm2, hm3, h2, h3, h4⟩
      · refine ⟨n + 1, by omega, le_refl _, hnum, ?_, ?_, ?_⟩
        · simp only [classify2loop, hnum, if_false, h2, hpos, gt_iff_lt, if_true]
        · intro c hc1 hc2 hc3
          rcases Nat.lt_or_ge c (n + 1) with hlt | hge
          · exact absurd (h1 c hc1 (by omega)) hc3
          · have : c = n + 1 := by omega
            rw [this]
        · intro c hc1 hc2 hc3
          exact absurd (h1 c hc1 (by omega)) hc3
      · by_cases hgt : class_similarities ts test (n + 1) > class_similarities ts test m
        · refine ⟨n + 1, by omega, le_refl _, hnum, ?_, ?_, ?_⟩
          · simp only [classify2loop, hnum, if_false, h2, hgt, if_true]
          · intro c hc1 hc2 hc3
            rcases Nat.lt_or_ge c (n + 1) with hlt | hge
            · exact le_of_lt (lt_of_le_of_lt (h3 c hc1 (by omega) hc3) hgt)
            · have : c = n + 1 := by omega
              rw [this]
          · intro c hc1 hc2 hc3
            exact lt_of_le_of_lt (h3 c hc1 (by omega) hc3) hgt
        · refine ⟨m, hm1, by omega, hm3, ?_, ?_, h4⟩
          · simp only [classify2loop, hnum, if_false, h2, hgt]
          · intro c hc1 hc2 hc3
            rcases Nat.lt_or_ge c (n + 1) with hlt | hge
            · exact h3 c hc1 (by omega) hc3
            · have : c = n + 1 := by omega
              rw [this]; exact not_lt.mp hgt

end TrainingSet

/-- On `wndExample` and the test vector `(0)`, the squared distances are 1 and 9
in class 1 and 4 in class 2; `classify2` returns class 1. -/
theorem TrainingSet.classify2_wndExample :
    (TrainingSet.classify2 wndExample (fun _ => 0)).most_probable_class = 1 ∧
      TrainingSet.class_similarities wndExample (fun _ => 0) 1 = (1 + 1 / 9 ^ 5) / 2 ∧
      TrainingSet.class_similarities wndExample (fun _ => 0) 2 = 1 / 4 ^ 5 := by
  decide!

/-- C8 (the code departs from the claim).  With one class whose only training
sample has the projected value 2 and the test vector `(2)`, the squared distance
is 0, so no class has a qualifying sample; the sum of the class similarities is
0 and the probability `classify2` writes for class 1 is the quotient `0/0`, not
a number, where the claim has the probabilities sum to 0. -/
theorem TrainingSet.classify2_probabilities_zero_over_zero :
    oneSampleWndExample.class_num = 1 ∧
      TrainingSet.classify2dist oneSampleWndExample (fun _ => 2) 1 0 = 0 ∧
      TrainingSet.num_samples_per_class oneSampleWndExample (fun _ => 2) 1 = 0 ∧
      (TrainingSet.classify2 oneSampleWndExample (fun _ => 2)).normalization_factor = 0 ∧
      (TrainingSet.classify2 oneSampleWndExample (fun _ => 2)).probabilities 1 = none := by
  decide!

/-- Whenever no class in `1..K` has a qualifying sample, every probability
`classify2` writes is the quotient `0/0`. -/
theorem TrainingSet.classify2_probabilities_none (ts : TrainingSet) (test : ℕ → ℚ)
    (h : ∀ c, 1 ≤ c → c ≤ ts.class_num → TrainingSet.num_samples_per_class ts test c = 0)
    (c : ℕ) (h1 : 1 ≤ c) (h2 : c ≤ ts.class_num) :
    (TrainingSet.classify2 ts test).probabilities c = none := by
  simp only [TrainingSet.classify2]
  rw [if_pos ⟨h1, h2⟩, sumTo_eq_zero]
  · simp [fdiv]
  · intro k hk
    exact TrainingSet.class_similarities_eq_zero ts test (k + 1) (h (k + 1) (by omega) (by omega))

/-- When some class in `1..K` has a qualifying sample, the probabilities
`classify2` writes for the classes `1..K` are numbers and sum to exactly 1. -/
theorem TrainingSet.classify2_probabilities_sum (ts : TrainingSet) (test : ℕ → ℚ)
    (h : ∃ c, 1 ≤ c ∧ c ≤ ts.class_num ∧ TrainingSet.num_samples_per_class ts test c ≠ 0) :
    sumToOpt (fun k => (TrainingSet.classify2 ts test).probabilities (k + 1)) ts.class_num =
      some 1 := by
  obtain ⟨c, hc1, hc2, hc3⟩ := h
  have hnonneg : ∀ k, 0 ≤ TrainingSet.class_similarities ts test k := by
    intro k
    by_cases hk : TrainingSet.num_samples_per_class ts test k = 0
    · rw [TrainingSet.class_similarities_eq_zero ts test k hk]
    · exact le_of_lt (TrainingSet.class_similarities_pos ts test k hk)
  have hsum : 0 < ∑ k ∈ Finset.range ts.class_num,
      TrainingSet.class_similarities ts test (k + 1) := by
    apply lt_of_lt_of_le (TrainingSet.class_similarities_pos ts test c hc3)
    have hmem : c - 1 ∈ Finset.range ts.class_num := Finset.mem_range.mpr (by omega)
    have := Finset.single_le_sum
      (f := fun k => TrainingSet.class_similarities ts test (k + 1))
      (fun k _ => hnonneg (k + 1)) hmem
    simpa [Nat.sub_add_cancel hc1] using this
  rw [sumToOpt_eq_some _ (fun k => TrainingSet.class_similarities ts test (k + 1) /
      ∑ k ∈ Finset.range ts.class_num, TrainingSet.class_similarities ts test (k + 1))]
  · rw [← Finset.sum_div, div_self (ne_of_gt hsum)]
  · intro k hk
    simp only [TrainingSet.classify2]
    rw [if_pos ⟨by omega, by omega⟩, sumTo_eq_sum, fdiv_eq_some _ _ (ne_of_gt hsum)]

/-! ### The class `classify2` returns when no class qualifies -/

/-- C10 (counterexample).  With one class and no training sample, no class has a
qualifying sample and `classify2` returns `-1`, not 0. -/
theorem TrainingSet.classify2_no_decision_counterexample :
    noSampleExample.class_num = 1 ∧
      specQualifying noSampleExample (fun _ => 0) 1 = ∅ ∧
      (TrainingSet.classify2 noSampleExample (fun _ => 0)).most_probable_class = -1 := by
  decide!

/-- C10 (amended).  When no class in `1..K` has a qualifying training sample,
`classify2` returns `-1`, and its caller `ClassifyImage` turns the returned class
into 0, the 'unknown / no decision' class. -/
theorem TrainingSet.classify2_no_decision (ts : TrainingSet) (test : ℕ → ℚ)
    (h : ∀ c, 1 ≤ c → c ≤ ts.class_num → specQualifying ts test c = ∅) :
    (TrainingSet.classify2 ts test).most_probable_class = -1 ∧
      ClassifyImage_predicted_class (TrainingSet.classify2 ts test).most_probable_class = 0 := by
  have hres : (TrainingSet.classify2 ts test).most_probable_class =
      (TrainingSet.classify2loop ts test ts.class_num).2 := rfl
  have hm : (TrainingSet.classify2loop ts test ts.class_num).2 = -1 := by
    rcases TrainingSet.classify2loop_inv ts test ts.class_num with ⟨_, h2⟩ | ⟨m, hm1, hm2, hm3, _⟩
    · rw [h2]
    · rw [TrainingSet.num_samples_per_class_eq_card, h m hm1 hm2] at hm3
      exact absurd Finset.card_empty hm3
  rw [hres, hm]
  exact ⟨rfl, by decide⟩

/-- Instance of C10 (amended) on `noSampleExample`. -/
theorem TrainingSet.classify2_no_decision_witness :
    (TrainingSet.classify2 noSampleExample (fun _ => 0)).most_probable_class = -1 ∧
      ClassifyImage_predicted_class
        (TrainingSet.classify2 noSampleExample (fun _ => 0)).most_probable_class = 0 :=
  TrainingSet.classify2_no_decision noSampleExample (fun _ => 0) (by decide!)

/-! ### `AddClass` -/

namespace TrainingSet

/-- A call of `AddClass` leaves the training set as it is, or appends the label
as a new last class. -/
theorem AddClass_cases (MAX_CLASS_NUM : ℕ) (check_numeric : String → ℕ) (ts : TrainingSet)
    (label : String) :
    (AddClass MAX_CLASS_NUM check_numeric ts label).2 = ts ∨
      (ts.is_continuous = false ∧ cmp_label ts label > 0 ∧
        (AddClass MAX_CLASS_NUM check_numeric ts label).1 = returned.value (ts.class_num + 1) ∧
        (AddClass MAX_CLASS_NUM check_numeric ts label).2.is_continuous = false ∧
        (AddClass MAX_CLASS_NUM check_numeric ts label).2.class_num = ts.class_num + 1 ∧
        (AddClass MAX_CLASS_NUM check_numeric ts label).2.class_labels =
          Function.update ts.class_labels ts.class_labels_size label ∧
        (AddClass MAX_CLASS_NUM check_numeric ts label).2.class_labels_size =
          ts.class_labels_size + 1) := by
  unfold AddClass
  by_cases hc : ts.is_continuous = true
  · left; simp [hc]
  · have hc' : ts.is_continuous = false := by simpa using hc
    by_cases h0 : cmp_label ts label = 0
    · left; simp [hc', h0]
    · by_cases hpos : cmp_label ts label > 0
      · by_cases hmax : ts.class_num + 1 ≥ MAX_CLASS_NUM
        · left; simp [hc', h0, hpos, hmax]
        · right
          simp [hc', h0, hpos, hmax]
      · left; simp [hc', h0, hpos]

theorem cmp_label_pos (ts : TrainingSet) (label : String) (hsize : 0 < ts.class_labels_size)
    (h : cmp_label ts label > 0) : ts.class_labels ts.class_num < label := by
  unfold cmp_label at h
  rw [if_pos hsize] at h
  by_contra hlt
  rw [if_neg hlt] at h
  split_ifs at h <;> omega

/-- The invariant of a sequence of `AddClass` calls on a new discrete training
set: the set stays discrete, `class_labels` holds `class_num + 1` labels, and
the labels of the classes `1..class_num` increase strictly. -/
theorem AddClass_sorted_inv (MAX_CLASS_NUM : ℕ) (check_numeric : String → ℕ)
    (start ts : TrainingSet) (hc : start.is_continuous = false) (hn : start.class_num = 0)
    (hs : start.class_labels_size = 1)
    (h : ReachableByAddClass MAX_CLASS_NUM check_numeric start ts) :
    ts.is_continuous = false ∧ ts.class_labels_size = ts.class_num + 1 ∧
      ∀ i j, 1 ≤ i → i < j → j ≤ ts.class_num → ts.class_labels i < ts.class_labels j := by
  induction h with
  | start =>
    refine ⟨hc, by omega, ?_⟩
    intro i j h1 h2 h3
    omega
  | AddClass ts label _ ih =>
    obtain ⟨ihc, ihs, ihsorted⟩ := ih
    rcases AddClass_cases MAX_CLASS_NUM check_numeric ts label with
      heq | ⟨_, hpos, _, hc2, hn2, hl2, hs2⟩
    · rw [heq]; exact ⟨ihc, ihs, ihsorted⟩
    · refine ⟨hc2, by omega, ?_⟩
      rw [hn2, hl2, ihs]
      have hlast := cmp_label_pos ts label (by omega) hpos
      intro i j h1 h2 h3
      rcases Nat.lt_or_ge j (ts.class_num + 1) with hj | hj
      · rw [Function.update_noteq (by omega), Function.update_noteq (by omega)]
        exact ihsorted i j h1 h2 (by omega)
      · have hjeq : j = ts.class_num + 1 := by omega
        rw [hjeq, Function.update_same, Function.update_noteq (by omega)]
        rcases Nat.lt_or_ge i ts.class_num with hi | hi
        · exact lt_trans (ihsorted i ts.class_num h1 hi (le_refl _)) hlast
        · have hieq : i = ts.class_num := by omega
          rw [hieq]; exact hlast

end TrainingSet

/-- C18.  For a discrete training set and a label that sorts strictly before the
label of the last class, `AddClass` returns `CANT_ADD_UNORDERED_CLASS` and
leaves the training set as it is; and after any sequence of `AddClass` calls on
a new discrete training set (whatever the label of class 0) the labels of the
classes `1..class_num` increase strictly, hence are pairwise distinct. -/
theorem TrainingSet.AddClass_unordered (MAX_CLASS_NUM : ℕ) (check_numeric : String → ℕ) :
    (∀ (ts : TrainingSet) (label : String), ts.is_continuous = false →
        0 < ts.class_labels_size → label < ts.class_labels ts.class_num →
        TrainingSet.AddClass MAX_CLASS_NUM check_numeric ts label =
          (returned.error wndchrm_error.CANT_ADD_UNORDERED_CLASS, ts)) ∧
      ∀ start ts : TrainingSet, start.is_continuous = false → start.class_num = 0 →
        start.class_labels_size = 1 →
        ReachableByAddClass MAX_CLASS_NUM check_numeric start ts →
        (∀ i j, 1 ≤ i → i < j → j ≤ ts.class_num → ts.class_labels i < ts.class_labels j) ∧
          ∀ i j, 1 ≤ i → i ≤ ts.class_num → 1 ≤ j → j ≤ ts.class_num → i ≠ j →
            ts.class_labels i ≠ ts.class_labels j := by
  constructor
  · intro ts label hc hsize hlt
    have h1 : ¬ ts.class_labels ts.class_num < label := lt_asymm hlt
    have h2 : ¬ ts.class_labels ts.class_num = label := fun h => (ne_of_gt hlt) h
    have hcmp : TrainingSet.cmp_label ts label = -1 := by
      simp [TrainingSet.cmp_label, hsize, h1, h2]
    simp [TrainingSet.AddClass, hc, hcmp]
  · intro start ts hc hn hs hreach
    have hinv := (TrainingSet.AddClass_sorted_inv MAX_CLASS_NUM check_numeric start ts hc hn hs
      hreach).2.2
    refine ⟨hinv, ?_⟩
    intro i j hi1 hi2 hj1 hj2 hij
    rcases Nat.lt_or_gt_of_ne hij with h | h
    · exact ne_of_lt (hinv i j hi1 h hj2)
    · exact ne_of_gt (hinv j i hj1 h hi2)

/-- Instance of C18: on `twoClassesExample` the label `a` sorts before the last
label `b`. -/
theorem TrainingSet.AddClass_unordered_witness :
    TrainingSet.AddClass exampleMAX_CLASS_NUM exampleCheckNumeric twoClassesExample "a" =
      (returned.error wndchrm_error.CANT_ADD_UNORDERED_CLASS, twoClassesExample) :=
  (TrainingSet.AddClass_unordered exampleMAX_CLASS_NUM exampleCheckNumeric).1 twoClassesExample
    "a" (by decide!) (by decide!) (by decide!)

/-- C19 (the code departs from the claim).  On the training set with the classes
`a` (index 1) and `b` (index 2), `AddClass("b")` returns the index 2 of the
existing last class, but `AddClass("a")`, the label of the existing class 1,
returns `CANT_ADD_UNORDERED_CLASS` instead of the index 1. -/
theorem TrainingSet.AddClass_existing_not_last :
    twoClassesExample.is_continuous = false ∧ twoClassesExample.class_num = 2 ∧
      twoClassesExample.class_labels 1 = "a" ∧ twoClassesExample.class_labels 2 = "b" ∧
      (TrainingSet.AddClass exampleMAX_CLASS_NUM exampleCheckNumeric twoClassesExample "b").1 =
        returned.value 2 ∧
      (TrainingSet.AddClass exampleMAX_CLASS_NUM exampleCheckNumeric twoClassesExample "a").1 =
        returned.error wndchrm_error.CANT_ADD_UNORDERED_CLASS := by
  decide!

/-- A label equal to the label of the last class gets the index of that class,
and the training set stays as it is. -/
theorem TrainingSet.AddClass_last_label (MAX_CLASS_NUM : ℕ) (check_numeric : String → ℕ)
    (ts : TrainingSet) (hc : ts.is_continuous = false) (hsize : 0 < ts.class_labels_size) :
    TrainingSet.AddClass MAX_CLASS_NUM check_numeric ts (ts.class_labels ts.class_num) =
      (returned.value ts.class_num, ts) := by
  have hcmp : TrainingSet.cmp_label ts (ts.class_labels ts.class_num) = 0 := by
    simp [TrainingSet.cmp_label, hsize]
  simp [TrainingSet.AddClass, hc, hcmp]

/-! ### Discrete and continuous training sets -/

namespace TrainingSet

theorem AddClass_flags (MAX_CLASS_NUM : ℕ) (check_numeric : String → ℕ) (ts : TrainingSet)
    (label : String) :
    (AddClass MAX_CLASS_NUM check_numeric ts label).2.is_continuous = ts.is_continuous ∧
      (ts.is_continuous = true →
        (AddClass MAX_CLASS_NUM check_numeric ts label).2.class_num = ts.class_num) := by
  rcases AddClass_cases MAX_CLASS_NUM check_numeric ts label with heq | ⟨hc, _, _, hc2, _, _, _⟩
  · rw [heq]; exact ⟨rfl, fun _ => rfl⟩
  · rw [hc2, hc]
    exact ⟨rfl, fun h => Bool.noConfusion h⟩

theorem AddContinuousClass_flags (ts : TrainingSet) (label : String) (r : returned × TrainingSet)
    (hr : AddContinuousClass ts label = some r) :
    r.2.is_continuous = true →
      (r.2.class_num = 1 ∧ CONTINUOUS_CLASS_INDEX < ts.class_labels_size) ∨
        (ts.is_continuous = true ∧ r.2.class_num = ts.class_num) := by
  unfold AddContinuousClass at hr
  by_cases h1 : ts.class_num > 0 ∧ ts.is_continuous = false
  · rw [if_pos h1] at hr
    cases hr
    intro h; exact Bool.noConfusion h
  · rw [if_neg h1] at hr
    by_cases h0 : ts.class_labels_size ≤ CONTINUOUS_CLASS_INDEX
    · rw [if_pos h0] at hr; cases hr
    · rw [if_neg h0] at hr
      by_cases h2 : ts.is_continuous = true ∧ ts.class_labels CONTINUOUS_CLASS_INDEX ≠ label
      · rw [if_pos h2] at hr
        cases hr
        intro _; right; exact ⟨h2.1, rfl⟩
      · rw [if_neg h2] at hr
        cases hr
        intro _; left; exact ⟨rfl, Nat.lt_of_not_le h0⟩

theorem AddContinuousClass_sizes (ts : TrainingSet) (label : String) (r : returned × TrainingSet)
    (hr : AddContinuousClass ts label = some r) :
    r.2.class_labels_size = ts.class_labels_size ∧
      r.2.raw_features_size = ts.raw_features_size ∧
      (r.2.class_num = ts.class_num ∨
        (r.2.class_num = 1 ∧ CONTINUOUS_CLASS_INDEX < ts.class_labels_size)) := by
  unfold AddContinuousClass at hr
  by_cases h1 : ts.class_num > 0 ∧ ts.is_continuous = false
  · rw [if_pos h1] at hr
    cases hr
    exact ⟨rfl, rfl, Or.inl rfl⟩
  · rw [if_neg h1] at hr
    by_cases h0 : ts.class_labels_size ≤ CONTINUOUS_CLASS_INDEX
    · rw [if_pos h0] at hr; cases hr
    · rw [if_neg h0] at hr
      by_cases h2 : ts.is_continuous = true ∧ ts.class_labels CONTINUOUS_CLASS_INDEX ≠ label
      · rw [if_pos h2] at hr
        cases hr
        exact ⟨rfl, rfl, Or.inl rfl⟩
      · rw [if_neg h2] at hr
        cases hr
        exact ⟨rfl, rfl, Or.inr ⟨rfl, Nat.lt_of_not_le h0⟩⟩

theorem MakeContinuous_flags (ts : TrainingSet) (label : String) (set : TrainingSet)
    (hr : MakeContinuous ts label = some set) :
    set.is_continuous = true ∧ set.class_num = 1 ∧
      set.class_labels_size = ts.class_labels_size ∧
      set.raw_features_size = ts.raw_features_size ∧
      CONTINUOUS_CLASS_INDEX < ts.class_labels_size := by
  unfold MakeContinuous at hr
  by_cases h0 : ts.class_labels_size ≤ CONTINUOUS_CLASS_INDEX ∨ ts.class_labels_size < ts.class_num
  · rw [if_pos h0] at hr; cases hr
  · rw [if_neg h0] at hr
    cases hr
    refine ⟨rfl, rfl, rfl, rfl, ?_⟩
    by_contra h
    exact h0 (Or.inl (Nat.le_of_not_lt h))

theorem AddClass_sizes (MAX_CLASS_NUM : ℕ) (check_numeric : String → ℕ) (ts : TrainingSet)
    (label : String)
    (h : ts.class_num < ts.class_labels_size ∧ ts.class_num < ts.raw_features_size ∧
      (CONTINUOUS_CLASS_INDEX < ts.class_labels_size →
        CONTINUOUS_CLASS_INDEX < ts.raw_features_size)) :
    (AddClass MAX_CLASS_NUM check_numeric ts label).2.class_num <
        (AddClass MAX_CLASS_NUM check_numeric ts label).2.class_labels_size ∧
      (AddClass MAX_CLASS_NUM check_numeric ts label).2.class_num <
        (AddClass MAX_CLASS_NUM check_numeric ts label).2.raw_features_size ∧
      (CONTINUOUS_CLASS_INDEX < (AddClass MAX_CLASS_NUM check_numeric ts label).2.class_labels_size →
        CONTINUOUS_CLASS_INDEX <
          (AddClass MAX_CLASS_NUM check_numeric ts label).2.raw_features_size) := by
  unfold AddClass
  unfold CONTINUOUS_CLASS_INDEX at h ⊢
  by_cases h1 : ts.is_continuous = true
  · rw [if_pos h1]; exact h
  · rw [if_neg h1]
    by_cases h2 : cmp_label ts label = 0
    · rw [if_pos h2]; exact h
    · rw [if_neg h2]
      by_cases h3 : cmp_label ts label > 0
      · rw [if_pos h3]
        by_cases h4 : ts.class_num + 1 ≥ MAX_CLASS_NUM
        · rw [if_pos h4]; exact h
        · rw [if_neg h4]
          dsimp only
          by_cases h5 : ts.raw_features_size < ts.class_num + 1 + 1
          · simp only [h5, decide_True, if_true]
            omega
          · simp only [h5, decide_False, Bool.false_eq_true, if_false]
            omega
      · rw [if_neg h3]; exact h

theorem AddSample_flags (ts : TrainingSet) (new_sample : signatures) :
    (AddSample ts new_sample).2.is_continuous = ts.is_continuous ∧
      (AddSample ts new_sample).2.class_num = ts.class_num := by
  unfold AddSample
  by_cases h : new_sample.sample_class > ts.class_num
  · simp [h]
  · simp [h]

theorem RemoveClass_flags (ts : TrainingSet) (class_index : ℕ) :
    (RemoveClass ts class_index).is_continuous = ts.is_continuous ∧
      (RemoveClass ts class_index).class_num ≤ ts.class_num ∧
      (ts.class_num = 1 → (RemoveClass ts class_index).class_num = 1) := by
  unfold RemoveClass
  by_cases h : class_index ≥ ts.class_num
  · rw [if_pos h]; exact ⟨rfl, le_refl _, fun h1 => h1⟩
  · rw [if_neg h]
    refine ⟨rfl, ?_, ?_⟩
    · show (if class_index > 0 then ts.class_num - 1 else ts.class_num) ≤ ts.class_num
      split_ifs <;> omega
    · intro h1
      show (if class_index > 0 then ts.class_num - 1 else ts.class_num) = 1
      have : ¬ class_index > 0 := by omega
      rw [if_neg this]; exact h1

theorem MarkUnknown_flags (ts : TrainingSet) (class_index : ℕ) :
    (MarkUnknown ts class_index).is_continuous = ts.is_continuous ∧
      (MarkUnknown ts class_index).class_num ≤ ts.class_num := by
  unfold MarkUnknown
  split_ifs
  · exact ⟨rfl, le_refl _⟩
  · exact ⟨rfl, Nat.sub_le _ _⟩

end TrainingSet

theorem eq_some_getD {α : Type} (o : Option α) (d : α) (h : o.isSome = true) :
    o = some (o.getD d) := by
  cases o with
  | none => exact Bool.noConfusion h
  | some a => rfl

theorem madeContinuousExample_eq :
    TrainingSet.MakeContinuous
        (TrainingSet.AddClass exampleMAX_CLASS_NUM exampleCheckNumeric TrainingSet.init "a").2 "" =
      some madeContinuousExample :=
  eq_some_getD _ _ (by decide!)

theorem Reachable_sizes (MAX_CLASS_NUM : ℕ) (check_numeric : String → ℕ) (b : Bool)
    (ts : TrainingSet) (h : Reachable MAX_CLASS_NUM check_numeric b ts) :
    ts.class_num < ts.class_labels_size ∧ ts.class_num < ts.raw_features_size ∧
      (CONTINUOUS_CLASS_INDEX < ts.class_labels_size →
        CONTINUOUS_CLASS_INDEX < ts.raw_features_size) := by
  induction h with
  | init => exact ⟨by decide, by decide, by decide⟩
  | AddClass ts label _ ih =>
    exact TrainingSet.AddClass_sizes MAX_CLASS_NUM check_numeric ts label ih
  | AddContinuousClass ts label r hr _ ih =>
    obtain ⟨h1, h2, h3⟩ := TrainingSet.AddContinuousClass_sizes ts label r hr
    rw [h1, h2]
    rcases h3 with h3 | ⟨h3, h4⟩
    · rw [h3]; exact ih
    · rw [h3]
      exact ⟨h4, ih.2.2 h4, ih.2.2⟩
  | AddSample ts new_sample _ ih =>
    have hf := TrainingSet.AddSample_flags ts new_sample
    have hs : (TrainingSet.AddSample ts new_sample).2.class_labels_size = ts.class_labels_size ∧
        (TrainingSet.AddSample ts new_sample).2.raw_features_size = ts.raw_features_size := by
      unfold TrainingSet.AddSample
      by_cases h : new_sample.sample_class > ts.class_num
      · simp [h]
      · simp [h]
    rw [hf.2, hs.1, hs.2]; exact ih
  | MakeContinuous ts label set hr _ ih =>
    obtain ⟨_, h2, h3, h4, h5⟩ := TrainingSet.MakeContinuous_flags ts label set hr
    rw [h2, h3, h4]
    exact ⟨h5, ih.2.2 h5, ih.2.2⟩
  | RemoveClass ts class_index _ ih =>
    have hf := TrainingSet.RemoveClass_flags ts class_index
    have hs : (TrainingSet.RemoveClass ts class_index).class_labels_size = ts.class_labels_size ∧
        (TrainingSet.RemoveClass ts class_index).raw_features_size = ts.raw_features_size := by
      unfold TrainingSet.RemoveClass
      by_cases h : class_index ≥ ts.class_num
      · simp [h]
      · simp [h]
    rw [hs.1, hs.2]
    exact ⟨lt_of_le_of_lt hf.2.1 ih.1, lt_of_le_of_lt hf.2.1 ih.2.1, ih.2.2⟩
  | MarkUnknown ts class_index _ _ ih =>
    have hf := TrainingSet.MarkUnknown_flags ts class_index
    have hs : (TrainingSet.MarkUnknown ts class_index).class_labels_size = ts.class_labels_size ∧
        (TrainingSet.MarkUnknown ts class_index).raw_features_size = ts.raw_features_size := by
      unfold TrainingSet.MarkUnknown
      by_cases h : class_index > ts.class_num ∨ class_index = 0
      · simp [h]
      · simp [h]
    rw [hs.1, hs.2]
    exact ⟨lt_of_le_of_lt hf.2 ih.1, lt_of_le_of_lt hf.2 ih.2.1, ih.2.2⟩

/-- C20 (counterexample).  `AddClass("a")` on a new training set, then
`MakeContinuous` and `MarkUnknown(1)`: a reachable state that is continuous
with `class_num = 0`.  After `MakeContinuous` the set is continuous with
`class_num = 1`. -/
theorem TrainingSet.MarkUnknown_continuous_counterexample :
    TrainingSet.MakeContinuous
        (TrainingSet.AddClass exampleMAX_CLASS_NUM exampleCheckNumeric TrainingSet.init "a").2 "" =
      some madeContinuousExample ∧
    Reachable exampleMAX_CLASS_NUM exampleCheckNumeric true
        (TrainingSet.MarkUnknown madeContinuousExample 1) ∧
      madeContinuousExample.is_continuous = true ∧
      madeContinuousExample.class_num = 1 ∧
      (TrainingSet.MarkUnknown madeContinuousExample 1).is_continuous = true ∧
      (TrainingSet.MarkUnknown madeContinuousExample 1).class_num = 0 := by
  refine ⟨madeContinuousExample_eq, ?_, by decide!, by decide!, by decide!, by decide!⟩
  exact Reachable.MarkUnknown _ 1 rfl
    (Reachable.MakeContinuous _ "" _ madeContinuousExample_eq
      (Reachable.AddClass _ "a" Reachable.init))

/-- C20 (amended).  In every state reachable from a new training set by
`AddClass`, `AddContinuousClass`, `AddSample`, `MakeContinuous` and
`RemoveClass` calls, `is_continuous = 1` implies `class_num = 1`; when
`MarkUnknown` calls are allowed too, `is_continuous = 1` implies
`class_num ≤ 1`; in all these states the classes `0 .. class_num` have an entry
in the vectors indexed by the class; and `AddContinuousClass` on a discrete set
that has classes returns `CONTINUOUS_DATASET_WITH_CLASSES` and leaves the set
as it is. -/
theorem TrainingSet.continuous_class_num (MAX_CLASS_NUM : ℕ) (check_numeric : String → ℕ) :
    (∀ ts, Reachable MAX_CLASS_NUM check_numeric false ts →
        ts.is_continuous = true → ts.class_num = 1) ∧
      (∀ ts, Reachable MAX_CLASS_NUM check_numeric true ts →
        ts.is_continuous = true → ts.class_num ≤ 1) ∧
      (∀ b ts, Reachable MAX_CLASS_NUM check_numeric b ts →
        ts.class_num < ts.class_labels_size ∧ ts.class_num < ts.raw_features_size) ∧
      ∀ (ts : TrainingSet) (label : String), ts.class_num > 0 → ts.is_continuous = false →
        TrainingSet.AddContinuousClass ts label =
          some (returned.error wndchrm_error.CONTINUOUS_DATASET_WITH_CLASSES, ts) := by
  refine ⟨?_, ?_, ?_, ?_⟩
  · intro ts h
    induction h with
    | init => intro h; exact Bool.noConfusion h
    | AddClass ts label _ ih =>
      intro hc
      have hf := TrainingSet.AddClass_flags MAX_CLASS_NUM check_numeric ts label
      rw [hf.1] at hc
      rw [hf.2 hc]; exact ih hc
    | AddContinuousClass ts label r hr _ ih =>
      intro hc
      rcases TrainingSet.AddContinuousClass_flags ts label r hr hc with h1 | ⟨h1, h2⟩
      · exact h1.1
      · rw [h2]; exact ih h1
    | AddSample ts new_sample _ ih =>
      intro hc
      have hf := TrainingSet.AddSample_flags ts new_sample
      rw [hf.1] at hc
      rw [hf.2]; exact ih hc
    | MakeContinuous ts label set hr _ _ =>
      intro _; exact (TrainingSet.MakeContinuous_flags ts label set hr).2.1
    | RemoveClass ts class_index _ ih =>
      intro hc
      have hf := TrainingSet.RemoveClass_flags ts class_index
      rw [hf.1] at hc
      exact hf.2.2 (ih hc)
    | MarkUnknown ts class_index hm _ _ => exact Bool.noConfusion hm
  · intro ts h
    induction h with
    | init => intro h; exact Bool.noConfusion h
    | AddClass ts label _ ih =>
      intro hc
      have hf := TrainingSet.AddClass_flags MAX_CLASS_NUM check_numeric ts label
      rw [hf.1] at hc
      rw [hf.2 hc]; exact ih hc
    | AddContinuousClass ts label r hr _ ih =>
      intro hc
      rcases TrainingSet.AddContinuousClass_flags ts label r hr hc with h1 | ⟨h1, h2⟩
      · rw [h1.1]
      · rw [h2]; exact ih h1
    | AddSample ts new_sample _ ih =>
      intro hc
      have hf := TrainingSet.AddSample_flags ts new_sample
      rw [hf.1] at hc
      rw [hf.2]; exact ih hc
    | MakeContinuous ts label set hr _ _ =>
      intro _; exact le_of_eq (TrainingSet.MakeContinuous_flags ts label set hr).2.1
    | RemoveClass ts class_index _ ih =>
      intro hc
      have hf := TrainingSet.RemoveClass_flags ts class_index
      rw [hf.1] at hc
      exact le_trans hf.2.1 (ih hc)
    | MarkUnknown ts class_index _ _ ih =>
      intro hc
      have hf := TrainingSet.MarkUnknown_flags ts class_index
      rw [hf.1] at hc
      exact le_trans hf.2 (ih hc)
  · intro b ts h
    have hs := Reachable_sizes MAX_CLASS_NUM check_numeric b ts h
    exact ⟨hs.1, hs.2.1⟩
  · intro ts label hn hc
    unfold TrainingSet.AddContinuousClass
    rw [if_pos ⟨hn, hc⟩]
    cases ts
    simp_all

/-- Instance of C20 (amended): the state after `AddClass("a")` and
`MakeContinuous` on a new training set, and `AddContinuousClass` on
`twoClassesExample`. -/
theorem TrainingSet.continuous_class_num_witness :
    madeContinuousExample.class_num = 1 ∧
      TrainingSet.AddContinuousClass twoClassesExample "" =
        some (returned.error wndchrm_error.CONTINUOUS_DATASET_WITH_CLASSES,
          twoClassesExample) :=
  ⟨(TrainingSet.continuous_class_num exampleMAX_CLASS_NUM exampleCheckNumeric).1 _
      (Reachable.MakeContinuous _ "" _ madeContinuousExample_eq
        (Reachable.AddClass _ "a" Reachable.init)) (by decide!),
    (TrainingSet.continuous_class_num exampleMAX_CLASS_NUM exampleCheckNumeric).2.2.2
      twoClassesExample "" (by decide!) (by decide!)⟩

/-! ### `InterpolateValue` -/

namespace TrainingSet

theorem insertSlot_take (dist value : ℚ) (L : List (ℚ × ℚ)) :
    ∀ N, N ≤ L.length →
      insertSlot dist value (L.take N) =
        (List.orderedInsert (fun a b : ℚ × ℚ => a.1 < b.1) (dist, value) L).take N := by
  induction L with
  | nil =>
    intro N hN
    have : N = 0 := by simpa using hN
    subst this
    simp [insertSlot]
  | cons s rest ih =>
    intro N hN
    cases N with
    | zero => simp [insertSlot]
    | succ m =>
      have hm : m ≤ rest.length := by simpa using hN
      by_cases hd : dist < s.1
      · simp only [List.take_succ_cons, insertSlot, if_pos hd, List.orderedInsert]
        congr 1
        rw [← List.take_succ_cons, List.dropLast_eq_take, List.take_take]
        congr 1
        simp only [List.length_take, List.length_cons]
        omega
      · simp only [List.take_succ_cons, insertSlot, if_neg hd, List.orderedInsert]
        rw [ih m hm]

theorem orderedInsert_append_pad (x p : ℚ × ℚ) (pad : List (ℚ × ℚ)) (hx : x.1 < p.1) :
    ∀ L : List (ℚ × ℚ),
      List.orderedInsert (fun a b : ℚ × ℚ => a.1 < b.1) x (L ++ p :: pad) =
        List.orderedInsert (fun a b : ℚ × ℚ => a.1 < b.1) x L ++ p :: pad := by
  intro L
  induction L with
  | nil => simp [List.orderedInsert, hx]
  | cons s rest ih =>
    by_cases hd : x.1 < s.1
    · simp [List.orderedInsert, hd]
    · have e1 : List.orderedInsert (fun a b : ℚ × ℚ => a.1 < b.1) x (s :: (rest ++ p :: pad)) =
          s :: List.orderedInsert (fun a b : ℚ × ℚ => a.1 < b.1) x (rest ++ p :: pad) := by
        simp only [List.orderedInsert, if_neg hd]
      have e2 : List.orderedInsert (fun a b : ℚ × ℚ => a.1 < b.1) x (s :: rest) =
          s :: List.orderedInsert (fun a b : ℚ × ℚ => a.1 < b.1) x rest := by
        simp only [List.orderedInsert, if_neg hd]
      rw [List.cons_append, e1, e2, ih, List.cons_append]

theorem map_orderedInsert (f : ℕ → ℚ × ℚ) (i : ℕ) :
    ∀ I : List ℕ,
      (List.orderedInsert (fun a b : ℕ => (f a).1 < (f b).1) i I).map f =
        List.orderedInsert (fun a b : ℚ × ℚ => a.1 < b.1) (f i) (I.map f) := by
  intro I
  induction I with
  | nil => simp [List.orderedInsert]
  | cons j rest ih =>
    by_cases hd : (f i).1 < (f j).1
    · simp [List.orderedInsert, hd]
    · simp only [List.map_cons, List.orderedInsert, if_neg hd, ih]

theorem pairwise_orderedInsert (key : ℕ → ℚ) (i : ℕ) :
    ∀ I : List ℕ, I.Pairwise (fun a b => key a ≤ key b) →
      (List.orderedInsert (fun a b : ℕ => key a < key b) i I).Pairwise
        (fun a b => key a ≤ key b) := by
  intro I
  induction I with
  | nil => intro _; simp [List.orderedInsert]
  | cons j rest ih =>
    intro h
    rw [List.pairwise_cons] at h
    by_cases hd : key i < key j
    · simp only [List.orderedInsert, if_pos hd]
      rw [List.pairwise_cons]
      refine ⟨?_, List.pairwise_cons.mpr h⟩
      intro x hx
      rcases List.mem_cons.mp hx with rfl | hx
      · exact le_of_lt hd
      · exact le_trans (le_of_lt hd) (h.1 x hx)
    · simp only [List.orderedInsert, if_neg hd]
      rw [List.pairwise_cons]
      refine ⟨?_, ih h.2⟩
      intro x hx
      rcases (List.mem_orderedInsert (fun a b : ℕ => key a < key b)).mp hx with rfl | hx
      · exact not_lt.mp hd
      · exact h.1 x hx

end TrainingSet

namespace TrainingSet

theorem InterpolateLoop_slots (powInv : ℚ → ℕ → ℚ) (INF uninit : ℚ) (ts : TrainingSet)
    (test_sample : signatures) (N : ℕ) (hN : 1 ≤ N) :
    ∀ n, (∀ i, i < n → distance powInv ts test_sample (sampleAt ts i) 2 < INF) →
      ∃ I : List ℕ, I.Perm (List.range n) ∧
        I.Pairwise (fun a b =>
          distance powInv ts test_sample (sampleAt ts a) 2 ≤
            distance powInv ts test_sample (sampleAt ts b) 2) ∧
        (InterpolateLoop powInv INF uninit ts test_sample N n).slots =
          (I.map (fun i => (distance powInv ts test_sample (sampleAt ts i) 2,
              (sampleAt ts i).sample_value)) ++ List.replicate N (INF, uninit)).take N := by
  intro n
  induction n with
  | zero =>
    intro _
    refine ⟨[], by simp, List.Pairwise.nil, ?_⟩
    simp [InterpolateLoop]
  | succ n ih =>
    intro h
    obtain ⟨I, hperm, hsorted, hslots⟩ := ih (fun i hi => h i (Nat.lt_succ_of_lt hi))
    refine ⟨List.orderedInsert (fun a b : ℕ =>
        distance powInv ts test_sample (sampleAt ts a) 2 <
          distance powInv ts test_sample (sampleAt ts b) 2) n I, ?_, ?_, ?_⟩
    · rw [List.range_succ]
      exact (List.perm_orderedInsert _ n I).trans
        ((List.Perm.cons n hperm).trans (List.perm_append_singleton n (List.range n)).symm)
    · exact pairwise_orderedInsert
        (fun a => distance powInv ts test_sample (sampleAt ts a) 2) n I hsorted
    · obtain ⟨M, rfl⟩ : ∃ M, N = M + 1 := ⟨N - 1, by omega⟩
      show insertSlot _ _ (InterpolateLoop powInv INF uninit ts test_sample (M + 1) n).slots = _
      rw [hslots, insertSlot_take _ _ _ _ (by simp)]
      rw [List.replicate_succ,
        orderedInsert_append_pad _ _ _ (h n (Nat.lt_succ_self n)),
        map_orderedInsert
          (fun i => (distance powInv ts test_sample (sampleAt ts i) 2,
            (sampleAt ts i).sample_value))]

theorem filter_take_pad (INF uninit : ℚ) (N : ℕ) (L : List (ℚ × ℚ))
    (h : ∀ s ∈ L, s.1 < INF) :
    ((L ++ List.replicate N (INF, uninit)).take N).filter (fun s => decide (s.1 < INF)) =
      L.take N := by
  rw [List.take_append_eq_append_take, List.filter_append]
  have h1 : (L.take N).filter (fun s => decide (s.1 < INF)) = L.take N := by
    rw [List.filter_eq_self]
    intro s hs
    exact decide_eq_true (h s (List.mem_of_mem_take hs))
  have h2 : ((List.replicate N (INF, uninit)).take (N - L.length)).filter
      (fun s => decide (s.1 < INF)) = [] := by
    rw [List.filter_eq_nil_iff]
    intro s hs
    have := List.eq_of_mem_replicate (List.mem_of_mem_take hs)
    subst this
    simp
  rw [h1, h2, List.append_nil]

theorem InterpolateSums_foldl (INF : ℚ) (slots : List (ℚ × ℚ))
    (h : ∀ s ∈ slots, s.1 < INF → s.1 ≠ 0) :
    ∀ a b : ℚ,
      slots.foldl
        (fun acc s =>
          if s.1 < INF then
            match acc, fdiv 1 s.1 with
            | some (val, sum), some w => some (val + s.2 * w, sum + w)
            | _, _ => none
          else acc)
        (some (a, b)) =
      some (a + ((slots.filter (fun s => decide (s.1 < INF))).map
              (fun s => s.2 * (1 / s.1))).sum,
            b + ((slots.filter (fun s => decide (s.1 < INF))).map (fun s => 1 / s.1)).sum) := by
  induction slots with
  | nil => intro a b; simp
  | cons s rest ih =>
    intro a b
    have hrest : ∀ t ∈ rest, t.1 < INF → t.1 ≠ 0 := fun t ht => h t (List.mem_cons_of_mem _ ht)
    rw [List.foldl_cons]
    by_cases hs : s.1 < INF
    · have h0 : s.1 ≠ 0 := h s (List.mem_cons_self _ _) hs
      rw [if_pos hs, fdiv_eq_some 1 s.1 h0]
      simp only []
      rw [ih hrest, List.filter_cons_of_pos (by simpa using hs)]
      simp only [List.map_cons, List.sum_cons, add_assoc]
    · rw [if_neg hs, ih hrest, List.filter_cons_of_neg (by simpa using hs)]

theorem weighted_sum_bounds (w v : ℕ → ℚ) (lo hi : ℚ) :
    ∀ l : List ℕ, (∀ i ∈ l, 0 < w i) → (∀ i ∈ l, lo ≤ v i ∧ v i ≤ hi) →
      lo * (l.map w).sum ≤ (l.map (fun i => v i * w i)).sum ∧
        (l.map (fun i => v i * w i)).sum ≤ hi * (l.map w).sum := by
  intro l
  induction l with
  | nil => intro _ _; simp
  | cons i rest ih =>
    intro hw hv
    have hi1 := hw i (List.mem_cons_self _ _)
    have hi2 := hv i (List.mem_cons_self _ _)
    have := ih (fun j hj => hw j (List.mem_cons_of_mem _ hj))
      (fun j hj => hv j (List.mem_cons_of_mem _ hj))
    simp only [List.map_cons, List.sum_cons]
    constructor
    · nlinarith [mul_nonneg (sub_nonneg.mpr hi2.1) (le_of_lt hi1), this.1]
    · nlinarith [mul_nonneg (sub_nonneg.mpr hi2.2) (le_of_lt hi1), this.2]

theorem weight_sum_pos (w : ℕ → ℚ) :
    ∀ l : List ℕ, l ≠ [] → (∀ i ∈ l, 0 < w i) → 0 < (l.map w).sum := by
  intro l
  induction l with
  | nil => intro h; exact absurd rfl h
  | cons i rest ih =>
    intro _ hw
    simp only [List.map_cons, List.sum_cons]
    by_cases hr : rest = []
    · subst hr; simpa using hw i (List.mem_cons_self _ _)
    · exact add_pos (hw i (List.mem_cons_self _ _))
        (ih hr (fun j hj => hw j (List.mem_cons_of_mem _ hj)))

end TrainingSet

/-- C11 (counterexample).  Evaluated as `double` evaluates it: one training
sample with the target value 3 at the distance 5 of the test sample, and
`N = 1`.  `InterpolateValue` computes `val = 3 * (1/5)`, `sum = 1/5` and returns
`val / sum`, which is `3 + 2^-51`: not the target value of the single nearest
sample, and above the maximum of the target values. -/
theorem TrainingSet.InterpolateValue_rounding_counterexample :
    oneNeighbourExample.samples.length = 1 ∧
      (oneNeighbourExample.sampleAt 0).sample_value = 3 ∧
      rounded.distance examplePow oneNeighbourExample (constSample 0 0 "t")
        (oneNeighbourExample.sampleAt 0) (double.finite 2) = double.finite 5 ∧
      double.lt (double.finite 5) exampleINFdouble = true ∧
      rounded.InterpolateValue examplePow exampleINFdouble (double.finite 0) oneNeighbourExample
        (constSample 0 0 "t") 1 = double.finite (3 + 1 / 2 ^ 51) := by
  decide!

/-- C11 (amended).  With `N ≥ 1` slots and a training set of at least one sample
whose distances to the test sample are all positive and below `INF`,
`InterpolateValue` returns a number `r`, whatever `min_dists_values` held at the
start.  There is a list `nb` of `min(N, count)` distinct sample indices, none
farther from the test sample than a sample outside the list, such that
`r = Σ(value_i/dist_i) / Σ(1/dist_i)` over `nb`.  In exact arithmetic `r` lies
between any two bounds of the target values of `nb` (so between their minimum
and their maximum), and for `N = 1` the list is one nearest sample and `r` is
its target value. -/
theorem TrainingSet.InterpolateValue_nearest (powInv : ℚ → ℕ → ℚ) (INF uninit : ℚ)
    (ts : TrainingSet) (test_sample : signatures) (N : ℕ)
    (hN : 1 ≤ N) (hcount : 1 ≤ ts.samples.length)
    (hdist : ∀ i, i < ts.samples.length →
      0 < ts.distance powInv test_sample (ts.sampleAt i) 2 ∧
        ts.distance powInv test_sample (ts.sampleAt i) 2 < INF) :
    ∃ nb : List ℕ, nb.Nodup ∧ (∀ i ∈ nb, i < ts.samples.length) ∧
      nb.length = min N ts.samples.length ∧
      (∀ i ∈ nb, ∀ j, j < ts.samples.length → j ∉ nb →
        ts.distance powInv test_sample (ts.sampleAt i) 2 ≤
          ts.distance powInv test_sample (ts.sampleAt j) 2) ∧
      ∃ r : ℚ,
        (ts.InterpolateValue powInv INF uninit test_sample N).value = some r ∧
        r = (nb.map (fun i => (ts.sampleAt i).sample_value /
                ts.distance powInv test_sample (ts.sampleAt i) 2)).sum /
            (nb.map (fun i => 1 / ts.distance powInv test_sample (ts.sampleAt i) 2)).sum ∧
        (∀ lo hi : ℚ,
          (∀ i ∈ nb, lo ≤ (ts.sampleAt i).sample_value ∧ (ts.sampleAt i).sample_value ≤ hi) →
            lo ≤ r ∧ r ≤ hi) ∧
        (N = 1 → ∃ i, nb = [i] ∧
          (∀ j, j < ts.samples.length →
            ts.distance powInv test_sample (ts.sampleAt i) 2 ≤
              ts.distance powInv test_sample (ts.sampleAt j) 2) ∧
          r = (ts.sampleAt i).sample_value) := by
  obtain ⟨I, hperm, hsorted, hslots⟩ :=
    TrainingSet.InterpolateLoop_slots powInv INF uninit ts test_sample N hN ts.samples.length
      (fun i hi => (hdist i hi).2)
  have hmemI : ∀ i, i ∈ I ↔ i < ts.samples.length := by
    intro i; rw [hperm.mem_iff, List.mem_range]
  have hlenI : I.length = ts.samples.length := by
    rw [hperm.length_eq, List.length_range]
  have hnodupI : I.Nodup := hperm.nodup_iff.mpr (List.nodup_range _)
  have hmemnb : ∀ i ∈ I.take N, i < ts.samples.length :=
    fun i hi => (hmemI i).mp (List.mem_of_mem_take hi)
  have hlen : (I.take N).length = min N ts.samples.length := by
    rw [List.length_take, hlenI]
  have hne : I.take N ≠ [] := by
    intro h0
    have : (I.take N).length = 0 := by rw [h0]; rfl
    rw [hlen] at this
    omega
  have hnear : ∀ i ∈ I.take N, ∀ j, j < ts.samples.length → j ∉ I.take N →
      ts.distance powInv test_sample (ts.sampleAt i) 2 ≤
        ts.distance powInv test_sample (ts.sampleAt j) 2 := by
    intro i hi j hj hjn
    have hjI : j ∈ I.take N ++ I.drop N := by
      rw [List.take_append_drop]; exact (hmemI j).mpr hj
    have hjd : j ∈ I.drop N := by
      rcases List.mem_append.mp hjI with h1 | h1
      · exact absurd h1 hjn
      · exact h1
    have hs : (I.take N ++ I.drop N).Pairwise (fun a b =>
        ts.distance powInv test_sample (ts.sampleAt a) 2 ≤
          ts.distance powInv test_sample (ts.sampleAt b) 2) := by
      rw [List.take_append_drop]; exact hsorted
    exact (List.pairwise_append.mp hs).2.2 i hi j hjd
  have hw : ∀ i ∈ I.take N, 0 < 1 / ts.distance powInv test_sample (ts.sampleAt i) 2 :=
    fun i hi => one_div_pos.mpr (hdist i (hmemnb i hi)).1
  have hB := TrainingSet.weight_sum_pos
    (fun i => 1 / ts.distance powInv test_sample (ts.sampleAt i) 2) (I.take N) hne hw
  have hLlt : ∀ s ∈ I.map (fun i => (ts.distance powInv test_sample (ts.sampleAt i) 2,
      (ts.sampleAt i).sample_value)), s.1 < INF := by
    intro s hs
    obtain ⟨i, hi, rfl⟩ := List.mem_map.mp hs
    exact (hdist i ((hmemI i).mp hi)).2
  have hnz : ∀ s ∈ (ts.InterpolateLoop powInv INF uninit test_sample N ts.samples.length).slots,
      s.1 < INF → s.1 ≠ 0 := by
    intro s hs hlt
    rw [hslots] at hs
    rcases List.mem_append.mp (List.mem_of_mem_take hs) with h1 | h1
    · obtain ⟨i, hi, rfl⟩ := List.mem_map.mp h1
      exact ne_of_gt (hdist i ((hmemI i).mp hi)).1
    · have := List.eq_of_mem_replicate h1
      subst this
      exact absurd hlt (lt_irrefl _)
  have hsums : TrainingSet.InterpolateSums INF
      (ts.InterpolateLoop powInv INF uninit test_sample N ts.samples.length).slots =
      some (((I.take N).map (fun i => (ts.sampleAt i).sample_value *
                (1 / ts.distance powInv test_sample (ts.sampleAt i) 2))).sum,
            ((I.take N).map
              (fun i => 1 / ts.distance powInv test_sample (ts.sampleAt i) 2)).sum) := by
    unfold TrainingSet.InterpolateSums
    rw [TrainingSet.InterpolateSums_foldl INF _ hnz 0 0, hslots,
      TrainingSet.filter_take_pad INF uninit N _ hLlt, ← List.map_take, List.map_map,
      List.map_map, zero_add, zero_add]
    rfl
  have hval : (ts.InterpolateValue powInv INF uninit test_sample N).value =
      some (((I.take N).map (fun i => (ts.sampleAt i).sample_value *
                (1 / ts.distance powInv test_sample (ts.sampleAt i) 2))).sum /
            ((I.take N).map
              (fun i => 1 / ts.distance powInv test_sample (ts.sampleAt i) 2)).sum) := by
    show (TrainingSet.InterpolateSums INF _).bind _ = _
    rw [hsums]
    exact fdiv_eq_some _ _ (ne_of_gt hB)
  refine ⟨I.take N, (List.take_sublist N I).nodup hnodupI, hmemnb, hlen, hnear, _, hval,
    ?_, ?_, ?_⟩
  · congr 2
    apply List.map_congr_left
    intro i _
    rw [mul_one_div]
  · intro lo hi hb
    have hbd := TrainingSet.weighted_sum_bounds
      (fun i => 1 / ts.distance powInv test_sample (ts.sampleAt i) 2)
      (fun i => (ts.sampleAt i).sample_value) lo hi (I.take N) hw hb
    exact ⟨(le_div_iff₀ hB).mpr hbd.1, (div_le_iff₀ hB).mpr hbd.2⟩
  · intro hN1
    subst hN1
    cases I with
    | nil => exact absurd rfl hne
    | cons i rest =>
      refine ⟨i, by simp, ?_, ?_⟩
      · intro j hj
        by_cases hji : j = i
        · rw [hji]
        · exact hnear i (by simp) j hj (by simpa using hji)
      · have hd := (hdist i ((hmemI i).mp (List.mem_cons_self _ _))).1
        simp only [List.take_succ_cons, List.take_zero, List.map_cons, List.map_nil,
          List.sum_cons, List.sum_nil, add_zero]
        field_simp

/-- On `interpolateExample` both samples are at the distance 1 of a test sample
with the feature value 0, and with three slots the value returned is the mean
3 of the two target values 2 and 4. -/
theorem TrainingSet.InterpolateValue_interpolateExample :
    (TrainingSet.InterpolateValue examplePowInv exampleINF 0 interpolateExample
      (constSample 0 0 "t") 3).value = some 3 ∧
    (TrainingSet.InterpolateValue examplePowInv exampleINF 0 interpolateExample
      (constSample 0 0 "t") 1).value = some 2 := by
  decide!

/-- Instance of C11 (amended): `interpolateExample` with three slots and a test sample
with the feature value 0; the value returned lies between the target values 2
and 4 of the two samples. -/
theorem TrainingSet.InterpolateValue_nearest_witness :
    ∃ nb : List ℕ, nb.length = min 3 interpolateExample.samples.length ∧
      ∃ r : ℚ,
        (TrainingSet.InterpolateValue examplePowInv exampleINF 0 interpolateExample
          (constSample 0 0 "t") 3).value = some r ∧ 2 ≤ r ∧ r ≤ 4 := by
  obtain ⟨nb, _, hmem, hlen, _, r, hr, _, hb, _⟩ :=
    TrainingSet.InterpolateValue_nearest examplePowInv exampleINF 0 interpolateExample
      (constSample 0 0 "t") 3 (by decide) (by decide!) (by decide!)
  refine ⟨nb, hlen, r, hr, hb 2 4 ?_⟩
  intro i hi
  have hi2 : i < 2 := hmem i hi
  interval_cases i
  · decide!
  · decide!

/-! ### `InterpolateValue` when no slot is in use -/

/-- C12 (evaluation of the code).  On a training set without samples, and on one
whose only sample is at the distance `INF`, no slot of `InterpolateValue` is in
use: `val` and `sum` are both 0 and the value returned, `val/sum`, is `0/0`.
The function returns it as its `double`; it has no other way out. -/
theorem TrainingSet.InterpolateValue_zero_over_zero :
    noSampleExample.samples.length = 0 ∧
      TrainingSet.InterpolateSums exampleINF
        (TrainingSet.InterpolateLoop examplePowInv exampleINF 0 noSampleExample
          (constSample 0 0 "t") 1 noSampleExample.samples.length).slots = some (0, 0) ∧
      (TrainingSet.InterpolateValue examplePowInv exampleINF 0 noSampleExample
        (constSample 0 0 "t") 1).value = none ∧
      farSampleExample.samples.length = 1 ∧
      TrainingSet.InterpolateSums exampleINF
        (TrainingSet.InterpolateLoop examplePowInv exampleINF 0 farSampleExample
          (constSample 0 0 "t") 1 farSampleExample.samples.length).slots = some (0, 0) ∧
      (TrainingSet.InterpolateValue examplePowInv exampleINF 0 farSampleExample
        (constSample 0 0 "t") 1).value = none := by
  decide!

/-! ### `split` -/

namespace TrainingSet

theorem AddClass_samples (MAX_CLASS_NUM : ℕ) (check_numeric : String → ℕ) (ts : TrainingSet)
    (label : String) :
    (AddClass MAX_CLASS_NUM check_numeric ts label).2.samples = ts.samples ∧
      (AddClass MAX_CLASS_NUM check_numeric ts label).2.test_samples = ts.test_samples := by
  unfold AddClass
  by_cases h1 : ts.is_continuous = true
  · simp [h1]
  · by_cases h2 : cmp_label ts label = 0
    · simp [h1, h2]
    · by_cases h3 : cmp_label ts label > 0
      · by_cases h4 : ts.class_num + 1 ≥ MAX_CLASS_NUM
        · simp [h1, h2, h3, h4]
        · simp [h1, h2, h3, h4]
      · simp [h1, h2, h3]

theorem foldl_AddClass_samples (MAX_CLASS_NUM : ℕ) (check_numeric : String → ℕ)
    (labels : ℕ → String) :
    ∀ (l : List ℕ) (s : TrainingSet),
      (l.foldl (fun s class_index =>
          (AddClass MAX_CLASS_NUM check_numeric s (labels class_index)).2) s).samples =
          s.samples ∧
        (l.foldl (fun s class_index =>
          (AddClass MAX_CLASS_NUM check_numeric s (labels class_index)).2) s).test_samples =
          s.test_samples := by
  intro l
  induction l with
  | nil => intro s; exact ⟨rfl, rfl⟩
  | cons c rest ih =>
    intro s
    rw [List.foldl_cons]
    have h1 := ih (AddClass MAX_CLASS_NUM check_numeric s (labels c)).2
    have h2 := AddClass_samples MAX_CLASS_NUM check_numeric s (labels c)
    exact ⟨h1.1.trans h2.1, h1.2.trans h2.2⟩

theorem SetAttrib_samples (MAX_CLASS_NUM : ℕ) (check_numeric : String → ℕ)
    (ts set : TrainingSet) :
    (SetAttrib MAX_CLASS_NUM check_numeric ts set).samples = set.samples ∧
      (SetAttrib MAX_CLASS_NUM check_numeric ts set).test_samples = set.test_samples :=
  foldl_AddClass_samples MAX_CLASS_NUM check_numeric ts.class_labels
    (List.range (ts.class_num + 1))
    { set with
      signature_count := ts.signature_count
      SignatureNames := fun sig_index =>
        if sig_index < ts.signature_count then ts.SignatureNames sig_index
        else set.SignatureNames sig_index
      is_numeric := ts.is_numeric
      is_pure_numeric := ts.is_pure_numeric
      is_continuous := ts.is_continuous }

theorem AddClass_appends (MAX_CLASS_NUM : ℕ) (check_numeric : String → ℕ) (ts : TrainingSet)
    (label : String) (hc : ts.is_continuous = false) (hsize : 0 < ts.class_labels_size)
    (hlt : ts.class_labels ts.class_num < label) (hmax : ts.class_num + 1 < MAX_CLASS_NUM) :
    (AddClass MAX_CLASS_NUM check_numeric ts label).2.is_continuous = false ∧
      (AddClass MAX_CLASS_NUM check_numeric ts label).2.class_num = ts.class_num + 1 ∧
      (AddClass MAX_CLASS_NUM check_numeric ts label).2.class_labels =
        Function.update ts.class_labels ts.class_labels_size label ∧
      (AddClass MAX_CLASS_NUM check_numeric ts label).2.class_labels_size =
        ts.class_labels_size + 1 := by
  have hcmp : cmp_label ts label = 1 := by
    unfold cmp_label
    rw [if_pos hsize, if_pos hlt]
  have hmax2 : ¬ ts.class_num + 1 ≥ MAX_CLASS_NUM := by omega
  simp [AddClass, hc, hcmp, hmax2]

theorem foldl_AddClass_sizes (MAX_CLASS_NUM : ℕ) (check_numeric : String → ℕ)
    (labels : ℕ → String) (set : TrainingSet) (hc : set.is_continuous = false)
    (hnew : set.class_num = 0 ∧ set.class_labels_size = 1 ∧ 0 < set.raw_features_size ∧
      set.class_labels 0 = labels 0) :
    ∀ n, (∀ c, c < n → labels c < labels (c + 1)) → n < MAX_CLASS_NUM →
      ((List.range (n + 1)).foldl
          (fun s class_index => (AddClass MAX_CLASS_NUM check_numeric s (labels class_index)).2)
          set).is_continuous = false ∧
        ((List.range (n + 1)).foldl
          (fun s class_index => (AddClass MAX_CLASS_NUM check_numeric s (labels class_index)).2)
          set).class_num = n ∧
        ((List.range (n + 1)).foldl
          (fun s class_index => (AddClass MAX_CLASS_NUM check_numeric s (labels class_index)).2)
          set).class_labels_size = n + 1 ∧
        ((List.range (n + 1)).foldl
          (fun s class_index => (AddClass MAX_CLASS_NUM check_numeric s (labels class_index)).2)
          set).class_labels n = labels n ∧
        n < ((List.range (n + 1)).foldl
          (fun s class_index => (AddClass MAX_CLASS_NUM check_numeric s (labels class_index)).2)
          set).raw_features_size := by
  intro n
  induction n with
  | zero =>
    intro _ _
    have h0 : AddClass MAX_CLASS_NUM check_numeric set (labels 0) =
        (returned.value set.class_num, set) := by
      have hcmp : cmp_label set (labels 0) = 0 := by
        simp [cmp_label, hnew.1, hnew.2.1, hnew.2.2.2]
      simp [AddClass, hc, hcmp]
    have e : (List.range (0 + 1)).foldl
        (fun s class_index => (AddClass MAX_CLASS_NUM check_numeric s (labels class_index)).2)
        set = (AddClass MAX_CLASS_NUM check_numeric set (labels 0)).2 := rfl
    rw [e, h0]
    exact ⟨hc, hnew.1, hnew.2.1, hnew.2.2.2, hnew.2.2.1⟩
  | succ n ih =>
    intro hl hm
    obtain ⟨h1, h2, h3, h4, h5⟩ := ih (fun c hcn => hl c (Nat.lt_succ_of_lt hcn))
      (Nat.lt_of_succ_lt hm)
    rw [List.range_succ, List.foldl_append]
    generalize (List.range (n + 1)).foldl
      (fun s class_index => (AddClass MAX_CLASS_NUM check_numeric s (labels class_index)).2)
      set = s at h1 h2 h3 h4 h5
    simp only [List.foldl_cons, List.foldl_nil]
    have hlt : s.class_labels s.class_num < labels (n + 1) := by
      rw [h2, h4]; exact hl n (Nat.lt_succ_self n)
    obtain ⟨a1, a2, a3, a4⟩ := AddClass_appends MAX_CLASS_NUM check_numeric s (labels (n + 1)) h1
      (by omega) hlt (by omega)
    have hs := AddClass_sizes MAX_CLASS_NUM check_numeric s (labels (n + 1))
      ⟨by omega, by omega, fun _ => by unfold CONTINUOUS_CLASS_INDEX at *; omega⟩
    refine ⟨a1, by rw [a2, h2], by rw [a4, h3], ?_, ?_⟩
    · rw [a3, h3, Function.update_same]
    · have := hs.2.1
      rw [a2, h2] at this
      exact this

theorem SetAttrib_sizes (MAX_CLASS_NUM : ℕ) (check_numeric : String → ℕ)
    (ts set : TrainingSet) (hdisc : ts.is_continuous = false)
    (hlabels : ∀ c, c < ts.class_num → ts.class_labels c < ts.class_labels (c + 1))
    (hmax : ts.class_num < MAX_CLASS_NUM)
    (hnew : set.class_num = 0 ∧ set.class_labels_size = 1 ∧ 0 < set.raw_features_size ∧
      set.class_labels 0 = ts.class_labels 0) :
    (SetAttrib MAX_CLASS_NUM check_numeric ts set).class_labels_size = ts.class_num + 1 ∧
      ts.class_num < (SetAttrib MAX_CLASS_NUM check_numeric ts set).raw_features_size := by
  have h := foldl_AddClass_sizes MAX_CLASS_NUM check_numeric ts.class_labels
    { set with
      signature_count := ts.signature_count
      SignatureNames := fun sig_index =>
        if sig_index < ts.signature_count then ts.SignatureNames sig_index
        else set.SignatureNames sig_index
      is_numeric := ts.is_numeric
      is_pure_numeric := ts.is_pure_numeric
      is_continuous := ts.is_continuous }
    hdisc hnew ts.class_num hlabels hmax
  exact ⟨h.2.2.1, h.2.2.2.2⟩

theorem train_test_split_perm (shuffle : ℕ → List ℕ → List ℕ)
    (hshuffle : ∀ c l, (shuffle c l).Perm l) (ts : TrainingSet) (randomize : Bool)
    (tiles class_index : ℕ) :
    (train_test_split shuffle ts randomize tiles class_index).Perm
      (List.range (ts.class_nsamples class_index / tiles)) := by
  unfold train_test_split
  split_ifs
  · exact hshuffle _ _
  · exact List.Perm.refl _

theorem splitGroups_facts (shuffle : ℕ → List ℕ → List ℕ)
    (hshuffle : ∀ c l, (shuffle c l).Perm l) (ts : TrainingSet) (randomize : Bool)
    (ratio : ℚ) (tiles train_samples test_samples : ℕ) (make_test_set : Bool) (c : ℕ)
    (hcount :
      (splitCounts ratio train_samples test_samples make_test_set
          (ts.class_nsamples c / tiles)).1 +
        (splitCounts ratio train_samples test_samples make_test_set
          (ts.class_nsamples c / tiles)).2 ≤ ts.class_nsamples c / tiles) :
    (splitTrainGroups shuffle ts randomize ratio tiles train_samples test_samples
        make_test_set c).length =
      (splitCounts ratio train_samples test_samples make_test_set
        (ts.class_nsamples c / tiles)).1 ∧
    (splitTestGroups shuffle ts randomize ratio tiles train_samples test_samples
        make_test_set c).length =
      (splitCounts ratio train_samples test_samples make_test_set
        (ts.class_nsamples c / tiles)).2 ∧
    (splitTrainGroups shuffle ts randomize ratio tiles train_samples test_samples
        make_test_set c ++
      splitTestGroups shuffle ts randomize ratio tiles train_samples test_samples
        make_test_set c).Nodup ∧
    ∀ g ∈ splitTrainGroups shuffle ts randomize ratio tiles train_samples test_samples
        make_test_set c ++
      splitTestGroups shuffle ts randomize ratio tiles train_samples test_samples
        make_test_set c, g < ts.class_nsamples c / tiles := by
  have hperm := train_test_split_perm shuffle hshuffle ts randomize tiles c
  have hlen : (train_test_split shuffle ts randomize tiles c).length =
      ts.class_nsamples c / tiles := by
    rw [hperm.length_eq, List.length_range]
  have happ : splitTrainGroups shuffle ts randomize ratio tiles train_samples test_samples
        make_test_set c ++
      splitTestGroups shuffle ts randomize ratio tiles train_samples test_samples
        make_test_set c =
      (train_test_split shuffle ts randomize tiles c).take
        ((splitCounts ratio train_samples test_samples make_test_set
          (ts.class_nsamples c / tiles)).1 +
        (splitCounts ratio train_samples test_samples make_test_set
          (ts.class_nsamples c / tiles)).2) := by
    unfold splitTrainGroups splitTestGroups
    rw [List.take_add]
  refine ⟨?_, ?_, ?_, ?_⟩
  · unfold splitTrainGroups
    rw [List.length_take, hlen]
    omega
  · unfold splitTestGroups
    rw [List.length_take, List.length_drop, hlen]
    omega
  · rw [happ]
    exact (List.take_sublist _ _).nodup (hperm.nodup_iff.mpr (List.nodup_range _))
  · intro g hg
    rw [happ] at hg
    exact List.mem_range.mp (hperm.mem_iff.mp (List.mem_of_mem_take hg))

end TrainingSet

namespace TrainingSet

theorem groupSamples_length (ts : TrainingSet) (tiles c g : ℕ)
    (h : g * tiles + tiles ≤ (ts.class_samples c).length) :
    (groupSamples ts tiles c g).length = tiles := by
  unfold groupSamples
  rw [List.length_take, List.length_drop]
  omega

theorem groupSamples_mem (ts : TrainingSet) (tiles c g : ℕ) (s : signatures)
    (h : s ∈ groupSamples ts tiles c g) : s ∈ ts.class_samples c :=
  List.mem_of_mem_drop (List.mem_of_mem_take h)

theorem length_flatMap_const {α : Type} (f : ℕ → List α) (tiles : ℕ) :
    ∀ groups : List ℕ, (∀ g ∈ groups, (f g).length = tiles) →
      (groups.flatMap f).length = groups.length * tiles := by
  intro groups
  induction groups with
  | nil => intro _; simp
  | cons g rest ih =>
    intro h
    rw [List.flatMap_cons, List.length_append, h g (List.mem_cons_self _ _),
      ih (fun x hx => h x (List.mem_cons_of_mem _ hx)), List.length_cons]
    ring

theorem group_block_le (tiles n L g : ℕ) (hg : g < n / tiles) (hL : n ≤ L) :
    g * tiles + tiles ≤ L := by
  have h1 : (g + 1) * tiles ≤ n / tiles * tiles := Nat.mul_le_mul_right tiles hg
  have h2 : n / tiles * tiles ≤ n := Nat.div_mul_le_self n tiles
  have h3 : (g + 1) * tiles = g * tiles + tiles := by ring
  omega

theorem splitTrainLoop_matrix (ts : TrainingSet) (tiles c : ℕ) (order : List ℕ)
    (start : MatrixXd × List signatures) :
    ∀ n, (splitTrainLoop ts tiles c order start n).1.rows = start.1.rows ∧
      (splitTrainLoop ts tiles c order start n).1.cols = start.1.cols ∧
      ∀ row j i, row < ts.signature_count → j < n → i < tiles →
        (splitTrainLoop ts tiles c order start n).1.coeff row (j * tiles + i) =
          (ts.raw_features c).coeff row (order.getD j 0 * tiles + i) := by
  intro n
  induction n with
  | zero =>
    refine ⟨rfl, rfl, ?_⟩
    intro row j i _ hj
    omega
  | succ n ih =>
    obtain ⟨hr, hc, hco⟩ := ih
    refine ⟨hr, hc, ?_⟩
    intro row j i hrow hj hi
    show (if row < ts.signature_count ∧ n * tiles ≤ j * tiles + i ∧
        j * tiles + i < n * tiles + tiles then
        (ts.raw_features c).coeff row (order.getD n 0 * tiles + (j * tiles + i - n * tiles))
      else (splitTrainLoop ts tiles c order start n).1.coeff row (j * tiles + i)) = _
    by_cases hjn : j = n
    · subst hjn
      have e : row < ts.signature_count ∧ j * tiles ≤ j * tiles + i ∧
          j * tiles + i < j * tiles + tiles := ⟨hrow, by omega, by omega⟩
      rw [if_pos e, Nat.add_sub_cancel_left]
    · have hlt : j + 1 ≤ n := by omega
      have h1 : (j + 1) * tiles ≤ n * tiles := Nat.mul_le_mul_right tiles hlt
      have h2 : (j + 1) * tiles = j * tiles + tiles := by ring
      have e : ¬ (row < ts.signature_count ∧ n * tiles ≤ j * tiles + i ∧
          j * tiles + i < n * tiles + tiles) := by
        intro h
        omega
      rw [if_neg e]
      exact hco row j i hrow (by omega) hi

theorem copyTiles_spec (src : List signatures) (srcIndex dstIndex : ℕ)
    (dst : List signatures) (d : signatures) :
    ∀ tiles, (copyTiles tiles src srcIndex dstIndex dst).length = dst.length ∧
      ∀ p, (copyTiles tiles src srcIndex dstIndex dst).getD p d =
        if dstIndex ≤ p ∧ p < dstIndex + tiles ∧ p < dst.length then
          src.getD (srcIndex + (p - dstIndex)) ⟨fun _ => 0, 0, 0, "", 0⟩
        else dst.getD p d := by
  intro tiles
  induction tiles with
  | zero =>
    refine ⟨rfl, ?_⟩
    intro p
    have e : ¬ (dstIndex ≤ p ∧ p < dstIndex + 0 ∧ p < dst.length) := by omega
    rw [if_neg e]
    rfl
  | succ t ih =>
    obtain ⟨hlen, hget⟩ := ih
    have hstep : copyTiles (t + 1) src srcIndex dstIndex dst =
        (copyTiles t src srcIndex dstIndex dst).set (dstIndex + t)
          (src.getD (srcIndex + t) ⟨fun _ => 0, 0, 0, "", 0⟩) := by
      unfold copyTiles
      rw [List.range_succ, List.foldl_append]
      rfl
    rw [hstep]
    refine ⟨by rw [List.length_set, hlen], ?_⟩
    intro p
    rw [List.getD_eq_getElem?_getD, List.getElem?_set]
    by_cases hp : dstIndex + t = p
    · rw [if_pos hp]
      by_cases hl : p < dst.length
      · have e : dstIndex ≤ p ∧ p < dstIndex + (t + 1) ∧ p < dst.length := by omega
        have e2 : dstIndex + t < (copyTiles t src srcIndex dstIndex dst).length := by
          rw [hlen]; omega
        rw [if_pos e2, if_pos e, ← hp, Nat.add_sub_cancel_left]
        rfl
      · have e : ¬ (dstIndex ≤ p ∧ p < dstIndex + (t + 1) ∧ p < dst.length) := by omega
        have e2 : ¬ dstIndex + t < (copyTiles t src srcIndex dstIndex dst).length := by
          rw [hlen]; omega
        rw [if_neg e2, if_neg e, List.getD_eq_getElem?_getD,
          List.getElem?_eq_none (by omega)]
    · rw [if_neg hp, ← List.getD_eq_getElem?_getD, hget p]
      by_cases h1 : dstIndex ≤ p ∧ p < dstIndex + t ∧ p < dst.length
      · have e : dstIndex ≤ p ∧ p < dstIndex + (t + 1) ∧ p < dst.length := by omega
        rw [if_pos h1, if_pos e]
      · have e : ¬ (dstIndex ≤ p ∧ p < dstIndex + (t + 1) ∧ p < dst.length) := by omega
        rw [if_neg h1, if_neg e]

theorem splitTrainLoop_samples (ts : TrainingSet) (tiles c : ℕ) (order : List ℕ)
    (start : MatrixXd × List signatures) (d : signatures) :
    ∀ n, (splitTrainLoop ts tiles c order start n).2.length = start.2.length ∧
      (n * tiles ≤ start.2.length →
        ∀ j i, j < n → i < tiles →
          (splitTrainLoop ts tiles c order start n).2.getD (j * tiles + i) d =
            (ts.class_samples c).getD (order.getD j 0 * tiles + i)
              ⟨fun _ => 0, 0, 0, "", 0⟩) := by
  intro n
  induction n with
  | zero =>
    refine ⟨rfl, ?_⟩
    intro _ j i hj
    omega
  | succ n ih =>
    obtain ⟨hlen, hget⟩ := ih
    have hspec := copyTiles_spec (ts.class_samples c) (order.getD n 0 * tiles) (n * tiles)
      (splitTrainLoop ts tiles c order start n).2 d tiles
    refine ⟨by
      show (copyTiles tiles (ts.class_samples c) (order.getD n 0 * tiles) (n * tiles)
        (splitTrainLoop ts tiles c order start n).2).length = _
      rw [hspec.1, hlen], ?_⟩
    intro hle j i hj hi
    have hsucc : (n + 1) * tiles = n * tiles + tiles := by ring
    show (copyTiles tiles (ts.class_samples c) (order.getD n 0 * tiles) (n * tiles)
      (splitTrainLoop ts tiles c order start n).2).getD (j * tiles + i) d = _
    rw [hspec.2]
    by_cases hjn : j = n
    · subst hjn
      have e : j * tiles ≤ j * tiles + i ∧ j * tiles + i < j * tiles + tiles ∧
          j * tiles + i < (splitTrainLoop ts tiles c order start j).2.length := by
        rw [hlen]
        omega
      rw [if_pos e, Nat.add_sub_cancel_left]
    · have hlt : j + 1 ≤ n := by omega
      have h1 : (j + 1) * tiles ≤ n * tiles := Nat.mul_le_mul_right tiles hlt
      have h2 : (j + 1) * tiles = j * tiles + tiles := by ring
      have e : ¬ (n * tiles ≤ j * tiles + i ∧ j * tiles + i < n * tiles + tiles ∧
          j * tiles + i < (splitTrainLoop ts tiles c order start n).2.length) := by
        intro h
        omega
      rw [if_neg e]
      exact hget (by omega) j i (by omega) hi

theorem pushTiles_eq (src : List signatures) (srcIndex : ℕ) (dst : List signatures) :
    ∀ tiles, srcIndex + tiles ≤ src.length →
      pushTiles tiles src srcIndex dst = dst ++ (src.drop srcIndex).take tiles := by
  intro tiles
  induction tiles with
  | zero =>
    intro _
    simp [pushTiles]
  | succ t ih =>
    intro h
    have hstep : pushTiles (t + 1) src srcIndex dst =
        pushTiles t src srcIndex dst ++ [src.getD (srcIndex + t) ⟨fun _ => 0, 0, 0, "", 0⟩] := by
      unfold pushTiles
      rw [List.range_succ, List.foldl_append]
      rfl
    have hlt : srcIndex + t < src.length := by omega
    rw [hstep, ih (by omega), List.append_assoc, List.take_succ, List.getElem?_drop,
      List.getD_eq_getElem?_getD, List.getElem?_eq_getElem hlt]
    rfl

theorem splitTestLoop_eq (ts : TrainingSet) (tiles c : ℕ) (order : List ℕ) (ntrain : ℕ)
    (start : List signatures) :
    ∀ n, ntrain + n ≤ order.length →
      (∀ g ∈ (order.drop ntrain).take n, g * tiles + tiles ≤ (ts.class_samples c).length) →
      splitTestLoop ts tiles c order ntrain start n =
        start ++ ((order.drop ntrain).take n).flatMap (groupSamples ts tiles c) := by
  intro n
  induction n with
  | zero =>
    intro _ _
    simp [splitTestLoop]
  | succ n ih =>
    intro hlen hin
    have hlt : ntrain + n < order.length := by omega
    have htake : (order.drop ntrain).take (n + 1) =
        (order.drop ntrain).take n ++ [order.getD (ntrain + n) 0] := by
      rw [List.take_succ, List.getElem?_drop, List.getD_eq_getElem?_getD,
        List.getElem?_eq_getElem hlt]
      rfl
    have hg : order.getD (ntrain + n) 0 * tiles + tiles ≤ (ts.class_samples c).length := by
      apply hin
      rw [htake]
      exact List.mem_append_right _ (List.mem_singleton_self _)
    have hprev := ih (by omega) (fun g hg2 => hin g (by
      rw [htake]
      exact List.mem_append_left _ hg2))
    show pushTiles tiles (ts.class_samples c) (order.getD (ntrain + n) 0 * tiles)
      (splitTestLoop ts tiles c order ntrain start n) = _
    rw [hprev, pushTiles_eq _ _ _ tiles hg, htake, List.flatMap_append, List.append_assoc]
    simp [groupSamples]

theorem splitClass_eq_some (shuffle : ℕ → List ℕ → List ℕ)
    (hshuffle : ∀ c l, (shuffle c l).Perm l) (ts : TrainingSet) (randomize : Bool)
    (ratio : ℚ) (tiles train_samples test_samples : ℕ) (make_test_set : Bool)
    (st : splitState) (c : ℕ)
    (hsizes : ts.class_nsamples c ≤ (ts.class_samples c).length ∧
      ts.class_nsamples c ≤ (ts.raw_features c).cols ∧
      ts.signature_count ≤ (ts.raw_features c).rows)
    (hcount :
      (splitCounts ratio train_samples test_samples make_test_set
          (ts.class_nsamples c / tiles)).1 +
        (splitCounts ratio train_samples test_samples make_test_set
          (ts.class_nsamples c / tiles)).2 ≤ ts.class_nsamples c / tiles)
    (hvec : splitVectorsOk ts st c
      (splitCounts ratio train_samples test_samples make_test_set
        (ts.class_nsamples c / tiles)).1
      (splitCounts ratio train_samples test_samples make_test_set
        (ts.class_nsamples c / tiles)).2) :
    ∃ r, splitClass shuffle ts randomize ratio tiles train_samples test_samples make_test_set
        st c = some r ∧
      (r.TrainSet.raw_features c).cols =
        (splitCounts ratio train_samples test_samples make_test_set
          (ts.class_nsamples c / tiles)).1 * tiles ∧
      (∀ d, d ≠ c → r.TrainSet.raw_features d = st.TrainSet.raw_features d) ∧
      r.TestSet.test_samples =
        st.TestSet.test_samples ++
          (splitTestGroups shuffle ts randomize ratio tiles train_samples test_samples
            make_test_set c).flatMap (groupSamples ts tiles c) ∧
      (∀ row j i, row < ts.signature_count →
        j < (splitCounts ratio train_samples test_samples make_test_set
          (ts.class_nsamples c / tiles)).1 → i < tiles →
        (r.TrainSet.raw_features c).coeff row (j * tiles + i) =
          (ts.raw_features c).coeff row
            ((train_test_split shuffle ts randomize tiles c).getD j 0 * tiles + i)) ∧
      (r.TrainSet.class_samples c).length =
        tiles * (splitCounts ratio train_samples test_samples make_test_set
          (ts.class_nsamples c / tiles)).1 ∧
      (∀ j i, j < (splitCounts ratio train_samples test_samples make_test_set
          (ts.class_nsamples c / tiles)).1 → i < tiles →
        (r.TrainSet.class_samples c).getD (j * tiles + i) ⟨fun _ => 0, 0, 0, "", 0⟩ =
          (ts.class_samples c).getD
            ((train_test_split shuffle ts randomize tiles c).getD j 0 * tiles + i)
            ⟨fun _ => 0, 0, 0, "", 0⟩) ∧
      (∀ d, d ≠ c → r.TrainSet.class_samples d = st.TrainSet.class_samples d) ∧
      r.TrainSet.raw_features_size = st.TrainSet.raw_features_size ∧
      r.TrainSet.class_labels_size = st.TrainSet.class_labels_size ∧
      r.TestSet.class_labels_size = st.TestSet.class_labels_size := by
  have hf := splitGroups_facts shuffle hshuffle ts randomize ratio tiles train_samples
    test_samples make_test_set c hcount
  have h1 : ¬ ((splitCounts ratio train_samples test_samples make_test_set
          (ts.class_nsamples c / tiles)).1 +
        (splitCounts ratio train_samples test_samples make_test_set
          (ts.class_nsamples c / tiles)).2 > ts.class_nsamples c / tiles) := not_lt.mpr hcount
  have h2 : (splitTrainGroups shuffle ts randomize ratio tiles train_samples test_samples
      make_test_set c).all (groupInRange ts tiles c true) = true := by
    rw [List.all_eq_true]
    intro g hg
    have hg2 := hf.2.2.2 g (List.mem_append_left _ hg)
    simp only [groupInRange, Bool.and_eq_true, decide_eq_true_eq, Bool.or_eq_true,
      Bool.not_eq_true', Bool.true_eq_false, false_or]
    exact ⟨group_block_le tiles _ _ g hg2 hsizes.1,
      group_block_le tiles _ _ g hg2 hsizes.2.1, hsizes.2.2⟩
  have h3 : (splitTestGroups shuffle ts randomize ratio tiles train_samples test_samples
      make_test_set c).all (groupInRange ts tiles c false) = true := by
    rw [List.all_eq_true]
    intro g hg
    have hg2 := hf.2.2.2 g (List.mem_append_right _ hg)
    simp only [groupInRange, Bool.and_eq_true, decide_eq_true_eq, Bool.or_eq_true,
      Bool.not_eq_true', true_or, and_true]
    exact group_block_le tiles _ _ g hg2 hsizes.1
  unfold splitTrainGroups at h2
  unfold splitTestGroups at h3
  simp only [splitClass]
  rw [if_neg h1, if_neg (not_not.mpr hvec), if_neg (by rw [h2]; exact Bool.noConfusion),
    if_neg (by rw [h3]; exact Bool.noConfusion)]
  have hperm := train_test_split_perm shuffle hshuffle ts randomize tiles c
  have hordlen : (train_test_split shuffle ts randomize tiles c).length =
      ts.class_nsamples c / tiles := by
    rw [hperm.length_eq, List.length_range]
  have hreslen : ∀ l : List signatures, ∀ m : ℕ,
      (l.take m ++ List.replicate (m - l.length)
        (⟨fun _ => 0, 0, 0, "", 0⟩ : signatures)).length = m := by
    intro l m
    rw [List.length_append, List.length_take, List.length_replicate]
    omega
  refine ⟨_, rfl, ?_, ?_, ?_, ?_, ?_, ?_, ?_, rfl, rfl, ?_⟩
  · dsimp only
    rw [Function.update_same, (splitTrainLoop_matrix ts tiles c _ _ _).2.1]
  · intro d hd
    show Function.update st.TrainSet.raw_features c _ d = _
    rw [Function.update_noteq hd]
  · by_cases hz : (splitCounts ratio train_samples test_samples make_test_set
        (ts.class_nsamples c / tiles)).2 = 0
    · simp [hz, splitTestGroups]
    · have hne : (splitCounts ratio train_samples test_samples make_test_set
          (ts.class_nsamples c / tiles)).2 ≠ 0 := hz
      simp only [hne, ne_eq, not_false_eq_true, if_true]
      rw [splitTestLoop_eq ts tiles c _ _ _ _ (by rw [hordlen]; exact hcount)]
      · rfl
      · intro g hg
        have hg2 := hf.2.2.2 g (List.mem_append_right _ hg)
        exact group_block_le tiles _ _ g hg2 hsizes.1
  · intro row j i hrow hj hi
    dsimp only
    rw [Function.update_same]
    exact (splitTrainLoop_matrix ts tiles c _ _ _).2.2 row j i hrow hj hi
  · dsimp only
    rw [Function.update_same,
      (splitTrainLoop_samples ts tiles c _ _ ⟨fun _ => 0, 0, 0, "", 0⟩ _).1]
    exact hreslen _ _
  · intro j i hj hi
    dsimp only
    rw [Function.update_same]
    refine (splitTrainLoop_samples ts tiles c _ _ ⟨fun _ => 0, 0, 0, "", 0⟩ _).2 ?_ j i hj hi
    show _ ≤ (_ ++ _ : List signatures).length
    rw [hreslen, Nat.mul_comm]
  · intro d hd
    show Function.update st.TrainSet.class_samples c _ d = _
    rw [Function.update_noteq hd]
  · dsimp only
    split_ifs <;> rfl

end TrainingSet

namespace TrainingSet

theorem splitClass_sizes (shuffle : ℕ → List ℕ → List ℕ) (ts : TrainingSet) (randomize : Bool)
    (ratio : ℚ) (tiles train_samples test_samples : ℕ) (make_test_set : Bool)
    (st r : splitState) (c : ℕ)
    (h : splitClass shuffle ts randomize ratio tiles train_samples test_samples make_test_set
      st c = some r) :
    r.TrainSet.raw_features_size = st.TrainSet.raw_features_size ∧
      r.TrainSet.class_labels_size = st.TrainSet.class_labels_size ∧
      r.TestSet.class_labels_size = st.TestSet.class_labels_size := by
  simp only [splitClass] at h
  split_ifs at h <;> cases h <;> exact ⟨rfl, rfl, rfl⟩

theorem splitLoop_sizes (shuffle : ℕ → List ℕ → List ℕ) (ts : TrainingSet) (randomize : Bool)
    (ratio : ℚ) (tiles train_samples test_samples : ℕ) (make_test_set : Bool)
    (st0 : splitState) :
    ∀ n r, splitLoop shuffle ts randomize ratio tiles train_samples test_samples make_test_set
        st0 n = some r →
      r.TrainSet.raw_features_size = st0.TrainSet.raw_features_size ∧
        r.TrainSet.class_labels_size = st0.TrainSet.class_labels_size ∧
        r.TestSet.class_labels_size = st0.TestSet.class_labels_size := by
  intro n
  induction n with
  | zero =>
    intro r h
    cases h
    exact ⟨rfl, rfl, rfl⟩
  | succ n ih =>
    intro r h
    rw [splitLoop] at h
    cases hs : splitLoop shuffle ts randomize ratio tiles train_samples test_samples
        make_test_set st0 n with
    | none => rw [hs] at h; cases h
    | some s1 =>
      rw [hs] at h
      have h1 := ih s1 hs
      have h2 := splitClass_sizes shuffle ts randomize ratio tiles train_samples test_samples
        make_test_set s1 r (n + 1) h
      exact ⟨h2.1.trans h1.1, h2.2.1.trans h1.2.1, h2.2.2.trans h1.2.2⟩

theorem splitVectorsOk_of_sizes (ts : TrainingSet) (st0 r : splitState) (c n1 n2 : ℕ)
    (hc : c ≤ ts.class_num)
    (hv : ts.class_num < ts.class_labels_size ∧ ts.class_num < ts.raw_features_size ∧
      ts.class_num < st0.TrainSet.raw_features_size ∧
      ts.class_num < st0.TrainSet.class_labels_size ∧
      ts.class_num < st0.TestSet.class_labels_size)
    (hs : r.TrainSet.raw_features_size = st0.TrainSet.raw_features_size ∧
      r.TrainSet.class_labels_size = st0.TrainSet.class_labels_size ∧
      r.TestSet.class_labels_size = st0.TestSet.class_labels_size) :
    splitVectorsOk ts r c n1 n2 := by
  unfold splitVectorsOk
  rw [hs.1, hs.2.1, hs.2.2]
  refine ⟨by omega, fun _ => by omega, by omega, by omega, fun _ => by omega⟩

theorem splitLoop_inv (shuffle : ℕ → List ℕ → List ℕ)
    (hshuffle : ∀ c l, (shuffle c l).Perm l) (ts : TrainingSet) (randomize : Bool)
    (ratio : ℚ) (tiles train_samples test_samples : ℕ) (make_test_set : Bool)
    (st0 : splitState)
    (hsizes : ∀ c, 1 ≤ c → c ≤ ts.class_num →
      ts.class_nsamples c ≤ (ts.class_samples c).length ∧
        ts.class_nsamples c ≤ (ts.raw_features c).cols ∧
        ts.signature_count ≤ (ts.raw_features c).rows)
    (hcounts : ∀ c, 1 ≤ c → c ≤ ts.class_num →
      (splitCounts ratio train_samples test_samples make_test_set
          (ts.class_nsamples c / tiles)).1 +
        (splitCounts ratio train_samples test_samples make_test_set
          (ts.class_nsamples c / tiles)).2 ≤ ts.class_nsamples c / tiles)
    (hv : ts.class_num < ts.class_labels_size ∧ ts.class_num < ts.raw_features_size ∧
      ts.class_num < st0.TrainSet.raw_features_size ∧
      ts.class_num < st0.TrainSet.class_labels_size ∧
      ts.class_num < st0.TestSet.class_labels_size) :
    ∀ n, n ≤ ts.class_num →
      ∃ r, splitLoop shuffle ts randomize ratio tiles train_samples test_samples make_test_set
          st0 n = some r ∧
        (∀ c, 1 ≤ c → c ≤ n →
          (r.TrainSet.raw_features c).cols =
            (splitCounts ratio train_samples test_samples make_test_set
              (ts.class_nsamples c / tiles)).1 * tiles) ∧
        r.TestSet.test_samples =
          st0.TestSet.test_samples ++
            (List.range n).flatMap (fun k =>
              (splitTestGroups shuffle ts randomize ratio tiles train_samples test_samples
                make_test_set (k + 1)).flatMap (groupSamples ts tiles (k + 1))) := by
  intro n
  induction n with
  | zero =>
    intro _
    refine ⟨st0, rfl, ?_, by simp⟩
    intro c h1 h2
    omega
  | succ n ih =>
    intro hn
    obtain ⟨r, hr, hcols, htest⟩ := ih (Nat.le_of_succ_le hn)
    obtain ⟨r2, hr2, hcols2, hframe, htest2, _⟩ :=
      splitClass_eq_some shuffle hshuffle ts randomize ratio tiles train_samples test_samples
        make_test_set r (n + 1) (hsizes (n + 1) (Nat.succ_le_succ (Nat.zero_le n)) hn)
        (hcounts (n + 1) (Nat.succ_le_succ (Nat.zero_le n)) hn)
        (splitVectorsOk_of_sizes ts st0 r (n + 1) _ _ hn hv
          (splitLoop_sizes shuffle ts randomize ratio tiles train_samples test_samples
            make_test_set st0 n r hr))
    refine ⟨r2, ?_, ?_, ?_⟩
    · show (splitLoop shuffle ts randomize ratio tiles train_samples test_samples make_test_set
        st0 n).bind _ = _
      rw [hr]
      exact hr2
    · intro c h1 h2
      by_cases hc : c = n + 1
      · rw [hc]; exact hcols2
      · rw [hframe c hc]
        exact hcols c h1 (by omega)
    · rw [htest2, htest, List.range_succ, List.flatMap_append, List.append_assoc]
      simp

end TrainingSet

/-- The counts of `split` where it runs through.  Let the vectors of the set
and those of `TrainSet` and `TestSet` after `SetAttrib` have an entry for every
class (`SetAttrib_sizes`: so it is for a discrete set with increasing labels
and new sets), the tile count be at least 1, `TestSet` hold no sample on entry,
`random_shuffle` return a permutation, the matrix and the sample list of every
class hold its `class_nsamples` samples, and for every class `c` in
`1 .. class_num` the counts `train_count` and `test_count` that `split` computes
satisfy `train_count + test_count ≤ floor(class_nsamples[c] / tiles)`.  Then
`split` returns, and for every such class the matrix of `TrainSet` has
`train_count * tiles` columns, the training and test group indices are
`train_count` and `test_count` indices below the number of groups with no index
twice among them all, and the samples appended to `TestSet->test_samples` are,
class after class, the `test_count * tiles` samples of the test groups, all
taken from `class_samples[c]`. -/
theorem TrainingSet.split_counts (MAX_CLASS_NUM : ℕ) (check_numeric : String → ℕ)
    (shuffle : ℕ → List ℕ → List ℕ) (ts : TrainingSet) (randomize : Bool) (ratio : ℚ)
    (TrainSet TestSet : TrainingSet) (tiles train_samples test_samples : ℕ)
    (sp : data_split)
    (htiles : 1 ≤ tiles)
    (hshuffle : ∀ c l, (shuffle c l).Perm l)
    (hempty : TestSet.samples.length = 0)
    (hsizes : ∀ c, 1 ≤ c → c ≤ ts.class_num →
      ts.class_nsamples c ≤ (ts.class_samples c).length ∧
        ts.class_nsamples c ≤ (ts.raw_features c).cols ∧
        ts.signature_count ≤ (ts.raw_features c).rows)
    (hcounts : ∀ c, 1 ≤ c → c ≤ ts.class_num →
      (TrainingSet.splitCounts ratio train_samples test_samples true
          (ts.class_nsamples c / tiles)).1 +
        (TrainingSet.splitCounts ratio train_samples test_samples true
          (ts.class_nsamples c / tiles)).2 ≤ ts.class_nsamples c / tiles)
    (hv : ts.class_num < ts.class_labels_size ∧ ts.class_num < ts.raw_features_size ∧
      ts.class_num <
        (TrainingSet.SetAttrib MAX_CLASS_NUM check_numeric ts TrainSet).raw_features_size ∧
      ts.class_num <
        (TrainingSet.SetAttrib MAX_CLASS_NUM check_numeric ts TrainSet).class_labels_size ∧
      ts.class_num <
        (TrainingSet.SetAttrib MAX_CLASS_NUM check_numeric ts TestSet).class_labels_size) :
    ∃ r, TrainingSet.split MAX_CLASS_NUM check_numeric shuffle ts randomize ratio TrainSet
        TestSet tiles train_samples test_samples sp = some r ∧
      (∀ c, 1 ≤ c → c ≤ ts.class_num →
        (r.TrainSet.raw_features c).cols =
          (TrainingSet.splitCounts ratio train_samples test_samples true
            (ts.class_nsamples c / tiles)).1 * tiles ∧
        (TrainingSet.splitTrainGroups shuffle ts randomize ratio tiles train_samples
            test_samples true c).length =
          (TrainingSet.splitCounts ratio train_samples test_samples true
            (ts.class_nsamples c / tiles)).1 ∧
        (TrainingSet.splitTestGroups shuffle ts randomize ratio tiles train_samples
            test_samples true c).length =
          (TrainingSet.splitCounts ratio train_samples test_samples true
            (ts.class_nsamples c / tiles)).2 ∧
        (TrainingSet.splitTrainGroups shuffle ts randomize ratio tiles train_samples
            test_samples true c ++
          TrainingSet.splitTestGroups shuffle ts randomize ratio tiles train_samples
            test_samples true c).Nodup ∧
        (∀ g ∈ TrainingSet.splitTrainGroups shuffle ts randomize ratio tiles train_samples
            test_samples true c ++
          TrainingSet.splitTestGroups shuffle ts randomize ratio tiles train_samples
            test_samples true c, g < ts.class_nsamples c / tiles) ∧
        ((TrainingSet.splitTestGroups shuffle ts randomize ratio tiles train_samples
            test_samples true c).flatMap (TrainingSet.groupSamples ts tiles c)).length =
          (TrainingSet.splitCounts ratio train_samples test_samples true
            (ts.class_nsamples c / tiles)).2 * tiles ∧
        ∀ s ∈ (TrainingSet.splitTestGroups shuffle ts randomize ratio tiles train_samples
            test_samples true c).flatMap (TrainingSet.groupSamples ts tiles c),
          s ∈ ts.class_samples c) ∧
      r.TestSet.test_samples =
        TestSet.test_samples ++
          (List.range ts.class_num).flatMap (fun k =>
            (TrainingSet.splitTestGroups shuffle ts randomize ratio tiles train_samples
              test_samples true (k + 1)).flatMap (TrainingSet.groupSamples ts tiles (k + 1))) := by
  have hs := TrainingSet.SetAttrib_samples MAX_CLASS_NUM check_numeric ts TestSet
  obtain ⟨r, hr, hcols, htest⟩ :=
    TrainingSet.splitLoop_inv shuffle hshuffle ts randomize ratio tiles train_samples
      test_samples true
      { TrainSet :=
          { TrainingSet.SetAttrib MAX_CLASS_NUM check_numeric ts TrainSet with
            class_num := ts.class_num }
        TestSet :=
          { TrainingSet.SetAttrib MAX_CLASS_NUM check_numeric ts TestSet with
            class_num := ts.class_num }
        split := sp }
      hsizes hcounts hv ts.class_num (le_refl _)
  have hsplit : TrainingSet.split MAX_CLASS_NUM check_numeric shuffle ts randomize ratio
      TrainSet TestSet tiles train_samples test_samples sp = some r := by
    rw [← hr]
    simp only [TrainingSet.split]
    rw [if_pos hempty, if_neg (by omega : ¬ tiles < 1), hs.1,
      if_neg (by omega : ¬ TestSet.samples.length > 0)]
  refine ⟨r, hsplit, ?_, ?_⟩
  · intro c h1 h2
    have hf := TrainingSet.splitGroups_facts shuffle hshuffle ts randomize ratio tiles
      train_samples test_samples true c (hcounts c h1 h2)
    refine ⟨hcols c h1 h2, hf.1, hf.2.1, hf.2.2.1, hf.2.2.2, ?_, ?_⟩
    · rw [TrainingSet.length_flatMap_const _ tiles, hf.2.1]
      intro g hg
      exact TrainingSet.groupSamples_length ts tiles c g
        (TrainingSet.group_block_le tiles _ _ g (hf.2.2.2 g (List.mem_append_right _ hg))
          (hsizes c h1 h2).1)
    · intro s hs2
      obtain ⟨g, _, hg⟩ := List.mem_flatMap.mp hs2
      exact TrainingSet.groupSamples_mem ts tiles c g s hg
  · rw [htest]
    show (TrainingSet.SetAttrib MAX_CLASS_NUM check_numeric ts TestSet).test_samples ++ _ = _
    rw [hs.2]

/-- Instance of `split_counts`: `splitExample` with two tiles per image, the reversing
shuffle, one training image and one test image, and new sets as `TrainSet` and
`TestSet`.  The matrix of class 1 in `TrainSet` has two columns. -/
theorem TrainingSet.split_counts_witness :
    ∃ r, TrainingSet.split exampleMAX_CLASS_NUM exampleCheckNumeric exampleShuffle splitExample
        true 0 TrainingSet.init TrainingSet.init 2 1 1 emptySplit = some r ∧
      (r.TrainSet.raw_features 1).cols = 2 := by
  have h1 : splitExample.class_num = 1 := rfl
  obtain ⟨r, hr, hc, _⟩ :=
    TrainingSet.split_counts exampleMAX_CLASS_NUM exampleCheckNumeric exampleShuffle splitExample
      true 0 TrainingSet.init TrainingSet.init 2 1 1 emptySplit (by decide)
      (fun _ l => List.reverse_perm l) rfl
      (by
        intro c hc1 hc2
        have : c = 1 := by omega
        subst this
        decide!)
      (by
        intro c hc1 hc2
        have : c = 1 := by omega
        subst this
        decide!)
      (by decide!)
  refine ⟨r, hr, ?_⟩
  rw [(hc 1 (le_refl 1) (by decide!)).1]
  decide!

/-- On `splitExample` with the reversing shuffle and two tiles per image, the
training group is group 1 and the test group is group 0: `TrainSet` gets the
columns 2 and 3 of the matrix, `TestSet->test_samples` the samples 0 and 1. -/
theorem TrainingSet.split_splitExample :
    (TrainingSet.split exampleMAX_CLASS_NUM exampleCheckNumeric exampleShuffle splitExample
        true 0 TrainingSet.init TrainingSet.init 2 1 1 emptySplit).map
      (fun r => ((r.TrainSet.raw_features 1).cols, (r.TrainSet.raw_features 1).coeff 0 0,
        (r.TrainSet.raw_features 1).coeff 0 1,
        r.TestSet.test_samples.map (fun s => s.sample_value),
        r.split.training_images 1, r.split.testing_images 1)) =
      some (2, 2, 3, [0, 1], 1, 1) := by
  decide!

/-- Line 687 with the ratio 0.7, the `double` `6305039478318694 / 2^53`, and five
groups: the product is rounded to 3.5 and the count is 4, where the exact
product, just below 3.5, would give 3. -/
theorem TrainingSet.roundedTrainCount_example :
    double.nearest (7 / 10) = double.finite (6305039478318694 / 2 ^ 53) ∧
      TrainingSet.roundedTrainCount (6305039478318694 / 2 ^ 53) 5 = 4 ∧
      ⌊(6305039478318694 / 2 ^ 53 : ℚ) * 5 + 1 / 2⌋ = 3 := by
  decide!

/-- C13 (evaluation of the code).  `continuousSplitExample` is `splitExample`
after `MakeContinuous`: one class with four samples.  In `split`, `SetAttrib`
copies `is_continuous` to the new `TrainSet` before its `AddClass` calls, which
all fail on a continuous set, so the vectors of `TrainSet` keep the size 1 and
line 707 indexes `TrainSet->raw_features` at the class 1: `split` has no
result, with one tile, two training images and one test image out of four.  On
the discrete `splitExample` the same call returns and the matrix of class 1 in
`TrainSet` has two columns. -/
theorem TrainingSet.split_counts_continuous_source :
    (TrainingSet.MakeContinuous splitExample "").isSome = true ∧
      continuousSplitExample.is_continuous = true ∧
      continuousSplitExample.class_num = 1 ∧
      continuousSplitExample.class_nsamples 1 = 4 ∧
      (TrainingSet.AddClass exampleMAX_CLASS_NUM exampleCheckNumeric
          { TrainingSet.init with is_continuous := true } "a").1 =
        returned.error wndchrm_error.ADDING_CLASS_TO_CONTINUOUS_DATASET ∧
      (TrainingSet.SetAttrib exampleMAX_CLASS_NUM exampleCheckNumeric continuousSplitExample
          TrainingSet.init).raw_features_size = 1 ∧
      (TrainingSet.SetAttrib exampleMAX_CLASS_NUM exampleCheckNumeric continuousSplitExample
          TrainingSet.init).class_labels_size = 1 ∧
      (TrainingSet.split exampleMAX_CLASS_NUM exampleCheckNumeric exampleShuffle
          continuousSplitExample false 0 TrainingSet.init TrainingSet.init 1 2 1
          emptySplit).isSome = false ∧
      (TrainingSet.split exampleMAX_CLASS_NUM exampleCheckNumeric exampleShuffle
          splitExample false 0 TrainingSet.init TrainingSet.init 1 2 1 emptySplit).map
        (fun r => ((r.TrainSet.raw_features 1).cols, r.TestSet.test_samples.length)) =
        some (2, 1) := by
  refine ⟨by decide!, by decide!, by decide!, by decide!, by decide!, by decide!, by decide!,
    by decide!, by decide!⟩

/-! ### `split` with a test set that holds samples -/

/-- C14 (evaluation of the code).  `twoSamplesExample` holds two samples and has
`class_num = 2`.  Passed as `TestSet` to `split` on `splitExample`, whose
`class_num` is 1, it comes back with `class_num = 1`; its samples and its list
of test samples are as before. -/
theorem TrainingSet.split_sets_class_num_of_test_set :
    twoSamplesExample.samples.length = 2 ∧ twoSamplesExample.class_num = 2 ∧
      splitExample.class_num = 1 ∧
      (TrainingSet.split exampleMAX_CLASS_NUM exampleCheckNumeric exampleShuffle splitExample
          false 0 TrainingSet.init twoSamplesExample 1 2 1 emptySplit).map
        (fun r => (r.TestSet.class_num, r.TestSet.samples.length,
          r.TestSet.test_samples.length)) = some (1, 2, 0) := by
  decide!

/-! ### The P-value of `Test` -/

namespace TrainingSet

theorem classification_p_value_foldl (gsl_sf_choose : ℕ → ℕ → Option ℚ) (K n a0 : ℕ)
    (hgsl : ∀ k, a0 ≤ k → k ≤ n → gsl_sf_choose n k = some ((n.choose k : ℕ) : ℚ)) :
    ∀ (len a : ℕ) (P : ℚ), a0 ≤ a → a + len ≤ n + 1 →
      (List.range' a len).foldl
        (fun P correct =>
          match gsl_sf_choose n correct with
          | some choose =>
            P + (1 / (K : ℚ)) ^ correct * (1 - 1 / (K : ℚ)) ^ (n - correct) * choose
          | none => P)
        P =
      P + ∑ k ∈ Finset.Ico a (a + len),
        (1 / (K : ℚ)) ^ k * (1 - 1 / (K : ℚ)) ^ (n - k) * (n.choose k : ℚ) := by
  intro len
  induction len with
  | zero => intro a P _ _; simp
  | succ len ih =>
    intro a P h0 h
    rw [List.range'_succ, List.foldl_cons, hgsl a h0 (by omega)]
    rw [ih (a + 1) _ (by omega) (by omega),
      Finset.sum_eq_sum_Ico_succ_bot (by omega : a < a + (len + 1))]
    rw [show a + 1 + len = a + (len + 1) by ring]
    ring

theorem classification_p_value_eq (gsl_sf_choose : ℕ → ℕ → Option ℚ) (K a n : ℕ)
    (hgsl : ∀ k, a ≤ k → k ≤ n → gsl_sf_choose n k = some ((n.choose k : ℕ) : ℚ)) (ha : a ≤ n) :
    classification_p_value gsl_sf_choose K a n =
      ∑ k ∈ Finset.Icc a n,
        (1 / (K : ℚ)) ^ k * (1 - 1 / (K : ℚ)) ^ (n - k) * (n.choose k : ℚ) := by
  unfold classification_p_value
  rw [classification_p_value_foldl gsl_sf_choose K n a hgsl _ a 0 le_rfl (by omega), zero_add,
    show a + (n + 1 - a) = n + 1 by omega, Nat.Ico_succ_right]

theorem binomial_tail_bounds (K a n : ℕ) (hK : 1 ≤ K) (ha : a ≤ n) :
    0 < ∑ k ∈ Finset.Icc a n,
        (1 / (K : ℚ)) ^ k * (1 - 1 / (K : ℚ)) ^ (n - k) * (n.choose k : ℚ) ∧
      ∑ k ∈ Finset.Icc a n,
        (1 / (K : ℚ)) ^ k * (1 - 1 / (K : ℚ)) ^ (n - k) * (n.choose k : ℚ) ≤ 1 ∧
      (a = 0 →
        ∑ k ∈ Finset.Icc a n,
          (1 / (K : ℚ)) ^ k * (1 - 1 / (K : ℚ)) ^ (n - k) * (n.choose k : ℚ) = 1) := by
  have hKq : (1 : ℚ) ≤ K := by exact_mod_cast hK
  have hx : 0 < 1 / (K : ℚ) := one_div_pos.mpr (by linarith)
  have hy : 0 ≤ 1 - 1 / (K : ℚ) := by
    rw [sub_nonneg, div_le_one (by linarith)]
    exact hKq
  have hterm : ∀ k ∈ Finset.Icc a n,
      0 ≤ (1 / (K : ℚ)) ^ k * (1 - 1 / (K : ℚ)) ^ (n - k) * (n.choose k : ℚ) := by
    intro k _
    exact mul_nonneg (mul_nonneg (pow_nonneg (le_of_lt hx) _) (pow_nonneg hy _))
      (Nat.cast_nonneg _)
  have hfull : ∑ k ∈ Finset.range (n + 1),
      (1 / (K : ℚ)) ^ k * (1 - 1 / (K : ℚ)) ^ (n - k) * (n.choose k : ℚ) = 1 := by
    rw [← add_pow]
    simp
  refine ⟨?_, ?_, ?_⟩
  · have hn : n ∈ Finset.Icc a n := Finset.mem_Icc.mpr ⟨ha, le_refl n⟩
    have h1 := Finset.single_le_sum hterm hn
    have h2 : 0 < (1 / (K : ℚ)) ^ n * (1 - 1 / (K : ℚ)) ^ (n - n) * (n.choose n : ℚ) := by
      simp only [Nat.sub_self, pow_zero, mul_one, Nat.choose_self, Nat.cast_one]
      exact pow_pos hx n
    linarith
  · refine le_trans ?_ (le_of_eq hfull)
    apply Finset.sum_le_sum_of_subset_of_nonneg
    · intro k hk
      rw [Finset.mem_Icc] at hk
      exact Finset.mem_range.mpr (by omega)
    · intro k _ _
      exact mul_nonneg (mul_nonneg (pow_nonneg (le_of_lt hx) _) (pow_nonneg hy _))
        (Nat.cast_nonneg _)
  · intro h0
    rw [h0]
    refine Eq.trans ?_ hfull
    apply Finset.sum_congr
    · ext k
      simp [Finset.mem_Icc, Finset.mem_range, Nat.lt_succ_iff]
    · intro _ _; rfl

theorem Test_accurate_le_known (K : ℕ) (cm : ℕ → ℕ) :
    ∑ c ∈ Finset.range K, cm (K * (c + 1) + (c + 1)) ≤
      ∑ c ∈ Finset.range K, class_test_samples K cm (c + 1) := by
  apply Finset.sum_le_sum
  intro c hc
  unfold class_test_samples
  exact Finset.single_le_sum (f := fun b => cm (K * (c + 1) + (b + 1)))
    (fun _ _ => Nat.zero_le _) hc

end TrainingSet

/-- C16 (counterexample).  Evaluated as `double` evaluates it, `pow` being
correctly rounded and `gsl_sf_choose` returning the binomial coefficient.  With
3 classes and no accurate prediction among 2 known images the loop adds
`pow(1/3, 0) * pow(1 - 1/3, 2) * 1`, `pow(1/3, 1) * pow(1 - 1/3, 1) * 2` and
`pow(1/3, 2) * pow(1 - 1/3, 0) * 1`, and `P` is `1 + 2^-52`, above 1.  With 10
classes and 324 accurate predictions among 324 known images the only term is
`pow(1/10, 324) * pow(1 - 1/10, 0) * 1`, whose first factor is below the least
positive `double`, and `P` is 0. -/
theorem TrainingSet.classification_p_value_rounding_counterexample :
    rounded.classification_p_value examplePow exampleChooseDouble 3 0 2 =
        double.finite (1 + 1 / 2 ^ 52) ∧
      rounded.classification_p_value examplePow exampleChooseDouble 10 324 324 =
        double.finite 0 := by
  decide!

/-- C16 (amended).  After `Test` on a discrete set with `K ≥ 1` classes, the
record has `a = accurate_predictions ≤ n = known_images`; when `gsl_sf_choose`
returns the binomial coefficient `C(n,k)` for every `k` from `a` to `n`,
`classification_p_value` is the sum the loop adds up,
`Σ_{k=a}^{n} C(n,k)·(1/K)^k·(1 − 1/K)^(n−k)`; in exact arithmetic the value is
above 0 and at most 1, and it is 1 when `a = 0`. -/
theorem TrainingSet.Test_classification_p_value (gsl_sf_choose : ℕ → ℕ → Option ℚ)
    (ts TestSet : TrainingSet) (predicted : ℕ → ℕ) (tiles : ℕ) (sp : data_split)
    (hK : 1 ≤ ts.class_num)
    (hgsl : ∀ k,
      (TrainingSet.Test gsl_sf_choose ts TestSet predicted tiles sp).accurate_predictions ≤ k →
      k ≤ (TrainingSet.Test gsl_sf_choose ts TestSet predicted tiles sp).known_images →
      gsl_sf_choose (TrainingSet.Test gsl_sf_choose ts TestSet predicted tiles sp).known_images k =
        some (((TrainingSet.Test gsl_sf_choose ts TestSet predicted tiles sp).known_images.choose
          k : ℕ) : ℚ)) :
    (TrainingSet.Test gsl_sf_choose ts TestSet predicted tiles sp).accurate_predictions ≤
        (TrainingSet.Test gsl_sf_choose ts TestSet predicted tiles sp).known_images ∧
      (TrainingSet.Test gsl_sf_choose ts TestSet predicted tiles sp).classification_p_value =
        ∑ k ∈ Finset.Icc
            (TrainingSet.Test gsl_sf_choose ts TestSet predicted tiles sp).accurate_predictions
            (TrainingSet.Test gsl_sf_choose ts TestSet predicted tiles sp).known_images,
          (1 / (ts.class_num : ℚ)) ^ k *
            (1 - 1 / (ts.class_num : ℚ)) ^
              ((TrainingSet.Test gsl_sf_choose ts TestSet predicted tiles sp).known_images - k) *
            (((TrainingSet.Test gsl_sf_choose ts TestSet predicted tiles sp).known_images.choose
              k : ℕ) : ℚ) ∧
      0 < (TrainingSet.Test gsl_sf_choose ts TestSet predicted tiles sp).classification_p_value ∧
      (TrainingSet.Test gsl_sf_choose ts TestSet predicted tiles sp).classification_p_value ≤ 1 ∧
      ((TrainingSet.Test gsl_sf_choose ts TestSet predicted tiles sp).accurate_predictions = 0 →
        (TrainingSet.Test gsl_sf_choose ts TestSet predicted tiles sp).classification_p_value =
          1) := by
  have hle : (TrainingSet.Test gsl_sf_choose ts TestSet predicted tiles sp).accurate_predictions ≤
      (TrainingSet.Test gsl_sf_choose ts TestSet predicted tiles sp).known_images :=
    TrainingSet.Test_accurate_le_known ts.class_num _
  have hp : (TrainingSet.Test gsl_sf_choose ts TestSet predicted tiles sp).classification_p_value =
      TrainingSet.classification_p_value gsl_sf_choose ts.class_num
        (TrainingSet.Test gsl_sf_choose ts TestSet predicted tiles sp).accurate_predictions
        (TrainingSet.Test gsl_sf_choose ts TestSet predicted tiles sp).known_images := rfl
  have heq := TrainingSet.classification_p_value_eq gsl_sf_choose ts.class_num _ _ hgsl hle
  have hb := TrainingSet.binomial_tail_bounds ts.class_num _ _ hK hle
  rw [hp, heq]
  exact ⟨hle, rfl, hb.1, hb.2.1, hb.2.2⟩

/-- Instance of C16 (amended): ten test images of each of two classes, all predicted as
class 1; the P-value is that of ten or more successes among twenty trials. -/
theorem TrainingSet.Test_classification_p_value_witness :
    (TrainingSet.Test exampleChoose tenPerClassExample tenPerClassExample (fun _ => 1) 1
        emptySplit).accurate_predictions = 10 ∧
      (TrainingSet.Test exampleChoose tenPerClassExample tenPerClassExample (fun _ => 1) 1
        emptySplit).known_images = 20 ∧
      0 < (TrainingSet.Test exampleChoose tenPerClassExample tenPerClassExample (fun _ => 1) 1
        emptySplit).classification_p_value ∧
      (TrainingSet.Test exampleChoose tenPerClassExample tenPerClassExample (fun _ => 1) 1
        emptySplit).classification_p_value ≤ 1 :=
  ⟨by decide!, by decide!,
    (TrainingSet.Test_classification_p_value exampleChoose tenPerClassExample tenPerClassExample
      (fun _ => 1) 1 emptySplit (by decide!) (fun _ _ _ => rfl)).2.2.1,
    (TrainingSet.Test_classification_p_value exampleChoose tenPerClassExample tenPerClassExample
      (fun _ => 1) 1 emptySplit (by decide!) (fun _ _ _ => rfl)).2.2.2.1⟩

/-! ### `Test` with a class that has no test image -/

/-- C17 (evaluation of the code).  `emptyClassExample` is a test set for two
classes whose only image is of class 1, predicted as class 1.  Row 2 of the
confusion matrix sums to 0 and `Test` divides by it: `class_accuracies[2]` is
`0/0`, and `avg_class_accuracies`, the sum of the class accuracies over the
number of classes, is not a number either.  The overall accuracy is 1 and
`plus_minus` is 0. -/
theorem TrainingSet.Test_empty_class_zero_over_zero :
    TrainingSet.class_test_samples 2
        (TrainingSet.Test exampleChoose emptyClassExample emptyClassExample (fun _ => 1) 1
          emptySplit).confusion_matrix 2 = 0 ∧
      (TrainingSet.Test exampleChoose emptyClassExample emptyClassExample (fun _ => 1) 1
        emptySplit).class_accuracies 1 = some 1 ∧
      (TrainingSet.Test exampleChoose emptyClassExample emptyClassExample (fun _ => 1) 1
        emptySplit).class_accuracies 2 = none ∧
      (TrainingSet.Test exampleChoose emptyClassExample emptyClassExample (fun _ => 1) 1
        emptySplit).avg_class_accuracies = none ∧
      (TrainingSet.Test exampleChoose emptyClassExample emptyClassExample (fun _ => 1) 1
        emptySplit).accuracy = some 1 ∧
      (TrainingSet.Test exampleChoose emptyClassExample emptyClassExample (fun _ => 1) 1
        emptySplit).plus_minus = 0 := by
  decide!

/-! ### The confusion matrix of `Test` -/

namespace TrainingSet

theorem TestLoop_cell (ts TestSet : TrainingSet) (predicted : ℕ → ℕ) (tiles : ℕ)
    (sp : data_split) (i : ℕ) (h0 : sp.confusion_matrix i = 0) :
    ∀ images, (TestLoop ts TestSet predicted tiles sp images).confusion_matrix i =
      (List.range images).countP (fun k =>
        decide (ts.class_num * (TestSet.sampleAt (k * tiles)).sample_class +
          predicted (k * tiles) = i)) % 2 ^ 16 := by
  intro images
  induction images with
  | zero => simp [TestLoop, h0]
  | succ n ih =>
    rw [List.range_succ, List.countP_append, List.countP_singleton]
    show Function.update _ _ _ i = _
    by_cases hc : ts.class_num * (TestSet.sampleAt (n * tiles)).sample_class +
        predicted (n * tiles) = i
    · rw [← hc, Function.update_same, hc, ih]
      simp only [hc, decide_True, if_true]
      norm_num
    · rw [Function.update_noteq (Ne.symm hc), ih]
      simp [hc]

theorem cell_index_inj (K t p t2 p2 : ℕ) (hp : 1 ≤ p ∧ p ≤ K) (hp2 : 1 ≤ p2 ∧ p2 ≤ K) :
    K * t2 + p2 = K * t + p ↔ t2 = t ∧ p2 = p := by
  constructor
  · intro h
    rcases Nat.lt_trichotomy t2 t with hlt | heq | hgt
    · have h1 : K * (t2 + 1) ≤ K * t := Nat.mul_le_mul_left K hlt
      rw [Nat.mul_succ] at h1
      omega
    · subst heq
      exact ⟨rfl, by omega⟩
    · have h1 : K * (t + 1) ≤ K * t2 := Nat.mul_le_mul_left K hgt
      rw [Nat.mul_succ] at h1
      omega
  · rintro ⟨rfl, rfl⟩
    rfl

theorem cell_index_lt (K t p : ℕ) (ht : t ≤ K) (hp : p ≤ K) :
    K * t + p < (K + 1) * (K + 1) := by
  have h1 : K * t ≤ K * K := Nat.mul_le_mul_left K ht
  have h2 : (K + 1) * (K + 1) = K * K + 2 * K + 1 := by ring
  omega

theorem image_lt_iff (n tiles k : ℕ) (htiles : 1 ≤ tiles) :
    k < (n + tiles - 1) / tiles ↔ k * tiles < n := by
  rw [Nat.lt_iff_add_one_le, Nat.le_div_iff_mul_le (by omega), Nat.add_mul, one_mul]
  omega

theorem Test_confusion_cell (gsl_sf_choose : ℕ → ℕ → Option ℚ) (ts TestSet : TrainingSet)
    (predicted : ℕ → ℕ) (tiles : ℕ) (sp : data_split)
    (htiles : 1 ≤ tiles) (hpure : TestSet.test_samples.length = 0)
    (hclass : ∀ k, k * tiles < TestSet.samples.length →
      (1 ≤ (TestSet.sampleAt (k * tiles)).sample_class ∧
        (TestSet.sampleAt (k * tiles)).sample_class ≤ ts.class_num) ∧
      1 ≤ predicted (k * tiles) ∧ predicted (k * tiles) ≤ ts.class_num)
    (t p : ℕ) (ht : 1 ≤ t ∧ t ≤ ts.class_num) (hp : 1 ≤ p ∧ p ≤ ts.class_num) :
    (Test gsl_sf_choose ts TestSet predicted tiles sp).confusion_matrix
        (ts.class_num * t + p) =
      specConfusionCount TestSet predicted tiles
        ((TestSet.samples.length + tiles - 1) / tiles) t p % 2 ^ 16 := by
  have hts : testset_samples TestSet = TestSet.samples := by
    unfold testset_samples
    rw [if_neg (by omega)]
  have h1 : (Test gsl_sf_choose ts TestSet predicted tiles sp).confusion_matrix =
      (TestLoop ts TestSet predicted tiles
        { sp with
          confusion_matrix := fun index =>
            if index < (ts.class_num + 1) * (ts.class_num + 1) then 0
            else sp.confusion_matrix index }
        ((TestSet.samples.length + tiles - 1) / tiles)).confusion_matrix := by
    simp only [Test]
    rw [hts, if_neg (by omega : ¬ tiles < 1)]
  rw [h1, TestLoop_cell _ _ _ _ _ _
    (by simp [cell_index_lt ts.class_num t p ht.2 hp.2])]
  unfold specConfusionCount
  congr 1
  apply List.countP_congr
  intro k hk
  have hk2 : k * tiles < TestSet.samples.length :=
    (image_lt_iff _ tiles k htiles).mp (List.mem_range.mp hk)
  have hc := hclass k hk2
  simp only [decide_eq_true_eq]
  exact cell_index_inj ts.class_num t p _ _ hp hc.2

end TrainingSet

namespace TrainingSet

theorem sum_countP_pairs (K : ℕ) (cls prd : ℕ → ℕ) :
    ∀ l : List ℕ, (∀ k ∈ l, (1 ≤ cls k ∧ cls k ≤ K) ∧ 1 ≤ prd k ∧ prd k ≤ K) →
      ∑ c ∈ Finset.range K, ∑ b ∈ Finset.range K,
        l.countP (fun k => decide (cls k = c + 1 ∧ prd k = b + 1)) = l.length := by
  intro l
  induction l with
  | nil => intro _; simp
  | cons k rest ih =>
    intro h
    have hk := h k (List.mem_cons_self _ _)
    have hrest := ih (fun x hx => h x (List.mem_cons_of_mem _ hx))
    simp only [List.countP_cons, Finset.sum_add_distrib, hrest, List.length_cons]
    congr 1
    rw [Finset.sum_eq_single (cls k - 1)]
    · rw [Finset.sum_eq_single (prd k - 1)]
      · have e1 : cls k = cls k - 1 + 1 := by omega
        have e2 : prd k = prd k - 1 + 1 := by omega
        simp [← e1, ← e2]
      · intro b _ hb
        have : ¬ prd k = b + 1 := by omega
        simp [this]
      · intro hb
        exact absurd (Finset.mem_range.mpr (by omega)) hb
    · intro c _ hc
      have : ¬ cls k = c + 1 := by omega
      simp [this]
    · intro hc
      exact absurd (Finset.mem_range.mpr (by omega)) hc

end TrainingSet

/-- C15 (amended).  Let the test set be discrete and hold its samples in
`samples` (its list `test_samples` is empty), the tile count be at least 1, and
every test image have a true class and a predicted class in `1..K`.  After
`Test` the cell `confusion_matrix[K*t+p]` of a true class `t` and a predicted
class `p` in `1..K` is the number of test images of true class `t` predicted as
`p`, modulo `2^16`.  When each of these numbers is below `2^16` the cell is the
number itself, `known_images` is the number of test images, and `accuracy` is
the sum of the diagonal cells over the number of test images. -/
theorem TrainingSet.Test_confusion_matrix (gsl_sf_choose : ℕ → ℕ → Option ℚ)
    (ts TestSet : TrainingSet) (predicted : ℕ → ℕ) (tiles : ℕ) (sp : data_split)
    (htiles : 1 ≤ tiles) (hpure : TestSet.test_samples.length = 0)
    (hclass : ∀ k, k * tiles < TestSet.samples.length →
      (1 ≤ (TestSet.sampleAt (k * tiles)).sample_class ∧
        (TestSet.sampleAt (k * tiles)).sample_class ≤ ts.class_num) ∧
      1 ≤ predicted (k * tiles) ∧ predicted (k * tiles) ≤ ts.class_num) :
    (∀ t p, 1 ≤ t ∧ t ≤ ts.class_num → 1 ≤ p ∧ p ≤ ts.class_num →
      (TrainingSet.Test gsl_sf_choose ts TestSet predicted tiles sp).confusion_matrix
          (ts.class_num * t + p) =
        TrainingSet.specConfusionCount TestSet predicted tiles
          ((TestSet.samples.length + tiles - 1) / tiles) t p % 2 ^ 16) ∧
    ((∀ t p, 1 ≤ t ∧ t ≤ ts.class_num → 1 ≤ p ∧ p ≤ ts.class_num →
        TrainingSet.specConfusionCount TestSet predicted tiles
          ((TestSet.samples.length + tiles - 1) / tiles) t p < 2 ^ 16) →
      (∀ t p, 1 ≤ t ∧ t ≤ ts.class_num → 1 ≤ p ∧ p ≤ ts.class_num →
        (TrainingSet.Test gsl_sf_choose ts TestSet predicted tiles sp).confusion_matrix
            (ts.class_num * t + p) =
          TrainingSet.specConfusionCount TestSet predicted tiles
            ((TestSet.samples.length + tiles - 1) / tiles) t p) ∧
      (TrainingSet.Test gsl_sf_choose ts TestSet predicted tiles sp).known_images =
        (TestSet.samples.length + tiles - 1) / tiles ∧
      (TrainingSet.Test gsl_sf_choose ts TestSet predicted tiles sp).accuracy =
        fdiv
          ((∑ c ∈ Finset.range ts.class_num,
            (TrainingSet.Test gsl_sf_choose ts TestSet predicted tiles sp).confusion_matrix
              (ts.class_num * (c + 1) + (c + 1)) : ℕ) : ℚ)
          (((TestSet.samples.length + tiles - 1) / tiles : ℕ) : ℚ)) := by
  have hcell := TrainingSet.Test_confusion_cell gsl_sf_choose ts TestSet predicted tiles sp
    htiles hpure hclass
  refine ⟨fun t p ht hp => hcell t p ht hp, ?_⟩
  intro hsmall
  have hexact : ∀ t p, 1 ≤ t ∧ t ≤ ts.class_num → 1 ≤ p ∧ p ≤ ts.class_num →
      (TrainingSet.Test gsl_sf_choose ts TestSet predicted tiles sp).confusion_matrix
          (ts.class_num * t + p) =
        TrainingSet.specConfusionCount TestSet predicted tiles
          ((TestSet.samples.length + tiles - 1) / tiles) t p := by
    intro t p ht hp
    rw [hcell t p ht hp, Nat.mod_eq_of_lt (hsmall t p ht hp)]
  have hknown : (TrainingSet.Test gsl_sf_choose ts TestSet predicted tiles sp).known_images =
      (TestSet.samples.length + tiles - 1) / tiles := by
    show ∑ c ∈ Finset.range ts.class_num,
      TrainingSet.class_test_samples ts.class_num
        (TrainingSet.Test gsl_sf_choose ts TestSet predicted tiles sp).confusion_matrix (c + 1) = _
    unfold TrainingSet.class_test_samples
    have hsum := TrainingSet.sum_countP_pairs ts.class_num
      (fun k => (TestSet.sampleAt (k * tiles)).sample_class) (fun k => predicted (k * tiles))
      (List.range ((TestSet.samples.length + tiles - 1) / tiles))
      (fun k hk => hclass k
        ((TrainingSet.image_lt_iff _ tiles k htiles).mp (List.mem_range.mp hk)))
    rw [List.length_range] at hsum
    rw [← hsum]
    apply Finset.sum_congr rfl
    intro c hc
    apply Finset.sum_congr rfl
    intro b hb
    rw [Finset.mem_range] at hc hb
    rw [hexact (c + 1) (b + 1) ⟨by omega, by omega⟩ ⟨by omega, by omega⟩]
    rfl
  refine ⟨hexact, hknown, ?_⟩
  show fdiv
    (((TrainingSet.Test gsl_sf_choose ts TestSet predicted tiles sp).accurate_predictions : ℕ) : ℚ)
    (((TrainingSet.Test gsl_sf_choose ts TestSet predicted tiles sp).known_images : ℕ) : ℚ) = _
  rw [hknown]
  rfl

/-- Instance of C15 (amended): ten test images of each of two classes, all
predicted as class 1.  The cell of true class 2 and predicted class 1 holds the
number of such images. -/
theorem TrainingSet.Test_confusion_matrix_witness :
    (TrainingSet.Test exampleChoose tenPerClassExample tenPerClassExample (fun _ => 1) 1
        emptySplit).confusion_matrix (tenPerClassExample.class_num * 2 + 1) =
      TrainingSet.specConfusionCount tenPerClassExample (fun _ => 1) 1
        ((tenPerClassExample.samples.length + 1 - 1) / 1) 2 1 % 2 ^ 16 :=
  (TrainingSet.Test_confusion_matrix exampleChoose tenPerClassExample tenPerClassExample
    (fun _ => 1) 1 emptySplit (by decide) (by decide!)
    (by
      intro k hk
      have hl : tenPerClassExample.samples.length = 20 := by decide!
      rw [hl] at hk
      have hk2 : k < 20 := by omega
      interval_cases k <;> decide!)).1 2 1 (by decide!) (by decide!)

/-- The example of the claim C15: ten test images of each of two classes, all
predicted as class 1, give the cells 10, 0, 10 and 0 and the accuracy 1/2. -/
theorem TrainingSet.Test_tenPerClassExample :
    (TrainingSet.Test exampleChoose tenPerClassExample tenPerClassExample (fun _ => 1) 1
        emptySplit).confusion_matrix (2 * 1 + 1) = 10 ∧
      (TrainingSet.Test exampleChoose tenPerClassExample tenPerClassExample (fun _ => 1) 1
        emptySplit).confusion_matrix (2 * 1 + 2) = 0 ∧
      (TrainingSet.Test exampleChoose tenPerClassExample tenPerClassExample (fun _ => 1) 1
        emptySplit).confusion_matrix (2 * 2 + 1) = 10 ∧
      (TrainingSet.Test exampleChoose tenPerClassExample tenPerClassExample (fun _ => 1) 1
        emptySplit).confusion_matrix (2 * 2 + 2) = 0 ∧
      (TrainingSet.Test exampleChoose tenPerClassExample tenPerClassExample (fun _ => 1) 1
        emptySplit).accuracy = some (1 / 2) := by
  decide!

namespace TrainingSet

theorem sampleAt_manySamplesExample (k : ℕ) (hk : k < 2 ^ 16) :
    manySamplesExample.sampleAt k = constSample 0 1 "a" := by
  unfold sampleAt manySamplesExample
  simp only [List.getD_eq_getElem?_getD]
  rw [List.getElem?_replicate, if_pos hk]
  rfl

theorem Test_accuracy_eq (gsl_sf_choose : ℕ → ℕ → Option ℚ) (ts TestSet : TrainingSet)
    (predicted : ℕ → ℕ) (tiles : ℕ) (sp : data_split) :
    (Test gsl_sf_choose ts TestSet predicted tiles sp).accuracy =
      fdiv
        ((∑ c ∈ Finset.range ts.class_num,
          (Test gsl_sf_choose ts TestSet predicted tiles sp).confusion_matrix
            (ts.class_num * (c + 1) + (c + 1)) : ℕ) : ℚ)
        ((∑ c ∈ Finset.range ts.class_num,
          class_test_samples ts.class_num
            (Test gsl_sf_choose ts TestSet predicted tiles sp).confusion_matrix (c + 1) : ℕ) : ℚ) :=
  rfl

theorem Test_accuracy_one_class (gsl_sf_choose : ℕ → ℕ → Option ℚ) (ts TestSet : TrainingSet)
    (predicted : ℕ → ℕ) (tiles : ℕ) (sp : data_split) (hK : ts.class_num = 1) :
    (Test gsl_sf_choose ts TestSet predicted tiles sp).accuracy =
      fdiv
        (((Test gsl_sf_choose ts TestSet predicted tiles sp).confusion_matrix (1 * 1 + 1) : ℕ) : ℚ)
        (((Test gsl_sf_choose ts TestSet predicted tiles sp).confusion_matrix (1 * 1 + 1) : ℕ) :
          ℚ) := by
  rw [Test_accuracy_eq, hK]
  simp only [class_test_samples, Finset.sum_range_one, zero_add]

theorem fdiv_zero_zero : fdiv ((0 : ℕ) : ℚ) ((0 : ℕ) : ℚ) = none := by
  simp [fdiv]

theorem specConfusionCount_manySamplesExample :
    specConfusionCount manySamplesExample (fun _ => 1) 1 (2 ^ 16) 1 1 = 2 ^ 16 := by
  unfold specConfusionCount
  have h : ∀ k ∈ List.range (2 ^ 16),
      (fun k => decide ((manySamplesExample.sampleAt (k * 1)).sample_class = 1 ∧
        (fun _ => 1) (k * 1) = 1)) k = true := by
    intro k hk
    rw [List.mem_range] at hk
    simp only [mul_one, and_true, decide_eq_true_eq]
    rw [sampleAt_manySamplesExample k hk]
    rfl
  rw [List.countP_eq_length.mpr h, List.length_range]

end TrainingSet

/-- C15 (counterexample).  First, `manySamplesExample` holds `2^16` test images
of class 1 and each is predicted as class 1: the number of test images of true
class 1 predicted as 1 is `2^16`, the cell is 0, and the accuracy is `0/0`.
Second, `twoVectorsExample` has one test image, in `test_samples`, of class 1
and predicted as class 1, while `samples[0]` is of class 2: the cell of true
class 1 and predicted class 1 is 0, the cell of true class 2 and predicted
class 1 is 1, and the accuracy is 0. -/
theorem TrainingSet.Test_confusion_matrix_counterexample :
    (manySamplesExample.samples.length = 2 ^ 16 ∧
      manySamplesExample.test_samples.length = 0 ∧
      TrainingSet.specConfusionCount manySamplesExample (fun _ => 1) 1 (2 ^ 16) 1 1 = 2 ^ 16 ∧
      (TrainingSet.Test exampleChoose manySamplesExample manySamplesExample (fun _ => 1) 1
        emptySplit).confusion_matrix (1 * 1 + 1) = 0 ∧
      (TrainingSet.Test exampleChoose manySamplesExample manySamplesExample (fun _ => 1) 1
        emptySplit).accuracy = none) ∧
    ((TrainingSet.testset_samples twoVectorsExample).map (fun s => s.sample_class) = [1] ∧
      (TrainingSet.Test exampleChoose twoVectorsExample twoVectorsExample (fun _ => 1) 1
        emptySplit).confusion_matrix (2 * 1 + 1) = 0 ∧
      (TrainingSet.Test exampleChoose twoVectorsExample twoVectorsExample (fun _ => 1) 1
        emptySplit).confusion_matrix (2 * 2 + 1) = 1 ∧
      (TrainingSet.Test exampleChoose twoVectorsExample twoVectorsExample (fun _ => 1) 1
        emptySplit).accuracy = some 0) := by
  have hlen : manySamplesExample.samples.length = 2 ^ 16 :=
    List.length_replicate _ _
  have hK : manySamplesExample.class_num = 1 := rfl
  have hcell : (TrainingSet.Test exampleChoose manySamplesExample manySamplesExample
      (fun _ => 1) 1 emptySplit).confusion_matrix (1 * 1 + 1) = 0 := by
    have h := TrainingSet.Test_confusion_cell exampleChoose manySamplesExample
      manySamplesExample (fun _ => 1) 1 emptySplit (le_refl 1) rfl
      (by
        intro k hk
        rw [hlen, mul_one] at hk
        rw [mul_one, TrainingSet.sampleAt_manySamplesExample k hk]
        exact ⟨⟨le_refl 1, le_refl 1⟩, le_refl 1, le_refl 1⟩)
      1 1 ⟨le_refl 1, le_refl 1⟩ ⟨le_refl 1, le_refl 1⟩
    rw [hlen, show (2 ^ 16 + 1 - 1) / 1 = 2 ^ 16 by norm_num,
      TrainingSet.specConfusionCount_manySamplesExample, Nat.mod_self, hK] at h
    exact h
  have hacc : (TrainingSet.Test exampleChoose manySamplesExample manySamplesExample
      (fun _ => 1) 1 emptySplit).accuracy = none := by
    rw [TrainingSet.Test_accuracy_one_class _ _ _ _ _ _ hK, hcell]
    exact TrainingSet.fdiv_zero_zero
  exact ⟨⟨hlen, rfl, TrainingSet.specConfusionCount_manySamplesExample, hcell, hacc⟩,
    by decide!⟩

/-! ### The rows of the class matrices under `AddSample` -/

/-- C21 (evaluation of the code).  On the classes "a" and "b", `AddSample`
accepts a sample of two features for class 1 and then a sample of one feature
for class 2, both with the return value 1: the two class matrices have 2 rows and
1 row and `signature_count` is 1.  A further sample of one feature for class 1 is
accepted as well and leaves the matrix of class 1 with 1 row and 2 columns, so
the column stored first has lost its second coefficient. -/
theorem TrainingSet.AddSample_mixed_feature_counts :
    (TrainingSet.AddSample twoClassesExample { constSample 7 1 "x" with count := 2 }).1 =
        returned.value 1 ∧
      (TrainingSet.AddSample mixedCountsExample1 { constSample 8 2 "y" with count := 1 }).1 =
        returned.value 1 ∧
      (mixedCountsExample2.raw_features 1).rows = 2 ∧
      (mixedCountsExample2.raw_features 1).cols = 1 ∧
      (mixedCountsExample2.raw_features 2).rows = 1 ∧
      (mixedCountsExample2.raw_features 2).cols = 1 ∧
      mixedCountsExample2.signature_count = 1 ∧
      (TrainingSet.AddSample mixedCountsExample2 { constSample 9 1 "z" with count := 1 }).1 =
        returned.value 1 ∧
      (mixedCountsExample3.raw_features 1).rows = 1 ∧
      (mixedCountsExample3.raw_features 1).cols = 2 := by
  decide!

/-! ### `SetFisherScores` with fewer than two classes -/

/-- C23 (evaluation of the code).  On a discrete set with one class, and on one
without class, whose weights are all 5 before the call, `SetFisherScores` (used
fraction 1/2, two features) leaves every weight at 5: the block that computes
the Fisher scores is skipped and nothing else assigns the weights. -/
theorem TrainingSet.SetFisherScores_one_class_keeps_weights :
    oneClassExample.is_continuous = false ∧ oneClassExample.class_num = 1 ∧
      (TrainingSet.SetFisherScores (fun _ => 0) (1 / 2) oneClassExample).map
          (fun r => (List.range 2).map r.1.SignatureWeights) = some [5, 5] ∧
      noClassExample.is_continuous = false ∧ noClassExample.class_num = 0 ∧
      (TrainingSet.SetFisherScores (fun _ => 0) (1 / 2) noClassExample).map
          (fun r => (List.range 2).map r.1.SignatureWeights) = some [5, 5] := by
  decide!

/-! ### `RemoveClass` on the last class -/

/-- C25 (evaluation of the code).  `RemoveClass(class_num)` returns at once for
every training set.  On `removeExample` (class 1 = "a" with one sample, class 2 =
"b" with two samples) `RemoveClass(2)` leaves two classes, the label "b" and all
three samples, while `RemoveClass(1)` leaves one class, labelled "b", and the two
samples of the former class 2 as samples of class 1. -/
theorem TrainingSet.RemoveClass_last_class_unchanged :
    (∀ ts : TrainingSet, TrainingSet.RemoveClass ts ts.class_num = ts) ∧
      removeExample.class_num = 2 ∧
      removeExample.samples.map (fun s => s.sample_class) = [1, 2, 2] ∧
      (TrainingSet.RemoveClass removeExample 2).class_num = 2 ∧
      (TrainingSet.RemoveClass removeExample 2).class_labels 2 = "b" ∧
      (TrainingSet.RemoveClass removeExample 2).samples.map (fun s => s.sample_class) =
        [1, 2, 2] ∧
      (TrainingSet.RemoveClass removeExample 1).class_num = 1 ∧
      (TrainingSet.RemoveClass removeExample 1).class_labels 1 = "b" ∧
      (TrainingSet.RemoveClass removeExample 1).samples.map (fun s => s.sample_class) =
        [1, 1] := by
  refine ⟨?_, by decide!, by decide!, by decide!, by decide!, by decide!, by decide!,
    by decide!, by decide!⟩
  intro ts
  unfold TrainingSet.RemoveClass
  rw [if_pos (le_refl _)]

/-! ### The cells of the confusion matrix -/

/-- C29 (evaluation of the code).  With two classes the cell of the pair (true
class 2, predicted class 0) and the cell of the pair (true class 1, predicted
class 2) have the same index `2*2+0 = 2*1+2`.  On a test set whose only image is
of class 2 and for which no class is predicted (0), `Test` leaves 1 in the cell
of (1, 2): row 1 sums to one test image, row 2 to none, and `known_images` is 1
with class 1 as its class. -/
theorem TrainingSet.Test_no_decision_counted_in_other_cell :
    noDecisionExample.class_num * 2 + 0 = noDecisionExample.class_num * 1 + 2 ∧
      noDecisionExample.samples.map (fun s => s.sample_class) = [2] ∧
      (TrainingSet.Test exampleChoose noDecisionExample noDecisionExample (fun _ => 0) 1
        emptySplit).confusion_matrix (2 * 1 + 2) = 1 ∧
      TrainingSet.class_test_samples 2
        (TrainingSet.Test exampleChoose noDecisionExample noDecisionExample (fun _ => 0) 1
          emptySplit).confusion_matrix 1 = 1 ∧
      TrainingSet.class_test_samples 2
        (TrainingSet.Test exampleChoose noDecisionExample noDecisionExample (fun _ => 0) 1
          emptySplit).confusion_matrix 2 = 0 ∧
      (TrainingSet.Test exampleChoose noDecisionExample noDecisionExample (fun _ => 0) 1
        emptySplit).known_images = 1 ∧
      (TrainingSet.Test exampleChoose noDecisionExample noDecisionExample (fun _ => 0) 1
        emptySplit).class_accuracies 1 = some 0 := by
  decide!

/-! ### The position of the threshold in `SetFisherScores` -/

/-- C30 (evaluation of the code).  For the used fraction 1 the position
`floor(1·n + 0.5)` is `n` for every `n`, the size of the sorted list and not an
index of it.  On `selectionExample` (four features, every score a number) the
read of `feature_stats[4]` is outside the list of 4 entries, and the run has no
result, while the used fraction 1/2 has one. -/
theorem TrainingSet.SetFisherScores_threshold_outside :
    (∀ n : ℕ, ⌊(1 : ℚ) * (n : ℚ) + 1 / 2⌋ = (n : ℤ)) ∧
      selectionExample.signature_count = 4 ∧
      (∀ i, i < 4 → (TrainingSet.scoredWeight (fun _ => 0) selectionExample i).isSome = true) ∧
      (TrainingSet.SetFisherScores (fun _ => 0) 1 selectionExample).isSome = false ∧
      (TrainingSet.SetFisherScores (fun _ => 0) (1 / 2) selectionExample).isSome = true := by
  refine ⟨?_, by decide!, by decide!, by decide!, by decide!⟩
  intro n
  rw [one_mul, Int.floor_eq_iff]
  constructor
  · push_cast; linarith
  · push_cast; linarith

/-! ### `LoadWeightVector` -/

namespace TrainingSet

theorem LoadWeightVectorStep_eq (factor : ℚ) (k : ℕ) (d : ℚ) (w : ℕ → ℚ) (v : ℚ) :
    LoadWeightVectorStep factor (k, d, w) v =
      (k + 1, d + (w k - v) ^ 2,
        Function.update w k (if factor = 0 then max 0 v else max 0 (w k + factor * v))) := by
  unfold LoadWeightVectorStep
  by_cases hf : factor = 0
  · by_cases hv : v < 0
    · simp [hf, hv, max_eq_left (le_of_lt hv)]
    · simp [hf, hv, max_eq_right (not_lt.mp hv)]
  · by_cases hv : w k + factor * v < 0
    · simp [hf, hv, max_eq_left (le_of_lt hv)]
    · simp [hf, hv, max_eq_right (not_lt.mp hv)]

theorem LoadWeightVector_foldl (factor : ℚ) :
    ∀ (vs : List ℚ) (k : ℕ) (d : ℚ) (w : ℕ → ℚ),
      vs.foldl (LoadWeightVectorStep factor) (k, d, w) =
        (k + vs.length,
          d + ∑ i ∈ Finset.range vs.length, (w (k + i) - vs.getD i 0) ^ 2,
          fun j =>
            if k ≤ j ∧ j < k + vs.length then
              (if factor = 0 then max 0 (vs.getD (j - k) 0)
               else max 0 (w j + factor * vs.getD (j - k) 0))
            else w j) := by
  intro vs
  induction vs with
  | nil =>
    intro k d w
    simp only [List.foldl_nil, List.length_nil, Finset.range_zero, Finset.sum_empty, add_zero]
    congr 2
    funext j
    rw [if_neg (by omega)]
  | cons v rest ih =>
    intro k d w
    rw [List.foldl_cons, LoadWeightVectorStep_eq, ih]
    refine Prod.ext ?_ (Prod.ext ?_ ?_)
    · show k + 1 + rest.length = k + (rest.length + 1)
      omega
    · show d + (w k - v) ^ 2 + ∑ i ∈ Finset.range rest.length,
          (Function.update w k (if factor = 0 then max 0 v else max 0 (w k + factor * v))
            (k + 1 + i) - rest.getD i 0) ^ 2 =
        d + ∑ i ∈ Finset.range (rest.length + 1), (w (k + i) - (v :: rest).getD i 0) ^ 2
      rw [Finset.sum_range_succ', add_assoc]
      congr 1
      rw [add_comm]
      congr 1
      apply Finset.sum_congr rfl
      intro i _
      rw [Function.update_noteq (by omega), show k + 1 + i = k + (i + 1) by ring,
        List.getD_cons_succ]
    · funext j
      show (if k + 1 ≤ j ∧ j < k + 1 + rest.length then
          (if factor = 0 then max 0 (rest.getD (j - (k + 1)) 0)
           else max 0 (Function.update w k
              (if factor = 0 then max 0 v else max 0 (w k + factor * v)) j +
             factor * rest.getD (j - (k + 1)) 0))
          else Function.update w k
            (if factor = 0 then max 0 v else max 0 (w k + factor * v)) j) =
        if k ≤ j ∧ j < k + (rest.length + 1) then
          (if factor = 0 then max 0 ((v :: rest).getD (j - k) 0)
           else max 0 (w j + factor * (v :: rest).getD (j - k) 0))
        else w j
      by_cases hj : j = k
      · subst hj
        have e1 : ¬ (j + 1 ≤ j ∧ j < j + 1 + rest.length) := by omega
        have e2 : j ≤ j ∧ j < j + (rest.length + 1) := by omega
        rw [if_neg e1, Function.update_same, if_pos e2, Nat.sub_self, List.getD_cons_zero]
      · rw [Function.update_noteq hj]
        by_cases h1 : k + 1 ≤ j ∧ j < k + 1 + rest.length
        · have e2 : k ≤ j ∧ j < k + (rest.length + 1) := by omega
          rw [if_pos h1, if_pos e2, show j - k = (j - (k + 1)) + 1 by omega,
            List.getD_cons_succ]
        · have e2 : ¬ (k ≤ j ∧ j < k + (rest.length + 1)) := by omega
          rw [if_neg h1, if_neg e2]

end TrainingSet

/-- C26 (counterexample).  One feature with the weight 1, a file holding the
number 1 and the factor 1: the weight becomes 2 and `LoadWeightVector` returns
`sqrt((1 - 1)²) = 0`, the distance between the old weight and the number read,
while the distance between the old weight and the new one is
`sqrt((1 - 2)²) = 1`. -/
theorem TrainingSet.LoadWeightVector_blend_counterexample :
    oneFeature.signature_count = 1 ∧ oneFeature.SignatureWeights 0 = 1 ∧
      (TrainingSet.LoadWeightVector (fun x => examplePowInv x 2) oneFeature [1]
        1).2.SignatureWeights 0 = 2 ∧
      (TrainingSet.LoadWeightVector (fun x => examplePowInv x 2) oneFeature [1] 1).1 = 0 ∧
      (fun x => examplePowInv x 2)
        ((oneFeature.SignatureWeights 0 -
          (TrainingSet.LoadWeightVector (fun x => examplePowInv x 2) oneFeature [1]
            1).2.SignatureWeights 0) ^ 2) = 1 := by
  decide!

/-- C26 (amended).  For a weight file with exactly `signature_count` lines, of
numbers `v_i`, and a factor `f`, `LoadWeightVector` sets each weight to
`max(0, v_i)` when `f = 0` and to `max(0, w_i + f·v_i)` otherwise, and returns
`sqrt(Σ_i (w_i − v_i)²)`, the distance between the weights before the call and
the numbers read; when `f = 0` and no `v_i` is negative this is the distance
between the weights before and after the call. -/
theorem TrainingSet.LoadWeightVector_distance (sqrt : ℚ → ℚ) (ts : TrainingSet)
    (values : List ℚ) (factor : ℚ) (hlen : values.length = ts.signature_count) :
    (∀ i, i < ts.signature_count →
      (TrainingSet.LoadWeightVector sqrt ts values factor).2.SignatureWeights i =
        if factor = 0 then max 0 (values.getD i 0)
        else max 0 (ts.SignatureWeights i + factor * values.getD i 0)) ∧
    (TrainingSet.LoadWeightVector sqrt ts values factor).1 =
      sqrt (∑ i ∈ Finset.range ts.signature_count,
        (ts.SignatureWeights i - values.getD i 0) ^ 2) ∧
    (factor = 0 → (∀ i, i < ts.signature_count → 0 ≤ values.getD i 0) →
      (TrainingSet.LoadWeightVector sqrt ts values factor).1 =
        sqrt (∑ i ∈ Finset.range ts.signature_count,
          (ts.SignatureWeights i -
            (TrainingSet.LoadWeightVector sqrt ts values factor).2.SignatureWeights i) ^ 2)) := by
  have hfold := TrainingSet.LoadWeightVector_foldl factor values 0 0 ts.SignatureWeights
  have hw : ∀ i, i < ts.signature_count →
      (TrainingSet.LoadWeightVector sqrt ts values factor).2.SignatureWeights i =
        if factor = 0 then max 0 (values.getD i 0)
        else max 0 (ts.SignatureWeights i + factor * values.getD i 0) := by
    intro i hi
    show (values.foldl (TrainingSet.LoadWeightVectorStep factor)
      (0, 0, ts.SignatureWeights)).2.2 i = _
    rw [hfold]
    have e : 0 ≤ i ∧ i < 0 + values.length := by omega
    show (if 0 ≤ i ∧ i < 0 + values.length then _ else _) = _
    rw [if_pos e, Nat.sub_zero]
  have hret : (TrainingSet.LoadWeightVector sqrt ts values factor).1 =
      sqrt (∑ i ∈ Finset.range ts.signature_count,
        (ts.SignatureWeights i - values.getD i 0) ^ 2) := by
    show (if (values.foldl (TrainingSet.LoadWeightVectorStep factor)
        (0, 0, ts.SignatureWeights)).1 ≠ ts.signature_count then -1
      else sqrt (values.foldl (TrainingSet.LoadWeightVectorStep factor)
        (0, 0, ts.SignatureWeights)).2.1) = _
    rw [hfold]
    have e : ¬ (0 + values.length ≠ ts.signature_count) := by omega
    show (if 0 + values.length ≠ ts.signature_count then -1 else sqrt _) = _
    rw [if_neg e, hlen]
    congr 1
    show 0 + ∑ i ∈ Finset.range ts.signature_count,
      (ts.SignatureWeights (0 + i) - values.getD i 0) ^ 2 = _
    rw [zero_add]
    apply Finset.sum_congr rfl
    intro i _
    rw [zero_add]
  refine ⟨hw, hret, ?_⟩
  intro hf hv
  rw [hret]
  congr 1
  apply Finset.sum_congr rfl
  intro i hi
  rw [hw i (Finset.mem_range.mp hi), if_pos hf, max_eq_right (hv i (Finset.mem_range.mp hi))]

/-- Instance of C26 (amended): one feature with the weight 1, a file holding the
number 3 and the factor 0. -/
theorem TrainingSet.LoadWeightVector_distance_witness :
    (TrainingSet.LoadWeightVector (fun x => examplePowInv x 2) oneFeature [3]
        0).2.SignatureWeights 0 =
      (if (0 : ℚ) = 0 then max 0 (([3] : List ℚ).getD 0 0)
       else max 0 (oneFeature.SignatureWeights 0 + 0 * ([3] : List ℚ).getD 0 0)) :=
  (TrainingSet.LoadWeightVector_distance (fun x => examplePowInv x 2) oneFeature [3] 0
    (by decide!)).1 0 (by decide!)

/-! ### The Fisher score of a shifted or rescaled feature -/

theorem specMean_add (n : ℕ) (hn : 1 ≤ n) (x : ℕ → ℚ) (c : ℚ) :
    specMean n (fun j => x j + c) = specMean n x + c := by
  have hne : (n : ℚ) ≠ 0 := by
    have : n ≠ 0 := by omega
    exact_mod_cast this
  unfold specMean
  rw [Finset.sum_add_distrib, Finset.sum_const, Finset.card_range, nsmul_eq_mul]
  field_simp
  ring

theorem specVariance_add (n : ℕ) (hn : 1 ≤ n) (x : ℕ → ℚ) (c : ℚ) :
    specVariance n (fun j => x j + c) = specVariance n x := by
  unfold specVariance
  rw [specMean_add n hn x c]
  congr 1
  apply Finset.sum_congr rfl
  intro j _
  ring

theorem specMean_mul (n : ℕ) (x : ℕ → ℚ) (a : ℚ) :
    specMean n (fun j => a * x j) = a * specMean n x := by
  unfold specMean
  rw [← Finset.mul_sum, mul_div_assoc]

theorem specVariance_mul (n : ℕ) (x : ℕ → ℚ) (a : ℚ) :
    specVariance n (fun j => a * x j) = a ^ 2 * specVariance n x := by
  unfold specVariance
  rw [specMean_mul n x a, ← mul_div_assoc, Finset.mul_sum]
  congr 1
  apply Finset.sum_congr rfl
  intro j _
  ring

namespace TrainingSet

theorem fisherScore_eq_spec (ts : TrainingSet) (i : ℕ) (hK : 1 < ts.class_num)
    (hne : ∀ c, 1 ≤ c → c ≤ ts.class_num → 1 ≤ (ts.raw_features c).cols) :
    fisherScore ts i =
      some (specFisherScore ts.class_num (fun c => (ts.raw_features c).cols)
        (fun c j => (ts.raw_features c).coeff i j)) := by
  have hmean : ∀ k, k < ts.class_num → class_mean ts (k + 1) i =
      some (specMean (ts.raw_features (k + 1)).cols
        (fun j => (ts.raw_features (k + 1)).coeff i j)) :=
    fun k hk => class_mean_eq ts (k + 1) i (hne (k + 1) (by omega) (by omega))
  have hvar : ∀ k, k < ts.class_num → class_var ts (k + 1) i =
      some (specVariance (ts.raw_features (k + 1)).cols
        (fun j => (ts.raw_features (k + 1)).coeff i j)) :=
    fun k hk => class_var_eq ts (k + 1) i (hne (k + 1) (by omega) (by omega))
  unfold fisherScore
  rw [sumToOpt_eq_some _ _ _ hmean, sumToOpt_eq_some _ _ _ hvar]
  simp only [Option.bind_eq_bind, Option.some_bind]
  rw [sumToOpt_eq_some _ (fun k => (specMean (ts.raw_features (k + 1)).cols
        (fun j => (ts.raw_features (k + 1)).coeff i j) -
      (∑ k ∈ Finset.range ts.class_num, specMean (ts.raw_features (k + 1)).cols
        (fun j => (ts.raw_features (k + 1)).coeff i j)) / (ts.class_num : ℚ)) ^ 2) _
    (fun k hk => by rw [hmean k hk]; rfl)]
  simp only [Option.some_bind, specFisherScore, sum_Icc_one_eq_sum_range]
  have hcast : ((ts.class_num - 1 : ℕ) : ℚ) = (ts.class_num : ℚ) - 1 := by
    rw [Nat.cast_sub (le_of_lt hK)]; simp
  rw [hcast]
  have hfloor : ∀ v : ℚ, (if v < DBL_EPSILON then DBL_EPSILON else v) = max DBL_EPSILON v := by
    intro v
    split_ifs with h
    · exact (max_eq_left (le_of_lt h)).symm
    · exact (max_eq_right (not_lt.mp h)).symm
  rw [hfloor]
  congr 3
  ring

theorem mean_inter_class_var_eq (ts : TrainingSet) (i : ℕ)
    (hne : ∀ c, 1 ≤ c → c ≤ ts.class_num → 1 ≤ (ts.raw_features c).cols) :
    mean_inter_class_var ts i =
      some ((∑ k ∈ Finset.range ts.class_num,
        specVariance (ts.raw_features (k + 1)).cols
          (fun j => (ts.raw_features (k + 1)).coeff i j)) / (ts.class_num : ℚ)) := by
  unfold mean_inter_class_var
  rw [sumToOpt_eq_some _ _ _
    (fun k hk => class_var_eq ts (k + 1) i (hne (k + 1) (by omega) (by omega)))]
  rfl

end TrainingSet

theorem specFisherScore_add (K : ℕ) (hK : 1 ≤ K) (n : ℕ → ℕ) (x : ℕ → ℕ → ℚ) (s : ℚ)
    (hn : ∀ c, 1 ≤ c → c ≤ K → 1 ≤ n c) :
    specFisherScore K n (fun c j => x c j + s) = specFisherScore K n x := by
  have hKq : (K : ℚ) ≠ 0 := by
    have : K ≠ 0 := by omega
    exact_mod_cast this
  have hmean : ∀ c ∈ Finset.Icc 1 K, specMean (n c) (fun j => x c j + s) =
      specMean (n c) (x c) + s := by
    intro c hc
    rw [Finset.mem_Icc] at hc
    exact specMean_add (n c) (hn c hc.1 hc.2) (x c) s
  have hvar : ∀ c ∈ Finset.Icc 1 K, specVariance (n c) (fun j => x c j + s) =
      specVariance (n c) (x c) := by
    intro c hc
    rw [Finset.mem_Icc] at hc
    exact specVariance_add (n c) (hn c hc.1 hc.2) (x c) s
  have hbar : (∑ c ∈ Finset.Icc 1 K, specMean (n c) (fun j => x c j + s)) / K =
      (∑ c ∈ Finset.Icc 1 K, specMean (n c) (x c)) / K + s := by
    rw [Finset.sum_congr rfl hmean, Finset.sum_add_distrib, Finset.sum_const, Nat.card_Icc,
      nsmul_eq_mul]
    field_simp
    ring
  unfold specFisherScore
  simp only []
  rw [hbar, Finset.sum_congr rfl hvar]
  congr 2
  apply Finset.sum_congr rfl
  intro c hc
  rw [hmean c hc]
  ring

theorem specFisherScore_mul (K : ℕ) (n : ℕ → ℕ) (x : ℕ → ℕ → ℚ) (a : ℚ) (ha : a ≠ 0)
    (h1 : DBL_EPSILON ≤ (1 / (K : ℚ)) * ∑ c ∈ Finset.Icc 1 K, specVariance (n c) (x c))
    (h2 : DBL_EPSILON ≤
      (1 / (K : ℚ)) * ∑ c ∈ Finset.Icc 1 K, specVariance (n c) (fun j => a * x c j)) :
    specFisherScore K n (fun c j => a * x c j) = specFisherScore K n x := by
  have hmean : ∀ c ∈ Finset.Icc 1 K, specMean (n c) (fun j => a * x c j) =
      a * specMean (n c) (x c) := fun c _ => specMean_mul (n c) (x c) a
  have hbar : (∑ c ∈ Finset.Icc 1 K, specMean (n c) (fun j => a * x c j)) / K =
      a * ((∑ c ∈ Finset.Icc 1 K, specMean (n c) (x c)) / K) := by
    rw [Finset.sum_congr rfl hmean, ← Finset.mul_sum, mul_div_assoc]
  have hvar : (1 / (K : ℚ)) * ∑ c ∈ Finset.Icc 1 K, specVariance (n c) (fun j => a * x c j) =
      a ^ 2 * ((1 / (K : ℚ)) * ∑ c ∈ Finset.Icc 1 K, specVariance (n c) (x c)) := by
    rw [Finset.sum_congr rfl (fun c _ => specVariance_mul (n c) (x c) a), ← Finset.mul_sum]
    ring
  have hnum : ∑ c ∈ Finset.Icc 1 K, (specMean (n c) (fun j => a * x c j) -
        a * ((∑ c ∈ Finset.Icc 1 K, specMean (n c) (x c)) / K)) ^ 2 =
      a ^ 2 * ∑ c ∈ Finset.Icc 1 K, (specMean (n c) (x c) -
        (∑ c ∈ Finset.Icc 1 K, specMean (n c) (x c)) / K) ^ 2 := by
    rw [Finset.mul_sum]
    apply Finset.sum_congr rfl
    intro c hc
    rw [hmean c hc]
    ring
  have ha2 : a ^ 2 ≠ 0 := pow_ne_zero 2 ha
  have hV : (0 : ℚ) < (1 / (K : ℚ)) * ∑ c ∈ Finset.Icc 1 K, specVariance (n c) (x c) :=
    lt_of_lt_of_le DBL_EPSILON_pos h1
  unfold specFisherScore
  simp only []
  rw [hbar, hnum, max_eq_right h2, max_eq_right h1, hvar, mul_div_assoc,
    mul_div_mul_left _ _ ha2]

namespace TrainingSet

theorem scoredWeight_discrete (pearson : ℕ → ℚ) (ts : TrainingSet) (i : ℕ)
    (hdisc : ts.is_continuous = false) (hK : 1 < ts.class_num) (hok : fisherSizesOk ts) :
    scoredWeight pearson ts i = fisherScore ts i := by
  have hK2 : ts.class_num > 1 := hK
  simp [scoredWeight, hok, hdisc, hK2]

theorem scoredWeight_sizes_fail (pearson : ℕ → ℚ) (ts : TrainingSet) (i : ℕ)
    (hK : 1 < ts.class_num) (hok : ¬ fisherSizesOk ts) :
    scoredWeight pearson ts i = none := by
  have hK2 : ts.class_num > 1 := hK
  simp [scoredWeight, hok, hK2]

end TrainingSet

/-- C22 (counterexample).  Evaluated as `double` evaluates it, on
`shiftExample`: two classes of two samples, the values 1 and 2 in class 1, the
values 4 and `7430939385161318 / 2^51` in class 2.  Each of the four values
plus 1 is a `double` again.  The Fisher score of the feature is
`6985868885073863 / 2^49` before and `3492934442536933 / 2^48` after 1 has been
added to every value: the two scores differ (by `3 / 2^49`). -/
theorem TrainingSet.fisherScore_shift_counterexample :
    shiftExample.is_continuous = false ∧ shiftExample.class_num = 2 ∧
      (∀ c, 1 ≤ c → c ≤ shiftExample.class_num → 1 ≤ (shiftExample.raw_features c).cols) ∧
      double.nearest (7430939385161318 / 2 ^ 51) = double.finite (7430939385161318 / 2 ^ 51) ∧
      double.nearest (7430939385161318 / 2 ^ 51 + 1) =
        double.finite (7430939385161318 / 2 ^ 51 + 1) ∧
      rounded.fisherScore shiftExample 0 = double.finite (6985868885073863 / 2 ^ 49) ∧
      rounded.fisherScore (TrainingSet.addToFeature shiftExample 0 1) 0 =
        double.finite (3492934442536933 / 2 ^ 48) ∧
      (3492934442536933 / 2 ^ 48 : ℚ) - 6985868885073863 / 2 ^ 49 = 3 / 2 ^ 49 := by
  decide!

/-- C22 (amended).  In exact arithmetic: for a discrete training set with
`K > 1` classes, none of them empty, the score `SetFisherScores` computes for
feature `i` (before any weight is zeroed) is the same after a constant `c` has
been added to every value of the feature, and the same after every value has
been multiplied by `a ≠ 0` when `mean_inter_class_var` is at least
`DBL_EPSILON` before and after the rescale; where the class matrices have
`signature_count` rows the score is a number. -/
theorem TrainingSet.scoredWeight_shift_scale (pearson : ℕ → ℚ) (ts : TrainingSet) (i : ℕ)
    (hdisc : ts.is_continuous = false) (hK : 1 < ts.class_num)
    (hne : ∀ c, 1 ≤ c → c ≤ ts.class_num → 1 ≤ (ts.raw_features c).cols) :
    (∀ c : ℚ, TrainingSet.scoredWeight pearson (TrainingSet.addToFeature ts i c) i =
        TrainingSet.scoredWeight pearson ts i) ∧
      (∀ a v v2 : ℚ, a ≠ 0 →
        TrainingSet.mean_inter_class_var ts i = some v → DBL_EPSILON ≤ v →
        TrainingSet.mean_inter_class_var (TrainingSet.scaleFeature ts i a) i = some v2 →
        DBL_EPSILON ≤ v2 →
        TrainingSet.scoredWeight pearson (TrainingSet.scaleFeature ts i a) i =
          TrainingSet.scoredWeight pearson ts i) ∧
      (TrainingSet.fisherSizesOk ts → (TrainingSet.scoredWeight pearson ts i).isSome = true) := by
  have hspec := TrainingSet.fisherScore_eq_spec ts i hK hne
  refine ⟨?_, ?_, ?_⟩
  · intro c
    by_cases hok : TrainingSet.fisherSizesOk ts
    · have hok2 : TrainingSet.fisherSizesOk (TrainingSet.addToFeature ts i c) :=
        fun k h1 h2 => hok k h1 h2
      rw [TrainingSet.scoredWeight_discrete pearson ts i hdisc hK hok,
        TrainingSet.scoredWeight_discrete pearson (TrainingSet.addToFeature ts i c) i hdisc hK
          hok2, hspec,
        TrainingSet.fisherScore_eq_spec (TrainingSet.addToFeature ts i c) i hK hne]
      have hcoeff : (fun k j => ((TrainingSet.addToFeature ts i c).raw_features k).coeff i j) =
          fun k j => (ts.raw_features k).coeff i j + c := by
        funext k j
        simp [TrainingSet.addToFeature]
      rw [hcoeff]
      exact congrArg some (specFisherScore_add ts.class_num (le_of_lt hK)
        (fun k => (ts.raw_features k).cols) (fun k j => (ts.raw_features k).coeff i j) c hne)
    · have hok2 : ¬ TrainingSet.fisherSizesOk (TrainingSet.addToFeature ts i c) :=
        fun h => hok (fun k h1 h2 => h k h1 h2)
      rw [TrainingSet.scoredWeight_sizes_fail pearson ts i hK hok,
        TrainingSet.scoredWeight_sizes_fail pearson (TrainingSet.addToFeature ts i c) i hK hok2]
  · intro a v v2 ha hv hve hv2 hv2e
    by_cases hok : TrainingSet.fisherSizesOk ts
    · have hok2 : TrainingSet.fisherSizesOk (TrainingSet.scaleFeature ts i a) :=
        fun k h1 h2 => hok k h1 h2
      rw [TrainingSet.scoredWeight_discrete pearson ts i hdisc hK hok,
        TrainingSet.scoredWeight_discrete pearson (TrainingSet.scaleFeature ts i a) i hdisc hK
          hok2, hspec,
        TrainingSet.fisherScore_eq_spec (TrainingSet.scaleFeature ts i a) i hK hne]
      have hcoeff : (fun k j => ((TrainingSet.scaleFeature ts i a).raw_features k).coeff i j) =
          fun k j => a * (ts.raw_features k).coeff i j := by
        funext k j
        simp [TrainingSet.scaleFeature]
      rw [hcoeff]
      rw [TrainingSet.mean_inter_class_var_eq ts i hne] at hv
      rw [TrainingSet.mean_inter_class_var_eq (TrainingSet.scaleFeature ts i a) i hne] at hv2
      simp only [Option.some.injEq] at hv hv2
      have e1 : DBL_EPSILON ≤ (1 / (ts.class_num : ℚ)) *
          ∑ k ∈ Finset.Icc 1 ts.class_num, specVariance (ts.raw_features k).cols
            (fun j => (ts.raw_features k).coeff i j) := by
        rw [sum_Icc_one_eq_sum_range, one_div, inv_mul_eq_div, hv]
        exact hve
      have e2 : DBL_EPSILON ≤ (1 / (ts.class_num : ℚ)) *
          ∑ k ∈ Finset.Icc 1 ts.class_num, specVariance (ts.raw_features k).cols
            (fun j => a * (ts.raw_features k).coeff i j) := by
        rw [sum_Icc_one_eq_sum_range, one_div, inv_mul_eq_div]
        have hcoeff2 : ∀ k, (fun j => ((TrainingSet.scaleFeature ts i a).raw_features k).coeff i j)
            = fun j => a * (ts.raw_features k).coeff i j := fun k => congrFun hcoeff k
        simp only [hcoeff2] at hv2
        rw [← hv2] at hv2e
        exact hv2e
      exact congrArg some (specFisherScore_mul ts.class_num
        (fun k => (ts.raw_features k).cols) (fun k j => (ts.raw_features k).coeff i j) a ha
        e1 e2)
    · have hok2 : ¬ TrainingSet.fisherSizesOk (TrainingSet.scaleFeature ts i a) :=
        fun h => hok (fun k h1 h2 => h k h1 h2)
      rw [TrainingSet.scoredWeight_sizes_fail pearson ts i hK hok,
        TrainingSet.scoredWeight_sizes_fail pearson (TrainingSet.scaleFeature ts i a) i hK hok2]
  · intro hok
    rw [TrainingSet.scoredWeight_discrete pearson ts i hdisc hK hok, hspec]
    rfl

/-- Instance of C22 (amended) on `fisherExample`: 7 is added to every value of feature 0. -/
theorem TrainingSet.scoredWeight_shift_scale_witness :
    TrainingSet.scoredWeight (fun _ => 0) (TrainingSet.addToFeature fisherExample 0 7) 0 =
      TrainingSet.scoredWeight (fun _ => 0) fisherExample 0 :=
  (TrainingSet.scoredWeight_shift_scale (fun _ => 0) fisherExample 0 rfl (by decide)
    (by decide)).1 7

/-- On `fisherExample` the score of feature 0 is 9, also after 7 has been added
to its values and after they have been multiplied by 3. -/
theorem TrainingSet.scoredWeight_fisherExample_shift_scale :
    TrainingSet.scoredWeight (fun _ => 0) fisherExample 0 = some 9 ∧
      TrainingSet.scoredWeight (fun _ => 0) (TrainingSet.addToFeature fisherExample 0 7) 0 =
        some 9 ∧
      TrainingSet.scoredWeight (fun _ => 0) (TrainingSet.scaleFeature fisherExample 0 3) 0 =
        some 9 := by
  decide!

/-! ### `normalize` applied twice -/

namespace TrainingSet

theorem clip_of_mem_range (x : ℚ) (h0 : 0 ≤ x) (h1 : x ≤ 100) : clip x = x := by
  have hmax : (100 : ℚ) < DBL_MAX := by
    unfold DBL_MAX
    norm_num
  have := DBL_MAX_pos
  have e1 : x < DBL_MAX := by linarith
  have e2 : x > -DBL_MAX := by linarith
  simp only [clip]
  rw [if_pos e1, if_pos e2]

theorem global_max_le (ts : TrainingSet) (i : ℕ) (hok : normalizeSizesOk ts) (B : ℚ)
    (hB : -DBL_MAX ≤ B)
    (h : ∀ c j, c ≤ ts.class_num → ¬ (ts.raw_features c).rows < 1 →
      j < (ts.raw_features c).cols → clip ((ts.raw_features c).coeff i j) ≤ B) :
    maxUpTo (fun c => class_max ts c i) ts.class_num ≤ B := by
  obtain ⟨c1, hc1, hm⟩ := maxUpTo_attained (fun c => class_max ts c i) ts.class_num
  rw [hm]
  rcases class_max_cases ts c1 i hok hc1 with h1 | ⟨hr1, j1, hj1, h1⟩
  · show class_max ts c1 i ≤ B
    rw [h1]; exact hB
  · show class_max ts c1 i ≤ B
    rw [h1]; exact h c1 j1 hc1 hr1 hj1

theorem le_global_min (ts : TrainingSet) (i : ℕ) (hok : normalizeSizesOk ts) (B : ℚ)
    (hB : B ≤ DBL_MAX)
    (h : ∀ c j, c ≤ ts.class_num → ¬ (ts.raw_features c).rows < 1 →
      j < (ts.raw_features c).cols → B ≤ clip ((ts.raw_features c).coeff i j)) :
    B ≤ minUpTo (fun c => class_min ts c i) ts.class_num := by
  obtain ⟨c1, hc1, hm⟩ := minUpTo_attained (fun c => class_min ts c i) ts.class_num
  rw [hm]
  rcases class_min_cases ts c1 i hok hc1 with h1 | ⟨hr1, j1, hj1, h1⟩
  · show B ≤ class_min ts c1 i
    rw [h1]; exact hB
  · show B ≤ class_min ts c1 i
    rw [h1]; exact h c1 j1 hc1 hr1 hj1

theorem clip_le_global_max (ts : TrainingSet) (i c j : ℕ) (hc : c ≤ ts.class_num)
    (hr : ¬ (ts.raw_features c).rows < 1) (hj : j < (ts.raw_features c).cols) :
    clip ((ts.raw_features c).coeff i j) ≤ maxUpTo (fun c => class_max ts c i) ts.class_num :=
  le_trans (clip_le_class_max ts c i j hr hj)
    (le_maxUpTo (fun c => class_max ts c i) ts.class_num c hc)

theorem global_min_le_clip (ts : TrainingSet) (i c j : ℕ) (hc : c ≤ ts.class_num)
    (hr : ¬ (ts.raw_features c).rows < 1) (hj : j < (ts.raw_features c).cols) :
    minUpTo (fun c => class_min ts c i) ts.class_num ≤ clip ((ts.raw_features c).coeff i j) :=
  le_trans (minUpTo_le (fun c => class_min ts c i) ts.class_num c hc)
    (class_min_le_clip ts c i j hr hj)

theorem normalize_facts (ts ts1 : TrainingSet) (h : normalize ts = some ts1) :
    normalizeSizesOk ts ∧ ts1.class_num = ts.class_num ∧
      ts1.signature_count = ts.signature_count ∧
      (∀ c, (ts1.raw_features c).rows = (ts.raw_features c).rows ∧
        (ts1.raw_features c).cols = (ts.raw_features c).cols) ∧
      (∀ c i j, c ≤ ts.class_num → ¬ (ts.raw_features c).rows < 1 →
        (ts1.raw_features c).coeff i j =
          if maxUpTo (fun c => class_max ts c i) ts.class_num -
              minUpTo (fun c => class_min ts c i) ts.class_num > DBL_EPSILON then
            (clip ((ts.raw_features c).coeff i j) -
                minUpTo (fun c => class_min ts c i) ts.class_num) /
              (maxUpTo (fun c => class_max ts c i) ts.class_num -
                minUpTo (fun c => class_min ts c i) ts.class_num) * 100
          else 0) ∧
      (∀ c, (¬ c ≤ ts.class_num ∨ (ts.raw_features c).rows < 1) →
        ts1.raw_features c = ts.raw_features c) := by
  by_cases hok : normalizeSizesOk ts
  · rw [normalize, if_pos hok] at h
    simp only [Option.some.injEq] at h
    subst h
    refine ⟨hok, rfl, rfl, ?_, ?_, ?_⟩
    · intro c
      dsimp only
      split_ifs <;> exact ⟨rfl, rfl⟩
    · intro c i j hc hr
      dsimp only
      rw [if_pos hc, if_neg hr]
    · intro c hc
      dsimp only
      rcases hc with hc | hc
      · rw [if_neg hc]
      · by_cases hcK : c ≤ ts.class_num
        · rw [if_pos hcK, if_pos hc]
        · rw [if_neg hcK]
  · rw [normalize, if_neg hok] at h
    exact Option.noConfusion h

end TrainingSet

namespace TrainingSet

theorem normalize_fixed_feature (ts : TrainingSet) (i c j : ℕ) (hok : normalizeSizesOk ts)
    (hc : c ≤ ts.class_num) (hr : ¬ (ts.raw_features c).rows < 1)
    (hj : j < (ts.raw_features c).cols)
    (h : (∀ c2 j2, c2 ≤ ts.class_num → ¬ (ts.raw_features c2).rows < 1 →
          j2 < (ts.raw_features c2).cols → (ts.raw_features c2).coeff i j2 = 0) ∨
      ((∀ c2 j2, c2 ≤ ts.class_num → ¬ (ts.raw_features c2).rows < 1 →
          j2 < (ts.raw_features c2).cols →
          0 ≤ (ts.raw_features c2).coeff i j2 ∧ (ts.raw_features c2).coeff i j2 ≤ 100) ∧
        (∃ c2 j2, c2 ≤ ts.class_num ∧ ¬ (ts.raw_features c2).rows < 1 ∧
          j2 < (ts.raw_features c2).cols ∧ (ts.raw_features c2).coeff i j2 = 100) ∧
        ∃ c2 j2, c2 ≤ ts.class_num ∧ ¬ (ts.raw_features c2).rows < 1 ∧
          j2 < (ts.raw_features c2).cols ∧ (ts.raw_features c2).coeff i j2 = 0)) :
    (if maxUpTo (fun c => class_max ts c i) ts.class_num -
          minUpTo (fun c => class_min ts c i) ts.class_num > DBL_EPSILON then
        (clip ((ts.raw_features c).coeff i j) -
            minUpTo (fun c => class_min ts c i) ts.class_num) /
          (maxUpTo (fun c => class_max ts c i) ts.class_num -
            minUpTo (fun c => class_min ts c i) ts.class_num) * 100
      else 0) = (ts.raw_features c).coeff i j := by
  have hDpos := DBL_MAX_pos
  have hEpos := DBL_EPSILON_pos
  have hE100 : DBL_EPSILON < 100 := by
    unfold DBL_EPSILON
    norm_num
  have hclip0 : clip 0 = 0 := clip_of_mem_range 0 (le_refl 0) (by norm_num)
  rcases h with hA | ⟨hB, ⟨c1, j1, hc1, hr1, hj1, h100⟩, ⟨c2, j2, hc2, hr2, hj2, h0⟩⟩
  · have hx : (ts.raw_features c).coeff i j = 0 := hA c j hc hr hj
    have hM1 : maxUpTo (fun c => class_max ts c i) ts.class_num ≤ 0 :=
      global_max_le ts i hok 0 (by linarith)
        (fun c2 j2 h1 h2 h3 => by rw [hA c2 j2 h1 h2 h3, hclip0])
    have hM2 := clip_le_global_max ts i c j hc hr hj
    have hm1 : 0 ≤ minUpTo (fun c => class_min ts c i) ts.class_num :=
      le_global_min ts i hok 0 (by linarith)
        (fun c2 j2 h1 h2 h3 => by rw [hA c2 j2 h1 h2 h3, hclip0])
    have hm2 := global_min_le_clip ts i c j hc hr hj
    rw [hx, hclip0] at hM2 hm2
    have hR : ¬ (maxUpTo (fun c => class_max ts c i) ts.class_num -
        minUpTo (fun c => class_min ts c i) ts.class_num > DBL_EPSILON) := by
      intro hgt
      linarith
    rw [if_neg hR, hx]
  · have hclip : ∀ c2 j2, c2 ≤ ts.class_num → ¬ (ts.raw_features c2).rows < 1 →
        j2 < (ts.raw_features c2).cols →
        clip ((ts.raw_features c2).coeff i j2) = (ts.raw_features c2).coeff i j2 :=
      fun c2 j2 h1 h2 h3 => clip_of_mem_range _ (hB c2 j2 h1 h2 h3).1 (hB c2 j2 h1 h2 h3).2
    have hM1 : maxUpTo (fun c => class_max ts c i) ts.class_num ≤ 100 :=
      global_max_le ts i hok 100 (by linarith)
        (fun c2 j2 h1 h2 h3 => by rw [hclip c2 j2 h1 h2 h3]; exact (hB c2 j2 h1 h2 h3).2)
    have hM2 := clip_le_global_max ts i c1 j1 hc1 hr1 hj1
    rw [hclip c1 j1 hc1 hr1 hj1, h100] at hM2
    have hm1 : 0 ≤ minUpTo (fun c => class_min ts c i) ts.class_num :=
      le_global_min ts i hok 0 (by linarith)
        (fun c2 j2 h1 h2 h3 => by rw [hclip c2 j2 h1 h2 h3]; exact (hB c2 j2 h1 h2 h3).1)
    have hm2 := global_min_le_clip ts i c2 j2 hc2 hr2 hj2
    rw [hclip c2 j2 hc2 hr2 hj2, h0] at hm2
    have hM : maxUpTo (fun c => class_max ts c i) ts.class_num = 100 := le_antisymm hM1 hM2
    have hm : minUpTo (fun c => class_min ts c i) ts.class_num = 0 := le_antisymm hm2 hm1
    rw [hM, hm, hclip c j hc hr hj, if_pos (by linarith)]
    ring

end TrainingSet

/-- C24.  For a training set whose class matrices (classes `0..class_num`) are
each either without rows or have `signature_count` rows and at least one sample
column, `normalize` succeeds twice in a row, and the class matrices after the
second call have the dimensions and the coefficients of the class matrices
after the first call. -/
theorem TrainingSet.normalize_idempotent (ts : TrainingSet)
    (h : ∀ c, c ≤ ts.class_num →
      (ts.raw_features c).rows = 0 ∨
        ((ts.raw_features c).rows = ts.signature_count ∧ 1 ≤ (ts.raw_features c).cols)) :
    ∃ ts1 ts2, TrainingSet.normalize ts = some ts1 ∧ TrainingSet.normalize ts1 = some ts2 ∧
      ∀ c, (ts2.raw_features c).rows = (ts1.raw_features c).rows ∧
        (ts2.raw_features c).cols = (ts1.raw_features c).cols ∧
        ∀ i j, i < (ts1.raw_features c).rows → j < (ts1.raw_features c).cols →
          (ts2.raw_features c).coeff i j = (ts1.raw_features c).coeff i j := by
  have hok : TrainingSet.normalizeSizesOk ts := by
    intro c hc
    rcases h c hc with h0 | h1
    · left; omega
    · right; exact h1
  obtain ⟨ts1, h1⟩ : ∃ ts1, TrainingSet.normalize ts = some ts1 := by
    rw [TrainingSet.normalize, if_pos hok]
    exact ⟨_, rfl⟩
  obtain ⟨_, hK1, hS1, hdim1, hcoeff1, hother1⟩ := TrainingSet.normalize_facts ts ts1 h1
  have hok1 : TrainingSet.normalizeSizesOk ts1 := by
    intro c hc
    rw [hK1] at hc
    rw [(hdim1 c).1, (hdim1 c).2, hS1]
    exact hok c hc
  obtain ⟨ts2, h2⟩ : ∃ ts2, TrainingSet.normalize ts1 = some ts2 := by
    rw [TrainingSet.normalize, if_pos hok1]
    exact ⟨_, rfl⟩
  obtain ⟨_, _, _, hdim2, hcoeff2, hother2⟩ := TrainingSet.normalize_facts ts1 ts2 h2
  refine ⟨ts1, ts2, h1, h2, ?_⟩
  intro c
  refine ⟨(hdim2 c).1, (hdim2 c).2, ?_⟩
  intro i j _ hj
  by_cases hc : c ≤ ts1.class_num ∧ ¬ (ts1.raw_features c).rows < 1
  · obtain ⟨hc1, hr1⟩ := hc
    rw [hcoeff2 c i j hc1 hr1]
    apply TrainingSet.normalize_fixed_feature ts1 i c j hok1 hc1 hr1 hj
    have hcK : c ≤ ts.class_num := by rw [← hK1]; exact hc1
    have hr : ¬ (ts.raw_features c).rows < 1 := by rw [← (hdim1 c).1]; exact hr1
    have hjc : j < (ts.raw_features c).cols := by rw [← (hdim1 c).2]; exact hj
    have hvalid : ∀ c2 j2, c2 ≤ ts1.class_num → ¬ (ts1.raw_features c2).rows < 1 →
        j2 < (ts1.raw_features c2).cols →
        c2 ≤ ts.class_num ∧ ¬ (ts.raw_features c2).rows < 1 ∧ j2 < (ts.raw_features c2).cols := by
      intro c2 j2 a1 a2 a3
      rw [hK1] at a1
      rw [(hdim1 c2).1] at a2
      rw [(hdim1 c2).2] at a3
      exact ⟨a1, a2, a3⟩
    by_cases hR : maxUpTo (fun c => TrainingSet.class_max ts c i) ts.class_num -
        minUpTo (fun c => TrainingSet.class_min ts c i) ts.class_num > DBL_EPSILON
    · right
      have hpos : 0 < maxUpTo (fun c => TrainingSet.class_max ts c i) ts.class_num -
          minUpTo (fun c => TrainingSet.class_min ts c i) ts.class_num :=
        lt_trans DBL_EPSILON_pos hR
      refine ⟨?_, ?_, ?_⟩
      · intro c2 j2 a1 a2 a3
        obtain ⟨b1, b2, b3⟩ := hvalid c2 j2 a1 a2 a3
        rw [hcoeff1 c2 i j2 b1 b2, if_pos hR]
        have hmax := TrainingSet.clip_le_global_max ts i c2 j2 b1 b2 b3
        have hmin := TrainingSet.global_min_le_clip ts i c2 j2 b1 b2 b3
        constructor
        · apply mul_nonneg _ (by norm_num)
          apply div_nonneg _ (le_of_lt hpos)
          linarith
        · have : (TrainingSet.clip ((ts.raw_features c2).coeff i j2) -
              minUpTo (fun c => TrainingSet.class_min ts c i) ts.class_num) /
              (maxUpTo (fun c => TrainingSet.class_max ts c i) ts.class_num -
                minUpTo (fun c => TrainingSet.class_min ts c i) ts.class_num) ≤ 1 := by
            rw [div_le_one hpos]
            linarith
          linarith
      · obtain ⟨c3, j3, hc3, hr3, hj3, hmax⟩ :=
          TrainingSet.global_max_is_coeff ts i c j hok hcK hr hjc
        refine ⟨c3, j3, by rw [hK1]; exact hc3, by rw [(hdim1 c3).1]; exact hr3,
          by rw [(hdim1 c3).2]; exact hj3, ?_⟩
        rw [hcoeff1 c3 i j3 hc3 hr3, if_pos hR, ← hmax, div_self (ne_of_gt hpos)]
        norm_num
      · obtain ⟨c3, j3, hc3, hr3, hj3, hmin⟩ :=
          TrainingSet.global_min_is_coeff ts i c j hok hcK hr hjc
        refine ⟨c3, j3, by rw [hK1]; exact hc3, by rw [(hdim1 c3).1]; exact hr3,
          by rw [(hdim1 c3).2]; exact hj3, ?_⟩
        rw [hcoeff1 c3 i j3 hc3 hr3, if_pos hR, ← hmin, sub_self, zero_div, zero_mul]
    · left
      intro c2 j2 a1 a2 a3
      obtain ⟨b1, b2, _⟩ := hvalid c2 j2 a1 a2 a3
      rw [hcoeff1 c2 i j2 b1 b2, if_neg hR]
  · have hc2 : ¬ c ≤ ts1.class_num ∨ (ts1.raw_features c).rows < 1 := by
      by_cases hcK : c ≤ ts1.class_num
      · right
        by_contra hr
        exact hc ⟨hcK, hr⟩
      · left; exact hcK
    rw [hother2 c hc2]

/-- Instance of C24 on `normalizeExample`. -/
theorem TrainingSet.normalize_idempotent_witness :
    ∃ ts1 ts2, TrainingSet.normalize normalizeExample = some ts1 ∧
      TrainingSet.normalize ts1 = some ts2 ∧
      ∀ c, (ts2.raw_features c).rows = (ts1.raw_features c).rows ∧
        (ts2.raw_features c).cols = (ts1.raw_features c).cols ∧
        ∀ i j, i < (ts1.raw_features c).rows → j < (ts1.raw_features c).cols →
          (ts2.raw_features c).coeff i j = (ts1.raw_features c).coeff i j :=
  TrainingSet.normalize_idempotent normalizeExample (by decide)

/-- On `normalizeExample` the first call of `normalize` turns the values 1 and 3
of feature 0 into 0 and 100 and the constant feature 1 into 0; the second call
leaves these values. -/
theorem TrainingSet.normalize_twice_normalizeExample :
    (TrainingSet.normalize normalizeExample).map
        (fun t => ((t.raw_features 1).coeff 0 0, (t.raw_features 1).coeff 0 1,
          (t.raw_features 1).coeff 1 0, (t.raw_features 1).coeff 1 1)) =
      some (0, 100, 0, 0) ∧
    ((TrainingSet.normalize normalizeExample).bind TrainingSet.normalize).map
        (fun t => ((t.raw_features 1).coeff 0 0, (t.raw_features 1).coeff 0 1,
          (t.raw_features 1).coeff 1 0, (t.raw_features 1).coeff 1 1)) =
      some (0, 100, 0, 0) := by
  decide!

/-! ### The tiles of an image in `split` -/

namespace TrainingSet

theorem splitLoop_train_inv (shuffle : ℕ → List ℕ → List ℕ)
    (hshuffle : ∀ c l, (shuffle c l).Perm l) (ts : TrainingSet) (randomize : Bool)
    (ratio : ℚ) (tiles train_samples test_samples : ℕ) (make_test_set : Bool)
    (st0 : splitState)
    (hsizes : ∀ c, 1 ≤ c → c ≤ ts.class_num →
      ts.class_nsamples c ≤ (ts.class_samples c).length ∧
        ts.class_nsamples c ≤ (ts.raw_features c).cols ∧
        ts.signature_count ≤ (ts.raw_features c).rows)
    (hcounts : ∀ c, 1 ≤ c → c ≤ ts.class_num →
      (splitCounts ratio train_samples test_samples make_test_set
          (ts.class_nsamples c / tiles)).1 +
        (splitCounts ratio train_samples test_samples make_test_set
          (ts.class_nsamples c / tiles)).2 ≤ ts.class_nsamples c / tiles)
    (hv : ts.class_num < ts.class_labels_size ∧ ts.class_num < ts.raw_features_size ∧
      ts.class_num < st0.TrainSet.raw_features_size ∧
      ts.class_num < st0.TrainSet.class_labels_size ∧
      ts.class_num < st0.TestSet.class_labels_size) :
    ∀ n, n ≤ ts.class_num →
      ∃ r, splitLoop shuffle ts randomize ratio tiles train_samples test_samples make_test_set
          st0 n = some r ∧
        ∀ c, 1 ≤ c → c ≤ n →
          (∀ row j i, row < ts.signature_count →
            j < (splitCounts ratio train_samples test_samples make_test_set
              (ts.class_nsamples c / tiles)).1 → i < tiles →
            (r.TrainSet.raw_features c).coeff row (j * tiles + i) =
              (ts.raw_features c).coeff row
                ((train_test_split shuffle ts randomize tiles c).getD j 0 * tiles + i)) ∧
          (r.TrainSet.class_samples c).length =
            tiles * (splitCounts ratio train_samples test_samples make_test_set
              (ts.class_nsamples c / tiles)).1 ∧
          ∀ j i, j < (splitCounts ratio train_samples test_samples make_test_set
              (ts.class_nsamples c / tiles)).1 → i < tiles →
            (r.TrainSet.class_samples c).getD (j * tiles + i) ⟨fun _ => 0, 0, 0, "", 0⟩ =
              (ts.class_samples c).getD
                ((train_test_split shuffle ts randomize tiles c).getD j 0 * tiles + i)
                ⟨fun _ => 0, 0, 0, "", 0⟩ := by
  intro n
  induction n with
  | zero =>
    intro _
    refine ⟨st0, rfl, ?_⟩
    intro c h1 h2
    omega
  | succ n ih =>
    intro hn
    obtain ⟨r, hr, hinv⟩ := ih (Nat.le_of_succ_le hn)
    obtain ⟨r2, hr2, _, hframe, _, hcoeff, hlen, hsamp, hframe2, _⟩ :=
      splitClass_eq_some shuffle hshuffle ts randomize ratio tiles train_samples test_samples
        make_test_set r (n + 1) (hsizes (n + 1) (Nat.succ_le_succ (Nat.zero_le n)) hn)
        (hcounts (n + 1) (Nat.succ_le_succ (Nat.zero_le n)) hn)
        (splitVectorsOk_of_sizes ts st0 r (n + 1) _ _ hn hv
          (splitLoop_sizes shuffle ts randomize ratio tiles train_samples test_samples
            make_test_set st0 n r hr))
    refine ⟨r2, ?_, ?_⟩
    · show (splitLoop shuffle ts randomize ratio tiles train_samples test_samples make_test_set
        st0 n).bind _ = _
      rw [hr]
      exact hr2
    · intro c h1 h2
      by_cases hc : c = n + 1
      · rw [hc]
        exact ⟨hcoeff, hlen, hsamp⟩
      · rw [hframe c hc, hframe2 c hc]
        exact hinv c h1 (by omega)

theorem getD_flatMap_const {α : Type} (f : ℕ → List α) (T : ℕ) (d : α) :
    ∀ L : List ℕ, (∀ g ∈ L, (f g).length = T) →
      ∀ k i, k < L.length → i < T →
        (L.flatMap f).getD (k * T + i) d = (f (L.getD k 0)).getD i d := by
  intro L
  induction L with
  | nil =>
    intro _ k i hk
    simp at hk
  | cons g rest ih =>
    intro h k i hk hi
    have hg : (f g).length = T := h g (List.mem_cons_self _ _)
    rw [List.flatMap_cons]
    cases k with
    | zero =>
      rw [Nat.zero_mul, Nat.zero_add, List.getD_append _ _ _ _ (by omega)]
      rfl
    | succ k =>
      have hidx : (k + 1) * T + i = (f g).length + (k * T + i) := by rw [hg]; ring
      rw [hidx, List.getD_append_right _ _ _ _ (by omega), Nat.add_sub_cancel_left,
        ih (fun x hx => h x (List.mem_cons_of_mem _ hx)) k i
          (by simpa using hk) hi]
      rfl

theorem groupSamples_getD (ts : TrainingSet) (tiles c g i : ℕ) (d : signatures)
    (hi : i < tiles) :
    (groupSamples ts tiles c g).getD i d = (ts.class_samples c).getD (g * tiles + i) d := by
  unfold groupSamples
  rw [List.getD_eq_getElem?_getD, List.getD_eq_getElem?_getD, List.getElem?_take_of_lt hi,
    List.getElem?_drop]

theorem getD_take_drop (order : List ℕ) (a b k : ℕ) (hk : k < b) :
    ((order.drop a).take b).getD k 0 = order.getD (a + k) 0 := by
  rw [List.getD_eq_getElem?_getD, List.getD_eq_getElem?_getD, List.getElem?_take_of_lt hk,
    List.getElem?_drop]

theorem split_eq_splitLoop (MAX_CLASS_NUM : ℕ) (check_numeric : String → ℕ)
    (shuffle : ℕ → List ℕ → List ℕ) (ts : TrainingSet) (randomize : Bool) (ratio : ℚ)
    (TrainSet TestSet : TrainingSet) (tiles train_samples test_samples : ℕ) (sp : data_split)
    (htiles : 1 ≤ tiles) :
    ∃ st0 : splitState, st0.TestSet.test_samples = TestSet.test_samples ∧
      split MAX_CLASS_NUM check_numeric shuffle ts randomize ratio TrainSet TestSet tiles
          train_samples test_samples sp =
        splitLoop shuffle ts randomize ratio tiles train_samples test_samples
          (decide (TestSet.samples.length = 0)) st0 ts.class_num ∧
      st0.TrainSet.raw_features_size =
        (SetAttrib MAX_CLASS_NUM check_numeric ts TrainSet).raw_features_size ∧
      st0.TrainSet.class_labels_size =
        (SetAttrib MAX_CLASS_NUM check_numeric ts TrainSet).class_labels_size ∧
      st0.TestSet.class_labels_size =
        (if TestSet.samples.length = 0 then SetAttrib MAX_CLASS_NUM check_numeric ts TestSet
          else TestSet).class_labels_size := by
  have hs := SetAttrib_samples MAX_CLASS_NUM check_numeric ts TestSet
  by_cases hempty : TestSet.samples.length = 0
  · refine ⟨{ TrainSet := { SetAttrib MAX_CLASS_NUM check_numeric ts TrainSet with
                class_num := ts.class_num }
              TestSet := { SetAttrib MAX_CLASS_NUM check_numeric ts TestSet with
                class_num := ts.class_num }
              split := sp }, hs.2, ?_, rfl, rfl, ?_⟩
    · simp only [split]
      rw [if_pos hempty, if_neg (by omega : ¬ tiles < 1), hs.1,
        if_neg (by omega : ¬ TestSet.samples.length > 0), decide_eq_true hempty]
    · rw [if_pos hempty]
  · refine ⟨{ TrainSet := { SetAttrib MAX_CLASS_NUM check_numeric ts TrainSet with
                class_num := ts.class_num }
              TestSet := { TestSet with class_num := ts.class_num }
              split := sp }, rfl, ?_, rfl, rfl, ?_⟩
    · simp only [split]
      rw [if_neg hempty, if_neg (by omega : ¬ tiles < 1),
        if_pos (by omega : TestSet.samples.length > 0), decide_eq_false hempty]
    · rw [if_neg hempty]

end TrainingSet

/-- The tiles of an image in `split` where it runs through.  Let the vectors of
the set and those of `TrainSet` and `TestSet` as the loop finds them have an
entry for every class (`SetAttrib_sizes`), the tile count `T` be at least 1,
`random_shuffle` return a permutation, the matrix and the sample list of every
class hold its `class_nsamples` samples, and the counts of every class fit its
number of groups.  Then `split` returns, and for every class `c` in `1 .. class_num`,
with `π = train_test_split` (a permutation of the group indices, the identity
when `randomize = 0`): column `j·T + i` of the class matrix of `TrainSet` is
source column `π(j)·T + i`, and sample `j·T + i` of the class in `TrainSet` is
source sample `π(j)·T + i`, for `j < train_count` and `i < T`; the samples
appended to `TestSet->test_samples` for the class are `test_count·T` samples,
number `k·T + i` of them being source sample `π(train_count + k)·T + i`, for
`k < test_count` and `i < T`. -/
theorem TrainingSet.split_tiles_together (MAX_CLASS_NUM : ℕ) (check_numeric : String → ℕ)
    (shuffle : ℕ → List ℕ → List ℕ) (ts : TrainingSet) (randomize : Bool) (ratio : ℚ)
    (TrainSet TestSet : TrainingSet) (tiles train_samples test_samples : ℕ)
    (sp : data_split)
    (htiles : 1 ≤ tiles)
    (hshuffle : ∀ c l, (shuffle c l).Perm l)
    (hsizes : ∀ c, 1 ≤ c → c ≤ ts.class_num →
      ts.class_nsamples c ≤ (ts.class_samples c).length ∧
        ts.class_nsamples c ≤ (ts.raw_features c).cols ∧
        ts.signature_count ≤ (ts.raw_features c).rows)
    (hcounts : ∀ c, 1 ≤ c → c ≤ ts.class_num →
      (TrainingSet.splitCounts ratio train_samples test_samples
          (decide (TestSet.samples.length = 0)) (ts.class_nsamples c / tiles)).1 +
        (TrainingSet.splitCounts ratio train_samples test_samples
          (decide (TestSet.samples.length = 0)) (ts.class_nsamples c / tiles)).2 ≤
        ts.class_nsamples c / tiles)
    (hv : ts.class_num < ts.class_labels_size ∧ ts.class_num < ts.raw_features_size ∧
      ts.class_num <
        (TrainingSet.SetAttrib MAX_CLASS_NUM check_numeric ts TrainSet).raw_features_size ∧
      ts.class_num <
        (TrainingSet.SetAttrib MAX_CLASS_NUM check_numeric ts TrainSet).class_labels_size ∧
      ts.class_num <
        (if TestSet.samples.length = 0 then
          TrainingSet.SetAttrib MAX_CLASS_NUM check_numeric ts TestSet
        else TestSet).class_labels_size) :
    ∃ r, TrainingSet.split MAX_CLASS_NUM check_numeric shuffle ts randomize ratio TrainSet
        TestSet tiles train_samples test_samples sp = some r ∧
      (∀ c, 1 ≤ c → c ≤ ts.class_num →
        (TrainingSet.train_test_split shuffle ts randomize tiles c).Perm
          (List.range (ts.class_nsamples c / tiles)) ∧
        (randomize = false → ∀ j, j < ts.class_nsamples c / tiles →
          (TrainingSet.train_test_split shuffle ts randomize tiles c).getD j 0 = j) ∧
        (∀ row j i, row < ts.signature_count →
          j < (TrainingSet.splitCounts ratio train_samples test_samples
            (decide (TestSet.samples.length = 0)) (ts.class_nsamples c / tiles)).1 →
          i < tiles →
          (r.TrainSet.raw_features c).coeff row (j * tiles + i) =
            (ts.raw_features c).coeff row
              ((TrainingSet.train_test_split shuffle ts randomize tiles c).getD j 0 * tiles +
                i)) ∧
        (∀ j i,
          j < (TrainingSet.splitCounts ratio train_samples test_samples
            (decide (TestSet.samples.length = 0)) (ts.class_nsamples c / tiles)).1 →
          i < tiles →
          (r.TrainSet.class_samples c).getD (j * tiles + i) ⟨fun _ => 0, 0, 0, "", 0⟩ =
            (ts.class_samples c).getD
              ((TrainingSet.train_test_split shuffle ts randomize tiles c).getD j 0 * tiles + i)
              ⟨fun _ => 0, 0, 0, "", 0⟩) ∧
        ((TrainingSet.splitTestGroups shuffle ts randomize ratio tiles train_samples
            test_samples (decide (TestSet.samples.length = 0)) c).flatMap
          (TrainingSet.groupSamples ts tiles c)).length =
          (TrainingSet.splitCounts ratio train_samples test_samples
            (decide (TestSet.samples.length = 0)) (ts.class_nsamples c / tiles)).2 * tiles ∧
        ∀ k i,
          k < (TrainingSet.splitCounts ratio train_samples test_samples
            (decide (TestSet.samples.length = 0)) (ts.class_nsamples c / tiles)).2 →
          i < tiles →
          ((TrainingSet.splitTestGroups shuffle ts randomize ratio tiles train_samples
              test_samples (decide (TestSet.samples.length = 0)) c).flatMap
            (TrainingSet.groupSamples ts tiles c)).getD (k * tiles + i)
              ⟨fun _ => 0, 0, 0, "", 0⟩ =
            (ts.class_samples c).getD
              ((TrainingSet.train_test_split shuffle ts randomize tiles c).getD
                ((TrainingSet.splitCounts ratio train_samples test_samples
                  (decide (TestSet.samples.length = 0)) (ts.class_nsamples c / tiles)).1 + k)
                0 * tiles + i)
              ⟨fun _ => 0, 0, 0, "", 0⟩) ∧
      r.TestSet.test_samples =
        TestSet.test_samples ++
          (List.range ts.class_num).flatMap (fun k =>
            (TrainingSet.splitTestGroups shuffle ts randomize ratio tiles train_samples
              test_samples (decide (TestSet.samples.length = 0)) (k + 1)).flatMap
              (TrainingSet.groupSamples ts tiles (k + 1))) := by
  obtain ⟨st0, hst0, hsplit, hz1, hz2, hz3⟩ :=
    TrainingSet.split_eq_splitLoop MAX_CLASS_NUM check_numeric
      shuffle ts randomize ratio TrainSet TestSet tiles train_samples test_samples sp htiles
  have hv0 : ts.class_num < ts.class_labels_size ∧ ts.class_num < ts.raw_features_size ∧
      ts.class_num < st0.TrainSet.raw_features_size ∧
      ts.class_num < st0.TrainSet.class_labels_size ∧
      ts.class_num < st0.TestSet.class_labels_size := by
    rw [hz1, hz2, hz3]
    exact hv
  obtain ⟨r, hr, _, htest⟩ :=
    TrainingSet.splitLoop_inv shuffle hshuffle ts randomize ratio tiles train_samples
      test_samples (decide (TestSet.samples.length = 0)) st0 hsizes hcounts hv0 ts.class_num
      (le_refl _)
  obtain ⟨r2, hr2, htrain⟩ :=
    TrainingSet.splitLoop_train_inv shuffle hshuffle ts randomize ratio tiles train_samples
      test_samples (decide (TestSet.samples.length = 0)) st0 hsizes hcounts hv0 ts.class_num
      (le_refl _)
  have hrr : r2 = r := by
    rw [hr] at hr2
    exact (Option.some.inj hr2).symm
  subst hrr
  refine ⟨r2, by rw [hsplit]; exact hr, ?_, by rw [htest, hst0]⟩
  intro c h1 h2
  have hperm := TrainingSet.train_test_split_perm shuffle hshuffle ts randomize tiles c
  have hf := TrainingSet.splitGroups_facts shuffle hshuffle ts randomize ratio tiles
    train_samples test_samples (decide (TestSet.samples.length = 0)) c (hcounts c h1 h2)
  have hlenT : ∀ g ∈ TrainingSet.splitTestGroups shuffle ts randomize ratio tiles train_samples
      test_samples (decide (TestSet.samples.length = 0)) c,
      (TrainingSet.groupSamples ts tiles c g).length = tiles := by
    intro g hg
    exact TrainingSet.groupSamples_length ts tiles c g
      (TrainingSet.group_block_le tiles _ _ g (hf.2.2.2 g (List.mem_append_right _ hg))
        (hsizes c h1 h2).1)
  refine ⟨hperm, ?_, (htrain c h1 h2).1, (htrain c h1 h2).2.2, ?_, ?_⟩
  · intro hrand j hj
    unfold TrainingSet.train_test_split
    rw [hrand]
    simp only [Bool.false_eq_true, if_false]
    rw [List.getD_eq_getElem?_getD, List.getElem?_range hj]
    rfl
  · rw [TrainingSet.length_flatMap_const _ tiles _ hlenT, hf.2.1]
  · intro k i hk hi
    rw [TrainingSet.getD_flatMap_const _ tiles _ _ hlenT k i (by rw [hf.2.1]; exact hk) hi,
      TrainingSet.groupSamples_getD ts tiles c _ i _ hi]
    unfold TrainingSet.splitTestGroups
    rw [TrainingSet.getD_take_drop _ _ _ k hk]

/-- Instance of `split_tiles_together`: `splitExample` with two tiles per image, the reversing
shuffle, one training image and one test image.  Column 0 of the class matrix of
`TrainSet` is the first tile of the group the shuffle put first. -/
theorem TrainingSet.split_tiles_together_witness :
    ∃ r, TrainingSet.split exampleMAX_CLASS_NUM exampleCheckNumeric exampleShuffle splitExample
        true 0 TrainingSet.init TrainingSet.init 2 1 1 emptySplit = some r ∧
      (r.TrainSet.raw_features 1).coeff 0 (0 * 2 + 0) =
        (splitExample.raw_features 1).coeff 0
          ((TrainingSet.train_test_split exampleShuffle splitExample true 2 1).getD 0 0 * 2 +
            0) := by
  obtain ⟨r, hr, hc, _⟩ :=
    TrainingSet.split_tiles_together exampleMAX_CLASS_NUM exampleCheckNumeric exampleShuffle
      splitExample true 0 TrainingSet.init TrainingSet.init 2 1 1 emptySplit (by decide)
      (fun _ l => List.reverse_perm l)
      (by
        intro c hc1 hc2
        have h1 : splitExample.class_num = 1 := rfl
        have : c = 1 := by omega
        subst this
        decide!)
      (by
        intro c hc1 hc2
        have h1 : splitExample.class_num = 1 := rfl
        have : c = 1 := by omega
        subst this
        decide!)
      (by decide!)
  exact ⟨r, hr, (hc 1 (le_refl 1) (by decide!)).2.2.1 0 0 0 (by decide!) (by decide!)
    (by decide)⟩

/-- On `splitExample` with two tiles per image and the reversing shuffle, the
training image is group 1 and the test image group 0: `TrainSet` gets the
columns 2, 3 and the samples "a2", "a3" in this order, `TestSet->test_samples`
the samples "a0", "a1". -/
theorem TrainingSet.split_splitExample_tiles :
    (TrainingSet.split exampleMAX_CLASS_NUM exampleCheckNumeric exampleShuffle splitExample
        true 0 TrainingSet.init TrainingSet.init 2 1 1 emptySplit).map
      (fun r => ((r.TrainSet.raw_features 1).coeff 0 0, (r.TrainSet.raw_features 1).coeff 0 1,
        (r.TrainSet.class_samples 1).map (fun s => s.full_path),
        r.TestSet.test_samples.map (fun s => s.full_path))) =
      some (2, 3, ["a2", "a3"], ["a0", "a1"]) := by
  decide!

/-- C28 (evaluation of the code).  On the continuous set
`continuousSplitExample` (one class, four samples), `split` with two tiles per
image, the reversing shuffle, one training image and one test image has no
result: every `AddClass` call of `SetAttrib` fails on the continuous
`TrainSet`, whose vectors keep the size 1, and lines 707-711 index them at the
class 1.  On the discrete `splitExample` the same call returns, the two tiles
of the training image and of the test image staying together. -/
theorem TrainingSet.split_tiles_continuous_source :
    continuousSplitExample.is_continuous = true ∧
      continuousSplitExample.class_num = 1 ∧
      (continuousSplitExample.class_samples 1).map (fun s => s.full_path) =
        ["a0", "a1", "a2", "a3"] ∧
      (TrainingSet.SetAttrib exampleMAX_CLASS_NUM exampleCheckNumeric continuousSplitExample
          TrainingSet.init).is_continuous = true ∧
      (TrainingSet.SetAttrib exampleMAX_CLASS_NUM exampleCheckNumeric continuousSplitExample
          TrainingSet.init).class_num = 0 ∧
      (TrainingSet.SetAttrib exampleMAX_CLASS_NUM exampleCheckNumeric continuousSplitExample
          TrainingSet.init).raw_features_size = 1 ∧
      (TrainingSet.split exampleMAX_CLASS_NUM exampleCheckNumeric exampleShuffle
          continuousSplitExample true 0 TrainingSet.init TrainingSet.init 2 1 1
          emptySplit).isSome = false ∧
      (TrainingSet.split exampleMAX_CLASS_NUM exampleCheckNumeric exampleShuffle
          splitExample true 0 TrainingSet.init TrainingSet.init 2 1 1 emptySplit).map
        (fun r => ((r.TrainSet.class_samples 1).map (fun s => s.full_path),
          r.TestSet.test_samples.map (fun s => s.full_path))) =
        some (["a2", "a3"], ["a0", "a1"]) := by
  refine ⟨by decide!, by decide!, by decide!, by decide!, by decide!, by decide!, by decide!,
    by decide!⟩

/-! ### `SaveToFile` and `ReadFromFile` -/

theorem readNames_is_continuous (st : readState) (n : ℕ) :
    (readNames st n).ts.is_continuous = st.ts.is_continuous := by
  induction n with
  | zero => rfl
  | succ n ih => exact ih

theorem readLabels_is_continuous (MAX_CLASS_NUM : ℕ) (check_numeric : String → ℕ)
    (st : readState) (n : ℕ) :
    (match readLabels MAX_CLASS_NUM check_numeric st n with
      | readOutcome.running s => s.ts.is_continuous
      | readOutcome.finished _ set => set.is_continuous) = st.ts.is_continuous := by
  induction n with
  | zero => rfl
  | succ n ih =>
    rw [readLabels]
    cases h : readLabels MAX_CLASS_NUM check_numeric st n with
    | finished res set => rw [h] at ih; exact ih
    | running s =>
      rw [h] at ih
      have hf := (TrainingSet.AddClass_flags MAX_CLASS_NUM check_numeric s.ts s.buffer).1
      dsimp only at ih ⊢
      cases h1 : (TrainingSet.AddClass MAX_CLASS_NUM check_numeric s.ts s.buffer).1 with
      | error e => exact hf.trans ih
      | value v => exact hf.trans ih

theorem readSamples_is_continuous (atoi : String → ℕ) (atof : String → ℚ)
    (st : readState) (n : ℕ) :
    (match readSamples atoi atof st n with
      | none => st.ts.is_continuous
      | some (readOutcome.running s) => s.ts.is_continuous
      | some (readOutcome.finished _ set) => set.is_continuous) = st.ts.is_continuous := by
  induction n with
  | zero => rfl
  | succ n ih =>
    rw [readSamples]
    cases h : readSamples atoi atof st n with
    | none => rfl
    | some o =>
      cases o with
      | finished res set => rw [h] at ih; exact ih
      | running s =>
        rw [h] at ih
        dsimp only at ih ⊢
        cases h2 : readSample atoi atof s.ts s.buffer with
        | none => rfl
        | some one_sample =>
          dsimp only
          have hf := (TrainingSet.AddSample_flags s.ts
            { one_sample with full_path := (fgets (strtokBuffer s.buffer) s.file).1 }).1
          cases h1 : (TrainingSet.AddSample s.ts
            { one_sample with full_path := (fgets (strtokBuffer s.buffer) s.file).1 }).1 with
          | error e => exact hf.trans ih
          | value v => exact hf.trans ih

theorem ReadFromFile_is_continuous (MAX_CLASS_NUM : ℕ) (check_numeric : String → ℕ)
    (atoi : String → ℕ) (atof : String → ℚ) (ts : TrainingSet) (file : List String) :
    ((TrainingSet.ReadFromFile MAX_CLASS_NUM check_numeric atoi atof ts file).map
      fun r => r.2.is_continuous).getD ts.is_continuous = ts.is_continuous := by
  unfold TrainingSet.ReadFromFile
  dsimp only
  cases hs : skipBlank _ with
  | none => rfl
  | some p =>
    obtain ⟨buffer, rest⟩ := p
    dsimp only
    have hn := readNames_is_continuous
      ⟨(fgets (fgets (fgets "" file).1 (fgets "" file).2).1
          (fgets (fgets "" file).1 (fgets "" file).2).2).2,
        (fgets (fgets (fgets "" file).1 (fgets "" file).2).1
          (fgets (fgets "" file).1 (fgets "" file).2).2).1,
        { ts with
          signature_count := atoi (fgets (fgets "" file).1 (fgets "" file).2).1
          samples := []
          samples_tail := ts.samples ++ ts.samples_tail }⟩
      (atoi (fgets (fgets "" file).1 (fgets "" file).2).1)
    have hl := readLabels_is_continuous MAX_CLASS_NUM check_numeric
      ⟨rest, buffer, (readNames
      ⟨(fgets (fgets (fgets "" file).1 (fgets "" file).2).1
          (fgets (fgets "" file).1 (fgets "" file).2).2).2,
        (fgets (fgets (fgets "" file).1 (fgets "" file).2).1
          (fgets (fgets "" file).1 (fgets "" file).2).2).1,
        { ts with
          signature_count := atoi (fgets (fgets "" file).1 (fgets "" file).2).1
          samples := []
          samples_tail := ts.samples ++ ts.samples_tail }⟩
      (atoi (fgets (fgets "" file).1 (fgets "" file).2).1)).ts⟩ (atoi (fgets "" file).1)
    cases h1 : readLabels MAX_CLASS_NUM check_numeric _ (atoi (fgets "" file).1) with
    | finished res set =>
      rw [h1] at hl
      exact hl.trans hn
    | running labelled =>
      rw [h1] at hl
      dsimp only at hl ⊢
      have hr := readSamples_is_continuous atoi atof labelled
        (atoi (fgets (fgets (fgets "" file).1 (fgets "" file).2).1
          (fgets (fgets "" file).1 (fgets "" file).2).2).1)
      cases h2 : readSamples atoi atof labelled _ with
      | none => rfl
      | some o =>
        rw [h2] at hr
        cases o with
        | finished res set => exact hr.trans (hl.trans hn)
        | running s => exact hr.trans (hl.trans hn)

/-- C27 (code bug): `ReadFromFile` never changes `is_continuous`, whatever the
file and the library functions are, so that the text `SaveToFile` writes for a
continuous training set is read into a new training set as a discrete one.  On
the continuous set `continuousFitExample`, one sample in the continuous class,
the saved value is parsed as a class index.  With the value 1/2,
`ReadFromFile` returns 1 and the set read is discrete, its sample in class 0
with the value `atof` gives for the label of class 0; with the value 5/2 the
index is 2 and `class_labels[2]` is read outside the vector of two labels. -/
theorem TrainingSet.ReadFromFile_continuous_not_restored :
    (∀ (MAX_CLASS_NUM : ℕ) (check_numeric : String → ℕ) (atoi : String → ℕ) (atof : String → ℚ)
        (ts : TrainingSet) (file : List String),
      ((TrainingSet.ReadFromFile MAX_CLASS_NUM check_numeric atoi atof ts file).map
        fun r => r.2.is_continuous).getD ts.is_continuous = ts.is_continuous)
    ∧ (TrainingSet.MakeContinuous
        (TrainingSet.AddClass exampleMAX_CLASS_NUM exampleCheckNumeric
          { TrainingSet.init with SignatureNames := fun _ => "f" } "v").2 "v").isSome = true
    ∧ (continuousFitExample (1 / 2)).is_continuous = true
    ∧ (continuousFitExample (1 / 2)).class_num = 1
    ∧ (continuousFitExample (1 / 2)).samples.map
        (fun s => (s.data 0, s.sample_class, s.sample_value, s.full_path))
      = [((7 : ℚ), 1, (1 / 2 : ℚ), "p")]
    ∧ TrainingSet.SaveToFile exampleFmtLd exampleFmtF exampleFmtF (continuousFitExample (1 / 2))
        = ["1", "1", "1", "f", "", "v", "7 0.500000", "p"]
    ∧ (∀ blank : Bool, (newSetExample blank).is_continuous = false
        ∧ (TrainingSet.ReadFromFile exampleMAX_CLASS_NUM exampleCheckNumeric exampleAtoi
          exampleAtof (newSetExample blank)
          (TrainingSet.SaveToFile exampleFmtLd exampleFmtF exampleFmtF
            (continuousFitExample (1 / 2)))).map
            (fun r => (r.1, r.2.is_continuous, r.2.class_num))
          = some (returned.value 1, false, 1)
        ∧ (TrainingSet.ReadFromFile exampleMAX_CLASS_NUM exampleCheckNumeric exampleAtoi
          exampleAtof (newSetExample blank)
          (TrainingSet.SaveToFile exampleFmtLd exampleFmtF exampleFmtF
            (continuousFitExample (1 / 2)))).map
            (fun r => r.2.samples.map
              (fun s => (s.data 0, s.sample_class, s.sample_value, s.full_path)))
          = some [((7 : ℚ), 0, (0 : ℚ), "p")])
    ∧ TrainingSet.SaveToFile exampleFmtLd exampleFmtF exampleFmtF (continuousFitExample (5 / 2))
        = ["1", "1", "1", "f", "", "v", "7 2.500000", "p"]
    ∧ (∀ blank : Bool,
        (TrainingSet.ReadFromFile exampleMAX_CLASS_NUM exampleCheckNumeric exampleAtoi
          exampleAtof (newSetExample blank)
          (TrainingSet.SaveToFile exampleFmtLd exampleFmtF exampleFmtF
            (continuousFitExample (5 / 2)))).isSome = false) := by
  refine ⟨ReadFromFile_is_continuous, by decide!, by decide!, by decide!, by decide!, by decide!,
    by decide!, by decide!, by decide!⟩

/-- The discrete set `discreteFitExample` with an empty label of class 0 is
read back from its file: the counts, the feature name, the labels and the
samples are those of the set saved.  With the label `UNKNOWN` of class 0 the
reader takes that label for the first class, the line of the label `b` for the
line of the first sample, and calls `atoi` on `NULL`. -/
theorem TrainingSet.ReadFromFile_discreteFitExample :
    TrainingSet.SaveToFile exampleFmtLd exampleFmtF exampleFmtF (discreteFitExample true)
      = ["2", "1", "2", "f", "", "a", "b", "7 2", "p", "3 1", "q"]
    ∧ (TrainingSet.ReadFromFile exampleMAX_CLASS_NUM exampleCheckNumeric exampleAtoi exampleAtof
      (newSetExample true)
      (TrainingSet.SaveToFile exampleFmtLd exampleFmtF exampleFmtF (discreteFitExample true))).map
        (fun r => (r.1, r.2.is_continuous, r.2.class_num, r.2.signature_count))
      = some (returned.value 1, false, 2, 1)
    ∧ (TrainingSet.ReadFromFile exampleMAX_CLASS_NUM exampleCheckNumeric exampleAtoi exampleAtof
      (newSetExample true)
      (TrainingSet.SaveToFile exampleFmtLd exampleFmtF exampleFmtF (discreteFitExample true))).map
        (fun r => (r.2.SignatureNames 0, (List.range 3).map r.2.class_labels))
      = some ("f", ["", "a", "b"])
    ∧ (TrainingSet.ReadFromFile exampleMAX_CLASS_NUM exampleCheckNumeric exampleAtoi exampleAtof
      (newSetExample true)
      (TrainingSet.SaveToFile exampleFmtLd exampleFmtF exampleFmtF (discreteFitExample true))).map
        (fun r => r.2.samples.map (fun s => (s.data 0, s.sample_class, s.full_path, s.count)))
      = some [((7 : ℚ), 2, "p", 1), (3, 1, "q", 1)]
    ∧ (discreteFitExample true).samples.map
        (fun s => (s.data 0, s.sample_class, s.full_path, s.count))
      = [((7 : ℚ), 2, "p", 1), (3, 1, "q", 1)]
    ∧ TrainingSet.SaveToFile exampleFmtLd exampleFmtF exampleFmtF (discreteFitExample false)
      = ["2", "1", "2", "f", "UNKNOWN", "a", "b", "7 2", "p", "3 1", "q"]
    ∧ (TrainingSet.ReadFromFile exampleMAX_CLASS_NUM exampleCheckNumeric exampleAtoi exampleAtof
      (newSetExample false)
      (TrainingSet.SaveToFile exampleFmtLd exampleFmtF exampleFmtF (discreteFitExample false))).isSome
      = false := by
  refine ⟨by decide!, by decide!, by decide!, by decide!, by decide!, by decide!, by decide!⟩
